import Mathlib

/-!
# FLAME-II task graph: generation of the task list

A shallow embedding of `src/model/generate_task_list.cpp` (and of the `Task`
constructor of `src/model/task.cpp`).

Pointers are embedded as positions.  Every `Task` object is created by a
`push_back` on the vector `tasks_`, so a `Task*` is the position at which the
object was pushed, and the collection of `Task` objects is a `List Task` read
and written at these positions.  An `XVariable*` held in a function's read-write
list is the position of the variable in the variable list of its agent.
Levels are `size_t` in the source; they are bounded by the number of passes of
the levelling loop and are embedded as `Nat`.

`generate_task_list.cpp` creates every task with `new Task` and the setters of the
names and of the type; the default constructor is not among the sources, and the
object it leaves is the parameter `ctor` of the embedded functions.  The call of
`std::sort` in `calculate_task_list` is library code: it is the parameter `sort`,
of which `StdSort.Conforming` states what the C++ standard promises; `std.sort`
embeds the implementation of the GNU C++ library.

The file also embeds the splitting FIFO task queue of
`src/exe/splitting_fifo_task_queue.cpp` (namespace `flame.exe`), the class `Model`
of `flame2/model/model.cpp` (namespace `flame.model`), the reading and writing of
populations of `flame2/io/io_xml_pop.cpp` (namespace `flame.io.xml`), the class
`XModel` of `flame2/model/xmodel.cpp` (namespace `flame2.model`) and the
conditions of `src/io/xcondition.cpp` (namespace `flame.io`). The definitions of
all namespaces come first, the theorems after them.
-/

set_option linter.dupNamespace false
set_option maxRecDepth 100000

namespace flame2.model

/-! # Definitions: the model of `flame2/model/xmodel.cpp`

A shallow embedding of the members of `XModel` the methods below read and write.
A pointer to an object held in a vector is embedded as the position of the
object. -/

/-! ## The objects of a model -/

/-- An `XADT`: the name `getName()` returns. -/
structure XADT where
  name : String
  deriving DecidableEq, Repr

/-- An `XVariable`: the strings `getType()` and `getName()` return. -/
structure XVariable where
  type : String
  name : String
  deriving DecidableEq, Repr

/-- An `XFunction`: its name, its two states, the messages it reads and posts and
the variables it reads and writes. -/
structure XFunction where
  name : String
  currentState : String
  nextState : String
  inputs : List String
  outputs : List String
  readWriteVariables : List String
  readOnlyVariables : List String
  deriving DecidableEq, Repr

/-- An `XMachine` (an agent): its name, the id `setID` stores, its variables and
its functions. -/
structure XMachine where
  name : String
  id : Nat
  variables_ : List XVariable
  functions_ : List XFunction
  deriving DecidableEq, Repr

/-- An `XMessage`: its name, the id `setID` stores and its variables. -/
structure XMessage where
  name : String
  id : Nat
  variables_ : List XVariable
  deriving DecidableEq, Repr

/-- The members of `XModel` the methods below read and write. -/
structure XModel where
  includedModels_ : List String
  adts_ : List XADT
  agents_ : List XMachine
  messages_ : List XMessage
  allowedDataTypes_ : List String
  deriving DecidableEq, Repr

/-- The exception `flame::exceptions::flame_model_exception`, with its message. -/
structure flame_model_exception where
  what : String
  deriving DecidableEq, Repr

/-! ## `XModel` -/

/-- The constructor `XModel::XModel()`: the vectors are empty but for the allowed
data types. -/
def XModel.XModel : XModel :=
  { includedModels_ := [], adts_ := [], agents_ := [], messages_ := [],
    allowedDataTypes_ := ["int", "float", "double", "char"] }

/-- The method `XModel::addIncludedModel`: the model after the call and the value
returned. The index `ii` of the loop is an `unsigned int`; the vector is taken to
hold fewer than `2^32` paths. -/
def addIncludedModel (m : XModel) (path : String) : XModel × Bool :=
  if m.includedModels_.any (fun p => decide (p = path)) then (m, false)
  else ({ m with includedModels_ := m.includedModels_ ++ [path] }, true)

/-- The method `XModel::getADT`: the pointer to the first ADT with the name, or the
exception raised when there is none. -/
def getADT (m : XModel) (name : String) : Except flame_model_exception Nat :=
  match m.adts_.findIdx? (fun a => decide (name = a.name)) with
  | some it => Except.ok it
  | none => Except.error ⟨"ADT does not exist"⟩

/-- The method `XModel::getAgent`: the pointer to the first agent with the name,
`none` standing for the null pointer. -/
def getAgent (m : XModel) (name : String) : Option Nat :=
  m.agents_.findIdx? (fun a => decide (name = a.name))

/-- Modelled from the spec: the constructor `XMachine::XMachine()`, defined in
`xmachine.cpp`, which is not among the sources; in the spec an agent has a name,
an ordered list of functions and a set of variables, and a new agent has no
function and no variable yet. -/
def XMachine.XMachine : XMachine :=
  { name := "", id := 0, variables_ := [], functions_ := [] }

/-- The method `XModel::addAgent`: the model after the call and the pointer
returned. -/
def addAgent (m : XModel) (name : String) : XModel × Nat :=
  match getAgent m name with
  | some xmachine => (m, xmachine)
  | none =>
    let xmachine : XMachine := { XMachine.XMachine with name := name }
    let xmachine : XMachine := { xmachine with id := m.agents_.length }
    ({ m with agents_ := m.agents_ ++ [xmachine] }, m.agents_.length)

/-- The method `XModel::getMessage`: the pointer to the first message with the name,
`none` standing for the null pointer. -/
def getMessage (m : XModel) (name : String) : Option Nat :=
  m.messages_.findIdx? (fun x => decide (name = x.name))

/-- Modelled from the spec: the constructor `XMessage::XMessage()`, defined in
`xmessage.cpp`, which is not among the sources; in the spec a message has a name
and a variable schema, and a new message has no variable yet. -/
def XMessage.XMessage : XMessage :=
  { name := "", id := 0, variables_ := [] }

/-- The method `XModel::addMessage(name)`, which calls `XModel::addMessage()` (a new
message with the id `messages_.size()`, pushed onto `messages_`) and sets the
name: the model after the call and the pointer returned. -/
def addMessage (m : XModel) (name : String) : XModel × Nat :=
  let xmessage : XMessage := { XMessage.XMessage with id := m.messages_.length }
  let xmessage : XMessage := { xmessage with name := name }
  ({ m with messages_ := m.messages_ ++ [xmessage] }, m.messages_.length)

/-- Successive calls of `addIncludedModel`. -/
def addIncludedModels (m : XModel) (paths : List String) : XModel :=
  paths.foldl (fun m path => (addIncludedModel m path).1) m

/-- Successive calls of `addAgent`. -/
def addAgents (m : XModel) (names : List String) : XModel :=
  names.foldl (fun m name => (addAgent m name).1) m

/-! ## Abstract data types -/

/-- A model with the ADTs `point` and `colour`. -/
def adtModel : XModel :=
  { XModel.XModel with adts_ := [⟨"point"⟩, ⟨"colour"⟩, ⟨"point"⟩] }

/-! ## Agents -/

/-- What calls of `addAgent` keep true of a model: the names of the agents are
pairwise distinct, the agent at position `i` has the id `i`, and the names of the
agents are the names added. -/
def Dense (m : XModel) (names : List String) : Prop :=
  (m.agents_.map XMachine.name).Nodup ∧
  (∀ (i : Nat) (a : XMachine), m.agents_[i]? = some a → a.id = i) ∧
  ∀ n : String, n ∈ m.agents_.map XMachine.name ↔ n ∈ names

/-! ## What `Model` asks of the model -/

/-- Modelled from the spec: `XMachine::addVariable(type, name)`, defined in
`xmachine.cpp`, which is not among the sources; in the spec an agent has typed
memory, and the call adds a variable with the type and the name to the agent. -/
def XMachine.addVariable (agent : flame2.model.XMachine) (type name : String) :
    flame2.model.XMachine :=
  { agent with variables_ := agent.variables_ ++ [⟨type, name⟩] }

/-- Modelled from the spec: `XMachine::addFunction(name, current_state, next_state)`
followed by `addInput`, `addOutput`, `addReadWriteVariable` and
`addReadOnlyVariable` on the function it returns, all defined in files that are
not among the sources; in the spec an agent has an ordered list of functions,
each with its states, the messages it reads and posts, and its read-only and
read-write variables. -/
def XMachine.addFunction (agent : flame2.model.XMachine) (func : XFunction) :
    flame2.model.XMachine :=
  { agent with functions_ := agent.functions_ ++ [func] }

/-- Modelled from the spec: `XMessage::addVariable(type, name)`, not among the
sources; in the spec a message has a variable schema, to which the call adds a
variable. -/
def XMessage.addVariable (message : flame2.model.XMessage) (type name : String) :
    flame2.model.XMessage :=
  { message with variables_ := message.variables_ ++ [⟨type, name⟩] }

/-- The method `XModel::validate`: the code it returns. The class `XModelValidate`
is not among the sources; `XModelValidate` stands for the code its method
`validate` returns on the model. The graph `generateGraph` builds when the code
is 0 is not part of the embedded members. -/
def validate (XModelValidate : XModel → Int) (m : XModel) : Int :=
  let rc := XModelValidate m
  if rc ≠ 0 then rc else 0

end flame2.model

namespace flame.model

/-! # Definitions -/

/-! ## Data model -/

/-- The enumeration `Task::TaskType`. -/
inductive TaskType
  | xfunction
  | xcondition
  | io_pop_write
  | start_model
  | finish_model
  | xmessage
  | sync_start
  | sync_finish
  deriving DecidableEq, Repr, Inhabited

/-- The enumeration `Dependency::DependencyType`. -/
inductive DependencyType
  | communication
  | data
  | state
  deriving DecidableEq, Repr, Inhabited

/-- A `Dependency`: the label, the kind and the task depended upon (the parent). -/
structure Dependency where
  name : String
  dependencyType : DependencyType
  task : Nat
  deriving DecidableEq, Repr, Inhabited

/-- A `Task` object. `parents` is the vector returned by `getParents()`. -/
structure Task where
  parentName : String
  name : String
  taskType : TaskType
  level : Nat
  priorityLevel : Nat
  parents : List Dependency
  deriving DecidableEq, Repr, Inhabited

/-- An `XIOput`: the name of the message a function reads or posts. -/
structure XIOput where
  messageName : String
  deriving DecidableEq, Repr

/-- An `XVariable` of an agent. -/
structure XVariable where
  name : String
  deriving DecidableEq, Repr

/-- An `XFunction`. `task` is the pointer stored by `setTask`; `readWriteVariables`
holds `XVariable*`, embedded as positions in the variable list of the agent. -/
structure XFunction where
  name : String
  currentState : String
  nextState : String
  inputs : List XIOput
  outputs : List XIOput
  readWriteVariables : List Nat
  task : Nat
  deriving DecidableEq, Repr

/-- An `XMachine` (an agent); `variables_` is the vector `getVariables()` returns. -/
structure XMachine where
  name : String
  variables_ : List XVariable
  functions : List XFunction
  deriving DecidableEq, Repr

/-- An `XMessage`, with the pointers stored by `setSyncStartTask` and
`setSyncFinishTask`. -/
structure XMessage where
  name : String
  syncStartTask : Nat
  syncFinishTask : Nat
  deriving DecidableEq, Repr

/-- An `XModel`: the agents and the messages. -/
structure XModel where
  agents : List XMachine
  messages : List XMessage
  deriving DecidableEq, Repr

/-- The ways in which a run of the embedded code fails to return. -/
inductive Fault
  | nullDereference
  | outOfFuel
  deriving DecidableEq, Repr

/-! ## `Task` -/

/-- The constructor `Task::Task(parentName, name, type)` of `task.cpp`. -/
def Task.Task (parentName name : String) (type : TaskType) : Task :=
  let priorityLevel := 10
  let priorityLevel := if type = TaskType.sync_start then 10 else priorityLevel
  let priorityLevel := if type = TaskType.sync_finish then 1 else priorityLevel
  let priorityLevel := if type = TaskType.xfunction then 5 else priorityLevel
  let priorityLevel := if type = TaskType.io_pop_write then 0 else priorityLevel
  { parentName := parentName, name := name, taskType := type, level := 0,
    priorityLevel := priorityLevel, parents := [] }

/-- The expression `new Task`, with which `generate_task_list.cpp` creates every
task. The default constructor `Task::Task()` is not among the sources: `ctor`
holds the type, the level and the priority it leaves in the object; the two
names are empty strings and the object has no dependency, as the constructors of
these members leave them. -/
def Task.new (ctor : flame.model.Task) : flame.model.Task :=
  { ctor with parentName := "", name := "", parents := [] }

/-- The call `task->setParentName(parentName)` on a task object. -/
def Task.setParentName (task : flame.model.Task) (parentName : String) :
    flame.model.Task :=
  { task with parentName := parentName }

/-- The call `task->setName(name)` on a task object. -/
def Task.setName (task : flame.model.Task) (name : String) : flame.model.Task :=
  { task with name := name }

/-- The call `task->setTaskType(type)` on a task object: it stores the type and
leaves the priority as it is. -/
def Task.setTaskType (task : flame.model.Task) (type : TaskType) :
    flame.model.Task :=
  { task with taskType := type }

/-- The call `task->getLevel()` on the task object at position `task`; the value 0
at a position that holds no object only makes the function total, every pointer
of the source pointing to an object. -/
def getLevel (tasks : List Task) (task : Nat) : Nat :=
  match tasks[task]? with
  | some t => t.level
  | none => 0

/-- Modelled from the spec: `Task::addDependency` is declared in `task.hpp`, which
is not among the sources. The spec keeps the dependencies of a task as an ordered
list of edges to parent tasks; the call appends `d` to the list of the task at
position `child`. -/
def addDependency (tasks : List Task) (child : Nat) (d : Dependency) : List Task :=
  tasks.modify (fun t => { t with parents := t.parents ++ [d] }) child

/-- Modelled from the spec: `Task::addParent(name, type, task)` is declared in
`task.hpp`, which is not among the sources. The commented-out call in
`catalog_state_dependencies` shows it standing for the construction of a
`Dependency` with `setName`, `setDependencyType`, `setTask` followed by
`addDependency`. -/
def addParent (tasks : List Task) (child : Nat) (name : String)
    (type : DependencyType) (task : Nat) : List Task :=
  addDependency tasks child { name := name, dependencyType := type, task := task }

/-- The call `task->setLevel(level)` on the task object at position `task`; the other
objects are left as they are. -/
def setLevel (tasks : List Task) (task : Nat) (level : Nat) : List Task :=
  tasks.modify (fun t => { t with level := level }) task

/-! ## `catalog_state_dependencies` -/

/-- The inner loop of lines 65-75: one `xfunction` task per function of the agent,
pushed on `tasks` and stored in the function by `setTask`. -/
def addFunctionTasks (ctor : Task) (agentName : String) :
    List XFunction → List Task → List XFunction × List Task
  | [], tasks => ([], tasks)
  | function :: rest, tasks =>
    let task := Task.new ctor
    let task := task.setParentName agentName
    let task := task.setName function.name
    let task := task.setTaskType TaskType.xfunction
    let r := addFunctionTasks ctor agentName rest (tasks ++ [task])
    ({ function with task := tasks.length } :: r.1, r.2)

/-- The loop of lines 62-76 over the agents. -/
def addAgentTasks (ctor : Task) : List XMachine → List Task → List XMachine × List Task
  | [], tasks => ([], tasks)
  | agent :: rest, tasks =>
    let r := addFunctionTasks ctor agent.name agent.functions tasks
    let r2 := addAgentTasks ctor rest r.2
    ({ agent with functions := r.1 } :: r2.1, r2.2)

/-- The loop of lines 87-101 over `function2`, for one `function`. -/
def addStateDependencies (function : XFunction) (functions : List XFunction)
    (tasks : List Task) : List Task :=
  functions.foldl (fun ts function2 =>
    if function.currentState = function2.nextState then
      addDependency ts function.task
        { name := function.currentState, dependencyType := DependencyType.state,
          task := function2.task }
    else ts) tasks

/-- The loop of lines 82-102 over the functions of one agent. -/
def addAgentStateDependencies (agent : XMachine) (tasks : List Task) : List Task :=
  agent.functions.foldl (fun ts function =>
    addStateDependencies function agent.functions ts) tasks

/-- The function `catalog_state_dependencies`. -/
def catalog_state_dependencies (ctor : Task) (model : XModel) (tasks : List Task) :
    XModel × List Task :=
  let r := addAgentTasks ctor model.agents tasks
  let model1 : XModel := { model with agents := r.1 }
  (model1, model1.agents.foldl (fun ts agent => addAgentStateDependencies agent ts) r.2)

/-! ## `catalog_communication_dependencies` -/

/-- The loop of lines 121-142: a `sync_start` and a `sync_finish` task per message,
the second depending on the first. -/
def addSyncTasks (ctor : Task) : List XMessage → List Task → List XMessage × List Task
  | [], tasks => ([], tasks)
  | message :: rest, tasks =>
    let syncStartTask := Task.new ctor
    let syncStartTask := syncStartTask.setParentName message.name
    let syncStartTask := syncStartTask.setName "sync_start"
    let syncStartTask := syncStartTask.setTaskType TaskType.sync_start
    let tasks1 := tasks ++ [syncStartTask]
    let syncFinishTask := Task.new ctor
    let syncFinishTask := syncFinishTask.setParentName message.name
    let syncFinishTask := syncFinishTask.setName "sync_finish"
    let syncFinishTask := syncFinishTask.setTaskType TaskType.sync_finish
    let tasks2 := tasks1 ++ [syncFinishTask]
    let tasks3 := addParent tasks2 (tasks.length + 1) message.name
      DependencyType.communication tasks.length
    let r := addSyncTasks ctor rest tasks3
    ({ message with syncStartTask := tasks.length, syncFinishTask := tasks.length + 1 }
      :: r.1, r.2)

/-- The loop of lines 152-163 over the outputs of one function. -/
def addOutputDependencies (messages : List XMessage) (function : XFunction)
    (tasks : List Task) : List Task :=
  function.outputs.foldl (fun ts ioput =>
    messages.foldl (fun ts message =>
      if message.name = ioput.messageName then
        addParent ts message.syncStartTask ioput.messageName
          DependencyType.communication function.task
      else ts) ts) tasks

/-- The loop of lines 166-177 over the inputs of one function. -/
def addInputDependencies (messages : List XMessage) (function : XFunction)
    (tasks : List Task) : List Task :=
  function.inputs.foldl (fun ts ioput =>
    messages.foldl (fun ts message =>
      if message.name = ioput.messageName then
        addParent ts function.task ioput.messageName
          DependencyType.communication message.syncFinishTask
      else ts) ts) tasks

/-- The body of the loop of lines 149-178 for one function. -/
def addFunctionCommunication (messages : List XMessage) (tasks : List Task)
    (function : XFunction) : List Task :=
  addInputDependencies messages function (addOutputDependencies messages function tasks)

/-- The function `catalog_communication_dependencies`. -/
def catalog_communication_dependencies (ctor : Task) (model : XModel)
    (tasks : List Task) : XModel × List Task :=
  let r := addSyncTasks ctor model.messages tasks
  let model1 : XModel := { model with messages := r.1 }
  (model1, model1.agents.foldl (fun ts agent =>
    agent.functions.foldl (addFunctionCommunication model1.messages) ts) r.2)

/-! ## `check_dependency_loops` and `calculate_dependencies` -/

/-- The function `check_dependency_loops`: it inspects nothing and returns 0. -/
def check_dependency_loops (_model : XModel) : Nat := 0

/-- The loop of lines 297-306 over the parents of one task. -/
def unleveled_dependency (tasks : List Task) (currentLevel : Nat)
    (parents : List Dependency) : Bool :=
  parents.foldl (fun unleveled dependency =>
    if getLevel tasks dependency.task = 0 ∨ getLevel tasks dependency.task = currentLevel
    then true else unleveled) false

/-- The body of the loop of lines 289-316 for the task at position `task`; the
state is the task objects and the flag `finished`. -/
def levelTask (currentLevel : Nat) (st : List Task × Bool) (task : Nat) :
    List Task × Bool :=
  match st.1[task]? with
  | none => st
  | some t =>
    if t.level = 0 then
      if unleveled_dependency st.1 currentLevel t.parents = false then
        (setLevel st.1 task currentLevel, st.2)
      else (st.1, false)
    else st

/-- One pass of the `while` loop: lines 287-316. -/
def levelPass (currentLevel : Nat) (tasks : List Task) : List Task × Bool :=
  (List.range tasks.length).foldl (levelTask currentLevel) (tasks, true)

/-- The `while (!finished)` loop of lines 286-319, run for at most `fuel` passes. -/
def levelLoop : Nat → Nat → List Task → Except Fault (List Task)
  | 0, _, _ => Except.error Fault.outOfFuel
  | fuel + 1, currentLevel, tasks =>
    let r := levelPass currentLevel tasks
    if r.2 then Except.ok r.1 else levelLoop fuel (currentLevel + 1) r.1

/-- The function `calculate_dependencies`. -/
def calculate_dependencies (fuel : Nat) (tasks : List Task) : Except Fault (List Task) :=
  levelLoop fuel 1 (tasks.map (fun t => { t with level := 0 }))

/-! ## `catalog_data_dependencies` -/

/-- The loop of lines 215-226: `none` is the null pointer `lastFunction` starts
from, `var` the position of the variable looked for. -/
def findLastFunction (var : Nat) (functions : List XFunction) : Option XFunction :=
  functions.foldl (fun lastFunction function =>
    if var ∈ function.readWriteVariables ∨ lastFunction = none then some function
    else lastFunction) none

/-- The loop of lines 205-232 over the variables of one agent, `position` being
the position of the first variable of the list. -/
def addDataTasks (ctor : Task) (agent : XMachine) :
    Nat → List XVariable → List Task → Except Fault (List Task)
  | _, [], tasks => Except.ok tasks
  | position, var :: rest, tasks =>
    let dataTask := Task.new ctor
    let dataTask := dataTask.setParentName agent.name
    let dataTask := dataTask.setName var.name
    let dataTask := dataTask.setTaskType TaskType.io_pop_write
    let tasks1 := tasks ++ [dataTask]
    match findLastFunction position agent.functions with
    | none => Except.error Fault.nullDereference
    | some lastFunction =>
      let tasks2 := addParent tasks1 tasks.length var.name
        DependencyType.data lastFunction.task
      let tasks3 := setLevel tasks2 tasks.length (getLevel tasks2 lastFunction.task + 1)
      addDataTasks ctor agent (position + 1) rest tasks3

/-- The loop of lines 203-233 over the agents. -/
def addAgentDataTasks (ctor : Task) :
    List XMachine → List Task → Except Fault (List Task)
  | [], tasks => Except.ok tasks
  | agent :: rest, tasks =>
    match addDataTasks ctor agent 0 agent.variables_ tasks with
    | Except.error e => Except.error e
    | Except.ok tasks1 => addAgentDataTasks ctor rest tasks1

/-- The function `catalog_data_dependencies`. -/
def catalog_data_dependencies (ctor : Task) (model : XModel) (tasks : List Task) :
    Except Fault (List Task) :=
  addAgentDataTasks ctor model.agents tasks

/-! ## `std::sort` in the GNU C++ library

The functions of `bits/stl_algo.h` and `bits/stl_heap.h` behind `std::sort`, on a
vector given as a list; an iterator is the position it points to. The value a
read outside the vector yields only makes the functions total. -/

/-- The call `std::iter_swap(a, b)` on two positions of a vector. -/
def std.iter_swap {α : Type} [Inhabited α] (v : List α) (a b : Nat) : List α :=
  (v.set a (v.getD b default)).set b (v.getD a default)

/-- The loop of `std::__unguarded_linear_insert`: `val` moves down from position
`last` while it compares less than the entry before it. -/
def std.unguarded_linear_insert.loop {α : Type} [Inhabited α] (comp : α → α → Bool)
    (val : α) : List α → Nat → List α
  | v, 0 => v.set 0 val
  | v, next + 1 =>
    if comp val (v.getD next default) then
      std.unguarded_linear_insert.loop comp val (v.set (next + 1) (v.getD next default)) next
    else v.set (next + 1) val

/-- The function `std::__unguarded_linear_insert(last, comp)`. -/
def std.unguarded_linear_insert {α : Type} [Inhabited α] (comp : α → α → Bool)
    (v : List α) (last : Nat) : List α :=
  std.unguarded_linear_insert.loop comp (v.getD last default) v last

/-- The function `std::__insertion_sort(first, last, comp)`. -/
def std.insertion_sort {α : Type} [Inhabited α] (comp : α → α → Bool)
    (v : List α) (first last : Nat) : List α :=
  if first = last then v
  else
    (List.range' (first + 1) (last - (first + 1))).foldl (fun v i =>
      if comp (v.getD i default) (v.getD first default) then
        v.take first ++ [v.getD i default] ++ (v.drop first).take (i - first) ++ v.drop (i + 1)
      else std.unguarded_linear_insert comp v i) v

/-- The function `std::__unguarded_insertion_sort(first, last, comp)`. -/
def std.unguarded_insertion_sort {α : Type} [Inhabited α] (comp : α → α → Bool)
    (v : List α) (first last : Nat) : List α :=
  (List.range' first (last - first)).foldl (fun v i => std.unguarded_linear_insert comp v i) v

/-- The constant `_S_threshold`. -/
def std.S_threshold : Nat := 16

/-- The function `std::__final_insertion_sort(first, last, comp)`. -/
def std.final_insertion_sort {α : Type} [Inhabited α] (comp : α → α → Bool)
    (v : List α) (first last : Nat) : List α :=
  if last - first > std.S_threshold then
    std.unguarded_insertion_sort comp
      (std.insertion_sort comp v first (first + std.S_threshold))
      (first + std.S_threshold) last
  else std.insertion_sort comp v first last

/-- The function `std::__move_median_to_first(result, a, b, c, comp)`. -/
def std.move_median_to_first {α : Type} [Inhabited α] (comp : α → α → Bool)
    (v : List α) (result a b c : Nat) : List α :=
  if comp (v.getD a default) (v.getD b default) then
    if comp (v.getD b default) (v.getD c default) then std.iter_swap v result b
    else if comp (v.getD a default) (v.getD c default) then std.iter_swap v result c
    else std.iter_swap v result a
  else if comp (v.getD a default) (v.getD c default) then std.iter_swap v result a
  else if comp (v.getD b default) (v.getD c default) then std.iter_swap v result c
  else std.iter_swap v result b

/-- The loop `while (comp(first, pivot)) ++first`, bounded by the entries left. -/
def std.unguarded_partition.up {α : Type} [Inhabited α] (comp : α → α → Bool)
    (v : List α) (pivot : Nat) : Nat → Nat → Nat
  | 0, first => first
  | fuel + 1, first =>
    if comp (v.getD first default) (v.getD pivot default) then
      std.unguarded_partition.up comp v pivot fuel (first + 1)
    else first

/-- The loop `while (comp(pivot, last)) --last`. -/
def std.unguarded_partition.down {α : Type} [Inhabited α] (comp : α → α → Bool)
    (v : List α) (pivot : Nat) : Nat → Nat
  | 0 => 0
  | last + 1 =>
    if comp (v.getD pivot default) (v.getD (last + 1) default) then
      std.unguarded_partition.down comp v pivot last
    else last + 1

/-- The function `std::__unguarded_partition(first, last, pivot, comp)`: the vector
after the call and the position returned. Every turn of the loop moves `first` up,
so `fuel` turns suffice for a vector of `fuel` entries. -/
def std.unguarded_partition {α : Type} [Inhabited α] (comp : α → α → Bool) (pivot : Nat) :
    Nat → List α → Nat → Nat → List α × Nat
  | 0, v, first, _ => (v, first)
  | fuel + 1, v, first, last =>
    let first := std.unguarded_partition.up comp v pivot v.length first
    let last := last - 1
    let last := std.unguarded_partition.down comp v pivot last
    if ¬ (first < last) then (v, first)
    else std.unguarded_partition comp pivot fuel (std.iter_swap v first last) (first + 1) last

/-- The function `std::__unguarded_partition_pivot(first, last, comp)`. -/
def std.unguarded_partition_pivot {α : Type} [Inhabited α] (comp : α → α → Bool)
    (v : List α) (first last : Nat) : List α × Nat :=
  let mid := first + (last - first) / 2
  let v := std.move_median_to_first comp v first (first + 1) mid (last - 1)
  std.unguarded_partition comp first v.length v (first + 1) last

/-- The loop of `std::__push_heap`. -/
def std.push_heap.loop {α : Type} [Inhabited α] (comp : α → α → Bool) (first topIndex : Nat)
    (value : α) : Nat → List α → Nat → List α
  | 0, v, holeIndex => v.set (first + holeIndex) value
  | fuel + 1, v, holeIndex =>
    let parent := (holeIndex - 1) / 2
    if holeIndex > topIndex ∧ comp (v.getD (first + parent) default) value = true then
      std.push_heap.loop comp first topIndex value fuel
        (v.set (first + holeIndex) (v.getD (first + parent) default)) parent
    else v.set (first + holeIndex) value

/-- The function `std::__push_heap(first, holeIndex, topIndex, value, comp)`. -/
def std.push_heap {α : Type} [Inhabited α] (comp : α → α → Bool) (v : List α)
    (first holeIndex topIndex : Nat) (value : α) : List α :=
  std.push_heap.loop comp first topIndex value (holeIndex + 1) v holeIndex

/-- The first loop of `std::__adjust_heap`: the vector, the hole and the second
child after it. -/
def std.adjust_heap.loop {α : Type} [Inhabited α] (comp : α → α → Bool) (first len : Nat) :
    Nat → List α → Nat → Nat → List α × Nat × Nat
  | 0, v, holeIndex, secondChild => (v, holeIndex, secondChild)
  | fuel + 1, v, holeIndex, secondChild =>
    if secondChild < (len - 1) / 2 then
      let secondChild := 2 * (secondChild + 1)
      let secondChild :=
        if comp (v.getD (first + secondChild) default)
            (v.getD (first + (secondChild - 1)) default) then secondChild - 1
        else secondChild
      let v := v.set (first + holeIndex) (v.getD (first + secondChild) default)
      std.adjust_heap.loop comp first len fuel v secondChild secondChild
    else (v, holeIndex, secondChild)

/-- The function `std::__adjust_heap(first, holeIndex, len, value, comp)`. -/
def std.adjust_heap {α : Type} [Inhabited α] (comp : α → α → Bool) (v : List α)
    (first holeIndex len : Nat) (value : α) : List α :=
  let topIndex := holeIndex
  let r := std.adjust_heap.loop comp first len len v holeIndex holeIndex
  let v := r.1
  let holeIndex := r.2.1
  let secondChild := r.2.2
  let r2 : List α × Nat :=
    if len % 2 = 0 ∧ 2 ≤ len ∧ secondChild = (len - 2) / 2 then
      let secondChild := 2 * (secondChild + 1)
      (v.set (first + holeIndex) (v.getD (first + (secondChild - 1)) default),
        secondChild - 1)
    else (v, holeIndex)
  std.push_heap comp r2.1 first r2.2 topIndex value

/-- The function `std::__pop_heap(first, last, result, comp)`. -/
def std.pop_heap {α : Type} [Inhabited α] (comp : α → α → Bool) (v : List α)
    (first last result : Nat) : List α :=
  let value := v.getD result default
  let v := v.set result (v.getD first default)
  std.adjust_heap comp v first 0 (last - first) value

/-- The loop of `std::__make_heap`, from the parent `parent` down to 0. -/
def std.make_heap.loop {α : Type} [Inhabited α] (comp : α → α → Bool) (first len : Nat) :
    List α → Nat → List α
  | v, 0 => std.adjust_heap comp v first 0 len (v.getD first default)
  | v, parent + 1 =>
    std.make_heap.loop comp first len
      (std.adjust_heap comp v first (parent + 1) len (v.getD (first + (parent + 1)) default))
      parent

/-- The function `std::__make_heap(first, last, comp)`. -/
def std.make_heap {α : Type} [Inhabited α] (comp : α → α → Bool) (v : List α)
    (first last : Nat) : List α :=
  if last - first < 2 then v
  else std.make_heap.loop comp first (last - first) v ((last - first - 2) / 2)

/-- The function `std::__heap_select(first, middle, last, comp)`. -/
def std.heap_select {α : Type} [Inhabited α] (comp : α → α → Bool) (v : List α)
    (first middle last : Nat) : List α :=
  (List.range' middle (last - middle)).foldl (fun v i =>
    if comp (v.getD i default) (v.getD first default) then std.pop_heap comp v first middle i
    else v) (std.make_heap comp v first middle)

/-- The function `std::__sort_heap(first, last, comp)`: `last` goes down to
`first + 1`. -/
def std.sort_heap {α : Type} [Inhabited α] (comp : α → α → Bool) (first : Nat) :
    List α → Nat → List α
  | v, 0 => v
  | v, last + 1 =>
    if last + 1 - first > 1 then
      std.sort_heap comp first (std.pop_heap comp v first last last) last
    else v

/-- The function `std::__partial_sort(first, middle, last, comp)`. -/
def std.partial_sort {α : Type} [Inhabited α] (comp : α → α → Bool) (v : List α)
    (first middle last : Nat) : List α :=
  std.sort_heap comp first (std.heap_select comp v first middle last) middle

/-- The function `std::__introsort_loop(first, last, depth_limit, comp)`: every turn
of its loop takes one from `depth_limit`. -/
def std.introsort_loop {α : Type} [Inhabited α] (comp : α → α → Bool) :
    Nat → List α → Nat → Nat → List α
  | 0, v, first, last =>
    if last - first > std.S_threshold then std.partial_sort comp v first last last else v
  | depth_limit + 1, v, first, last =>
    if last - first > std.S_threshold then
      let r := std.unguarded_partition_pivot comp v first last
      let v := std.introsort_loop comp depth_limit r.1 r.2 last
      std.introsort_loop comp depth_limit v first r.2
    else v

/-- The halvings of `n` until 1 is reached, `fuel` bounding their number. -/
def std.lg.loop : Nat → Nat → Nat
  | 0, _ => 0
  | fuel + 1, n => if 2 ≤ n then std.lg.loop fuel (n / 2) + 1 else 0

/-- The function `std::__lg(n)`: the position of the highest bit of `n`. -/
def std.lg (n : Nat) : Nat :=
  std.lg.loop n n

/-- The function `std::sort(first, last, comp)` of the GNU C++ library
(`bits/stl_algo.h`), on the whole vector. -/
def std.sort {α : Type} [Inhabited α] (comp : α → α → Bool) (v : List α) : List α :=
  if v.length = 0 then v
  else
    std.final_insertion_sort comp
      (std.introsort_loop comp (std.lg v.length * 2) v 0 v.length) 0 v.length

/-! ## `calculate_task_list` -/

/-- The comparator `compare_task_levels`, on two task objects. -/
def compare_task_levels (i j : Task) : Bool :=
  decide (i.level < j.level)

/-- An entry of the vector `tasks_`: a pointer to a task object, embedded as the
position of the object together with the object the comparator reads. -/
abbrev Entry : Type := Nat × Task

/-- The library function `std::sort` on a vector of entries, with its comparator. -/
abbrev StdSort : Type := (Entry → Entry → Bool) → List Entry → List Entry

/-- The comparator `compare_task_levels` on two entries of the vector. -/
def compareEntries (i j : Entry) : Bool :=
  compare_task_levels i.2 j.2

/-- What the C++ standard promises of the call of `std::sort` the source makes: the
vector is rearranged, and no entry compares less than an entry before it. The order
of entries of which neither compares less than the other is left to the library. -/
def StdSort.Conforming (sort : StdSort) : Prop :=
  ∀ v : List Entry, (sort compareEntries v).Perm v ∧
    (sort compareEntries v).Pairwise (fun i j => compareEntries j i = false)

/-- A function that conforms: the insertion sort that keeps the entries of which
neither compares less than the other in their order. -/
def stable_sort : StdSort :=
  fun comp v => v.insertionSort (fun i j => comp j i = false)

/-- The function `calculate_task_list`: `std::sort` of the vector `tasks_` with
`compare_task_levels`. The vector holds the pointers to the task objects in
creation order when the function is called; the sorted vector is given as the list
of the positions of the objects. `std::sort` is library code: `sort` stands for it. -/
def calculate_task_list (sort : StdSort) (tasks : List Task) : List Nat :=
  (sort compareEntries tasks.enum).map Prod.fst

/-! ## `ModelManager::generate_task_list` -/

/-- The state `generate_task_list` leaves behind: the model with its task
pointers, the task objects by position of creation, and the vector `tasks_`. -/
structure TaskList where
  model : XModel
  objects : List Task
  tasks : List Nat
  deriving DecidableEq, Repr

/-- The function `ModelManager::generate_task_list`, on a manager whose vector
`tasks_` is empty; `fuel` bounds the passes of the levelling loop. -/
def generate_task_list (sort : StdSort) (ctor : Task) (fuel : Nat) (model : XModel) :
    Except Fault TaskList :=
  let r1 := catalog_state_dependencies ctor model []
  let r2 := catalog_communication_dependencies ctor r1.1 r1.2
  let _rc := check_dependency_loops r2.1
  match calculate_dependencies fuel r2.2 with
  | Except.error e => Except.error e
  | Except.ok tasks3 =>
    match catalog_data_dependencies ctor r2.1 tasks3 with
    | Except.error e => Except.error e
    | Except.ok tasks4 =>
      Except.ok { model := r2.1, objects := tasks4,
                  tasks := calculate_task_list sort tasks4 }

/-! ## Additions of dependencies as lists of operations -/

/-- A sequence of `addDependency` calls, each given by the child and the dependency. -/
def applyOps (tasks : List Task) (ops : List (Nat × Dependency)) : List Task :=
  ops.foldl (fun ts o => addDependency ts o.1 o.2) tasks

/-! ## The phases in closed form -/

/-- The functions of an agent after `setTask`, the first task being at position `n`. -/
def setTasks : Nat → List XFunction → List XFunction
  | _, [] => []
  | n, f :: rest => { f with task := n } :: setTasks (n + 1) rest

/-- The agents after the first loop of `catalog_state_dependencies`. -/
def setAgentTasks : Nat → List XMachine → List XMachine
  | _, [] => []
  | n, a :: rest =>
    { a with functions := setTasks n a.functions } :: setAgentTasks (n + a.functions.length) rest

/-- The task pushed for a function of the agent named `agentName`. -/
def functionTask (ctor : Task) (agentName : String) (f : XFunction) : Task :=
  (((Task.new ctor).setParentName agentName).setName f.name).setTaskType TaskType.xfunction

/-- The tasks pushed by the first loop of `catalog_state_dependencies`. -/
def functionTasks (ctor : Task) (agents : List XMachine) : List Task :=
  agents.flatMap (fun a => a.functions.map (functionTask ctor a.name))

/-- The state dependencies of one function, as operations. -/
def stateOps (fs : List XFunction) (f : XFunction) : List (Nat × Dependency) :=
  (fs.filter (fun g => f.currentState = g.nextState)).map (fun g =>
    (f.task, { name := f.currentState, dependencyType := DependencyType.state,
               task := g.task }))

/-- The state dependencies of all agents, as operations. -/
def modelStateOps (agents : List XMachine) : List (Nat × Dependency) :=
  agents.flatMap (fun a => a.functions.flatMap (stateOps a.functions))

/-- The messages after the first loop of `catalog_communication_dependencies`. -/
def setSync : Nat → List XMessage → List XMessage
  | _, [] => []
  | n, M :: rest =>
    { M with syncStartTask := n, syncFinishTask := n + 1 } :: setSync (n + 2) rest

/-- The `sync_start` task pushed for a message. -/
def syncStart (ctor : Task) (M : XMessage) : Task :=
  (((Task.new ctor).setParentName M.name).setName "sync_start").setTaskType
    TaskType.sync_start

/-- The `sync_finish` task pushed for a message, with its dependency on the
`sync_start` task at position `n`. -/
def syncFinish (ctor : Task) (n : Nat) (M : XMessage) : Task :=
  { (((Task.new ctor).setParentName M.name).setName "sync_finish").setTaskType
      TaskType.sync_finish with
    parents := [Dependency.mk M.name DependencyType.communication n] }

/-- The tasks pushed by the first loop of `catalog_communication_dependencies`. -/
def syncTasks (ctor : Task) : Nat → List XMessage → List Task
  | _, [] => []
  | n, M :: rest => syncStart ctor M :: syncFinish ctor n M :: syncTasks ctor (n + 2) rest

/-- The task pushed for a variable of an agent, before its dependency is added and
its level set. -/
def dataTask (ctor : Task) (a : XMachine) (v : XVariable) : Task :=
  (((Task.new ctor).setParentName a.name).setName v.name).setTaskType TaskType.io_pop_write

/-- The dependencies of the `sync_start` tasks on one posting function. -/
def outputOps (msgs : List XMessage) (f : XFunction) : List (Nat × Dependency) :=
  f.outputs.flatMap (fun io => (msgs.filter (fun M => M.name = io.messageName)).map
    (fun M => (M.syncStartTask,
      Dependency.mk io.messageName DependencyType.communication f.task)))

/-- The dependencies of one reading function on the `sync_finish` tasks. -/
def inputOps (msgs : List XMessage) (f : XFunction) : List (Nat × Dependency) :=
  f.inputs.flatMap (fun io => (msgs.filter (fun M => M.name = io.messageName)).map
    (fun M => (f.task,
      Dependency.mk io.messageName DependencyType.communication M.syncFinishTask)))

/-- The communication dependencies of all functions, as operations. -/
def modelCommOps (msgs : List XMessage) (agents : List XMachine) : List (Nat × Dependency) :=
  agents.flatMap (fun a => a.functions.flatMap (fun f => outputOps msgs f ++ inputOps msgs f))

/-! ## The dependency graph of a model -/

/-- The first two calls of `generate_task_list`: the model with its task pointers
and the task objects with their State and Communication dependencies. -/
def dependencyGraph (ctor : Task) (m : XModel) : XModel × List Task :=
  let r1 := catalog_state_dependencies ctor m []
  catalog_communication_dependencies ctor r1.1 r1.2

/-- The dependencies added to position `i` by a list of operations. -/
def opsAt (ops : List (Nat × Dependency)) (i : Nat) : List Dependency :=
  (ops.filter (fun o => o.1 = i)).map Prod.snd

/-- A task with further dependencies appended to its parents. -/
def withParents (ds : List Dependency) (t : Task) : Task :=
  { t with parents := t.parents ++ ds }

/-- Every dependency of a task points to a task object of the list. -/
def InRange (ts : List Task) : Prop :=
  ∀ (i : Nat) (t : Task), ts[i]? = some t → ∀ d ∈ t.parents, d.task < ts.length

/-! ## One pass of the levelling loop -/

/-- The effect of pass `c` on one task, read on the task objects `ts` as they are
before the pass: an unlevelled task all of whose parents are levelled gets level `c`. -/
def passLevel (c : Nat) (ts : List Task) (t : Task) : Task :=
  if t.level = 0 ∧ ∀ d ∈ t.parents, getLevel ts d.task ≠ 0 then { t with level := c } else t

/-- The task objects after pass `c`. -/
def passSpec (c : Nat) (ts : List Task) : List Task :=
  ts.map (passLevel c ts)

/-- The state of a pass after the tasks at the positions below `k` were visited. -/
def Mid (k c : Nat) (ts : List Task) (st : List Task × Bool) : Prop :=
  (∀ i : Nat, st.1[i]? = if i < k then (ts[i]?).map (passLevel c ts) else ts[i]?) ∧
  (st.2 = true ↔ ∀ (i : Nat) (t : Task), i < k → ts[i]? = some t → t.level = 0 →
    ∀ d ∈ t.parents, getLevel ts d.task ≠ 0)

/-! ## The invariant of the levelling loop -/

/-- The largest level among the parents of a task, 0 for a task without parents. -/
def maxParentLevel (ts : List Task) (t : Task) : Nat :=
  (t.parents.map (fun d => getLevel ts d.task)).foldr max 0

/-- A task with its level reset, as the first loop of `calculate_dependencies`
leaves it. -/
def unlevel (t : Task) : Task :=
  { t with level := 0 }

/-- The state of the task objects before pass `c` of the levelling loop. -/
def Inv (c : Nat) (ts : List Task) : Prop :=
  ∀ (i : Nat) (t : Task), ts[i]? = some t →
    t.level < c ∧
    (t.level ≠ 0 → t.level = 1 + maxParentLevel ts t ∧
      ∀ d ∈ t.parents, getLevel ts d.task ≠ 0) ∧
    (t.level = 0 → c = 1 ∨
      ∃ d ∈ t.parents, getLevel ts d.task = 0 ∨ getLevel ts d.task + 1 = c)

/-- Every task is levelled, one level above the highest of its parents. -/
def Levelled (ts : List Task) : Prop :=
  ∀ (i : Nat) (t : Task), ts[i]? = some t →
    t.level ≠ 0 ∧ t.level = 1 + maxParentLevel ts t

/-! ## Acyclic graphs and termination of the levelling loop -/

/-- The task at position `c` has a dependency whose parent is the task at position `p`. -/
def edge (ts : List Task) (c p : Nat) : Prop :=
  ∃ t, ts[c]? = some t ∧ ∃ d ∈ t.parents, d.task = p

/-- The dependency graph has no cycle: no task reaches itself along dependencies. -/
def Acyclic (ts : List Task) : Prop :=
  ∀ i : Nat, ¬ Relation.TransGen (edge ts) i i

/-- The number of unlevelled tasks. -/
def unlevelled (ts : List Task) : Nat :=
  ts.countP (fun t => decide (t.level = 0))

/-! ## The data phase -/

/-- The parent the data task of a variable is given, in the words of the source
comment "find the last function that writes each variable": the last function of
the agent, in declaration order, that has the variable in its read-write list,
and the first function of the agent when there is none. -/
def dataParent (var : Nat) (functions : List XFunction) : Option XFunction :=
  match (functions.filter (fun f => var ∈ f.readWriteVariables)).getLast? with
  | some f => some f
  | none => functions.head?

/-- The shape of the data task of variable `v` of agent `a`, with parent function `f`. -/
def IsDataTask (ctor : Task) (a : XMachine) (v : XVariable) (f : XFunction)
    (t : Task) : Prop :=
  t.taskType = TaskType.io_pop_write ∧ t.parentName = a.name ∧ t.name = v.name ∧
  t.priorityLevel = ctor.priorityLevel ∧
  t.parents = [Dependency.mk v.name DependencyType.data f.task]

/-- The type and the two names of a task. -/
def taskKey (t : Task) : TaskType × String × String :=
  (t.taskType, t.parentName, t.name)

/-! ## The model apart from its task pointers -/

/-- A function with its task pointer cleared. -/
def XFunction.untask (f : XFunction) : XFunction :=
  { f with task := 0 }

/-- An agent with the task pointers of its functions cleared. -/
def XMachine.untask (a : XMachine) : XMachine :=
  { a with functions := a.functions.map XFunction.untask }

/-- A message with its task pointers cleared. -/
def XMessage.untask (M : XMessage) : XMessage :=
  { M with syncStartTask := 0, syncFinishTask := 0 }

/-- A model with all task pointers cleared: what the loader supplies. -/
def XModel.untask (m : XModel) : XModel :=
  { agents := m.agents.map XMachine.untask, messages := m.messages.map XMessage.untask }

/-! ## Checking a graph for cycles -/

/-- A numbering of the tasks that decreases along every dependency. -/
def rankCheck (ts : List Task) (rank : Nat → Nat) : Bool :=
  ts.enum.all (fun p => p.2.parents.all (fun d => decide (rank d.task < rank p.1)))

/-! ## Scenarios -/

/-- Scenario S1: agent `A` with variable `x` and the functions `F1` (s to t) and
`F2` (t to u), both with `x` in their read-write list. -/
def scenarioS1 : XModel :=
  { agents := [{ name := "A", variables_ := [{ name := "x" }],
                 functions := [
                   { name := "F1", currentState := "s", nextState := "t", inputs := [],
                     outputs := [], readWriteVariables := [0], task := 0 },
                   { name := "F2", currentState := "t", nextState := "u", inputs := [],
                     outputs := [], readWriteVariables := [0], task := 0 }] }],
    messages := [] }

/-- Scenario S2: message `M` and agent `A` with the functions `F_post` (s to t,
posting `M`) and `F_read` (t to u, reading `M`). -/
def scenarioS2 : XModel :=
  { agents := [{ name := "A", variables_ := [],
                 functions := [
                   { name := "F_post", currentState := "s", nextState := "t", inputs := [],
                     outputs := [{ messageName := "M" }], readWriteVariables := [],
                     task := 0 },
                   { name := "F_read", currentState := "t", nextState := "u",
                     inputs := [{ messageName := "M" }], outputs := [],
                     readWriteVariables := [], task := 0 }] }],
    messages := [{ name := "M", syncStartTask := 0, syncFinishTask := 0 }] }

/-- A numbering of the four tasks of scenario S2 that decreases along the
dependencies. -/
def rankS2 (i : Nat) : Nat :=
  [0, 3, 1, 2].getD i 0

/-! ## The order of the task list -/

/-- An object as a default constructor may leave it: level 0 and priority 0. -/
def ctorA : Task :=
  { parentName := "", name := "", taskType := TaskType.xfunction, level := 0,
    priorityLevel := 0, parents := [] }

/-- The task objects of scenario S1 once levelled. -/
def objectsS1 (ctor : Task) : List Task :=
  [Task.mk "A" "F1" TaskType.xfunction 1 ctor.priorityLevel [],
   Task.mk "A" "F2" TaskType.xfunction 2 ctor.priorityLevel
     [Dependency.mk "t" DependencyType.state 0],
   Task.mk "A" "x" TaskType.io_pop_write 3 ctor.priorityLevel
     [Dependency.mk "x" DependencyType.data 1]]

/-- The task objects of scenario S2 with the levels `a`, `b`, `c` and `d`. -/
def tasksS2 (ctor : Task) (a b c d : Nat) : List Task :=
  [Task.mk "A" "F_post" TaskType.xfunction a ctor.priorityLevel [],
   Task.mk "A" "F_read" TaskType.xfunction b ctor.priorityLevel
     [Dependency.mk "t" DependencyType.state 0,
      Dependency.mk "M" DependencyType.communication 3],
   Task.mk "M" "sync_start" TaskType.sync_start c ctor.priorityLevel
     [Dependency.mk "M" DependencyType.communication 0],
   Task.mk "M" "sync_finish" TaskType.sync_finish d ctor.priorityLevel
     [Dependency.mk "M" DependencyType.communication 2]]

/-- The task objects of scenario S2 once levelled. -/
def objectsS2 (ctor : Task) : List Task :=
  tasksS2 ctor 1 4 2 3

/-- The pairs of an agent and one of its functions, in declaration order. -/
def functionPairs (agents : List XMachine) : List (XMachine × XFunction) :=
  agents.flatMap (fun a => a.functions.map (fun f => (a, f)))

/-! ## Data dependencies -/

/-- Agent `A` with variable `x` and the functions `F1` and `F2`, neither of which
has `x` in its read-write list. -/
def fallbackModel : XModel :=
  { agents := [{ name := "A", variables_ := [{ name := "x" }],
                 functions := [
                   { name := "F1", currentState := "s", nextState := "t", inputs := [],
                     outputs := [], readWriteVariables := [], task := 0 },
                   { name := "F2", currentState := "t", nextState := "u", inputs := [],
                     outputs := [], readWriteVariables := [], task := 0 }] }],
    messages := [] }

/-- Agent `A` with one function and two variables that are both named `x`. -/
def twinModel : XModel :=
  { agents := [{ name := "A", variables_ := [{ name := "x" }, { name := "x" }],
                 functions := [
                   { name := "F", currentState := "s", nextState := "t", inputs := [],
                     outputs := [], readWriteVariables := [], task := 0 }] }],
    messages := [] }

/-- Agent `A` with variable `x` and no function. -/
def orphanModel : XModel :=
  { agents := [{ name := "A", variables_ := [{ name := "x" }], functions := [] }],
    messages := [] }

/-! ## A cyclic model -/

/-- One agent whose functions are `F1` (s to t) and `F2` (t to s). -/
def cycleModel : XModel :=
  { agents := [{ name := "A", variables_ := [],
                 functions := [
                   { name := "F1", currentState := "s", nextState := "t", inputs := [],
                     outputs := [], readWriteVariables := [], task := 0 },
                   { name := "F2", currentState := "t", nextState := "s", inputs := [],
                     outputs := [], readWriteVariables := [], task := 0 }] }],
    messages := [] }

/-- The task objects of `cycleModel` when the levelling loop starts: each of the
two tasks depends on the other. -/
def cycleTasks (ctor : Task) : List Task :=
  [{ parentName := "A", name := "F1", taskType := TaskType.xfunction, level := 0,
     priorityLevel := ctor.priorityLevel,
     parents := [Dependency.mk "s" DependencyType.state 1] },
   { parentName := "A", name := "F2", taskType := TaskType.xfunction, level := 0,
     priorityLevel := ctor.priorityLevel,
     parents := [Dependency.mk "t" DependencyType.state 0] }]

/-! ## Levels and the agent memory -/

/-- Agent `A` with variable `x` and two functions leaving the same state, both with
`x` in their read-write list. -/
def branchModel : XModel :=
  { agents := [{ name := "A", variables_ := [{ name := "x" }],
                 functions := [
                   { name := "F1", currentState := "s", nextState := "t", inputs := [],
                     outputs := [], readWriteVariables := [0], task := 0 },
                   { name := "F2", currentState := "s", nextState := "u", inputs := [],
                     outputs := [], readWriteVariables := [0], task := 0 }] }],
    messages := [] }

/-- Agent `A` with variable `x` and two functions writing `x`, the function that
runs second being declared first. -/
def reversedModel : XModel :=
  { agents := [{ name := "A", variables_ := [{ name := "x" }],
                 functions := [
                   { name := "F1", currentState := "t", nextState := "u", inputs := [],
                     outputs := [], readWriteVariables := [0], task := 0 },
                   { name := "F2", currentState := "s", nextState := "t", inputs := [],
                     outputs := [], readWriteVariables := [0], task := 0 }] }],
    messages := [] }

/-! ## Sync tasks -/

/-- The type and the parent name of a task. -/
def taskKind (t : Task) : TaskType × String :=
  (t.taskType, t.parentName)

/-- The agent `A` of scenario S1 once the task pointers of its functions are set. -/
def agentS1 : XMachine :=
  { name := "A", variables_ := [{ name := "x" }],
    functions := [
      { name := "F1", currentState := "s", nextState := "t", inputs := [],
        outputs := [], readWriteVariables := [0], task := 0 },
      { name := "F2", currentState := "t", nextState := "u", inputs := [],
        outputs := [], readWriteVariables := [0], task := 1 }] }

/-- The function `F_post` of scenario S2 once its task pointer is set. -/
def postS2 : XFunction :=
  { name := "F_post", currentState := "s", nextState := "t", inputs := [],
    outputs := [{ messageName := "M" }], readWriteVariables := [], task := 0 }

/-- The function `F_read` of scenario S2 once its task pointer is set. -/
def readS2 : XFunction :=
  { name := "F_read", currentState := "t", nextState := "u",
    inputs := [{ messageName := "M" }], outputs := [], readWriteVariables := [], task := 1 }

/-- The agent `A` of scenario S2 once the task pointers of its functions are set. -/
def agentS2 : XMachine :=
  { name := "A", variables_ := [], functions := [postS2, readS2] }

/-- The message `M` of scenario S2 once its task pointers are set. -/
def messageS2 : XMessage :=
  { name := "M", syncStartTask := 2, syncFinishTask := 3 }

/-! ## Readers and posters of a message -/

/-- The function `F1` of scenario S1 once its task pointer is set. -/
def firstS1 : XFunction :=
  { name := "F1", currentState := "s", nextState := "t", inputs := [],
    outputs := [], readWriteVariables := [0], task := 0 }

/-! ## `Model`: the agent functions the user registers -/

/-- The type `flame::exe::TaskFunction`, a pointer to a function of the user; a
pointer is embedded as the address it holds. -/
abbrev TaskFunction : Type := Nat

/-- The exception `flame::exceptions::flame_model_exception`, with its message. -/
structure flame_model_exception where
  what : String
  deriving DecidableEq, Repr

/-- The members of `Model`: `funcMap_`, a `std::map` from names to function
pointers, listed by its entries, the flag `validated_`, and the model `model_`. -/
structure Model where
  funcMap_ : List (String × TaskFunction)
  validated_ : Bool
  model_ : flame2.model.XModel
  deriving DecidableEq, Repr

/-- The constructor `Model()`. -/
def Model.Model : Model :=
  { funcMap_ := [], validated_ := false, model_ := flame2.model.XModel.XModel }

/-- The call `funcMap_.find(name)`, `none` standing for `funcMap_.end()`. -/
def Model.find (funcMap : List (String × TaskFunction)) (name : String) :
    Option TaskFunction :=
  List.lookup name funcMap

/-- The call `funcMap_.insert(std::make_pair(name, f_ptr))`: `std::map::insert` adds
the pair when the map holds no entry with the key and leaves the map as it is
otherwise. -/
def Model.insert (funcMap : List (String × TaskFunction)) (name : String)
    (f_ptr : TaskFunction) : List (String × TaskFunction) :=
  match Model.find funcMap name with
  | some _ => funcMap
  | none => funcMap ++ [(name, f_ptr)]

/-- The method `Model::registerAgentFunction`. -/
def registerAgentFunction (m : Model) (name : String) (f_ptr : TaskFunction) : Model :=
  { m with funcMap_ := Model.insert m.funcMap_ name f_ptr }

/-- The method `Model::getAgentFunctionPointer`. -/
def getAgentFunctionPointer (m : Model) (name : String) :
    Except flame_model_exception TaskFunction :=
  match Model.find m.funcMap_ name with
  | none => Except.error ⟨"Agent function has not be registered: ".append name⟩
  | some f_ptr => Except.ok f_ptr

/-- Successive calls of `registerAgentFunction`, from left to right. -/
def registerAgentFunctions (m : Model) (calls : List (String × TaskFunction)) : Model :=
  calls.foldl (fun m c => registerAgentFunction m c.1 c.2) m

/-! ## `Model`: the flag `validated_` -/

/-- The class `AgentFunction` of the API, as `addAgentFunction` reads it: the
sets are listed in the order in which they are iterated. -/
structure AgentFunction where
  name : String
  currentState : String
  nextState : String
  inputs : List String
  outputs : List String
  readWriteVariables : List String
  readOnlyVariables : List String
  deriving DecidableEq, Repr

/-- The method `Model::validate`: the model after the call and the exception
raised. -/
def validate (XModelValidate : flame2.model.XModel → Int) (m : Model) :
    Model × Option flame_model_exception :=
  if flame2.model.validate XModelValidate m.model_ ≠ 0 then
    (m, some ⟨"Model could not be validated"⟩)
  else
    ({ m with validated_ := true }, none)

/-- The method `Model::addAgent`. -/
def addAgent (m : Model) (name : String) : Model :=
  { m with model_ := (flame2.model.addAgent m.model_ name).1, validated_ := false }

/-- The method `Model::getAgent`: the pointer to the agent, or the exception
raised. -/
def getAgent (m : Model) (name : String) : Except flame_model_exception Nat :=
  match flame2.model.getAgent m.model_ name with
  | some agent => Except.ok agent
  | none => Except.error ⟨"Agent does not exist"⟩

/-- The method `Model::addAgentVariable`: the model after the call and the
exception raised. -/
def addAgentVariable (m : Model) (agent_name type name : String) :
    Model × Option flame_model_exception :=
  match getAgent m agent_name with
  | Except.error e => (m, some e)
  | Except.ok agent =>
    ({ m with
        model_ := { m.model_ with
          agents_ := m.model_.agents_.modify
            (fun a => flame2.model.XMachine.addVariable a type name) agent },
        validated_ := false }, none)

/-- The method `Model::addAgentFunction`: the model after the call and the
exception raised. -/
def addAgentFunction (m : Model) (agent_name : String) (agentFunction : AgentFunction) :
    Model × Option flame_model_exception :=
  match getAgent m agent_name with
  | Except.error e => (m, some e)
  | Except.ok agent =>
    let func : flame2.model.XFunction :=
      { name := agentFunction.name, currentState := agentFunction.currentState,
        nextState := agentFunction.nextState, inputs := agentFunction.inputs,
        outputs := agentFunction.outputs,
        readWriteVariables := agentFunction.readWriteVariables,
        readOnlyVariables := agentFunction.readOnlyVariables }
    ({ m with
        model_ := { m.model_ with
          agents_ := m.model_.agents_.modify
            (fun a => flame2.model.XMachine.addFunction a func) agent },
        validated_ := false }, none)

/-- The method `Model::addMessage`. -/
def addMessage (m : Model) (name : String) : Model :=
  { m with model_ := (flame2.model.addMessage m.model_ name).1, validated_ := false }

/-- The method `Model::addMessageVariable`; the pointer `getMessage` returns is
used without a test, so the call fails with `nullDereference` when no message
has the name. -/
def addMessageVariable (m : Model) (message_name type name : String) :
    Except Fault Model :=
  match flame2.model.getMessage m.model_ message_name with
  | none => Except.error Fault.nullDereference
  | some message =>
    Except.ok { m with
      model_ := { m.model_ with
        messages_ := m.model_.messages_.modify
          (fun x => flame2.model.XMessage.addVariable x type name) message },
      validated_ := false }

/-- The method `Model::isValidated`. -/
def isValidated (m : Model) : Bool :=
  m.validated_

/-- A call of `validate` or of a method that changes the model. -/
inductive Operation
  | addAgent (name : String)
  | addAgentVariable (agent_name type name : String)
  | addAgentFunction (agent_name : String) (agentFunction : AgentFunction)
  | addMessage (name : String)
  | addMessageVariable (message_name type name : String)
  | validate
  deriving DecidableEq, Repr

/-- One call on a model: the model after the call and the exception raised. -/
def perform (XModelValidate : flame2.model.XModel → Int) (m : Model) :
    Operation → Except Fault (Model × Option flame_model_exception)
  | Operation.addAgent name => Except.ok (addAgent m name, none)
  | Operation.addAgentVariable agent_name type name =>
    Except.ok (addAgentVariable m agent_name type name)
  | Operation.addAgentFunction agent_name agentFunction =>
    Except.ok (addAgentFunction m agent_name agentFunction)
  | Operation.addMessage name => Except.ok (addMessage m name, none)
  | Operation.addMessageVariable message_name type name =>
    match addMessageVariable m message_name type name with
    | Except.ok m1 => Except.ok (m1, none)
    | Except.error f => Except.error f
  | Operation.validate => Except.ok (validate XModelValidate m)

/-- A sequence of calls, a call that raises an exception being followed by the
next call: the model after the calls and, for every call, the exception it
raised. -/
def performAll (XModelValidate : flame2.model.XModel → Int) :
    List Operation → Model →
      Except Fault (Model × List (Operation × Option flame_model_exception))
  | [], m => Except.ok (m, [])
  | op :: ops, m =>
    match perform XModelValidate m op with
    | Except.error f => Except.error f
    | Except.ok (m1, e) =>
      match performAll XModelValidate ops m1 with
      | Except.error f => Except.error f
      | Except.ok (m2, trace) => Except.ok (m2, (op, e) :: trace)

/-- The last call of a sequence that returned without an exception is a call of
`validate`. -/
def ValidatedLast (trace : List (Operation × Option flame_model_exception)) : Prop :=
  ∃ pre post, trace = pre ++ (Operation.validate, none) :: post ∧ ∀ x ∈ post, x.2 ≠ none

end flame.model

namespace flame.exe

/-! # Definitions: the task queue -/

/-! ## The splitting FIFO task queue

A shallow embedding of `src/exe/splitting_fifo_task_queue.cpp`. Every method of the
queue runs under the mutex of the queue, so a method is embedded as one step on the
state of the queue; the worker threads and the condition variable `ready_` are not
part of the state. `size_t` values are natural numbers below `2^64`. -/

/-- The exceptions the queue raises, with their messages. -/
inductive Exception
  | invalid_argument (what : String)
  | logic_error (what : String)
  deriving DecidableEq, Repr

/-- Modelled from the spec: the enumeration `Task::TaskType` of `task_interface.hpp`,
which is not among the sources; the spec calls an enumerator a task kind, and it is
embedded as its integer value. -/
abbrev TaskType : Type := Nat

/-- The largest `size_t`. -/
def SIZE_MAX : Nat := 2 ^ 64 - 1

/-- The decrement `--x` of a `size_t`. -/
def decrement (x : Nat) : Nat :=
  if x = 0 then SIZE_MAX else x - 1

/-- The increment `++x` of a `size_t`. -/
def increment (x : Nat) : Nat :=
  if x = SIZE_MAX then 0 else x + 1

/-- The members of `TaskSplitter` declared in `task_splitter.hpp`; `tasks_` holds the
handles of the sub-tasks. -/
structure TaskSplitter where
  id_ : Nat
  pending_ : Nat
  running_ : Nat
  next_ : Nat
  tasks_ : List Nat
  deriving DecidableEq, Repr

/-- Modelled from the spec: the constructor `TaskSplitter(id, tasks)`, defined in
`task_splitter.cpp`, which is not among the sources. In the spec `pending` is the
number of sub-tasks not yet assigned, `running` the number assigned and not yet
completed, `next` the index of the next sub-task to hand out. -/
def TaskSplitter.TaskSplitter (id : Nat) (tasks : List Nat) : TaskSplitter :=
  { id_ := id, pending_ := tasks.length, running_ := 0, next_ := 0, tasks_ := tasks }

/-- Modelled from the spec: `TaskSplitter::IsComplete`, declared in
`task_splitter.hpp` as "returns true of no more pending or running tasks"; in the
spec `is_complete = (pending == 0 && running == 0)`. -/
def IsComplete (ts : TaskSplitter) : Bool :=
  decide (ts.pending_ = 0) && decide (ts.running_ = 0)

/-- Modelled from the spec: `TaskSplitter::NonePending`, declared in
`task_splitter.hpp` as "returns true if all tasks have been assigned". -/
def NonePending (ts : TaskSplitter) : Bool :=
  decide (ts.pending_ = 0)

/-- Modelled from the spec: `TaskSplitter::OneTaskAssigned`, declared in
`task_splitter.hpp` as "decrements pending_ and returns true if NonePending()"; in
the spec handing out a sub-task decrements `pending`, increments `running`, and
the flag tells whether `pending` reached zero. -/
def OneTaskAssigned (ts : TaskSplitter) : TaskSplitter × Bool :=
  let ts1 : TaskSplitter :=
    { ts with pending_ := decrement ts.pending_, running_ := increment ts.running_ }
  (ts1, NonePending ts1)

/-- Modelled from the spec: `TaskSplitter::OneTaskDone`, declared in
`task_splitter.hpp` as "decrements running_ and returns true if IsComplete()". -/
def OneTaskDone (ts : TaskSplitter) : TaskSplitter × Bool :=
  let ts1 : TaskSplitter := { ts with running_ := decrement ts.running_ }
  (ts1, IsComplete ts1)

/-- Modelled from the spec: what the queue asks of `TaskManager` and of the tasks it
owns, `task_manager.hpp` and `task_interface.hpp` not being among the sources:
the type of the task with a given id, and the result of
`SplitTask(max_splits, min_vector_size)` on it, `none` standing for the null handle. -/
structure TaskManager where
  get_task_type : Nat → TaskType
  SplitTask : Nat → Nat → Nat → Option TaskSplitter

/-- The members of `SplittingFIFOTaskQueue` the methods read and write: the front of
`queue_` is the head of the list, `split_map_` lists its entries by key. -/
structure SplittingFIFOTaskQueue where
  slots_ : Nat
  max_splits_ : Nat
  min_vector_size_ : Nat
  splittable_ : List TaskType
  queue_ : List Nat
  split_map_ : List (Nat × TaskSplitter)
  deriving DecidableEq, Repr

/-- The call `split_map_.find(task_id)`, `none` standing for `split_map_.end()`. -/
def find (split_map : List (Nat × TaskSplitter)) (task_id : Nat) : Option TaskSplitter :=
  List.lookup task_id split_map

/-- The splitter a handle of `split_map_` points to, after one of its methods has
changed it in place. -/
def store (split_map : List (Nat × TaskSplitter)) (task_id : Nat) (ts : TaskSplitter) :
    List (Nat × TaskSplitter) :=
  split_map.map (fun e => if e.1 = task_id then (task_id, ts) else e)

/-- The constructor of the queue; `DEFAULT_MIN_VECTOR_SIZE` is a constant of the
header, which is not among the sources. The worker threads it starts are not
embedded. -/
def SplittingFIFOTaskQueue.SplittingFIFOTaskQueue (DEFAULT_MIN_VECTOR_SIZE slots : Nat) :
    Except Exception SplittingFIFOTaskQueue :=
  if slots < 1 then
    Except.error (Exception.invalid_argument "slots must be > 0")
  else
    Except.ok { slots_ := slots, max_splits_ := slots,
                min_vector_size_ := DEFAULT_MIN_VECTOR_SIZE,
                splittable_ := [], queue_ := [], split_map_ := [] }

/-- The method `SetSplittable`. -/
def SetSplittable (q : SplittingFIFOTaskQueue) (task_type : TaskType) :
    SplittingFIFOTaskQueue :=
  { q with splittable_ := if task_type ∈ q.splittable_ then q.splittable_
                          else q.splittable_ ++ [task_type] }

/-- The method `SetMaxSplits`: the queue after the call and the exception raised. -/
def SetMaxSplits (q : SplittingFIFOTaskQueue) (max_splits : Nat) :
    SplittingFIFOTaskQueue × Option Exception :=
  if max_splits < 1 then
    (q, some (Exception.invalid_argument "max_splits must be > 0"))
  else
    ({ q with max_splits_ := max_splits }, none)

/-- The method `GetMaxSplits`. -/
def GetMaxSplits (q : SplittingFIFOTaskQueue) : Nat :=
  q.max_splits_

/-- The method `SetMinVectorSize`: the queue after the call and the exception raised. -/
def SetMinVectorSize (q : SplittingFIFOTaskQueue)
    (min_vector_size : Nat) : SplittingFIFOTaskQueue × Option Exception :=
  if min_vector_size < 1 then
    (q, some (Exception.invalid_argument "min_vector_size must be > 0"))
  else
    ({ q with min_vector_size_ := min_vector_size }, none)

/-- The method `GetMinVectorSize`. -/
def GetMinVectorSize (q : SplittingFIFOTaskQueue) : Nat :=
  q.min_vector_size_

/-- The method `empty`. -/
def empty (q : SplittingFIFOTaskQueue) : Bool :=
  q.queue_.isEmpty && q.split_map_.isEmpty

/-- The method `Enqueue`: the queue after the call and the exception raised. The id
is pushed before the task is looked at, so it stays in `queue_` when the call
raises. -/
def Enqueue (tm : TaskManager) (q : SplittingFIFOTaskQueue)
    (task_id : Nat) : SplittingFIFOTaskQueue × Option Exception :=
  let q1 : SplittingFIFOTaskQueue := { q with queue_ := q.queue_ ++ [task_id] }
  if tm.get_task_type task_id ∈ q1.splittable_ then
    match tm.SplitTask task_id q1.max_splits_ q1.min_vector_size_ with
    | some ts =>
      if (find q1.split_map_ task_id).isSome then
        (q1, some (Exception.logic_error "task id conflict"))
      else
        ({ q1 with split_map_ := q1.split_map_ ++ [(task_id, ts)] }, none)
    | none => (q1, none)
  else (q1, none)

/-- The method `TaskDone`: the queue after the call and the ids `callback_` was
invoked with. -/
def TaskDone (q : SplittingFIFOTaskQueue) (task_id : Nat) :
    SplittingFIFOTaskQueue × List Nat :=
  match find q.split_map_ task_id with
  | some ts =>
    let r := OneTaskDone ts
    let q1 : SplittingFIFOTaskQueue := { q with split_map_ := store q.split_map_ task_id r.1 }
    if r.2 = false then (q1, []) else (q1, [task_id])
  | none => (q, [task_id])

/-- The method `GetNextTask`: the queue after the call and the id returned; `none`
when `queue_` is empty, where the calling thread waits. -/
def GetNextTask (q : SplittingFIFOTaskQueue) :
    Option (SplittingFIFOTaskQueue × Nat) :=
  match q.queue_ with
  | [] => none
  | task_id :: rest =>
    match find q.split_map_ task_id with
    | some ts =>
      let r := OneTaskAssigned ts
      let q1 : SplittingFIFOTaskQueue := { q with split_map_ := store q.split_map_ task_id r.1 }
      if r.2 then some ({ q1 with queue_ := rest }, task_id) else some (q1, task_id)
    | none => some ({ q with queue_ := rest }, task_id)

/-- Successive calls of `Enqueue`, up to the first that raises. -/
def EnqueueAll (tm : TaskManager) :
    List Nat → SplittingFIFOTaskQueue → SplittingFIFOTaskQueue × Option Exception
  | [], q => (q, none)
  | task_id :: rest, q =>
    match Enqueue tm q task_id with
    | (q1, none) => EnqueueAll tm rest q1
    | (q1, some e) => (q1, some e)

/-- The ids returned by `n` successive calls of `GetNextTask`; `none` when one of
them finds `queue_` empty. -/
def GetNextTasks : Nat → SplittingFIFOTaskQueue → Option (SplittingFIFOTaskQueue × List Nat)
  | 0, q => some (q, [])
  | n + 1, q =>
    match GetNextTask q with
    | none => none
    | some (q1, task_id) =>
      match GetNextTasks n q1 with
      | none => none
      | some (q2, ids) => some (q2, task_id :: ids)

/-- The ids `callback_` is invoked with by `n` successive calls of `TaskDone` with
one id. -/
def TaskDones : Nat → SplittingFIFOTaskQueue → Nat → SplittingFIFOTaskQueue × List Nat
  | 0, q, _ => (q, [])
  | n + 1, q, task_id =>
    let r := TaskDone q task_id
    let r2 := TaskDones n r.1 task_id
    (r2.1, r.2 ++ r2.2)

/-! ## The order in which the queue serves the tasks -/

/-- The splitter `Enqueue` obtains for an id: `none` when the type of the task is
not splittable or `SplitTask` returns the null handle. -/
def splitOf (tm : TaskManager) (q : SplittingFIFOTaskQueue) (task_id : Nat) :
    Option TaskSplitter :=
  if tm.get_task_type task_id ∈ q.splittable_ then
    tm.SplitTask task_id q.max_splits_ q.min_vector_size_
  else none

/-- The number of times an id at the head of `queue_` is served: once per pending
sub-task when it is in `split_map_`, once otherwise. -/
def serves (q : SplittingFIFOTaskQueue) (task_id : Nat) : Nat :=
  match find q.split_map_ task_id with
  | some ts => ts.pending_
  | none => 1

/-- The number of sub-tasks `Enqueue` splits an id into, 1 for an id it does not
split. -/
def parts (tm : TaskManager) (q : SplittingFIFOTaskQueue) (task_id : Nat) : Nat :=
  match splitOf tm q task_id with
  | some ts => ts.tasks_.length
  | none => 1

/-! ## Queues of the examples -/

/-- A task manager for three tasks, of which task 2 has the splittable type 1 and
splits into three sub-tasks. -/
def threeTasks : TaskManager :=
  { get_task_type := fun id => if id = 2 then 1 else 0,
    SplitTask := fun id _ _ =>
      if id = 2 then some (TaskSplitter.TaskSplitter 2 [20, 21, 22]) else none }

/-- An empty queue with two slots in which type 1 is splittable. -/
def emptyQueue : SplittingFIFOTaskQueue :=
  { slots_ := 2, max_splits_ := 2, min_vector_size_ := 1, splittable_ := [1],
    queue_ := [], split_map_ := [] }

/-- A queue whose only task, 7, is split into three sub-tasks, none handed out yet. -/
def splitQueue : SplittingFIFOTaskQueue :=
  { slots_ := 2, max_splits_ := 2, min_vector_size_ := 1, splittable_ := [1],
    queue_ := [7], split_map_ := [(7, TaskSplitter.TaskSplitter 7 [70, 71, 72])] }

/-! ## The entries of `split_map_` -/

/-- The keys of `split_map_`. -/
def keys (split_map : List (Nat × TaskSplitter)) : List Nat :=
  split_map.map Prod.fst

/-! ## The counters of a splitter -/

/-- Modelled from the spec: `TaskSplitter::GetTask`, declared in `task_splitter.hpp`
and defined in `task_splitter.cpp`, which is not among the sources. In the spec
handing out a sub-task returns the `next`-th sub-task and advances `next` (the
comment of the header reads "returns reference to the next task and decrements
next_"). The result is the splitter after the call and the handle returned,
`none` when `tasks_` has no `next`-th handle. -/
def GetTask (ts : TaskSplitter) : Option (TaskSplitter × Nat) :=
  match ts.tasks_[ts.next_]? with
  | some t => some ({ ts with next_ := increment ts.next_ }, t)
  | none => none

/-- Modelled from the spec: the operation `next_subtask() -> (handle, none_pending)`
of the spec, which the queue performs as the call of `OneTaskAssigned` in
`GetNextTask` followed by the call of `GetTask` in `GetTaskById`. -/
def next_subtask (ts : TaskSplitter) : Option (TaskSplitter × Nat × Bool) :=
  let r := OneTaskAssigned ts
  match GetTask r.1 with
  | some (ts2, handle) => some (ts2, handle, r.2)
  | none => none

/-- Modelled from the spec: the operation `one_done() -> is_complete` of the spec,
the method `OneTaskDone`. -/
def one_done (ts : TaskSplitter) : TaskSplitter × Bool :=
  OneTaskDone ts

/-- A call on a splitter. -/
inductive Call
  | next_subtask
  | one_done
  deriving DecidableEq, Repr

/-- A splitter together with what the calls made on it so far returned: the handles
and the `none_pending` flags of the calls of `next_subtask`, the `is_complete`
flags of the calls of `one_done`, each in the order of the calls. -/
structure Run where
  ts : TaskSplitter
  handles : List Nat
  none_pending : List Bool
  is_complete : List Bool
  deriving DecidableEq, Repr

/-- One call on the splitter of a run; `none` when the call has no sub-task to
return. -/
def call (r : Run) : Call → Option Run
  | Call.next_subtask =>
    match next_subtask r.ts with
    | some (ts, handle, flag) =>
      some { ts := ts, handles := r.handles ++ [handle],
             none_pending := r.none_pending ++ [flag], is_complete := r.is_complete }
    | none => none
  | Call.one_done =>
    let d := one_done r.ts
    some { ts := d.1, handles := r.handles, none_pending := r.none_pending,
           is_complete := r.is_complete ++ [d.2] }

/-- A sequence of calls, from left to right. -/
def calls : List Call → Run → Option Run
  | [], r => some r
  | c :: cs, r =>
    match call r c with
    | some r1 => calls cs r1
    | none => none

/-! ## Splitting a task -/

/-- Modelled from the spec: `Task::SplitTask(max_splits, min_vector_size)`, which
`Enqueue` calls and whose definition is not among the sources. The spec divides
the rows `[0, N)` of the task: "If `N < min_vector_size`, the task is NOT split.
Otherwise the number of chunks `k = min(max_splits, floor(N / min_vector_size))`;
chunks are contiguous, sizes differ by at most 1", and 350 rows in 3 chunks are
117/117/116, so the longer chunks come first. A chunk is the pair of its first
row and its number of rows; `none` is the task that is not split. -/
def Task.SplitTask (N max_splits min_vector_size : Nat) : Option (List (Nat × Nat)) :=
  if N < min_vector_size then none
  else
    let k := min max_splits (N / min_vector_size)
    some ((List.range k).map (fun i =>
      (i * (N / k) + min i (N % k), N / k + if i < N % k then 1 else 0)))

/-- The rows of a list of chunks, chunk after chunk. -/
def rows (chunks : List (Nat × Nat)) : List Nat :=
  chunks.flatMap (fun c => List.range' c.1 c.2)

/-! ## The mutex of the queue

The methods of the queue as the sequences of steps they perform on `mutex_` and
on the members the mutex protects, in the order of the statements of
`splitting_fifo_task_queue.cpp`. -/

/-- A step of a method on the mutex or on a protected member: the construction
of a `lock_guard` or `unique_lock` on `mutex_`, its destruction at the end of its
scope, the call `ready_.wait(lock)`, which releases the mutex and blocks, an
access to `queue_`, an access to `split_map_`, and a call of a method of a
splitter, which reads or writes its counters. -/
inductive Step
  | lock
  | unlock
  | wait
  | queue_
  | split_map_
  | splitter
  deriving DecidableEq, Repr

/-- Whether every access of a sequence of steps to `queue_`, `split_map_` or a
splitter is made while the mutex is held; `held` tells whether it is held before
the first step. -/
def guarded : Bool → List Step → Bool
  | _, [] => true
  | _, Step.lock :: rest => guarded true rest
  | _, Step.unlock :: rest => guarded false rest
  | _, Step.wait :: rest => guarded false rest
  | held, Step.queue_ :: rest => held && guarded held rest
  | held, Step.split_map_ :: rest => held && guarded held rest
  | held, Step.splitter :: rest => held && guarded held rest

/-- The steps of `empty`: the lock, `queue_.empty()` and, when that is true,
`split_map_.empty()`. -/
def Locking.empty (q : SplittingFIFOTaskQueue) : List Step :=
  [Step.lock, Step.queue_] ++
  (if q.queue_.isEmpty then [Step.split_map_] else []) ++
  [Step.unlock]

/-- The steps of `Enqueue`: the lock, `queue_.push`, and for a task that splits
`split_map_.lower_bound`, the test of the key and, when the key is new,
`split_map_.insert`; the lock is released by the return or by the throw. -/
def Locking.Enqueue (tm : TaskManager) (q : SplittingFIFOTaskQueue) (task_id : Nat) :
    List Step :=
  [Step.lock, Step.queue_] ++
  (if tm.get_task_type task_id ∈ q.splittable_ then
    match tm.SplitTask task_id q.max_splits_ q.min_vector_size_ with
    | some _ =>
      if (find q.split_map_ task_id).isSome then
        [Step.split_map_, Step.split_map_]
      else
        [Step.split_map_, Step.split_map_, Step.split_map_]
    | none => []
  else []) ++
  [Step.unlock]

/-- The steps of `TaskDone`: the lock, `split_map_.find` and, for a split task,
`OneTaskDone`. -/
def Locking.TaskDone (q : SplittingFIFOTaskQueue) (task_id : Nat) : List Step :=
  [Step.lock, Step.split_map_] ++
  (match find q.split_map_ task_id with
   | some _ => [Step.splitter]
   | none => []) ++
  [Step.unlock]

/-- The steps of `GetNextTask`: the lock and `queue_.empty()`; on an empty queue
the wait, on which the thread blocks; otherwise `queue_.front()`,
`split_map_.find`, and `OneTaskAssigned` followed by `queue_.pop()` when none is
pending, or `queue_.pop()` alone for a task that is not split. -/
def Locking.GetNextTask (q : SplittingFIFOTaskQueue) : List Step :=
  match q.queue_ with
  | [] => [Step.lock, Step.queue_, Step.wait]
  | task_id :: _ =>
    [Step.lock, Step.queue_, Step.queue_, Step.split_map_] ++
    (match find q.split_map_ task_id with
     | some ts => [Step.splitter] ++ (if (OneTaskAssigned ts).2 then [Step.queue_] else [])
     | none => [Step.queue_]) ++
    [Step.unlock]

/-- The steps of `GetTaskById`: `split_map_.find` comes first; for a split task the
lock is taken inside the branch, around the call of `GetTask`; for any other task
no lock is taken. -/
def Locking.GetTaskById (q : SplittingFIFOTaskQueue) (task_id : Nat) : List Step :=
  [Step.split_map_] ++
  (match find q.split_map_ task_id with
   | some _ => [Step.lock, Step.splitter, Step.unlock]
   | none => [])

end flame.exe

namespace flame.io.xml

/-! # Definitions: the population file

A shallow embedding of `flame2/io/io_xml_pop.cpp`. The XML reader is embedded as
the sequence of nodes it delivers, the XML writer as the sequence of calls made
on it, and the memory manager as the columns it holds. -/

/-! ## The model -/

/-- An `XVariable` of an agent: the strings `getType()` and `getName()` return. -/
structure XVariable where
  type : String
  name : String
  deriving DecidableEq, Repr

/-- An `XMachine` (an agent): its name and the vector `getVariables()` returns. -/
structure XMachine where
  name : String
  variables_ : List XVariable
  deriving DecidableEq, Repr

/-- An `XModel`: the vector `getAgents()` returns. -/
structure XModel where
  agents : List XMachine
  deriving DecidableEq, Repr

/-! ## The XML writer -/

/-- A value handed to the writer with a format: an `int`, a `double`, embedded as
the 64 bits that represent it, or the characters of a string. -/
inductive Value
  | int (v : Int)
  | double (v : Nat)
  | string (v : String)
  deriving DecidableEq, Repr

/-- A call on the `xmlTextWriter` of libxml2: `xmlTextWriterStartElement`,
`xmlTextWriterWriteFormatElement` with its format and its argument,
`xmlTextWriterWriteAttribute`, `xmlTextWriterEndElement` and
`xmlTextWriterEndDocument`. A writer is embedded as the list of the calls made on
it; every call is taken to return a non-negative code, so that no
`flame_io_exception` is raised. -/
inductive Write
  | StartElement (name : String)
  | WriteFormatElement (name format : String) (value : Value)
  | WriteAttribute (name value : String)
  | EndElement
  | EndDocument
  deriving DecidableEq, Repr

/-- The method `writeXMLEndTag(writer)`. -/
def writeXMLEndTag (writer : List Write) : List Write :=
  writer ++ [Write.EndElement]

/-- The method `writeXMLTag(writer, name)`. -/
def writeXMLTag (writer : List Write) (name : String) : List Write :=
  writer ++ [Write.StartElement name]

/-- The method `writeXMLTag(writer, name, value)` for an `int`. -/
def writeXMLTag_int (writer : List Write) (name : String) (value : Int) : List Write :=
  writer ++ [Write.WriteFormatElement name "%d" (Value.int value)]

/-- The method `writeXMLTag(writer, name, value)` for a `double`. -/
def writeXMLTag_double (writer : List Write) (name : String) (value : Nat) : List Write :=
  writer ++ [Write.WriteFormatElement name "%f" (Value.double value)]

/-- The method `writeXMLTag(writer, name, value)` for a string. -/
def writeXMLTag_string (writer : List Write) (name : String) (value : String) :
    List Write :=
  writer ++ [Write.WriteFormatElement name "%s" (Value.string value)]

/-- The method `writeXMLTagAttribute`. -/
def writeXMLTagAttribute (writer : List Write) (name value : String) : List Write :=
  writer ++ [Write.WriteAttribute name value]

/-- The method `writeXMLTagAndAttribute` with one attribute. -/
def writeXMLTagAndAttribute (writer : List Write) (tag name value : String) :
    List Write :=
  writeXMLTagAttribute (writeXMLTag writer tag) name value

/-! ## The data schema -/

/-- The method `createDataSchemaAgentVar`. -/
def createDataSchemaAgentVar (writer : List Write) (var : XVariable) : List Write :=
  let writer := writeXMLTagAndAttribute writer "xs:element" "name" var.name
  let type :=
    if var.type = "int" then "xs:integer"
    else if var.type = "double" then "xs:double"
    else "xs:string"
  let writer := writeXMLTagAttribute writer "type" type
  writeXMLEndTag writer

/-! ## The model: lookups -/

/-- The method `XModel::getAgent`: the first agent with the name, `none` standing
for the null pointer. The agents are not changed while a population is read or
written, so a pointer to an agent is embedded as the agent. -/
def XModel.getAgent (model : XModel) (name : String) : Option XMachine :=
  model.agents.find? (fun a => decide (name = a.name))

/-- Modelled from the spec: `XMachine::getVariable(name)`, defined in `xmachine.cpp`,
which is not among the sources. In the spec an agent has a set of variables and
the population input fails on unknown variable names; the call returns the
variable of the agent with the name or, as `XModel::getAgent` does for agents,
the null pointer when there is none. -/
def XMachine.getVariable (agent : XMachine) (name : String) : Option XVariable :=
  agent.variables_.find? (fun v => decide (name = v.name))

/-! ## The memory manager -/

/-- A vector of the memory manager, by the type of its elements; `XModel` allows
the data types `int`, `float`, `double` and `char`. A `double` or a `float` is
embedded as the bits that represent it, a `char` as its code. -/
inductive Column
  | ints (v : List Int)
  | doubles (v : List Nat)
  | floats (v : List Nat)
  | chars (v : List Nat)
  deriving DecidableEq, Repr

/-- Modelled from the spec: the memory manager, `flame2/mem/memory_manager.hpp` not
being among the sources. In the spec the agent memory is columnar storage with
one column per agent and variable; `vectors agent var` is the column registered
for the variable `var` of the agent `agent`, `none` when none is registered. -/
structure MemoryManager where
  vectors : String → String → Option Column

/-- Modelled from the spec: `MemoryManager::GetVector<int>(agent, var)`, which
returns a pointer to the column, a `std::vector<int>`; `none` stands for the
exception the memory manager raises when no column of `int` is registered for
the variable. -/
def GetVector_int (mm : MemoryManager) (agent var : String) : Option (List Int) :=
  match mm.vectors agent var with
  | some (Column.ints v) => some v
  | _ => none

/-- Modelled from the spec: `MemoryManager::GetVector<double>(agent, var)`, as
`GetVector_int`. -/
def GetVector_double (mm : MemoryManager) (agent var : String) : Option (List Nat) :=
  match mm.vectors agent var with
  | some (Column.doubles v) => some v
  | _ => none

/-- The memory manager after a column has been written through the pointer
`GetVector` returned. -/
def MemoryManager.set (mm : MemoryManager) (agent var : String) (c : Column) :
    MemoryManager :=
  { vectors := fun a v => if a = agent ∧ v = var then some c else mm.vectors a v }

/-! ## Reading a population -/

/-- The exceptions of `flame2/exceptions/io.hpp` the reader raises, with their
messages, and the exception of the memory manager. -/
inductive Exception
  | flame_io_exception (what : String)
  | inaccessable_file (what : String)
  | unparseable_file (what : String)
  | invalid_pop_file (what : String)
  | flame_mem_exception
  deriving DecidableEq, Repr

/-- The casts `boost::lexical_cast<int>` and `boost::lexical_cast<double>` of a
string, `none` standing for `boost::bad_lexical_cast`. -/
structure lexical_cast where
  int : String → Option Int
  double : String → Option Nat

/-- The call `tags->back()`. The methods call it while an element is open; the
empty string for an empty vector only makes the function total. -/
def back (tags : List String) : String :=
  tags.getLast?.getD ""

/-- The method `processStartNode`: the tags after the call and the exception
raised. -/
def processStartNode (tags : List String) (name : String) :
    List String × Option Exception :=
  if (tags.length = 0 ∧ name = "states")
      ∨ (tags.length = 1 ∧ (name = "itno" ∨ name = "environment" ∨ name = "xagent"))
      ∨ tags.length = 2 then
    (tags ++ [name], none)
  else
    (tags, some (Exception.unparseable_file ("Unknown xml tag: ".append name)))

/-- The method `processTextVariableCast<int>`: the memory manager after the call,
and the code returned or the exception raised. -/
def processTextVariableCast_int (lc : lexical_cast) (value : String) (tags : List String)
    (agent : XMachine) (mm : MemoryManager) : MemoryManager × Except Exception Int :=
  match lc.int value with
  | none =>
    (mm, Except.error (Exception.invalid_pop_file
      ((("Variable could not be cast to correct type: ".append value).append " in ").append
        (back tags))))
  | some typeValue =>
    match GetVector_int mm agent.name (back tags) with
    | none => (mm, Except.error Exception.flame_mem_exception)
    | some vec => (mm.set agent.name (back tags) (Column.ints (vec ++ [typeValue])), Except.ok 0)

/-- The method `processTextVariableCast<double>`. -/
def processTextVariableCast_double (lc : lexical_cast) (value : String)
    (tags : List String) (agent : XMachine) (mm : MemoryManager) :
    MemoryManager × Except Exception Int :=
  match lc.double value with
  | none =>
    (mm, Except.error (Exception.invalid_pop_file
      ((("Variable could not be cast to correct type: ".append value).append " in ").append
        (back tags))))
  | some typeValue =>
    match GetVector_double mm agent.name (back tags) with
    | none => (mm, Except.error Exception.flame_mem_exception)
    | some vec =>
      (mm.set agent.name (back tags) (Column.doubles (vec ++ [typeValue])), Except.ok 0)

/-- The method `processTextVariable`, called with a pointer to an agent that is not
null. -/
def processTextVariable (lc : lexical_cast) (value : String) (tags : List String)
    (agent : XMachine) (mm : MemoryManager) : MemoryManager × Except Exception Int :=
  match agent.getVariable (back tags) with
  | some var =>
    if var.type = "int" then
      match processTextVariableCast_int lc value tags agent mm with
      | (mm1, Except.ok rc) => if rc ≠ 0 then (mm1, Except.ok rc) else (mm1, Except.ok 0)
      | (mm1, Except.error e) => (mm1, Except.error e)
    else if var.type = "double" then
      match processTextVariableCast_double lc value tags agent mm with
      | (mm1, Except.ok rc) => if rc ≠ 0 then (mm1, Except.ok rc) else (mm1, Except.ok 0)
      | (mm1, Except.error e) => (mm1, Except.error e)
    else (mm, Except.ok 0)
  | none =>
    (mm, Except.error (Exception.invalid_pop_file
      ("Agent variable is not recognised: ".append (back tags))))

/-! ## Models of the examples -/

/-- An agent `A` with the variables `x` of type `int`, `y` of type `double` and
`speed` of type `float`. -/
def agentA : XMachine :=
  { name := "A", variables_ := [⟨"int", "x"⟩, ⟨"double", "y"⟩, ⟨"float", "speed"⟩] }

/-- The model whose only agent is `agentA`. -/
def modelA : XModel :=
  { agents := [agentA] }

/-- A memory manager with no row: one column per variable of `agentA`. -/
def memoryA : MemoryManager :=
  { vectors := fun a v =>
      if a = "A" ∧ v = "x" then some (Column.ints [])
      else if a = "A" ∧ v = "y" then some (Column.doubles [])
      else if a = "A" ∧ v = "speed" then some (Column.floats [])
      else none }

/-- Casts that know the numerals of the examples: "1" and "2" as `int`, "0.5" as
`double`, and no other string. -/
def casts : lexical_cast :=
  { int := fun s => if s = "1" then some 1 else if s = "2" then some 2 else none,
    double := fun s => if s = "0.5" then some 0x3FE0000000000000 else none }

/-! ## Reading a population: the nodes -/

/-- The method `processTextAgent`; `value` is the string `xmlTextReaderConstValue`
returns for the node. The result is the pointer to the current agent and the
memory manager after the call, and the code returned or the exception raised. -/
def processTextAgent (lc : lexical_cast) (tags : List String) (value : String)
    (agent : Option XMachine) (model : XModel) (mm : MemoryManager) :
    (Option XMachine × MemoryManager) × Except Exception Int :=
  if back tags = "name" then
    match model.getAgent value with
    | none =>
      ((none, mm), Except.error (Exception.invalid_pop_file
        ("Agent type is not recognised: ".append value)))
    | some a => ((some a, mm), Except.ok 0)
  else
    match agent with
    | some a =>
      let r := processTextVariable lc value tags a mm
      ((agent, r.1), r.2)
    | none => ((agent, mm), Except.ok 0)

/-- The method `processEndNode`: the tags and the pointer to the current agent
after the call, and the code returned. -/
def processEndNode (tags : List String) (name : String) (agent : Option XMachine) :
    (List String × Option XMachine) × Int :=
  if back tags = name then
    ((tags.dropLast, if name = "xagent" then none else agent), 0)
  else
    ((tags, agent), 9)

/-- A node the `xmlTextReader` of libxml2 delivers: the results of
`xmlTextReaderNodeType`, of `xmlTextReaderConstName` (`none` for the null pointer)
and of `xmlTextReaderConstValue`. -/
structure Node where
  nodeType : Int
  name : Option String
  value : String
  deriving DecidableEq, Repr

/-- What `readPop` hands to `processNode` through pointers: the open tags, the
current agent, and the memory manager. -/
structure Reader where
  tags : List String
  agent : Option XMachine
  memory : MemoryManager

/-- The method `processNode`. -/
def processNode (lc : lexical_cast) (node : Node) (model : XModel) (st : Reader) :
    Reader × Except Exception Int :=
  let name := node.name.getD "--"
  if node.nodeType = 1 then
    let r := processStartNode st.tags name
    match r.2 with
    | none => ({ st with tags := r.1 }, Except.ok 0)
    | some e => ({ st with tags := r.1 }, Except.error e)
  else if node.nodeType = 3 then
    if st.tags.length = 3 ∧ st.tags[1]? = some "xagent" then
      let r := processTextAgent lc st.tags node.value st.agent model st.memory
      ({ st with agent := r.1.1, memory := r.1.2 }, r.2)
    else (st, Except.ok 0)
  else if node.nodeType = 15 then
    let r := processEndNode st.tags name st.agent
    ({ st with tags := r.1.1, agent := r.1.2 }, Except.ok r.2)
  else (st, Except.ok 0)

/-- The loop of `readPop`: `processNode` on every node, up to the first call that
raises; the code a call returns is not looked at. -/
def readNodes (lc : lexical_cast) (model : XModel) :
    List Node → Reader → Reader × Option Exception
  | [], st => (st, none)
  | node :: rest, st =>
    match processNode lc node model st with
    | (st1, Except.ok _) => readNodes lc model rest st1
    | (st1, Except.error e) => (st1, some e)

/-- The type `agentVarMap`, a `std::map` from agent names to vectors of variable
names, listed by its entries in the order of the keys. -/
abbrev agentVarMap : Type := List (String × List String)

/-- The order of the characters of two strings that `std::less<std::string>`, the
order of the keys of the map, compares by: the first character in which they differ
decides, and the beginning of a string comes before the string. -/
def less : List Char → List Char → Bool
  | [], [] => false
  | [], _ :: _ => true
  | _ :: _, [] => false
  | a :: as, b :: bs =>
    if a.toNat < b.toNat then true
    else if b.toNat < a.toNat then false
    else less as bs

/-- The call `agentVarMap_.insert(std::make_pair(name, std::vector<std::string>()))`:
the map is left as it is when it holds the key, and the entry is added at its
place in the order of the keys otherwise. -/
def agentVarMap.insert (m : agentVarMap) (name : String) : agentVarMap :=
  if name ∈ m.map Prod.fst then m
  else m.takeWhile (fun e => less e.1.data name.data) ++ [(name, [])]
    ++ m.dropWhile (fun e => less e.1.data name.data)

/-- The call `(*avm.first).second.push_back(var)` on the entry with the key `name`. -/
def agentVarMap.push_back (m : agentVarMap) (name var : String) : agentVarMap :=
  m.map (fun e => if e.1 = name then (e.1, e.2 ++ [var]) else e)

/-- The members of `IOXMLPop`. -/
structure IOXMLPop where
  iteration_ : Nat
  xml_pop_path_is_set : Bool
  xml_pop_path : String
  agentVarMap_ : agentVarMap
  deriving DecidableEq, Repr

/-- The constructor `IOXMLPop()`. -/
def IOXMLPop.IOXMLPop : IOXMLPop :=
  { iteration_ := 0, xml_pop_path_is_set := false, xml_pop_path := "",
    agentVarMap_ := [] }

/-- The method `saveAgentVariableData`. -/
def saveAgentVariableData (pop : IOXMLPop) (model : XModel) : IOXMLPop :=
  { pop with agentVarMap_ :=
      model.agents.foldl (fun m agent =>
        agent.variables_.foldl (fun m var => agentVarMap.push_back m agent.name var.name)
          (agentVarMap.insert m agent.name)) [] }

/-- A child element of an `xagent` element, `<tag>text</tag>`. -/
structure Element where
  tag : String
  text : String
  deriving DecidableEq, Repr

/-- A population document of the shape the writer produces: the root `states` with
the element `itno` and a sequence of `xagent` elements, each a sequence of child
elements. -/
structure Document where
  itno : String
  xagents : List (List Element)
  deriving DecidableEq, Repr

/-- The node of the start of an element. -/
def startNode (name : String) : Node :=
  { nodeType := 1, name := some name, value := "" }

/-- The node of a text. -/
def textNode (value : String) : Node :=
  { nodeType := 3, name := some "#text", value := value }

/-- The node of the end of an element. -/
def endNode (name : String) : Node :=
  { nodeType := 15, name := some name, value := "" }

/-- The macro `IS_BLANK_CH` of libxml2: a space, a tab, a line feed or a carriage
return. -/
def IS_BLANK_CH (c : Char) : Bool :=
  c.toNat = 0x20 || (0x9 ≤ c.toNat && c.toNat ≤ 0xa) || c.toNat = 0xd

/-- The function `xmlIsBlankNode` of libxml2 on a text node with the given content:
every character of the content is blank. -/
def xmlIsBlankNode (content : String) : Bool :=
  content.data.all IS_BLANK_CH

/-- The node of a text of blank characters only: `xmlTextReaderNodeType` returns 14
for it, not 3. -/
def blankNode (value : String) : Node :=
  { nodeType := 14, name := some "#text", value := value }

/-- The nodes the reader delivers for `<tag>text</tag>`: no text node for an empty
text, a node of type 14 for a text of blank characters only, and a node of type 3
for any other text. -/
def Element.nodes (e : Element) : List Node :=
  [startNode e.tag] ++
    (if e.text = "" then []
     else if xmlIsBlankNode e.text = true then [blankNode e.text]
     else [textNode e.text]) ++ [endNode e.tag]

/-- The nodes of an `xagent` element. -/
def xagentNodes (x : List Element) : List Node :=
  [startNode "xagent"] ++ x.flatMap Element.nodes ++ [endNode "xagent"]

/-- The nodes the reader delivers for a document. The white space between the
elements is left out: its nodes have type 14, for which `processNode` has no
case. -/
def Document.nodes (d : Document) : List Node :=
  [startNode "states"] ++ Element.nodes ⟨"itno", d.itno⟩ ++ d.xagents.flatMap xagentNodes
    ++ [endNode "states"]

/-- The number of elements of a vector of the memory manager. -/
def Column.size : Column → Nat
  | Column.ints v => v.length
  | Column.doubles v => v.length
  | Column.floats v => v.length
  | Column.chars v => v.length

/-- Modelled from the spec: `VectorWrapperBase::GetDataType()->name()`,
`flame2/mem/vector_wrapper.hpp` not being among the sources: the name of the type
of the elements of the column, which `writeAgents` compares with "i" for `int` and
with "d" for `double`. -/
def GetDataType (vw : Column) : String :=
  match vw with
  | Column.ints _ => "i"
  | Column.doubles _ => "d"
  | Column.floats _ => "f"
  | Column.chars _ => "c"

/-- Modelled from the spec: `VectorWrapperBase::GetRawPtr`, not among the sources: a
pointer to the first element of the column, which `writeAgents` compares with NULL
to learn whether there is data. A pointer into a column is embedded as the index
of the element it points to, `none` standing for NULL. -/
def GetRawPtr (vw : Column) : Option Nat :=
  if vw.size = 0 then none else some 0

/-- Modelled from the spec: `VectorWrapperBase::StepRawPtr`, not among the sources:
the pointer to the element after the one `p` points to, NULL after the last
element. -/
def StepRawPtr (vw : Column) (p : Nat) : Option Nat :=
  if p + 1 < vw.size then some (p + 1) else none

/-- Modelled from the spec: `MemoryManager::GetVectorWrapper(agent, var)`, not among
the sources: the column of the variable, `none` standing for the exception the
memory manager raises when there is none. -/
def GetVectorWrapper (mm : MemoryManager) (agent var : String) : Option Column :=
  mm.vectors agent var

/-- The value `*reinterpret_cast<int*>(p)` for a pointer into a column of `int`. -/
def readInt (vw : Column) (p : Nat) : Option Int :=
  match vw with
  | Column.ints v => v[p]?
  | _ => none

/-- The value `*reinterpret_cast<double*>(p)` for a pointer into a column of
`double`. -/
def readDouble (vw : Column) (p : Nat) : Option Nat :=
  match vw with
  | Column.doubles v => v[p]?
  | _ => none

/-- The struct `VarVecData`: the name of a variable, the pointer to the value to
write next, and the column (the pointer `vw`; the columns are not changed while
they are written). -/
structure VarVecData where
  varName : String
  p : Option Nat
  vw : Column
  deriving DecidableEq, Repr

/-- The ways in which `writeAgents` fails to return: an exception, the use of a
pointer that is NULL or points to no value, and the end of the fuel of the
`while` loop. -/
inductive Failure
  | exception (e : Exception)
  | nullDereference
  | outOfFuel
  deriving DecidableEq, Repr

/-- The first `for` loop of `writeAgents` over the variables of an agent: `dataMap`
and `stillData` after the loop. -/
def writeAgents.dataMap (mm : MemoryManager) (agent : String) :
    List String → List VarVecData → Bool → Except Failure (List VarVecData × Bool)
  | [], dataMap, stillData => Except.ok (dataMap, stillData)
  | sit :: rest, dataMap, stillData =>
    match GetVectorWrapper mm agent sit with
    | none => Except.error (Failure.exception Exception.flame_mem_exception)
    | some vw =>
      writeAgents.dataMap mm agent rest (dataMap ++ [⟨sit, GetRawPtr vw, vw⟩])
        (if GetRawPtr vw = none then false else stillData)

/-- The `for` loop over `dataMap` in the body of the `while` loop: the entries
already stepped, the writer and `stillData` after the loop. -/
def writeAgents.row :
    List VarVecData → List VarVecData → List Write → Bool →
      Except Failure (List VarVecData × List Write × Bool)
  | [], done, writer, stillData => Except.ok (done, writer, stillData)
  | d :: rest, done, writer, stillData =>
    match d.p with
    | none => Except.error Failure.nullDereference
    | some p =>
      match (if GetDataType d.vw = "i" then
              (readInt d.vw p).map (fun value => writeXMLTag_int writer d.varName value)
            else some writer) with
      | none => Except.error Failure.nullDereference
      | some writer1 =>
        match (if GetDataType d.vw = "d" then
                (readDouble d.vw p).map
                  (fun value => writeXMLTag_double writer1 d.varName value)
              else some writer1) with
        | none => Except.error Failure.nullDereference
        | some writer2 =>
          let p1 := StepRawPtr d.vw p
          writeAgents.row rest (done ++ [{ d with p := p1 }]) writer2
            (if p1 = none ∧ rest = [] then false else stillData)

/-- The `while` loop of `writeAgents`, entered with `stillData` true; it returns
within `fuel` passes or fails with `outOfFuel`. -/
def writeAgents.rows (agent : String) :
    Nat → List VarVecData → List Write → Except Failure (List Write)
  | 0, _, _ => Except.error Failure.outOfFuel
  | fuel + 1, dataMap, writer =>
    let writer := writeXMLTag writer "xagent"
    let writer := writeXMLTag_string writer "name" agent
    match writeAgents.row dataMap [] writer true with
    | Except.error f => Except.error f
    | Except.ok (dataMap1, writer1, stillData) =>
      let writer2 := writeXMLEndTag writer1
      if stillData then writeAgents.rows agent fuel dataMap1 writer2
      else Except.ok writer2

/-- The body of the loop of `writeAgents` over the agent types, for one entry of
`agentVarMap_`. -/
def writeAgents.agent (fuel : Nat) (mm : MemoryManager) (it : String × List String)
    (writer : List Write) : Except Failure (List Write) :=
  match writeAgents.dataMap mm it.1 it.2 [] true with
  | Except.error f => Except.error f
  | Except.ok (dataMap, stillData) =>
    if stillData then writeAgents.rows it.1 fuel dataMap writer
    else Except.ok writer

/-- The loop of `writeAgents` over the entries of `agentVarMap_`. -/
def writeAgents.agents (fuel : Nat) (mm : MemoryManager) :
    List (String × List String) → List Write → Except Failure (List Write)
  | [], writer => Except.ok writer
  | it :: rest, writer =>
    match writeAgents.agent fuel mm it writer with
    | Except.error f => Except.error f
    | Except.ok writer1 => writeAgents.agents fuel mm rest writer1

/-- The method `writeAgents`; each `while` loop is given `fuel` passes. -/
def writeAgents (fuel : Nat) (pop : IOXMLPop) (mm : MemoryManager) (writer : List Write) :
    Except Failure (List Write) :=
  writeAgents.agents fuel mm pop.agentVarMap_ writer

/-! ## Populations of the examples -/

/-- A memory manager with one row for `agentA`. -/
def memoryRow : MemoryManager :=
  { vectors := fun a v =>
      if a = "A" ∧ v = "x" then some (Column.ints [3])
      else if a = "A" ∧ v = "y" then some (Column.doubles [0x3FE0000000000000])
      else if a = "A" ∧ v = "speed" then some (Column.floats [0x3F000000])
      else none }

/-- An agent `B` with the variables `u` of type `int` and `w` of type `double`. -/
def agentB : XMachine :=
  { name := "B", variables_ := [⟨"int", "u"⟩, ⟨"double", "w"⟩] }

/-- A memory manager with two rows for `agentB`. -/
def memoryB : MemoryManager :=
  { vectors := fun a v =>
      if a = "B" ∧ v = "u" then some (Column.ints [3, 4])
      else if a = "B" ∧ v = "w" then some (Column.doubles [0x3FE0000000000000, 0])
      else none }

/-! ## The elements `writeAgents` writes -/

/-- The column the memory manager holds for a variable of an agent; the empty
column of `int` when it holds none. -/
def columnOf (mm : MemoryManager) (agent var : String) : Column :=
  (mm.vectors agent var).getD (Column.ints [])

/-- The child element of an `xagent` element for a variable and a row: the value of
the row in the column of the variable, written with `%d` for a column of `int` and
with `%f` for a column of `double`; no element for a column of another type. -/
def childElement (mm : MemoryManager) (agent : String) (i : Nat) (var : String) :
    Option Write :=
  match columnOf mm agent var with
  | Column.ints v => (v[i]?).map (fun x => Write.WriteFormatElement var "%d" (Value.int x))
  | Column.doubles v =>
    (v[i]?).map (fun x => Write.WriteFormatElement var "%f" (Value.double x))
  | _ => none

/-- The `xagent` element of a row of an agent: the element `name` holding the name of
the agent, followed by the child elements of the variables in their order. -/
def xagentElement (mm : MemoryManager) (agent : String) (vars : List String) (i : Nat) :
    List Write :=
  [Write.StartElement "xagent", Write.WriteFormatElement "name" "%s" (Value.string agent)]
    ++ vars.filterMap (childElement mm agent i) ++ [Write.EndElement]

/-- The entries of `dataMap` for the variables of an agent, all with the pointer
`p`. -/
def cursors (mm : MemoryManager) (agent : String) (vars : List String) (p : Option Nat) :
    List VarVecData :=
  vars.map (fun var => ⟨var, p, columnOf mm agent var⟩)

/-! ## The variables `saveAgentVariableData` stores -/

/-- The entry of `agentVarMap_` for an agent. -/
def entryOf (agent : XMachine) : String × List String :=
  (agent.name, agent.variables_.map XVariable.name)

end flame.io.xml

namespace flame.io

/-! # Definitions: conditions

A shallow embedding of `src/io/xcondition.cpp`. -/

/-! ## `XCondition` -/

/-- The data members of an `XCondition` apart from the pointers `lhsCondition` and
`rhsCondition`. The header is not among the sources; the members are those the
constructor and the methods name, an `int` embedded as `Int` and a `double` as
its bits. -/
structure Members where
  isNot : Bool
  isTime : Bool
  isValues : Bool
  isConditions : Bool
  lhsIsAgentVariable : Bool
  rhsIsAgentVariable : Bool
  lhsIsMessageVariable : Bool
  rhsIsMessageVariable : Bool
  lhsIsValue : Bool
  rhsIsValue : Bool
  lhsIsCondition : Bool
  rhsIsCondition : Bool
  timePeriod : String
  timePhaseVariable : String
  timeDurationString : String
  timePhaseValue : Int
  timePhaseIsVariable : Bool
  timeDuration : Int
  foundTimeDuration : Bool
  tempValue : String
  lhs : String
  op : String
  rhs : String
  lhsDouble : Nat
  rhsDouble : Nat
  deriving DecidableEq, Repr

/-- An `XCondition*`: the null pointer, or an object with its data members and its
pointers `lhsCondition` and `rhsCondition`. A condition owns its nested conditions
(the destructor deletes both), so the objects reached from a condition form a tree. -/
inductive XCondition
  | null
  | object (members : Members) (lhsCondition rhsCondition : XCondition)
  deriving DecidableEq, Repr

/-- The values the constructor `XCondition::XCondition()` gives the data members.
It does not initialise `timePhaseValue` and `timePhaseIsVariable`: the values
these two members hold after it are parameters. -/
def Members.initial (timePhaseValue : Int) (timePhaseIsVariable : Bool) : Members :=
  { isNot := false, isTime := false, isValues := false, isConditions := false,
    lhsIsAgentVariable := false, rhsIsAgentVariable := false,
    lhsIsMessageVariable := false, rhsIsMessageVariable := false,
    lhsIsValue := false, rhsIsValue := false,
    lhsIsCondition := false, rhsIsCondition := false,
    timePeriod := "", timePhaseVariable := "", timeDurationString := "",
    timePhaseValue := timePhaseValue, timePhaseIsVariable := timePhaseIsVariable,
    timeDuration := 0, foundTimeDuration := false, tempValue := "",
    lhs := "", op := "", rhs := "", lhsDouble := 0, rhsDouble := 0 }

/-- The constructor `XCondition::XCondition()`: the data members as above and both
pointers null. -/
def XCondition.XCondition (timePhaseValue : Int) (timePhaseIsVariable : Bool) :
    flame.io.XCondition :=
  flame.io.XCondition.object (Members.initial timePhaseValue timePhaseIsVariable)
    flame.io.XCondition.null flame.io.XCondition.null

/-- The call `boost::starts_with(input, test)`. -/
def starts_with (input test : String) : Bool :=
  test.data.isPrefixOf input.data

/-- The call `s.erase(pos, len)` of `std::string`, for `pos` within the string. -/
def erase (s : String) (pos len : Nat) : String :=
  String.mk (s.data.take pos ++ s.data.drop (pos + len))

/-- A call of a method of `XCondition` in progress: the data members of the
object, the lines written to `stderr` so far and the local variable `errors`.
`errors` is an `int`; it counts the lines written, far fewer than `2^31`, and is
embedded without wrap-around. -/
structure Run where
  self : Members
  stderr : List String
  errors : Int
  deriving DecidableEq, Repr

/-- A call `std::fprintf(stderr, ...)` followed by `errors++`. -/
def Run.error (st : Run) (line : String) : Run :=
  { st with stderr := st.stderr ++ [line], errors := st.errors + 1 }

/-- Lines 121-134 of `processSymbols`: the phase of a time condition. -/
def processSymbols.timePhase (lc : xml.lexical_cast) (st : Run) : Run :=
  if starts_with st.self.timePhaseVariable "a." then
    { st with self := { st.self with
        timePhaseVariable := erase st.self.timePhaseVariable 0 2,
        timePhaseIsVariable := true } }
  else
    match lc.int st.self.timePhaseVariable with
    | some v =>
      { st with self := { st.self with timePhaseIsVariable := false, timePhaseValue := v } }
    | none =>
      Run.error { st with self := { st.self with timePhaseIsVariable := false } }
        ("Error: Cannot cast time phase to an integer: " ++ st.self.timePhaseVariable
          ++ "\n")

/-- Lines 135-145 of `processSymbols`: the duration of a time condition. -/
def processSymbols.timeDuration (lc : xml.lexical_cast) (st : Run) : Run :=
  if st.self.foundTimeDuration then
    match lc.int st.self.timeDurationString with
    | some v => { st with self := { st.self with timeDuration := v } }
    | none =>
      Run.error st
        ("Error: Cannot cast time duration to an integer: " ++ st.self.timeDurationString
          ++ "\n")
  else st

/-- Lines 121-145 of `processSymbols`: the branch of a time condition. -/
def processSymbols.time (lc : xml.lexical_cast) (st : Run) : Run :=
  processSymbols.timeDuration lc (processSymbols.timePhase lc st)

/-- Lines 150-168 of `processSymbols`: the left side of a condition on values. -/
def processSymbols.lhs (lc : xml.lexical_cast) (st : Run) : Run :=
  if starts_with st.self.lhs "a." then
    { st with self := { st.self with
        lhsIsAgentVariable := true, lhsIsValue := false, lhs := erase st.self.lhs 0 2 } }
  else if starts_with st.self.lhs "m." then
    { st with self := { st.self with
        lhsIsMessageVariable := true, lhsIsValue := false, lhs := erase st.self.lhs 0 2 } }
  else
    match lc.double st.self.lhs with
    | some d => { st with self := { st.self with lhsIsValue := true, lhsDouble := d } }
    | none =>
      Run.error { st with self := { st.self with lhsIsValue := true } }
        ("Error: Condition/filter value not variable or number: " ++ st.self.lhs ++ "\n")

/-- Lines 170-188 of `processSymbols`: the right side of a condition on values. -/
def processSymbols.rhs (lc : xml.lexical_cast) (st : Run) : Run :=
  if starts_with st.self.rhs "a." then
    { st with self := { st.self with
        rhsIsAgentVariable := true, rhsIsValue := false, rhs := erase st.self.rhs 0 2 } }
  else if starts_with st.self.rhs "m." then
    { st with self := { st.self with
        rhsIsMessageVariable := true, rhsIsValue := false, rhs := erase st.self.rhs 0 2 } }
  else
    match lc.double st.self.rhs with
    | some d => { st with self := { st.self with rhsIsValue := true, rhsDouble := d } }
    | none =>
      Run.error { st with self := { st.self with rhsIsValue := true } }
        ("Error: Condition/filter value not variable or number: " ++ st.self.rhs ++ "\n")

/-- Lines 190-207 of `processSymbols`: the operator of a condition on values. -/
def processSymbols.valuesOp (st : Run) : Run :=
  if st.self.op = "EQ" then { st with self := { st.self with op := "==" } }
  else if st.self.op = "NEQ" then { st with self := { st.self with op := "!=" } }
  else if st.self.op = "LEQ" then { st with self := { st.self with op := "<=" } }
  else if st.self.op = "GEQ" then { st with self := { st.self with op := ">=" } }
  else if st.self.op = "LT" then { st with self := { st.self with op := "<" } }
  else if st.self.op = "GT" then { st with self := { st.self with op := ">" } }
  else
    Run.error st
      ("Error: Condition/filter op value not recognised: " ++ st.self.op ++ "\n")

/-- Lines 215-224 of `processSymbols`: the operator of a condition on nested
conditions. -/
def processSymbols.conditionsOp (st : Run) : Run :=
  if st.self.op = "AND" then { st with self := { st.self with op := "&&" } }
  else if st.self.op = "OR" then { st with self := { st.self with op := "||" } }
  else
    Run.error st
      ("Error: Condition/filter op value not recognised: " ++ st.self.op ++ "\n")

/-- The method `XCondition::processSymbols`, called through a pointer: the
condition after the call, the lines written to `stderr` and the value returned.
A call through a null pointer is a fault. -/
def processSymbols (lc : xml.lexical_cast) :
    XCondition → Except flame.model.Fault (XCondition × List String × Int)
  | XCondition.null => Except.error flame.model.Fault.nullDereference
  | XCondition.object m lhsCondition rhsCondition =>
    if m.isTime then
      let st := processSymbols.time lc { self := m, stderr := [], errors := 0 }
      Except.ok (XCondition.object st.self lhsCondition rhsCondition, st.stderr, st.errors)
    else if m.lhsIsValue && m.rhsIsValue then
      let st := processSymbols.valuesOp (processSymbols.rhs lc (processSymbols.lhs lc
        { self := { m with isValues := true }, stderr := [], errors := 0 }))
      Except.ok (XCondition.object st.self lhsCondition rhsCondition, st.stderr, st.errors)
    else if m.lhsIsCondition && m.rhsIsCondition then
      match processSymbols lc lhsCondition with
      | Except.error e => Except.error e
      | Except.ok (lhsCondition1, stderr1, rc1) =>
        match processSymbols lc rhsCondition with
        | Except.error e => Except.error e
        | Except.ok (rhsCondition1, stderr2, rc2) =>
          let st := processSymbols.conditionsOp
            { self := { m with isConditions := true }, stderr := stderr1 ++ stderr2,
              errors := 0 + rc1 + rc2 }
          Except.ok (XCondition.object st.self lhsCondition1 rhsCondition1, st.stderr,
            st.errors)
    else
      Except.ok (XCondition.object m lhsCondition rhsCondition,
        ["Error: lhs and rhs are not both values or both nested conditions\n"], 0 + 1)

/-- A call `std::fprintf(stderr, ...)` followed by `errors++` in `validate`, which
leaves the object as it is: the lines written and the local variable `errors`. -/
def validate.error (st : List String × Int) (line : String) : List String × Int :=
  (st.1 ++ [line], st.2 + 1)

/-- Lines 241-252 of `validate`: the period of a time condition. -/
def validate.timePeriod (timeUnits : List String) (m : Members) : List String × Int :=
  let validPeriod := timeUnits.foldl
    (fun validPeriod name => if m.timePeriod = name then true else validPeriod) false
  if !validPeriod then
    validate.error ([], 0)
      ("Error: time period is not a valid time unit: '" ++ m.timePeriod ++ "',\n")
  else ([], 0)

/-- Lines 253-261 of `validate`: the phase of a time condition. -/
def validate.timePhase (agent : String → Bool) (m : Members) (st : List String × Int) :
    List String × Int :=
  if m.timePhaseIsVariable then
    if !agent m.timePhaseVariable then
      validate.error st
        ("Error: time phase variable is not a valid agent variable: '"
          ++ m.timePhaseVariable ++ "',\n")
    else st
  else st

/-- Lines 241-261 of `validate`: the branch of a time condition. -/
def validate.time (agent : String → Bool) (timeUnits : List String) (m : Members) :
    List String × Int :=
  validate.timePhase agent m (validate.timePeriod timeUnits m)

/-- Lines 264-307 of `validate` for one side of a condition on values: `side` is
`"lhs"` or `"rhs"`, `text` the member of that name, and the two flags those of
the side. -/
def validate.side (agent : String → Bool) (xmessage : Option (String → Bool))
    (side : String) (isAgentVariable isMessageVariable : Bool) (text : String)
    (st : List String × Int) : List String × Int :=
  if isAgentVariable then
    if !agent text then
      validate.error st
        ("Error: " ++ side ++ " is not a valid agent variable: '" ++ text ++ "',\n")
    else st
  else if isMessageVariable then
    match xmessage with
    | some validateVariableName =>
      if !validateVariableName text then
        validate.error st
          ("Error: " ++ side ++ " is not a valid message variable: '" ++ text ++ "',\n")
      else st
    | none =>
      validate.error st
        ("Error: cannot validate " ++ side ++ " as the message type is invalid: '"
          ++ text ++ "',\n")
  else st

/-- The method `XCondition::validate`, called through a pointer: the lines written
to `stderr` and the value returned. `agent` is the method `validateVariableName`
of the agent passed, `xmessage` that of the message passed (`none` for a null
pointer), `timeUnits` the names of the time units of the model passed. A call
through a null pointer is a fault. -/
def validate (agent : String → Bool) (xmessage : Option (String → Bool))
    (timeUnits : List String) :
    XCondition → Except flame.model.Fault (List String × Int)
  | XCondition.null => Except.error flame.model.Fault.nullDereference
  | XCondition.object m lhsCondition rhsCondition =>
    if m.isTime then Except.ok (validate.time agent timeUnits m)
    else if m.isValues then
      Except.ok (validate.side agent xmessage "rhs" m.rhsIsAgentVariable
        m.rhsIsMessageVariable m.rhs
        (validate.side agent xmessage "lhs" m.lhsIsAgentVariable
          m.lhsIsMessageVariable m.lhs ([], 0)))
    else if m.isConditions then
      match validate agent xmessage timeUnits lhsCondition with
      | Except.error e => Except.error e
      | Except.ok (stderr1, rc1) =>
        match validate agent xmessage timeUnits rhsCondition with
        | Except.error e => Except.error e
        | Except.ok (stderr2, rc2) => Except.ok (stderr1 ++ stderr2, 0 + rc1 + rc2)
    else Except.ok ([], 0)

/-! ## Examples -/

/-- The members of a constructed condition whose two sides are flagged as values,
with the texts of the sides and the operator. -/
def valuesMembers (lhs op rhs : String) : Members :=
  { Members.initial 0 false with
    lhsIsValue := true, rhsIsValue := true, lhs := lhs, op := op, rhs := rhs }

/-- The members of a constructed condition whose two sides are flagged as nested
conditions, with the operator. -/
def conditionsMembers (op : String) : Members :=
  { Members.initial 0 false with lhsIsCondition := true, rhsIsCondition := true, op := op }

/-- The members of a constructed condition with a value on the left and a nested
condition on the right. -/
def mixedMembers (lhs op : String) : Members :=
  { Members.initial 0 false with
    lhsIsValue := true, rhsIsCondition := true, lhs := lhs, op := op }

/-- The members `m` flagged as those of a time condition, with the text of the
phase. -/
def timeMembers (m : Members) (timePhaseVariable : String) : Members :=
  { m with isTime := true, timePhaseVariable := timePhaseVariable }

/-! ## Counting errors -/

/-- The errors one side of a condition on values brings: one for a text that is
neither an agent variable (`a.`), nor a message variable (`m.`), nor a number. -/
def valueError (lc : xml.lexical_cast) (text : String) : Int :=
  if starts_with text "a." then 0
  else if starts_with text "m." then 0
  else if (lc.double text).isSome then 0 else 1

/-- The lines written and the errors counted agree. -/
def Run.Counted (st : Run) : Prop :=
  st.errors = st.stderr.length

end flame.io

namespace flame.model

/-! # Theorems -/

/-! ## Additions of dependencies as lists of operations -/

theorem getElem?_addDependency (ts : List Task) (c : Nat) (d : Dependency) (i : Nat) :
    (addDependency ts c d)[i]? =
      (ts[i]?).map (fun t => if c = i then { t with parents := t.parents ++ [d] } else t) := by
  unfold addDependency
  rw [List.getElem?_modify]
  rfl

theorem getElem?_setLevel (ts : List Task) (c l i : Nat) :
    (setLevel ts c l)[i]? =
      (ts[i]?).map (fun t => if c = i then { t with level := l } else t) := by
  unfold setLevel
  rw [List.getElem?_modify]
  rfl

theorem length_addDependency (ts : List Task) (c : Nat) (d : Dependency) :
    (addDependency ts c d).length = ts.length := by
  simp [addDependency]

theorem length_setLevel (ts : List Task) (c l : Nat) :
    (setLevel ts c l).length = ts.length := by
  simp [setLevel]

theorem applyOps_nil (ts : List Task) : applyOps ts [] = ts := rfl

theorem applyOps_cons (ts : List Task) (o : Nat × Dependency) (ops : List (Nat × Dependency)) :
    applyOps ts (o :: ops) = applyOps (addDependency ts o.1 o.2) ops := rfl

theorem applyOps_append (ts : List Task) (a b : List (Nat × Dependency)) :
    applyOps ts (a ++ b) = applyOps (applyOps ts a) b := by
  simp [applyOps, List.foldl_append]

theorem length_applyOps (ts : List Task) (ops : List (Nat × Dependency)) :
    (applyOps ts ops).length = ts.length := by
  induction ops generalizing ts with
  | nil => rfl
  | cons o ops ih => rw [applyOps_cons, ih, length_addDependency]

/-- The task at a position after a sequence of additions: the dependencies added
to this position are appended, in order, to its parents. -/
theorem getElem?_applyOps (ts : List Task) (ops : List (Nat × Dependency)) (i : Nat) :
    (applyOps ts ops)[i]? = (ts[i]?).map (fun t =>
      { t with parents := t.parents ++ (ops.filter (fun o => o.1 = i)).map Prod.snd }) := by
  induction ops generalizing ts with
  | nil =>
    cases h : ts[i]? <;> simp [applyOps_nil, h]
  | cons o ops ih =>
    rw [applyOps_cons, ih, getElem?_addDependency]
    cases h : ts[i]? with
    | none => simp
    | some t =>
      by_cases hc : o.1 = i
      · simp [hc, List.filter_cons]
      · simp [hc, List.filter_cons]

theorem foldl_applyOps_flatMap {α : Type} (g : α → List (Nat × Dependency)) (xs : List α)
    (ts : List Task) :
    xs.foldl (fun ts x => applyOps ts (g x)) ts = applyOps ts (xs.flatMap g) := by
  induction xs generalizing ts with
  | nil => rfl
  | cons x xs ih => simp [List.flatMap_cons, applyOps_append, ih]

theorem foldl_cond_applyOps {α : Type} (p : α → Prop) [DecidablePred p]
    (g : α → Nat × Dependency) (xs : List α) (ts : List Task) :
    xs.foldl (fun ts x => if p x then addDependency ts (g x).1 (g x).2 else ts) ts =
      applyOps ts ((xs.filter (fun x => p x)).map g) := by
  induction xs generalizing ts with
  | nil => rfl
  | cons x xs ih =>
    by_cases hp : p x
    · simp [hp, List.filter_cons, applyOps_cons, ih]
    · simp [hp, List.filter_cons, ih]

/-! ## The phases in closed form -/

theorem addFunctionTasks_eq {ctor : Task} (name : String) (fs : List XFunction) (ts : List Task) :
    addFunctionTasks ctor name fs ts = (setTasks ts.length fs, ts ++ fs.map (functionTask ctor name)) := by
  induction fs generalizing ts with
  | nil => simp [addFunctionTasks, setTasks]
  | cons f fs ih =>
    simp [addFunctionTasks, setTasks, ih, functionTask]

theorem addAgentTasks_eq {ctor : Task} (agents : List XMachine) (ts : List Task) :
    addAgentTasks ctor agents ts = (setAgentTasks ts.length agents, ts ++ functionTasks ctor agents) := by
  induction agents generalizing ts with
  | nil => simp [addAgentTasks, setAgentTasks, functionTasks]
  | cons a agents ih =>
    simp [addAgentTasks, setAgentTasks, addFunctionTasks_eq, ih, functionTasks,
      List.flatMap_cons]

theorem addStateDependencies_eq (f : XFunction) (fs : List XFunction) (ts : List Task) :
    addStateDependencies f fs ts = applyOps ts (stateOps fs f) := by
  unfold addStateDependencies stateOps
  exact foldl_cond_applyOps (fun g => f.currentState = g.nextState)
    (fun g => (f.task, Dependency.mk f.currentState DependencyType.state g.task)) fs ts

theorem addAgentStateDependencies_eq (a : XMachine) (ts : List Task) :
    addAgentStateDependencies a ts = applyOps ts (a.functions.flatMap (stateOps a.functions)) := by
  unfold addAgentStateDependencies
  simp only [addStateDependencies_eq]
  exact foldl_applyOps_flatMap (stateOps a.functions) a.functions ts

theorem catalog_state_dependencies_eq {ctor : Task} (m : XModel) (ts : List Task) :
    catalog_state_dependencies ctor m ts =
      ({ m with agents := setAgentTasks ts.length m.agents },
        applyOps (ts ++ functionTasks ctor m.agents)
          (modelStateOps (setAgentTasks ts.length m.agents))) := by
  unfold catalog_state_dependencies modelStateOps
  simp only [addAgentTasks_eq, addAgentStateDependencies_eq]
  rw [foldl_applyOps_flatMap]

theorem modify_length_append {α : Type} (f : α → α) (L : List α) (x : α) (R : List α) :
    (L ++ x :: R).modify f L.length = L ++ f x :: R := by
  induction L with
  | nil => rfl
  | cons y L ih => simp [List.modify_succ_cons, ih]

theorem addSyncTasks_eq {ctor : Task} (msgs : List XMessage) (ts : List Task) :
    addSyncTasks ctor msgs ts = (setSync ts.length msgs, ts ++ syncTasks ctor ts.length msgs) := by
  induction msgs generalizing ts with
  | nil => simp [addSyncTasks, setSync, syncTasks]
  | cons M msgs ih =>
    have h : addParent (ts ++ [syncStart ctor M] ++ [((((Task.new ctor).setParentName M.name).setName "sync_finish").setTaskType
          TaskType.sync_finish)])
        (ts.length + 1) M.name DependencyType.communication ts.length
        = ts ++ [syncStart ctor M] ++ [syncFinish ctor ts.length M] := by
      have := modify_length_append (fun t : Task =>
        { t with parents := t.parents ++ [Dependency.mk M.name DependencyType.communication ts.length] })
        (ts ++ [syncStart ctor M]) ((((Task.new ctor).setParentName M.name).setName "sync_finish").setTaskType
          TaskType.sync_finish) []
      simp only [List.length_append, List.length_singleton] at this
      unfold addParent addDependency
      rw [this]
      rfl
    simp only [addSyncTasks, setSync, syncTasks]
    rw [show (((Task.new ctor).setParentName M.name).setName "sync_start").setTaskType
        TaskType.sync_start = syncStart ctor M from rfl, h, ih]
    simp

theorem addOutputDependencies_eq (msgs : List XMessage) (f : XFunction) (ts : List Task) :
    addOutputDependencies msgs f ts = applyOps ts (outputOps msgs f) := by
  unfold addOutputDependencies outputOps addParent
  have h : ∀ (io : XIOput) (ts : List Task),
      msgs.foldl (fun ts M => if M.name = io.messageName then
        addDependency ts M.syncStartTask
          (Dependency.mk io.messageName DependencyType.communication f.task) else ts) ts
      = applyOps ts ((msgs.filter (fun M => M.name = io.messageName)).map
          (fun M => (M.syncStartTask,
            Dependency.mk io.messageName DependencyType.communication f.task))) :=
    fun io ts => foldl_cond_applyOps (fun M => M.name = io.messageName)
      (fun M => (M.syncStartTask,
        Dependency.mk io.messageName DependencyType.communication f.task)) msgs ts
  simp only [h]
  rw [foldl_applyOps_flatMap]

theorem addInputDependencies_eq (msgs : List XMessage) (f : XFunction) (ts : List Task) :
    addInputDependencies msgs f ts = applyOps ts (inputOps msgs f) := by
  unfold addInputDependencies inputOps addParent
  have h : ∀ (io : XIOput) (ts : List Task),
      msgs.foldl (fun ts M => if M.name = io.messageName then
        addDependency ts f.task
          (Dependency.mk io.messageName DependencyType.communication M.syncFinishTask)
        else ts) ts
      = applyOps ts ((msgs.filter (fun M => M.name = io.messageName)).map
          (fun M => (f.task,
            Dependency.mk io.messageName DependencyType.communication M.syncFinishTask))) :=
    fun io ts => foldl_cond_applyOps (fun M => M.name = io.messageName)
      (fun M => (f.task,
        Dependency.mk io.messageName DependencyType.communication M.syncFinishTask)) msgs ts
  simp only [h]
  rw [foldl_applyOps_flatMap]

theorem catalog_communication_dependencies_eq {ctor : Task} (m : XModel) (ts : List Task) :
    catalog_communication_dependencies ctor m ts =
      ({ m with messages := setSync ts.length m.messages },
        applyOps (ts ++ syncTasks ctor ts.length m.messages)
          (modelCommOps (setSync ts.length m.messages) m.agents)) := by
  unfold catalog_communication_dependencies modelCommOps
  simp only [addSyncTasks_eq]
  have h : ∀ msgs, addFunctionCommunication msgs
      = fun ts f => applyOps ts (outputOps msgs f ++ inputOps msgs f) := by
    intro msgs
    funext ts f
    simp [addFunctionCommunication, addOutputDependencies_eq, addInputDependencies_eq,
      applyOps_append]
  simp only [h]
  congr 1
  simp only [foldl_applyOps_flatMap]

/-! ## The task pointers stored in the model -/

theorem getElem?_length_append {α : Type} (L : List α) (x : α) (R : List α) :
    (L ++ x :: R)[L.length]? = some x := by
  rw [List.getElem?_append_right (Nat.le_refl _)]
  simp

theorem functionTask_setTask {ctor : Task} (name : String) (f : XFunction) (n : Nat) :
    functionTask ctor name { f with task := n } = functionTask ctor name f := rfl

theorem length_functionTasks_cons {ctor : Task} (a : XMachine) (agents : List XMachine) :
    functionTasks ctor (a :: agents) = a.functions.map (functionTask ctor a.name) ++ functionTasks ctor agents := by
  simp [functionTasks, List.flatMap_cons]

theorem setTasks_valid {ctor : Task} (name : String) (fs : List XFunction) (L R : List Task) :
    ∀ f ∈ setTasks L.length fs, L.length ≤ f.task ∧ f.task < L.length + fs.length ∧
      (L ++ fs.map (functionTask ctor name) ++ R)[f.task]? = some (functionTask ctor name f) := by
  induction fs generalizing L with
  | nil => intro f hf; simp [setTasks] at hf
  | cons f0 rest ih =>
    intro f hf
    simp only [setTasks, List.mem_cons] at hf
    rcases hf with rfl | hf
    · refine ⟨Nat.le_refl _, by simp, ?_⟩
      simp only [functionTask_setTask, List.map_cons, List.cons_append, List.append_assoc]
      exact getElem?_length_append _ _ _
    · have h := ih (L ++ [functionTask ctor name f0]) f (by simpa using hf)
      simp only [List.length_append, List.length_singleton] at h
      refine ⟨by omega, by simp only [List.length_cons]; omega, ?_⟩
      simpa using h.2.2

theorem setAgentTasks_valid {ctor : Task} (agents : List XMachine) (L R : List Task) :
    ∀ a ∈ setAgentTasks L.length agents, ∀ f ∈ a.functions,
      L.length ≤ f.task ∧ f.task < L.length + (functionTasks ctor agents).length ∧
      (L ++ functionTasks ctor agents ++ R)[f.task]? = some (functionTask ctor a.name f) := by
  induction agents generalizing L with
  | nil => intro a ha; simp [setAgentTasks] at ha
  | cons a0 rest ih =>
    intro a ha f hf
    simp only [setAgentTasks, List.mem_cons] at ha
    rw [length_functionTasks_cons]
    rcases ha with rfl | ha
    · have h := @setTasks_valid ctor a0.name a0.functions L (functionTasks ctor rest ++ R) f hf
      refine ⟨h.1, by simp only [List.length_append, List.length_map]; omega, ?_⟩
      simpa using h.2.2
    · have h := ih (L ++ a0.functions.map (functionTask ctor a0.name)) a
        (by simpa using ha) f hf
      simp only [List.length_append, List.length_map] at h
      refine ⟨by omega, by simp only [List.length_append, List.length_map]; omega, ?_⟩
      simpa using h.2.2

theorem length_syncTasks {ctor : Task} (n : Nat) (msgs : List XMessage) :
    (syncTasks ctor n msgs).length = 2 * msgs.length := by
  induction msgs generalizing n with
  | nil => rfl
  | cons M rest ih => simp only [syncTasks, List.length_cons, ih]; omega

theorem syncStart_setSync {ctor : Task} (M : XMessage) (a b : Nat) :
    syncStart ctor { M with syncStartTask := a, syncFinishTask := b } = syncStart ctor M := rfl

theorem syncFinish_setSync {ctor : Task} (M : XMessage) (n a b : Nat) :
    syncFinish ctor n { M with syncStartTask := a, syncFinishTask := b } = syncFinish ctor n M := rfl

theorem setSync_valid {ctor : Task} (msgs : List XMessage) (L R : List Task) :
    ∀ M ∈ setSync L.length msgs, M.syncFinishTask = M.syncStartTask + 1 ∧
      L.length ≤ M.syncStartTask ∧ M.syncFinishTask < L.length + 2 * msgs.length ∧
      (L ++ syncTasks ctor L.length msgs ++ R)[M.syncStartTask]? = some (syncStart ctor M) ∧
      (L ++ syncTasks ctor L.length msgs ++ R)[M.syncFinishTask]?
        = some (syncFinish ctor M.syncStartTask M) := by
  induction msgs generalizing L with
  | nil => intro M hM; simp [setSync] at hM
  | cons M0 rest ih =>
    intro M hM
    simp only [setSync, List.mem_cons] at hM
    rcases hM with rfl | hM
    · refine ⟨rfl, Nat.le_refl _, by simp only [List.length_cons]; omega, ?_, ?_⟩
      · simp only [syncTasks, syncStart_setSync, List.cons_append, List.append_assoc]
        exact getElem?_length_append _ _ _
      · simp only [syncTasks, syncFinish_setSync]
        rw [List.append_assoc, List.getElem?_append_right (by omega)]
        simp
    · have h := ih (L ++ [syncStart ctor M0, syncFinish ctor L.length M0]) M (by simpa using hM)
      simp only [List.length_append, List.length_cons, List.length_nil] at h
      refine ⟨h.1, by omega, by simp only [List.length_cons]; omega, ?_, ?_⟩
      · simpa [syncTasks] using h.2.2.2.1
      · simpa [syncTasks] using h.2.2.2.2

/-! ## The dependency graph of a model -/

theorem dependencyGraph_eq {ctor : Task} (m : XModel) :
    dependencyGraph ctor m =
      ({ agents := setAgentTasks 0 m.agents,
         messages := setSync (functionTasks ctor m.agents).length m.messages },
       applyOps
        (applyOps (functionTasks ctor m.agents) (modelStateOps (setAgentTasks 0 m.agents))
          ++ syncTasks ctor (functionTasks ctor m.agents).length m.messages)
        (modelCommOps (setSync (functionTasks ctor m.agents).length m.messages)
          (setAgentTasks 0 m.agents))) := by
  unfold dependencyGraph
  simp only [catalog_state_dependencies_eq, catalog_communication_dependencies_eq,
    length_applyOps, List.nil_append, List.length_nil]

theorem length_dependencyGraph {ctor : Task} (m : XModel) :
    (dependencyGraph ctor m).2.length = (functionTasks ctor m.agents).length + 2 * m.messages.length := by
  rw [dependencyGraph_eq]
  simp [length_applyOps, length_syncTasks]

/-- The task at a position of the dependency graph: a function task or a sync
task, extended by the dependencies added to it. -/
theorem getElem?_dependencyGraph {ctor : Task} (m : XModel) (i : Nat) :
    (dependencyGraph ctor m).2[i]? =
      if i < (functionTasks ctor m.agents).length then
        ((functionTasks ctor m.agents)[i]?).map (withParents
          (opsAt (modelStateOps (dependencyGraph ctor m).1.agents) i
          ++ opsAt (modelCommOps (dependencyGraph ctor m).1.messages (dependencyGraph ctor m).1.agents) i))
      else
        ((syncTasks ctor (functionTasks ctor m.agents).length m.messages)[i
            - (functionTasks ctor m.agents).length]?).map (withParents
          (opsAt (modelCommOps (dependencyGraph ctor m).1.messages (dependencyGraph ctor m).1.agents) i))
        := by
  rw [dependencyGraph_eq]
  simp only [getElem?_applyOps, List.getElem?_append, length_applyOps, opsAt, withParents]
  split
  · cases (functionTasks ctor m.agents)[i]? <;> simp [withParents]
  · rfl

theorem mem_opsAt (ops : List (Nat × Dependency)) (i : Nat) (d : Dependency) :
    d ∈ opsAt ops i ↔ (i, d) ∈ ops := by
  unfold opsAt
  simp only [List.mem_map, List.mem_filter, decide_eq_true_eq]
  constructor
  · rintro ⟨⟨c, d'⟩, ⟨hmem, rfl⟩, rfl⟩
    exact hmem
  · intro h
    exact ⟨(i, d), ⟨h, rfl⟩, rfl⟩

theorem mem_modelStateOps (agents : List XMachine) (o : Nat × Dependency) :
    o ∈ modelStateOps agents ↔ ∃ a ∈ agents, ∃ f ∈ a.functions, ∃ g ∈ a.functions,
      f.currentState = g.nextState ∧
      o = (f.task, Dependency.mk f.currentState DependencyType.state g.task) := by
  unfold modelStateOps stateOps
  simp only [List.mem_flatMap, List.mem_map, List.mem_filter, decide_eq_true_eq]
  constructor
  · rintro ⟨a, ha, f, hf, g, ⟨hg, hs⟩, rfl⟩
    exact ⟨a, ha, f, hf, g, hg, hs, rfl⟩
  · rintro ⟨a, ha, f, hf, g, hg, hs, rfl⟩
    exact ⟨a, ha, f, hf, g, ⟨hg, hs⟩, rfl⟩

theorem mem_modelCommOps (msgs : List XMessage) (agents : List XMachine)
    (o : Nat × Dependency) :
    o ∈ modelCommOps msgs agents ↔ ∃ a ∈ agents, ∃ f ∈ a.functions,
      (∃ io ∈ f.outputs, ∃ M ∈ msgs, M.name = io.messageName ∧
        o = (M.syncStartTask,
          Dependency.mk io.messageName DependencyType.communication f.task)) ∨
      (∃ io ∈ f.inputs, ∃ M ∈ msgs, M.name = io.messageName ∧
        o = (f.task,
          Dependency.mk io.messageName DependencyType.communication M.syncFinishTask)) := by
  unfold modelCommOps outputOps inputOps
  simp only [List.mem_flatMap, List.mem_map, List.mem_filter, decide_eq_true_eq,
    List.mem_append]
  constructor
  · rintro ⟨a, ha, f, hf, h⟩
    refine ⟨a, ha, f, hf, ?_⟩
    rcases h with ⟨io, hio, M, ⟨hM, hn⟩, rfl⟩ | ⟨io, hio, M, ⟨hM, hn⟩, rfl⟩
    · exact Or.inl ⟨io, hio, M, hM, hn, rfl⟩
    · exact Or.inr ⟨io, hio, M, hM, hn, rfl⟩
  · rintro ⟨a, ha, f, hf, h⟩
    refine ⟨a, ha, f, hf, ?_⟩
    rcases h with ⟨io, hio, M, hM, hn, rfl⟩ | ⟨io, hio, M, hM, hn, rfl⟩
    · exact Or.inl ⟨io, hio, M, ⟨hM, hn⟩, rfl⟩
    · exact Or.inr ⟨io, hio, M, ⟨hM, hn⟩, rfl⟩

theorem dependencyGraph_agents {ctor : Task} (m : XModel) :
    (dependencyGraph ctor m).1.agents = setAgentTasks 0 m.agents := by
  rw [dependencyGraph_eq]

theorem dependencyGraph_messages {ctor : Task} (m : XModel) :
    (dependencyGraph ctor m).1.messages = setSync (functionTasks ctor m.agents).length m.messages := by
  rw [dependencyGraph_eq]

/-- Every task pointer stored in a function points into the function tasks. -/
theorem function_task_lt {ctor : Task} (m : XModel) :
    ∀ a ∈ (dependencyGraph ctor m).1.agents, ∀ f ∈ a.functions,
      f.task < (functionTasks ctor m.agents).length ∧
      (functionTasks ctor m.agents)[f.task]? = some (functionTask ctor a.name f) := by
  intro a ha f hf
  rw [dependencyGraph_agents] at ha
  have h := @setAgentTasks_valid ctor m.agents [] [] a ha f hf
  simp only [List.length_nil, Nat.zero_add, List.nil_append, List.append_nil] at h
  exact ⟨h.2.1, h.2.2⟩

/-- Every sync pointer stored in a message points to the sync task of the message. -/
theorem message_task_valid {ctor : Task} (m : XModel) :
    ∀ M ∈ (dependencyGraph ctor m).1.messages,
      M.syncFinishTask = M.syncStartTask + 1 ∧
      (functionTasks ctor m.agents).length ≤ M.syncStartTask ∧
      M.syncFinishTask < (dependencyGraph ctor m).2.length ∧
      (syncTasks ctor (functionTasks ctor m.agents).length m.messages)[M.syncStartTask
        - (functionTasks ctor m.agents).length]? = some (syncStart ctor M) ∧
      (syncTasks ctor (functionTasks ctor m.agents).length m.messages)[M.syncFinishTask
        - (functionTasks ctor m.agents).length]? = some (syncFinish ctor M.syncStartTask M) := by
  intro M hM
  rw [dependencyGraph_messages] at hM
  have h := @setSync_valid ctor m.messages (functionTasks ctor m.agents) [] M hM
  simp only [List.append_nil] at h
  rw [length_dependencyGraph]
  obtain ⟨h1, h2, h3, h4, h5⟩ := h
  refine ⟨h1, h2, h3, ?_, ?_⟩
  · rw [← h4, List.getElem?_append_right h2]
  · rw [← h5, List.getElem?_append_right (by omega)]

theorem syncTasks_parents {ctor : Task} (n : Nat) (msgs : List XMessage) :
    ∀ t ∈ syncTasks ctor n msgs, ∀ d ∈ t.parents, d.task < n + 2 * msgs.length := by
  induction msgs generalizing n with
  | nil => intro t ht; simp [syncTasks] at ht
  | cons M rest ih =>
    intro t ht d hd
    simp only [syncTasks, List.mem_cons] at ht
    rcases ht with rfl | rfl | ht
    · simp [syncStart, Task.new, Task.setParentName, Task.setName, Task.setTaskType] at hd
    · simp only [syncFinish, List.mem_singleton] at hd
      subst hd
      simp only [List.length_cons]
      omega
    · have := ih (n + 2) t ht d hd
      simp only [List.length_cons]
      omega

theorem functionTasks_parents {ctor : Task} (agents : List XMachine) :
    ∀ t ∈ functionTasks ctor agents, t.parents = [] := by
  intro t ht
  simp only [functionTasks, List.mem_flatMap, List.mem_map] at ht
  obtain ⟨a, _, f, _, rfl⟩ := ht
  rfl

theorem inRange_dependencyGraph {ctor : Task} (m : XModel) : InRange
    (dependencyGraph ctor m).2 := by
  unfold InRange
  intro i t hi d hd
  have hlen := @length_dependencyGraph ctor m
  have hcomm : ∀ d, d ∈ opsAt (modelCommOps (dependencyGraph ctor m).1.messages
      (dependencyGraph ctor m).1.agents) i → d.task < (dependencyGraph ctor m).2.length := by
    intro d hd
    rw [mem_opsAt, mem_modelCommOps] at hd
    obtain ⟨a, ha, f, hf, h⟩ := hd
    rcases h with ⟨io, _, M, hM, _, ho⟩ | ⟨io, _, M, hM, _, ho⟩
    · have := (function_task_lt m a ha f hf).1
      simp only [Prod.mk.injEq] at ho
      rw [ho.2, hlen]
      simp only
      omega
    · have := (message_task_valid m M hM).2.2.1
      simp only [Prod.mk.injEq] at ho
      rw [ho.2]
      exact this
  rw [getElem?_dependencyGraph] at hi
  split at hi
  · simp only [Option.map_eq_some'] at hi
    obtain ⟨t0, ht0, rfl⟩ := hi
    have hp := functionTasks_parents m.agents t0 (List.getElem?_mem ht0)
    simp only [withParents, hp, List.nil_append, List.mem_append] at hd
    rcases hd with hd | hd
    · rw [mem_opsAt, mem_modelStateOps] at hd
      obtain ⟨a, ha, f, _, g, hg, _, ho⟩ := hd
      have := (function_task_lt m a ha g hg).1
      simp only [Prod.mk.injEq] at ho
      rw [ho.2, hlen]
      simp only
      omega
    · exact hcomm d hd
  · simp only [Option.map_eq_some'] at hi
    obtain ⟨t0, ht0, rfl⟩ := hi
    simp only [withParents, List.mem_append] at hd
    rcases hd with hd | hd
    · have := syncTasks_parents _ _ t0 (List.getElem?_mem ht0) d hd
      rw [hlen]
      exact this
    · exact hcomm d hd

/-! ## One pass of the levelling loop -/

theorem unleveled_dependency_foldl (ts : List Task) (c : Nat) (ps : List Dependency)
    (acc : Bool) :
    ps.foldl (fun unleveled dependency =>
      if getLevel ts dependency.task = 0 ∨ getLevel ts dependency.task = c
      then true else unleveled) acc = true ↔
    acc = true ∨ ∃ d ∈ ps, getLevel ts d.task = 0 ∨ getLevel ts d.task = c := by
  induction ps generalizing acc with
  | nil => simp
  | cons p ps ih =>
    rw [List.foldl_cons, ih]
    by_cases h : getLevel ts p.task = 0 ∨ getLevel ts p.task = c
    · simp only [h, if_true, true_or, true_iff]
      exact Or.inr ⟨p, List.mem_cons_self _ _, h⟩
    · simp only [h, if_false, List.mem_cons, exists_eq_or_imp, false_or]

theorem unleveled_dependency_iff (ts : List Task) (c : Nat) (ps : List Dependency) :
    unleveled_dependency ts c ps = true ↔
      ∃ d ∈ ps, getLevel ts d.task = 0 ∨ getLevel ts d.task = c := by
  unfold unleveled_dependency
  rw [unleveled_dependency_foldl]
  simp

theorem getLevel_eq_of_getElem? {ts : List Task} {i : Nat} {t : Task} (h : ts[i]? = some t) :
    getLevel ts i = t.level := by
  simp [getLevel, h]

theorem getLevel_eq_zero_of_none {ts : List Task} {i : Nat} (h : ts[i]? = none) :
    getLevel ts i = 0 := by
  simp [getLevel, h]

theorem getLevel_lt (ts : List Task) (c : Nat) (hc : 0 < c) (hlev : ∀ t ∈ ts, t.level < c)
    (j : Nat) : getLevel ts j < c := by
  cases h : ts[j]? with
  | none => rw [getLevel_eq_zero_of_none h]; exact hc
  | some t => rw [getLevel_eq_of_getElem? h]; exact hlev t (List.getElem?_mem h)

theorem passLevel_level (c : Nat) (ts : List Task) (t : Task) :
    (passLevel c ts t).level =
      if t.level = 0 ∧ ∀ d ∈ t.parents, getLevel ts d.task ≠ 0 then c else t.level := by
  unfold passLevel
  split <;> rfl

theorem passLevel_parents (c : Nat) (ts : List Task) (t : Task) :
    (passLevel c ts t).parents = t.parents := by
  unfold passLevel
  split <;> rfl

theorem getLevel_mid (k c : Nat) (ts : List Task) (st : List Task × Bool)
    (hlev : ∀ t ∈ ts, t.level < c) (hmid : Mid k c ts st) (j : Nat) :
    (getLevel st.1 j = 0 ∨ getLevel st.1 j = c) ↔ getLevel ts j = 0 := by
  have hj := hmid.1 j
  cases h : ts[j]? with
  | none =>
    have : st.1[j]? = none := by rw [hj, h]; simp
    rw [getLevel_eq_zero_of_none h, getLevel_eq_zero_of_none this]
    simp
  | some t =>
    have hlt := hlev t (List.getElem?_mem h)
    rw [getLevel_eq_of_getElem? h]
    rw [h] at hj
    by_cases hk : j < k
    · simp only [hk, if_true, Option.map_some'] at hj
      rw [getLevel_eq_of_getElem? hj, passLevel_level]
      split
      · rename_i hcond
        simp [hcond.1]
      · constructor
        · rintro (h0 | h0)
          · exact h0
          · omega
        · intro h0; exact Or.inl h0
    · simp only [hk, if_false] at hj
      rw [getLevel_eq_of_getElem? hj]
      constructor
      · rintro (h0 | h0)
        · exact h0
        · omega
      · intro h0; exact Or.inl h0

theorem mid_step (k c : Nat) (ts : List Task) (st : List Task × Bool)
    (hlev : ∀ t ∈ ts, t.level < c) (hk : k < ts.length)
    (hmid : Mid k c ts st) : Mid (k + 1) c ts (levelTask c st k) := by
  obtain ⟨t, ht⟩ : ∃ t, ts[k]? = some t := ⟨ts[k], List.getElem?_eq_getElem hk⟩
  have hst : st.1[k]? = some t := by rw [hmid.1 k]; simp [ht]
  have hun : unleveled_dependency st.1 c t.parents = false ↔
      ∀ d ∈ t.parents, getLevel ts d.task ≠ 0 := by
    rw [← Bool.not_eq_true, unleveled_dependency_iff]
    constructor
    · intro h d hd h0
      exact h ⟨d, hd, (getLevel_mid k c ts st hlev hmid d.task).2 h0⟩
    · rintro h ⟨d, hd, h0⟩
      exact h d hd ((getLevel_mid k c ts st hlev hmid d.task).1 h0)
  have hflag : ∀ b : Bool, (b = true ↔ ((st.2 = true) ∧ (t.level = 0 →
      ∀ d ∈ t.parents, getLevel ts d.task ≠ 0))) →
      (b = true ↔ ∀ (i : Nat) (u : Task), i < k + 1 → ts[i]? = some u → u.level = 0 →
        ∀ d ∈ u.parents, getLevel ts d.task ≠ 0) := by
    intro b hb
    rw [hb, hmid.2]
    constructor
    · rintro ⟨h1, h2⟩ i u hi hu
      by_cases hik : i = k
      · subst hik
        rw [ht] at hu
        cases hu
        exact h2
      · exact h1 i u (by omega) hu
    · intro h
      exact ⟨fun i u hi hu => h i u (by omega) hu, h k t (by omega) ht⟩
  have hother : ∀ i : Nat, i ≠ k →
      (if i < k then (ts[i]?).map (passLevel c ts) else ts[i]?) =
      (if i < k + 1 then (ts[i]?).map (passLevel c ts) else ts[i]?) := by
    intro i hik
    by_cases h : i < k
    · simp [h, show i < k + 1 by omega]
    · simp [h, show ¬ i < k + 1 by omega]
  unfold levelTask
  simp only [hst]
  by_cases h0 : t.level = 0
  · simp only [h0, if_true]
    by_cases hr : ∀ d ∈ t.parents, getLevel ts d.task ≠ 0
    · rw [if_pos (hun.2 hr)]
      refine ⟨?_, hflag _ ?_⟩
      · intro i
        simp only [getElem?_setLevel]
        by_cases hik : k = i
        · subst hik
          simp only [hst, ht, Option.map_some', if_true, Nat.lt_succ_self]
          congr 1
          unfold passLevel
          rw [if_pos ⟨h0, hr⟩]
        · rw [← hother i (Ne.symm hik), ← hmid.1 i]
          cases st.1[i]? <;> simp [hik]
      · simp only
        constructor
        · intro h; exact ⟨h, fun _ => hr⟩
        · intro h; exact h.1
    · rw [if_neg (by rw [hun]; exact hr)]
      refine ⟨?_, hflag _ ?_⟩
      · intro i
        simp only
        by_cases hik : i = k
        · subst hik
          simp only [hst, ht, Option.map_some', if_true, Nat.lt_succ_self]
          congr 1
          unfold passLevel
          rw [if_neg (fun h => hr h.2)]
        · rw [← hother i hik]; exact hmid.1 i
      · simp only
        constructor
        · intro h; cases h
        · intro h; exact absurd (h.2 h0) hr
  · simp only [h0, if_false]
    refine ⟨?_, hflag _ ?_⟩
    · intro i
      by_cases hik : i = k
      · subst hik
        simp only [hst, ht, Option.map_some', if_true, Nat.lt_succ_self]
        congr 1
        unfold passLevel
        rw [if_neg (fun h => h0 h.1)]
      · rw [← hother i hik]; exact hmid.1 i
    · constructor
      · intro h; exact ⟨h, fun h' => absurd h' h0⟩
      · intro h; exact h.1

theorem mid_range (c : Nat) (ts : List Task) (hlev : ∀ t ∈ ts, t.level < c) :
    ∀ k, k ≤ ts.length → Mid k c ts ((List.range k).foldl (levelTask c) (ts, true)) := by
  intro k
  induction k with
  | zero =>
    intro _
    refine ⟨fun i => by simp, ?_⟩
    simp
  | succ k ih =>
    intro hk
    rw [List.range_succ, List.foldl_append]
    exact mid_step k c ts _ hlev (by omega) (ih (by omega))

/-- A pass of the loop levels exactly the unlevelled tasks whose parents were all
levelled before the pass, and leaves `finished` true exactly when every unlevelled
task was one of these. -/
theorem levelPass_spec (c : Nat) (ts : List Task)
    (hlev : ∀ t ∈ ts, t.level < c) :
    (levelPass c ts).1 = passSpec c ts ∧
    ((levelPass c ts).2 = true ↔ ∀ t ∈ ts, t.level = 0 →
      ∀ d ∈ t.parents, getLevel ts d.task ≠ 0) := by
  have h := mid_range c ts hlev ts.length (Nat.le_refl _)
  constructor
  · apply List.ext_getElem?
    intro i
    rw [show (levelPass c ts).1[i]? = _ from h.1 i]
    unfold passSpec
    rw [List.getElem?_map]
    by_cases hi : i < ts.length
    · simp [hi]
    · simp [hi, List.getElem?_eq_none (Nat.le_of_not_lt hi)]
  · rw [show ((levelPass c ts).2 = true ↔ _) from h.2]
    constructor
    · intro hall t ht
      obtain ⟨i, hi⟩ := List.mem_iff_getElem?.1 ht
      have hlt : i < ts.length := by
        by_contra hcon
        rw [List.getElem?_eq_none (Nat.le_of_not_lt hcon)] at hi
        cases hi
      exact hall i t hlt hi
    · intro hall i t _ hi
      exact hall t (List.getElem?_mem hi)

/-! ## The invariant of the levelling loop -/

theorem foldr_max_le (l : List Nat) (b : Nat) (h : ∀ x ∈ l, x ≤ b) : l.foldr max 0 ≤ b := by
  induction l with
  | nil => simp
  | cons x l ih =>
    simp only [List.foldr_cons]
    exact max_le (h x (List.mem_cons_self _ _))
      (ih (fun y hy => h y (List.mem_cons_of_mem _ hy)))

theorem le_foldr_max (l : List Nat) (x : Nat) (h : x ∈ l) : x ≤ l.foldr max 0 := by
  induction l with
  | nil => cases h
  | cons y l ih =>
    simp only [List.foldr_cons]
    rcases List.mem_cons.1 h with rfl | h
    · exact le_max_left _ _
    · exact le_trans (ih h) (le_max_right _ _)

theorem getElem?_passSpec (c : Nat) (ts : List Task) (i : Nat) :
    (passSpec c ts)[i]? = (ts[i]?).map (passLevel c ts) := by
  unfold passSpec
  rw [List.getElem?_map]

theorem getLevel_passSpec_of_ne (c : Nat) (ts : List Task) (j : Nat)
    (h : getLevel ts j ≠ 0) : getLevel (passSpec c ts) j = getLevel ts j := by
  cases hj : ts[j]? with
  | none => rw [getLevel_eq_zero_of_none hj] at h; exact absurd rfl h
  | some t =>
    rw [getLevel_eq_of_getElem? hj] at h ⊢
    have : (passSpec c ts)[j]? = some (passLevel c ts t) := by
      rw [getElem?_passSpec, hj]; rfl
    rw [getLevel_eq_of_getElem? this, passLevel_level, if_neg (fun hc => h hc.1)]

theorem getLevel_passSpec_of_eq (c : Nat) (ts : List Task) (j : Nat)
    (h : getLevel ts j = 0) :
    getLevel (passSpec c ts) j = 0 ∨ getLevel (passSpec c ts) j = c := by
  cases hj : ts[j]? with
  | none =>
    have : (passSpec c ts)[j]? = none := by rw [getElem?_passSpec, hj]; rfl
    exact Or.inl (getLevel_eq_zero_of_none this)
  | some t =>
    rw [getLevel_eq_of_getElem? hj] at h
    have : (passSpec c ts)[j]? = some (passLevel c ts t) := by
      rw [getElem?_passSpec, hj]; rfl
    rw [getLevel_eq_of_getElem? this, passLevel_level]
    split
    · exact Or.inr rfl
    · exact Or.inl h

theorem maxParentLevel_congr (ts ts' : List Task) (t t' : Task) (hp : t'.parents = t.parents)
    (h : ∀ d ∈ t.parents, getLevel ts' d.task = getLevel ts d.task) :
    maxParentLevel ts' t' = maxParentLevel ts t := by
  unfold maxParentLevel
  rw [hp]
  congr 1
  exact List.map_congr_left h

theorem inv_lt (c : Nat) (ts : List Task) (hc : 0 < c) (hinv : Inv c ts) (j : Nat) :
    getLevel ts j < c :=
  getLevel_lt ts c hc (fun t ht => by
    obtain ⟨i, hi⟩ := List.mem_iff_getElem?.1 ht
    exact (hinv i t hi).1) j

theorem inv_init (ts : List Task) : Inv 1 (ts.map unlevel) := by
  intro i t hi
  rw [List.getElem?_map] at hi
  simp only [Option.map_eq_some'] at hi
  obtain ⟨t0, _, rfl⟩ := hi
  refine ⟨by simp [unlevel], fun h => absurd rfl h, fun _ => Or.inl rfl⟩

theorem inv_pass (c : Nat) (ts : List Task) (hc : 0 < c) (hinv : Inv c ts) :
    Inv (c + 1) (passSpec c ts) := by
  intro i t' hi
  rw [getElem?_passSpec] at hi
  simp only [Option.map_eq_some'] at hi
  obtain ⟨t, ht, rfl⟩ := hi
  obtain ⟨h1, h2, h3⟩ := hinv i t ht
  by_cases hcond : t.level = 0 ∧ ∀ d ∈ t.parents, getLevel ts d.task ≠ 0
  · have hlv : (passLevel c ts t).level = c := by rw [passLevel_level, if_pos hcond]
    have hmax : maxParentLevel (passSpec c ts) (passLevel c ts t) = maxParentLevel ts t :=
      maxParentLevel_congr ts _ t _ (passLevel_parents c ts t)
        (fun d hd => getLevel_passSpec_of_ne c ts d.task (hcond.2 d hd))
    refine ⟨by omega, fun _ => ⟨?_, ?_⟩, fun h => by omega⟩
    · rw [hlv, hmax]
      have hle : maxParentLevel ts t ≤ c - 1 := by
        apply foldr_max_le
        intro x hx
        simp only [List.mem_map] at hx
        obtain ⟨d, _, rfl⟩ := hx
        have := inv_lt c ts hc hinv d.task
        omega
      rcases h3 hcond.1 with h | ⟨d, hd, h | h⟩
      · omega
      · exact absurd h (hcond.2 d hd)
      · have : getLevel ts d.task ≤ maxParentLevel ts t :=
          le_foldr_max _ _ (List.mem_map.2 ⟨d, hd, rfl⟩)
        omega
    · intro d hd
      rw [passLevel_parents] at hd
      rw [getLevel_passSpec_of_ne c ts d.task (hcond.2 d hd)]
      exact hcond.2 d hd
  · have hlv : passLevel c ts t = t := by unfold passLevel; rw [if_neg hcond]
    rw [hlv]
    refine ⟨by omega, fun h => ?_, fun h => Or.inr ?_⟩
    · obtain ⟨h4, h5⟩ := h2 h
      refine ⟨?_, fun d hd => ?_⟩
      · rw [h4]
        congr 1
        exact (maxParentLevel_congr ts _ t t rfl
          (fun d hd => getLevel_passSpec_of_ne c ts d.task (h5 d hd))).symm
      · rw [getLevel_passSpec_of_ne c ts d.task (h5 d hd)]
        exact h5 d hd
    · have : ¬ ∀ d ∈ t.parents, getLevel ts d.task ≠ 0 := fun hall => hcond ⟨h, hall⟩
      push_neg at this
      obtain ⟨d, hd, h0⟩ := this
      refine ⟨d, hd, ?_⟩
      rcases getLevel_passSpec_of_eq c ts d.task h0 with h | h
      · exact Or.inl h
      · exact Or.inr (by omega)

theorem map_unlevel_passSpec (c : Nat) (ts : List Task) :
    (passSpec c ts).map unlevel = ts.map unlevel := by
  unfold passSpec
  rw [List.map_map]
  apply List.map_congr_left
  intro t _
  simp only [Function.comp, passLevel, unlevel]
  split <;> rfl

theorem levelled_pass (c : Nat) (ts : List Task) (hc : 0 < c) (hinv : Inv c ts)
    (hall : ∀ t ∈ ts, t.level = 0 → ∀ d ∈ t.parents, getLevel ts d.task ≠ 0) :
    Levelled (passSpec c ts) := by
  intro i t' hi
  have hinv' := inv_pass c ts hc hinv i t' hi
  rw [getElem?_passSpec] at hi
  simp only [Option.map_eq_some'] at hi
  obtain ⟨t, ht, rfl⟩ := hi
  have hne : (passLevel c ts t).level ≠ 0 := by
    rw [passLevel_level]
    by_cases h0 : t.level = 0
    · rw [if_pos ⟨h0, hall t (List.getElem?_mem ht) h0⟩]; omega
    · rw [if_neg (fun h => h0 h.1)]; exact h0
  exact ⟨hne, (hinv'.2.1 hne).1⟩

/-- Whenever the levelling loop returns, every task is levelled one level above
the highest of its parents, and nothing but the levels has changed. -/
theorem levelLoop_ok (fuel : Nat) : ∀ (c : Nat) (ts r : List Task), 0 < c → Inv c ts →
    levelLoop fuel c ts = Except.ok r → Levelled r ∧ r.map unlevel = ts.map unlevel := by
  induction fuel with
  | zero => intro c ts r _ _ h; simp [levelLoop] at h
  | succ fuel ih =>
    intro c ts r hc hinv h
    have hlev : ∀ t ∈ ts, t.level < c := fun t ht => by
      obtain ⟨i, hi⟩ := List.mem_iff_getElem?.1 ht
      exact (hinv i t hi).1
    obtain ⟨hp1, hp2⟩ := levelPass_spec c ts hlev
    simp only [levelLoop] at h
    by_cases hfin : (levelPass c ts).2 = true
    · rw [if_pos hfin] at h
      cases h
      rw [hp1]
      exact ⟨levelled_pass c ts hc hinv (hp2.1 hfin), map_unlevel_passSpec c ts⟩
    · rw [if_neg hfin, hp1] at h
      obtain ⟨h1, h2⟩ := ih (c + 1) (passSpec c ts) r (by omega) (inv_pass c ts hc hinv) h
      exact ⟨h1, by rw [h2, map_unlevel_passSpec]⟩

theorem calculate_dependencies_ok (fuel : Nat) (ts r : List Task)
    (h : calculate_dependencies fuel ts = Except.ok r) :
    Levelled r ∧ r.map unlevel = ts.map unlevel := by
  unfold calculate_dependencies at h
  have h' := levelLoop_ok fuel 1 (ts.map unlevel) r (by omega) (inv_init ts) h
  refine ⟨h'.1, ?_⟩
  rw [h'.2, List.map_map]
  apply List.map_congr_left
  intro t _
  rfl

/-! ## Acyclic graphs and termination of the levelling loop -/

theorem getElem?_of_map_unlevel {ts ts' : List Task} (h : ts'.map unlevel = ts.map unlevel)
    {i : Nat} {t' : Task} (hi : ts'[i]? = some t') :
    ∃ t, ts[i]? = some t ∧ t'.parents = t.parents ∧ unlevel t' = unlevel t := by
  have h1 : (ts'.map unlevel)[i]? = (ts.map unlevel)[i]? := by rw [h]
  rw [List.getElem?_map, List.getElem?_map, hi] at h1
  cases ht : ts[i]? with
  | none => rw [ht] at h1; cases h1
  | some t =>
    rw [ht] at h1
    simp only [Option.map_some', Option.some.injEq] at h1
    exact ⟨t, rfl, show (unlevel t').parents = (unlevel t).parents from congrArg Task.parents h1, h1⟩

theorem edge_congr {ts ts' : List Task} (h : ts'.map unlevel = ts.map unlevel) (c p : Nat) :
    edge ts' c p → edge ts c p := by
  rintro ⟨t', ht', d, hd, rfl⟩
  obtain ⟨t, ht, hp, _⟩ := getElem?_of_map_unlevel h ht'
  exact ⟨t, ht, d, hp ▸ hd, rfl⟩

theorem acyclic_congr {ts ts' : List Task} (h : ts'.map unlevel = ts.map unlevel)
    (hac : Acyclic ts) : Acyclic ts' := by
  intro i hi
  exact hac i (Relation.TransGen.mono (edge_congr h) hi)

theorem inRange_congr {ts ts' : List Task} (h : ts'.map unlevel = ts.map unlevel)
    (hin : InRange ts) : InRange ts' := by
  intro i t' hi d hd
  obtain ⟨t, ht, hp, _⟩ := getElem?_of_map_unlevel h hi
  have hlen : ts'.length = ts.length := by
    have := congrArg List.length h
    simpa using this
  rw [hlen]
  exact hin i t ht d (hp ▸ hd)

/-- In an acyclic graph with an unlevelled task, some unlevelled task has no
unlevelled parent. -/
theorem exists_ready (ts : List Task) (hac : Acyclic ts) (hin : InRange ts)
    (i0 : Nat) (t0 : Task) (h0 : ts[i0]? = some t0) (hl : t0.level = 0) :
    ∃ (i : Nat) (t : Task), ts[i]? = some t ∧ t.level = 0 ∧
      ∀ d ∈ t.parents, getLevel ts d.task ≠ 0 := by
  let r : Fin ts.length → Fin ts.length → Prop :=
    fun a b => Relation.TransGen (edge ts) b.val a.val
  haveI : IsTrans (Fin ts.length) r := ⟨fun _ _ _ hab hbc => Relation.TransGen.trans hbc hab⟩
  haveI : IsIrrefl (Fin ts.length) r := ⟨fun a h => hac a.val h⟩
  have wf : WellFounded r := Finite.wellFounded_of_trans_of_irrefl r
  have hi0 : i0 < ts.length := by
    by_contra hcon
    rw [List.getElem?_eq_none (Nat.le_of_not_lt hcon)] at h0
    cases h0
  have hne : ({x : Fin ts.length | getLevel ts x.val = 0} : Set (Fin ts.length)).Nonempty :=
    ⟨⟨i0, hi0⟩, by simp only [Set.mem_setOf_eq]; rw [getLevel_eq_of_getElem? h0]; exact hl⟩
  obtain ⟨m, hm, hmin⟩ := wf.has_min _ hne
  have hmt : ts[m.val]? = some ts[m.val] := List.getElem?_eq_getElem m.isLt
  refine ⟨m.val, ts[m.val], hmt, ?_, ?_⟩
  · have := hm
    simp only [Set.mem_setOf_eq] at this
    rw [getLevel_eq_of_getElem? hmt] at this
    exact this
  · intro d hd hzero
    have hdlt : d.task < ts.length := hin m.val _ hmt d hd
    exact hmin ⟨d.task, hdlt⟩ hzero (Relation.TransGen.single ⟨_, hmt, d, hd, rfl⟩)

theorem countP_lt_countP {α : Type} (p q : α → Bool) (l : List α)
    (hle : ∀ x ∈ l, q x = true → p x = true)
    (hlt : ∃ x ∈ l, p x = true ∧ q x = false) : l.countP q < l.countP p := by
  induction l with
  | nil => obtain ⟨x, hx, _⟩ := hlt; cases hx
  | cons a l ih =>
    have hmono : l.countP q ≤ l.countP p :=
      List.countP_mono_left (fun x hx => hle x (List.mem_cons_of_mem _ hx))
    obtain ⟨x, hx, hpx, hqx⟩ := hlt
    rw [List.countP_cons, List.countP_cons]
    rcases List.mem_cons.1 hx with rfl | hx
    · rw [if_pos hpx, if_neg (by rw [hqx]; exact Bool.false_ne_true)]
      omega
    · have := ih (fun y hy => hle y (List.mem_cons_of_mem _ hy)) ⟨x, hx, hpx, hqx⟩
      by_cases hqa : q a = true
      · have hpa := hle a (List.mem_cons_self _ _) hqa
        simp only [hqa, hpa, if_true]
        omega
      · rw [if_neg hqa]
        split <;> omega

theorem unlevelled_pass_lt (c : Nat) (ts : List Task) (hc : 0 < c)
    (i : Nat) (t : Task) (hi : ts[i]? = some t) (h0 : t.level = 0)
    (hr : ∀ d ∈ t.parents, getLevel ts d.task ≠ 0) :
    unlevelled (passSpec c ts) < unlevelled ts := by
  unfold unlevelled passSpec
  rw [List.countP_map]
  apply countP_lt_countP
  · intro x _ hx
    simp only [Function.comp, decide_eq_true_eq, passLevel_level] at hx
    simp only [decide_eq_true_eq]
    by_contra hne
    rw [if_neg (fun h => hne h.1)] at hx
    exact hne hx
  · refine ⟨t, List.getElem?_mem hi, by simpa using h0, ?_⟩
    simp only [Function.comp, decide_eq_false_iff_not, passLevel_level]
    rw [if_pos ⟨h0, hr⟩]
    omega

/-- On an acyclic graph the levelling loop returns as soon as its fuel exceeds the
number of unlevelled tasks. -/
theorem levelLoop_terminates (fuel : Nat) : ∀ (c : Nat) (ts : List Task), 0 < c →
    (∀ t ∈ ts, t.level < c) → Acyclic ts → InRange ts → unlevelled ts < fuel →
    ∃ r, levelLoop fuel c ts = Except.ok r := by
  induction fuel with
  | zero => intro c ts _ _ _ _ h; omega
  | succ fuel ih =>
    intro c ts hc hlev hac hin hcount
    obtain ⟨hp1, hp2⟩ := levelPass_spec c ts hlev
    simp only [levelLoop]
    by_cases hfin : (levelPass c ts).2 = true
    · rw [if_pos hfin]
      exact ⟨_, rfl⟩
    · rw [if_neg hfin, hp1]
      have hnot : ¬ ∀ t ∈ ts, t.level = 0 → ∀ d ∈ t.parents, getLevel ts d.task ≠ 0 :=
        fun h => hfin (hp2.2 h)
      push_neg at hnot
      obtain ⟨t0, ht0, hl0, _⟩ := hnot
      obtain ⟨i0, hi0⟩ := List.mem_iff_getElem?.1 ht0
      obtain ⟨i, t, hi, h0, hr⟩ := exists_ready ts hac hin i0 t0 hi0 hl0
      have hdec := unlevelled_pass_lt c ts hc i t hi h0 hr
      apply ih (c + 1) (passSpec c ts) (by omega)
      · intro t' ht'
        simp only [passSpec, List.mem_map] at ht'
        obtain ⟨u, hu, rfl⟩ := ht'
        rw [passLevel_level]
        have := hlev u hu
        split <;> omega
      · exact acyclic_congr (map_unlevel_passSpec c ts) hac
      · exact inRange_congr (map_unlevel_passSpec c ts) hin
      · omega

theorem map_unlevel_map_unlevel (ts : List Task) :
    (ts.map unlevel).map unlevel = ts.map unlevel := by
  rw [List.map_map]
  apply List.map_congr_left
  intro t _
  rfl

/-- On an acyclic graph `calculate_dependencies` returns within one pass more
than there are tasks. -/
theorem calculate_dependencies_terminates (ts : List Task) (hac : Acyclic ts)
    (hin : InRange ts) (fuel : Nat) (hfuel : ts.length < fuel) :
    ∃ r, calculate_dependencies fuel ts = Except.ok r := by
  unfold calculate_dependencies
  apply levelLoop_terminates fuel 1 (ts.map unlevel) (by omega)
  · intro t ht
    simp only [List.mem_map] at ht
    obtain ⟨u, _, rfl⟩ := ht
    simp [unlevel]
  · exact acyclic_congr (map_unlevel_map_unlevel ts) hac
  · exact inRange_congr (map_unlevel_map_unlevel ts) hin
  · have : unlevelled (ts.map unlevel) ≤ (ts.map unlevel).length := List.countP_le_length _
    simp only [List.length_map] at this
    omega

/-! ## The data phase -/

theorem findLastFunction_foldl (var : Nat) (fs : List XFunction) (acc : Option XFunction) :
    fs.foldl (fun lastFunction function =>
      if var ∈ function.readWriteVariables ∨ lastFunction = none then some function
      else lastFunction) acc =
    match (fs.filter (fun f => var ∈ f.readWriteVariables)).getLast? with
    | some f => some f
    | none => (match acc with
      | some a => some a
      | none => fs.head?) := by
  induction fs generalizing acc with
  | nil => cases acc <;> rfl
  | cons f fs ih =>
    rw [List.foldl_cons]
    by_cases hw : var ∈ f.readWriteVariables
    · rw [if_pos (Or.inl hw), ih, List.filter_cons_of_pos (by simpa using hw),
        List.getLast?_cons]
      cases (fs.filter (fun f => var ∈ f.readWriteVariables)).getLast? <;> rfl
    · rw [List.filter_cons_of_neg (by simpa using hw)]
      cases acc with
      | none =>
        rw [if_pos (Or.inr rfl), ih]
        rfl
      | some a =>
        rw [if_neg (by simp [hw]), ih]

/-- The loop of `catalog_data_dependencies` finds the last function writing the
variable, and the first function of the agent when no function writes it. -/
theorem findLastFunction_eq (var : Nat) (fs : List XFunction) :
    findLastFunction var fs = dataParent var fs := by
  unfold findLastFunction dataParent
  rw [findLastFunction_foldl]

theorem dataParent_mem (var : Nat) (fs : List XFunction) (f : XFunction)
    (h : dataParent var fs = some f) : f ∈ fs := by
  unfold dataParent at h
  cases hl : (fs.filter (fun f => var ∈ f.readWriteVariables)).getLast? with
  | some g =>
    rw [hl] at h
    cases h
    exact (List.mem_filter.1 (List.mem_of_getLast?_eq_some hl)).1
  | none =>
    rw [hl] at h
    simp only at h
    cases fs with
    | nil => cases h
    | cons x xs => simp only [List.head?_cons, Option.some.injEq] at h; subst h; simp

theorem dataParent_isSome (var : Nat) (fs : List XFunction) (h : fs ≠ []) :
    ∃ f, dataParent var fs = some f := by
  unfold dataParent
  cases (fs.filter (fun f => var ∈ f.readWriteVariables)).getLast? with
  | some g => exact ⟨g, rfl⟩
  | none =>
    cases fs with
    | nil => exact absurd rfl h
    | cons x xs => exact ⟨x, rfl⟩

theorem getLevel_append_left (ts X : List Task) (j : Nat) (h : j < ts.length) :
    getLevel (ts ++ X) j = getLevel ts j := by
  unfold getLevel
  rw [List.getElem?_append_left h]

theorem getLevel_congr {ts ts' : List Task} {j : Nat} (h : ts'[j]? = ts[j]?) :
    getLevel ts' j = getLevel ts j := by
  unfold getLevel
  rw [h]

/-- The body of the loop over the variables: one task is pushed. -/
theorem data_step {ctor : Task} (ts : List Task) (a : XMachine) (v : XVariable) (f : XFunction) :
    ∃ t, setLevel (addParent (ts ++ [dataTask ctor a v])
        ts.length v.name DependencyType.data f.task) ts.length
        (getLevel (addParent (ts ++ [dataTask ctor a v])
          ts.length v.name DependencyType.data f.task) f.task + 1) = ts ++ [t] ∧
      IsDataTask ctor a v f t ∧ (f.task < ts.length → t.level = getLevel ts f.task + 1) := by
  have h1 : addParent (ts ++ [dataTask ctor a v])
        ts.length v.name DependencyType.data f.task
      = ts ++ [withParents [Dependency.mk v.name DependencyType.data f.task]
          (dataTask ctor a v)] := by
    unfold addParent addDependency
    exact modify_length_append _ ts _ []
  rw [h1]
  generalize hl : getLevel (ts ++ [withParents [Dependency.mk v.name DependencyType.data f.task]
          (dataTask ctor a v)]) f.task + 1 = lvl
  refine ⟨{ withParents [Dependency.mk v.name DependencyType.data f.task]
          (dataTask ctor a v) with level := lvl }, ?_, ?_, ?_⟩
  · unfold setLevel
    exact modify_length_append _ ts _ []
  · exact ⟨rfl, rfl, rfl, rfl, rfl⟩
  · intro hlt
    rw [← hl, getLevel_append_left ts _ _ hlt]

theorem addDataTasks_spec {ctor : Task} (a : XMachine) : ∀ (vars : List XVariable) (pos : Nat)
    (ts ts' : List Task), addDataTasks ctor a pos vars ts = Except.ok ts' →
    ts'.length = ts.length + vars.length ∧ (∀ i : Nat, i < ts.length → ts'[i]? = ts[i]?) ∧
    ∀ (k : Nat) (v : XVariable), vars[k]? = some v →
      ∃ f t, findLastFunction (pos + k) a.functions = some f ∧
        ts'[ts.length + k]? = some t ∧ IsDataTask ctor a v f t ∧
        (f.task < ts.length → t.level = getLevel ts f.task + 1) := by
  intro vars
  induction vars with
  | nil =>
    intro pos ts ts' h
    simp only [addDataTasks, Except.ok.injEq] at h
    subst h
    exact ⟨rfl, fun _ _ => rfl, fun k v hk => by simp at hk⟩
  | cons v rest ih =>
    intro pos ts ts' h
    simp only [addDataTasks] at h
    cases hf : findLastFunction pos a.functions with
    | none => rw [hf] at h; cases h
    | some f =>
      rw [hf] at h
      simp only at h
      obtain ⟨t, ht, hshape, hlevel⟩ := @data_step ctor ts a v f
      unfold dataTask at ht
      rw [ht] at h
      obtain ⟨h1, h2, h3⟩ := ih (pos + 1) (ts ++ [t]) ts' h
      simp only [List.length_append, List.length_singleton] at h1 h2 h3
      refine ⟨by simp only [List.length_cons]; omega, ?_, ?_⟩
      · intro i hi
        rw [h2 i (by omega), List.getElem?_append_left hi]
      · intro k w hk
        cases k with
        | zero =>
          simp only [List.getElem?_cons_zero, Option.some.injEq] at hk
          subst hk
          refine ⟨f, t, hf, ?_, hshape, hlevel⟩
          rw [Nat.add_zero, h2 ts.length (by omega)]
          exact getElem?_length_append ts t []
        | succ k =>
          simp only [List.getElem?_cons_succ] at hk
          obtain ⟨g, u, hg, hu, hs, hl⟩ := h3 k w hk
          refine ⟨g, u, ?_, ?_, hs, ?_⟩
          · rw [← hg]; congr 1; omega
          · rw [← hu]; congr 1; omega
          · intro hlt
            rw [hl (by omega), getLevel_append_left ts _ _ hlt]

theorem addDataTasks_isOk {ctor : Task} (a : XMachine) (hfun : a.functions ≠ []) :
    ∀ (vars : List XVariable) (pos : Nat) (ts : List Task),
      ∃ ts', addDataTasks ctor a pos vars ts = Except.ok ts' := by
  intro vars
  induction vars with
  | nil => intro pos ts; exact ⟨ts, rfl⟩
  | cons v rest ih =>
    intro pos ts
    obtain ⟨f, hf⟩ := dataParent_isSome pos a.functions hfun
    rw [← findLastFunction_eq] at hf
    simp only [addDataTasks, hf]
    exact ih _ _

theorem addDataTasks_nil {ctor : Task} (a : XMachine) (pos : Nat) (ts : List Task) :
    addDataTasks ctor a pos [] ts = Except.ok ts := rfl

theorem addDataTasks_keys {ctor : Task} (a : XMachine) : ∀ (vars : List XVariable) (pos : Nat)
    (ts ts' : List Task), addDataTasks ctor a pos vars ts = Except.ok ts' →
    ts'.map taskKey = ts.map taskKey
      ++ vars.map (fun v => (TaskType.io_pop_write, a.name, v.name)) := by
  intro vars
  induction vars with
  | nil =>
    intro pos ts ts' h
    simp only [addDataTasks, Except.ok.injEq] at h
    subst h
    simp
  | cons v rest ih =>
    intro pos ts ts' h
    simp only [addDataTasks] at h
    cases hf : findLastFunction pos a.functions with
    | none => rw [hf] at h; cases h
    | some f =>
      rw [hf] at h
      simp only at h
      obtain ⟨t, ht, hshape, _⟩ := @data_step ctor ts a v f
      unfold dataTask at ht
      rw [ht] at h
      rw [ih (pos + 1) (ts ++ [t]) ts' h]
      obtain ⟨h1, h2, h3, _, _⟩ := hshape
      simp [taskKey, h1, h2, h3]

theorem addAgentDataTasks_keys {ctor : Task} : ∀ (agents : List XMachine) (ts ts' : List Task),
    addAgentDataTasks ctor agents ts = Except.ok ts' →
    ts'.map taskKey = ts.map taskKey ++ agents.flatMap (fun a =>
      a.variables_.map (fun v => (TaskType.io_pop_write, a.name, v.name))) := by
  intro agents
  induction agents with
  | nil =>
    intro ts ts' h
    simp only [addAgentDataTasks, Except.ok.injEq] at h
    subst h
    simp
  | cons a rest ih =>
    intro ts ts' h
    simp only [addAgentDataTasks] at h
    cases h1 : addDataTasks ctor a 0 a.variables_ ts with
    | error e => rw [h1] at h; cases h
    | ok ts1 =>
      rw [h1] at h
      simp only at h
      rw [ih ts1 ts' h, addDataTasks_keys a _ _ _ _ h1]
      simp [List.flatMap_cons]

/-- The task objects after the data phase: the objects it was given, unchanged,
followed by one data task per variable of every agent, each depending on the
function `findLastFunction` selects and levelled one above it. -/
theorem addAgentDataTasks_spec {ctor : Task} : ∀ (agents : List XMachine) (ts ts' : List Task),
    addAgentDataTasks ctor agents ts = Except.ok ts' →
    ts.length ≤ ts'.length ∧ (∀ i : Nat, i < ts.length → ts'[i]? = ts[i]?) ∧
    (∀ a ∈ agents, ∀ (k : Nat) (v : XVariable), a.variables_[k]? = some v →
      ∃ (i : Nat) (f : XFunction) (t : Task), ts.length ≤ i ∧
        findLastFunction k a.functions = some f ∧ ts'[i]? = some t ∧ IsDataTask ctor a v f t ∧
        (f.task < ts.length → t.level = getLevel ts f.task + 1)) ∧
    (∀ (i : Nat) (t : Task), ts.length ≤ i → ts'[i]? = some t →
      ∃ a ∈ agents, ∃ (k : Nat) (v : XVariable) (f : XFunction),
        a.variables_[k]? = some v ∧ findLastFunction k a.functions = some f ∧
        IsDataTask ctor a v f t ∧ (f.task < ts.length → t.level = getLevel ts f.task + 1)) := by
  intro agents
  induction agents with
  | nil =>
    intro ts ts' h
    simp only [addAgentDataTasks, Except.ok.injEq] at h
    subst h
    refine ⟨Nat.le_refl _, fun _ _ => rfl, fun a ha => absurd ha (List.not_mem_nil a), ?_⟩
    intro i t hi ht
    rw [List.getElem?_eq_none hi] at ht
    cases ht
  | cons a rest ih =>
    intro ts ts' h
    simp only [addAgentDataTasks] at h
    cases h1 : addDataTasks ctor a 0 a.variables_ ts with
    | error e => rw [h1] at h; cases h
    | ok ts1 =>
      rw [h1] at h
      simp only at h
      obtain ⟨hlen1, hpre1, hvar1⟩ := addDataTasks_spec a _ _ _ _ h1
      obtain ⟨hlen2, hpre2, hfw2, hbw2⟩ := ih ts1 ts' h
      have hpre : ∀ i : Nat, i < ts.length → ts'[i]? = ts[i]? := fun i hi => by
        rw [hpre2 i (by omega), hpre1 i hi]
      refine ⟨by omega, hpre, ?_, ?_⟩
      · intro a' ha' k v hk
        rcases List.mem_cons.1 ha' with rfl | ha'
        · obtain ⟨f, t, hf, ht, hs, hl⟩ := hvar1 k v hk
          have hklt : k < a'.variables_.length := by
            by_contra hcon
            rw [List.getElem?_eq_none (Nat.le_of_not_lt hcon)] at hk
            cases hk
          refine ⟨ts.length + k, f, t, by omega, ?_, ?_, hs, hl⟩
          · rw [← hf, Nat.zero_add]
          · rw [hpre2 _ (by omega), ht]
        · obtain ⟨i, f, t, hi, hf, ht, hs, hl⟩ := hfw2 a' ha' k v hk
          refine ⟨i, f, t, by omega, hf, ht, hs, ?_⟩
          intro hlt
          rw [hl (by omega), getLevel_congr (hpre1 _ hlt)]
      · intro i t hi ht
        by_cases hi1 : i < ts1.length
        · rw [hpre2 i hi1] at ht
          have hk : (i - ts.length) < a.variables_.length := by omega
          obtain ⟨f, u, hf, hu, hs, hl⟩ :=
            hvar1 (i - ts.length) _ (List.getElem?_eq_getElem hk)
          rw [show ts.length + (i - ts.length) = i by omega, ht] at hu
          cases hu
          refine ⟨a, List.mem_cons_self _ _, i - ts.length, _,
            f, List.getElem?_eq_getElem hk, ?_, hs, hl⟩
          rw [← hf, Nat.zero_add]
        · obtain ⟨a', ha', k, v, f, hk, hf, hs, hl⟩ := hbw2 i t (by omega) ht
          refine ⟨a', List.mem_cons_of_mem _ ha', k, v, f, hk, hf, hs, ?_⟩
          intro hlt
          rw [hl (by omega), getLevel_congr (hpre1 _ hlt)]

theorem addAgentDataTasks_isOk {ctor : Task} : ∀ (agents : List XMachine)
    (_ : ∀ a ∈ agents, a.variables_ ≠ [] → a.functions ≠ []) (ts : List Task),
    ∃ ts', addAgentDataTasks ctor agents ts = Except.ok ts' := by
  intro agents
  induction agents with
  | nil => intro _ ts; exact ⟨ts, rfl⟩
  | cons a rest ih =>
    intro hfun ts
    have h1 : ∃ ts1, addDataTasks ctor a 0 a.variables_ ts = Except.ok ts1 := by
      by_cases hv : a.variables_ = []
      · rw [hv]; exact ⟨ts, rfl⟩
      · exact addDataTasks_isOk a (hfun a (List.mem_cons_self _ _) hv) _ _ _
    obtain ⟨ts1, h1⟩ := h1
    simp only [addAgentDataTasks, h1]
    exact ih (fun a' ha' => hfun a' (List.mem_cons_of_mem _ ha')) ts1

/-! ## The model apart from its task pointers -/

theorem map_untask_setTasks (fs : List XFunction) : ∀ n : Nat,
    (setTasks n fs).map XFunction.untask = fs.map XFunction.untask := by
  induction fs with
  | nil => intro n; rfl
  | cons f fs ih => intro n; simp only [setTasks, List.map_cons, ih]; rfl

theorem map_untask_setAgentTasks (agents : List XMachine) : ∀ n : Nat,
    (setAgentTasks n agents).map XMachine.untask = agents.map XMachine.untask := by
  induction agents with
  | nil => intro n; rfl
  | cons a rest ih =>
    intro n
    simp only [setAgentTasks, List.map_cons, ih]
    congr 1
    simp only [XMachine.untask, map_untask_setTasks]

theorem map_untask_setSync (msgs : List XMessage) : ∀ n : Nat,
    (setSync n msgs).map XMessage.untask = msgs.map XMessage.untask := by
  induction msgs with
  | nil => intro n; rfl
  | cons M rest ih => intro n; simp only [setSync, List.map_cons, ih]; rfl

/-- The two catalogue phases change nothing in the model but the task pointers. -/
theorem untask_dependencyGraph {ctor : Task} (m : XModel) :
    (dependencyGraph ctor m).1.untask = m.untask := by
  rw [dependencyGraph_eq]
  simp only [XModel.untask, map_untask_setAgentTasks, map_untask_setSync]

theorem exists_of_map_eq {α β : Type} (g : α → β) {l1 l2 : List α}
    (h : l1.map g = l2.map g) : ∀ x ∈ l1, ∃ y ∈ l2, g x = g y := by
  intro x hx
  have : g x ∈ l2.map g := h ▸ List.mem_map_of_mem g hx
  obtain ⟨y, hy, hxy⟩ := List.mem_map.1 this
  exact ⟨y, hy, hxy.symm⟩

theorem agent_of_untask {m m' : XModel} (h : m'.untask = m.untask) :
    ∀ a' ∈ m'.agents, ∃ a ∈ m.agents, a'.name = a.name ∧ a'.variables_ = a.variables_ ∧
      a'.functions.map XFunction.untask = a.functions.map XFunction.untask := by
  intro a' ha'
  have h1 : m'.agents.map XMachine.untask = m.agents.map XMachine.untask :=
    congrArg XModel.agents h
  obtain ⟨a, ha, hu⟩ := exists_of_map_eq XMachine.untask h1 a' ha'
  exact ⟨a, ha, show a'.untask.name = a.untask.name from congrArg XMachine.name hu,
    show a'.untask.variables_ = a.untask.variables_ from congrArg XMachine.variables_ hu,
    congrArg XMachine.functions hu⟩

/-! ## The structure of `generate_task_list` -/

theorem generate_task_list_ok {sort : StdSort} {ctor : Task} (fuel : Nat) (m : XModel)
    (r : TaskList)
    (h : generate_task_list sort ctor fuel m = Except.ok r) :
    ∃ ts3, calculate_dependencies fuel (dependencyGraph ctor m).2 = Except.ok ts3 ∧
      catalog_data_dependencies ctor (dependencyGraph ctor m).1 ts3 = Except.ok r.objects ∧
      r.model = (dependencyGraph ctor m).1 ∧ r.tasks = calculate_task_list sort r.objects := by
  unfold generate_task_list at h
  simp only at h
  change (match calculate_dependencies fuel (dependencyGraph ctor m).2 with
    | Except.error e => Except.error e
    | Except.ok tasks3 =>
      match catalog_data_dependencies ctor (dependencyGraph ctor m).1 tasks3 with
      | Except.error e => Except.error e
      | Except.ok tasks4 =>
        Except.ok (TaskList.mk (dependencyGraph ctor m).1 tasks4 (calculate_task_list sort tasks4))) = Except.ok r at h
  cases h3 : calculate_dependencies fuel (dependencyGraph ctor m).2 with
  | error e => rw [h3] at h; cases h
  | ok ts3 =>
    rw [h3] at h
    simp only at h
    cases h4 : catalog_data_dependencies ctor (dependencyGraph ctor m).1 ts3 with
    | error e => rw [h4] at h; cases h
    | ok ts4 =>
      rw [h4] at h
      simp only [Except.ok.injEq] at h
      subst h
      exact ⟨ts3, rfl, h4, rfl, rfl⟩

theorem generate_task_list_of_ok {sort : StdSort} {ctor : Task} (fuel : Nat) (m : XModel)
    (ts3 ts4 : List Task)
    (h3 : calculate_dependencies fuel (dependencyGraph ctor m).2 = Except.ok ts3)
    (h4 : catalog_data_dependencies ctor (dependencyGraph ctor m).1 ts3 = Except.ok ts4) :
    generate_task_list sort ctor fuel m =
      Except.ok (TaskList.mk (dependencyGraph ctor m).1 ts4 (calculate_task_list sort ts4)) := by
  unfold generate_task_list
  simp only
  change (match calculate_dependencies fuel (dependencyGraph ctor m).2 with
    | Except.error e => Except.error e
    | Except.ok tasks3 =>
      match catalog_data_dependencies ctor (dependencyGraph ctor m).1 tasks3 with
      | Except.error e => Except.error e
      | Except.ok tasks4 =>
        Except.ok (TaskList.mk (dependencyGraph ctor m).1 tasks4 (calculate_task_list sort tasks4))) = _
  rw [h3]
  simp only
  rw [h4]

/-! ## The task objects `generate_task_list` returns -/

theorem length_of_map_unlevel {ts ts' : List Task} (h : ts'.map unlevel = ts.map unlevel) :
    ts'.length = ts.length := by
  have := congrArg List.length h
  simpa using this

/-- The shape of the task objects of a returned task list: the levelled dependency
graph, followed by the data tasks. -/
theorem generate_task_list_shape {sort : StdSort} {ctor : Task} (fuel : Nat) (m : XModel)
    (r : TaskList)
    (h : generate_task_list sort ctor fuel m = Except.ok r) :
    ∃ ts3 : List Task, ts3.map unlevel = (dependencyGraph ctor m).2.map unlevel ∧ Levelled ts3 ∧
      ts3.length ≤ r.objects.length ∧ (∀ i : Nat, i < ts3.length → r.objects[i]? = ts3[i]?) ∧
      (∀ a ∈ r.model.agents, ∀ (k : Nat) (v : XVariable), a.variables_[k]? = some v →
        ∃ (i : Nat) (f : XFunction) (t : Task), ts3.length ≤ i ∧ f ∈ a.functions ∧
          f.task < ts3.length ∧ dataParent k a.functions = some f ∧
          r.objects[i]? = some t ∧ IsDataTask ctor a v f t ∧
          t.level = getLevel r.objects f.task + 1) ∧
      (∀ (i : Nat) (t : Task), ts3.length ≤ i → r.objects[i]? = some t →
        ∃ a ∈ r.model.agents, ∃ (k : Nat) (v : XVariable) (f : XFunction),
          a.variables_[k]? = some v ∧ f ∈ a.functions ∧ f.task < ts3.length ∧
          dataParent k a.functions = some f ∧ IsDataTask ctor a v f t ∧
          t.level = getLevel r.objects f.task + 1) := by
  obtain ⟨ts3, h3, h4, hm, _⟩ := generate_task_list_ok fuel m r h
  obtain ⟨hlev, hun⟩ := calculate_dependencies_ok fuel _ ts3 h3
  obtain ⟨hlen, hpre, hfw, hbw⟩ := addAgentDataTasks_spec _ _ _ h4
  have hlen3 : ts3.length = (dependencyGraph ctor m).2.length := length_of_map_unlevel hun
  have hptr : ∀ a ∈ (dependencyGraph ctor m).1.agents, ∀ (k : Nat) (f : XFunction),
      findLastFunction k a.functions = some f →
      f ∈ a.functions ∧ f.task < ts3.length ∧ dataParent k a.functions = some f := by
    intro a ha k f hf
    rw [findLastFunction_eq] at hf
    have hmem := dataParent_mem k a.functions f hf
    have := (function_task_lt m a ha f hmem).1
    rw [hlen3, length_dependencyGraph]
    exact ⟨hmem, by omega, hf⟩
  rw [hm]
  refine ⟨ts3, hun, hlev, hlen, hpre, ?_, ?_⟩
  · intro a ha k v hk
    obtain ⟨i, f, t, hi, hf, ht, hs, hl⟩ := hfw a ha k v hk
    obtain ⟨hmem, hlt, hdp⟩ := hptr a ha k f hf
    refine ⟨i, f, t, hi, hmem, hlt, hdp, ht, hs, ?_⟩
    rw [hl hlt, getLevel_congr (hpre _ hlt)]
  · intro i t hi ht
    obtain ⟨a, ha, k, v, f, hk, hf, hs, hl⟩ := hbw i t hi ht
    obtain ⟨hmem, hlt, hdp⟩ := hptr a ha k f hf
    refine ⟨a, ha, k, v, f, hk, hmem, hlt, hdp, hs, ?_⟩
    rw [hl hlt, getLevel_congr (hpre _ hlt)]

/-- In a returned task list every dependency points to a task object, and every
task is levelled one level above the highest of its parents. -/
theorem generate_task_list_levelled {sort : StdSort} {ctor : Task} (fuel : Nat) (m : XModel)
    (r : TaskList)
    (h : generate_task_list sort ctor fuel m = Except.ok r) :
    InRange r.objects ∧ Levelled r.objects := by
  obtain ⟨ts3, hun, hlev, hlen, hpre, _, hbw⟩ := generate_task_list_shape fuel m r h
  have hin3 : InRange ts3 := inRange_congr hun (inRange_dependencyGraph m)
  have hboth : ∀ (i : Nat) (t : Task), r.objects[i]? = some t →
      (∀ d ∈ t.parents, d.task < r.objects.length) ∧
      t.level ≠ 0 ∧ t.level = 1 + maxParentLevel r.objects t := by
    intro i t ht
    by_cases hi : i < ts3.length
    · rw [hpre i hi] at ht
      have hd : ∀ d ∈ t.parents, d.task < ts3.length := hin3 i t ht
      obtain ⟨h0, h1⟩ := hlev i t ht
      refine ⟨fun d hdm => by have := hd d hdm; omega, h0, ?_⟩
      rw [h1]
      congr 1
      exact (maxParentLevel_congr ts3 r.objects t t rfl
        (fun d hdm => getLevel_congr (hpre _ (hd d hdm)))).symm
    · obtain ⟨a, _, k, v, f, _, _, hlt, _, hs, hl⟩ := hbw i t (by omega) ht
      obtain ⟨_, _, _, _, hp⟩ := hs
      refine ⟨?_, by omega, ?_⟩
      · intro d hdm
        rw [hp, List.mem_singleton] at hdm
        subst hdm
        simp only
        omega
      · rw [hl]
        simp only [maxParentLevel, hp, List.map_cons, List.map_nil, List.foldr_cons,
          List.foldr_nil]
        simp only [Nat.max_zero, max_eq_left (Nat.zero_le _)]
        omega
  exact ⟨fun i t ht => (hboth i t ht).1, fun i t ht => (hboth i t ht).2⟩

/-- On a model with an acyclic dependency graph in which every agent with a
variable has a function, `generate_task_list` returns. -/
theorem generate_task_list_returns {sort : StdSort} {ctor : Task} (m : XModel) (hac : Acyclic
    (dependencyGraph ctor m).2)
    (hfun : ∀ a ∈ m.agents, a.variables_ ≠ [] → a.functions ≠ []) :
    ∃ r, generate_task_list sort ctor ((dependencyGraph ctor m).2.length + 1) m = Except.ok r := by
  obtain ⟨ts3, h3⟩ := calculate_dependencies_terminates _ hac (inRange_dependencyGraph m)
    ((dependencyGraph ctor m).2.length + 1) (Nat.lt_succ_self _)
  have hfun' : ∀ a ∈ (dependencyGraph ctor m).1.agents, a.variables_ ≠ [] → a.functions ≠ [] := by
    intro a' ha' hv
    obtain ⟨a, ha, _, hvar, hfs⟩ := agent_of_untask (untask_dependencyGraph m) a' ha'
    have hne := hfun a ha (hvar ▸ hv)
    intro hnil
    rw [hnil] at hfs
    simp only [List.map_nil] at hfs
    exact hne (List.map_eq_nil_iff.1 hfs.symm)
  obtain ⟨ts4, h4⟩ := addAgentDataTasks_isOk _ hfun' ts3
  exact ⟨_, generate_task_list_of_ok _ m ts3 ts4 h3 h4⟩

/-! ## Checking a graph for cycles -/

theorem acyclic_of_rank (ts : List Task) (rank : Nat → Nat) (h : rankCheck ts rank = true) :
    Acyclic ts := by
  have hedge : ∀ c p, edge ts c p → rank p < rank c := by
    rintro c p ⟨t, ht, d, hd, rfl⟩
    unfold rankCheck at h
    rw [List.all_eq_true] at h
    have := h (c, t) (List.mk_mem_enum_iff_getElem?.2 ht)
    rw [List.all_eq_true] at this
    simpa using this d hd
  have htrans : ∀ a b, Relation.TransGen (edge ts) a b → rank b < rank a := by
    intro a b hab
    induction hab with
    | single h1 => exact hedge _ _ h1
    | tail _ h1 ih => exact lt_trans (hedge _ _ h1) ih
  intro i hi
  exact lt_irrefl _ (htrans i i hi)

/-! ## The task types of the dependency graph -/

theorem syncTasks_taskType {ctor : Task} (n : Nat) (msgs : List XMessage) :
    ∀ t ∈ syncTasks ctor n msgs, t.taskType ≠ TaskType.io_pop_write := by
  induction msgs generalizing n with
  | nil => intro t ht; simp [syncTasks] at ht
  | cons M rest ih =>
    intro t ht
    simp only [syncTasks, List.mem_cons] at ht
    rcases ht with rfl | rfl | ht
    · simp [syncStart, Task.new, Task.setParentName, Task.setName, Task.setTaskType]
    · simp [syncFinish, Task.new, Task.setParentName, Task.setName, Task.setTaskType]
    · exact ih _ t ht

theorem functionTasks_taskType {ctor : Task} (agents : List XMachine) :
    ∀ t ∈ functionTasks ctor agents, t.taskType = TaskType.xfunction := by
  intro t ht
  simp only [functionTasks, List.mem_flatMap, List.mem_map] at ht
  obtain ⟨a, _, f, _, rfl⟩ := ht
  rfl

/-- The two catalogue phases create no `io_pop_write` task. -/
theorem taskType_dependencyGraph {ctor : Task} (m : XModel) (i : Nat) (t : Task)
    (h : (dependencyGraph ctor m).2[i]? = some t) : t.taskType ≠ TaskType.io_pop_write := by
  rw [getElem?_dependencyGraph] at h
  split at h
  · simp only [Option.map_eq_some'] at h
    obtain ⟨t0, ht0, rfl⟩ := h
    have := functionTasks_taskType m.agents t0 (List.getElem?_mem ht0)
    simp [withParents, this]
  · simp only [Option.map_eq_some'] at h
    obtain ⟨t0, ht0, rfl⟩ := h
    exact syncTasks_taskType _ _ t0 (List.getElem?_mem ht0)

/-! ## Levels along the dependencies -/

/-- C1: for every model whose dependency graph is acyclic, `generate_task_list`
returns (given that every agent with a variable has a function to hang its data
tasks on), and in every task list it returns each dependency, of whatever kind,
points to a parent task whose level is strictly below the level of the child. -/
theorem generate_task_list_child_above_parent (sort : StdSort) (ctor : Task) (m : XModel)
    (hac : Acyclic (dependencyGraph ctor m).2) :
    ((∀ a ∈ m.agents, a.variables_ ≠ [] → a.functions ≠ []) →
      ∃ fuel r, generate_task_list sort ctor fuel m = Except.ok r) ∧
    ∀ (fuel : Nat) (r : TaskList), generate_task_list sort ctor fuel m = Except.ok r →
      ∀ (c : Nat) (child : Task), r.objects[c]? = some child → ∀ d ∈ child.parents,
        ∃ parent, r.objects[d.task]? = some parent ∧ parent.level < child.level := by
  refine ⟨fun hfun => ⟨_, generate_task_list_returns m hac hfun⟩, ?_⟩
  intro fuel r h c child hc d hd
  obtain ⟨hin, hlev⟩ := generate_task_list_levelled fuel m r h
  have hlt : d.task < r.objects.length := hin c child hc d hd
  refine ⟨r.objects[d.task], List.getElem?_eq_getElem hlt, ?_⟩
  have h1 := (hlev c child hc).2
  have h2 : getLevel r.objects d.task ≤ maxParentLevel r.objects child :=
    le_foldr_max _ _ (List.mem_map.2 ⟨d, hd, rfl⟩)
  rw [getLevel_eq_of_getElem? (List.getElem?_eq_getElem hlt)] at h2
  omega

/-- Witness of C1 on scenario S2: its graph is acyclic, `generate_task_list`
returns, and every dependency of the returned list goes down in level. -/
theorem generate_task_list_child_above_parent_witness :
    Acyclic (dependencyGraph ctorA scenarioS2).2 ∧
    ∃ r, generate_task_list std.sort ctorA 5 scenarioS2 = Except.ok r ∧
      ∀ (c : Nat) (child : Task), r.objects[c]? = some child → ∀ d ∈ child.parents,
        ∃ parent, r.objects[d.task]? = some parent ∧ parent.level < child.level :=
  ⟨acyclic_of_rank _ rankS2 (by decide), _, rfl,
    (generate_task_list_child_above_parent std.sort ctorA scenarioS2
      (acyclic_of_rank _ rankS2 (by decide))).2 5 _ rfl⟩

/-- C2: for every model whose dependency graph is acyclic, `generate_task_list`
returns (given that every agent with a variable has a function), and in every
task list it returns no task is left at level 0, every task has level exactly 1
plus the largest level among its parents, hence level 1 when it has no parent,
and an `io_pop_write` task has a single parent and level exactly one above it. -/
theorem generate_task_list_level_formula (sort : StdSort) (ctor : Task) (m : XModel)
    (hac : Acyclic (dependencyGraph ctor m).2) :
    ((∀ a ∈ m.agents, a.variables_ ≠ [] → a.functions ≠ []) →
      ∃ fuel r, generate_task_list sort ctor fuel m = Except.ok r) ∧
    ∀ (fuel : Nat) (r : TaskList), generate_task_list sort ctor fuel m = Except.ok r →
      ∀ (i : Nat) (t : Task), r.objects[i]? = some t →
        t.level ≠ 0 ∧ t.level = 1 + maxParentLevel r.objects t ∧
        (t.parents = [] → t.level = 1) ∧
        (t.taskType = TaskType.io_pop_write →
          ∃ d, t.parents = [d] ∧ t.level = getLevel r.objects d.task + 1) := by
  refine ⟨fun hfun => ⟨_, generate_task_list_returns m hac hfun⟩, ?_⟩
  intro fuel r h i t ht
  obtain ⟨_, hlev⟩ := generate_task_list_levelled fuel m r h
  obtain ⟨h0, h1⟩ := hlev i t ht
  refine ⟨h0, h1, ?_, ?_⟩
  · intro hp
    rw [h1]
    simp [maxParentLevel, hp]
  · intro hty
    obtain ⟨ts3, hun, _, _, hpre, _, hbw⟩ := generate_task_list_shape fuel m r h
    by_cases hi : i < ts3.length
    · rw [hpre i hi] at ht
      obtain ⟨t2, ht2, _, hu⟩ := getElem?_of_map_unlevel hun ht
      have := taskType_dependencyGraph m i t2 ht2
      have hsame : t.taskType = t2.taskType :=
        show (unlevel t).taskType = (unlevel t2).taskType from congrArg Task.taskType hu
      exact absurd (hsame ▸ hty) this
    · obtain ⟨a, _, k, v, f, _, _, _, _, hs, hl⟩ := hbw i t (by omega) ht
      exact ⟨_, hs.2.2.2.2, hl⟩

/-- Witness of C2 on scenario S1: its graph is acyclic, `generate_task_list`
returns, and the levels of the returned list obey the formula. -/
theorem generate_task_list_level_formula_witness :
    Acyclic (dependencyGraph ctorA scenarioS1).2 ∧
    ∃ r, generate_task_list std.sort ctorA 5 scenarioS1 = Except.ok r ∧
      ∀ (i : Nat) (t : Task), r.objects[i]? = some t →
        t.level ≠ 0 ∧ t.level = 1 + maxParentLevel r.objects t ∧
        (t.parents = [] → t.level = 1) ∧
        (t.taskType = TaskType.io_pop_write →
          ∃ d, t.parents = [d] ∧ t.level = getLevel r.objects d.task + 1) :=
  ⟨acyclic_of_rank _ id (by decide), _, rfl,
    (generate_task_list_level_formula std.sort ctorA scenarioS1
      (acyclic_of_rank _ id (by decide))).2 5 _ rfl⟩

/-! ## The order of the task list -/

theorem compare_task_levels_eq_false (a b : Task) :
    compare_task_levels a b = false ↔ b.level ≤ a.level := by
  simp [compare_task_levels]

theorem compareEntries_eq_false (p q : Entry) :
    compareEntries p q = false ↔ q.2.level ≤ p.2.level := by
  simp [compareEntries, compare_task_levels]

theorem sorted_insertionSort_entries (v : List Entry) :
    List.Sorted (fun p q : Entry => compareEntries q p = false)
      (v.insertionSort (fun p q => compareEntries q p = false)) := by
  haveI : IsTotal Entry (fun p q => compareEntries q p = false) :=
    ⟨fun p q => by
      simp only [compareEntries_eq_false]
      exact Nat.le_total _ _⟩
  haveI : IsTrans Entry (fun p q => compareEntries q p = false) :=
    ⟨fun p q s => by
      simp only [compareEntries_eq_false]
      exact Nat.le_trans⟩
  exact List.sorted_insertionSort _ _

/-- The insertion sort does what the standard promises of `std::sort`. -/
theorem stable_sort_conforming : stable_sort.Conforming := by
  intro v
  exact ⟨List.perm_insertionSort _ v, sorted_insertionSort_entries v⟩

theorem calculate_task_list_perm {sort : StdSort} (hsort : sort.Conforming) (ts : List Task) :
    (calculate_task_list sort ts).Perm (List.range ts.length) := by
  unfold calculate_task_list
  rw [← List.enum_map_fst]
  exact (hsort ts.enum).1.map _

theorem calculate_task_list_pairwise {sort : StdSort} (hsort : sort.Conforming)
    (ts : List Task) :
    List.Pairwise (fun i j => getLevel ts i ≤ getLevel ts j) (calculate_task_list sort ts) := by
  unfold calculate_task_list
  rw [List.pairwise_map]
  refine List.Pairwise.imp_of_mem ?_ (hsort ts.enum).2
  intro p q hp hq hpq
  have hp1 := List.mem_enum_iff_getElem?.1 ((hsort ts.enum).1.subset hp)
  have hq1 := List.mem_enum_iff_getElem?.1 ((hsort ts.enum).1.subset hq)
  rw [getLevel_eq_of_getElem? hp1, getLevel_eq_of_getElem? hq1]
  exact (compareEntries_eq_false _ _).1 hpq

/-- Entries with pairwise distinct levels have one sorted order only. -/
theorem sort_unique {sort1 sort2 : StdSort} (h1 : sort1.Conforming) (h2 : sort2.Conforming)
    (v : List Entry) (hinj : ∀ p ∈ v, ∀ q ∈ v, p.2.level = q.2.level → p = q) :
    sort1 compareEntries v = sort2 compareEntries v := by
  let r : Entry → Entry → Prop :=
    fun p q => p.2.level ≤ q.2.level ∧ (p.2.level = q.2.level → p = q)
  haveI : IsAntisymm Entry r := ⟨fun p q hpq hqp => hpq.2 (Nat.le_antisymm hpq.1 hqp.1)⟩
  have hs : ∀ sort : StdSort, sort.Conforming → List.Sorted r (sort compareEntries v) := by
    intro sort hc
    refine List.Pairwise.imp_of_mem ?_ (hc v).2
    intro p q hp hq hpq
    exact ⟨(compareEntries_eq_false _ _).1 hpq,
      hinj p ((hc v).1.subset hp) q ((hc v).1.subset hq)⟩
  exact List.eq_of_perm_of_sorted ((h1 v).1.trans (h2 v).1.symm) (hs _ h1) (hs _ h2)

/-- Task objects with pairwise distinct levels are listed in the same order by
every `std::sort` that does what the standard promises. -/
theorem calculate_task_list_unique {sort1 sort2 : StdSort} (h1 : sort1.Conforming)
    (h2 : sort2.Conforming) (ts : List Task) (hnd : (ts.map Task.level).Nodup) :
    calculate_task_list sort1 ts = calculate_task_list sort2 ts := by
  unfold calculate_task_list
  rw [sort_unique h1 h2 ts.enum]
  intro p hp q hq hl
  have hp1 := List.mem_enum_iff_getElem?.1 hp
  have hq1 := List.mem_enum_iff_getElem?.1 hq
  have hpl : (ts.map Task.level)[p.1]? = some p.2.level := by
    rw [List.getElem?_map, hp1]; rfl
  have hql : (ts.map Task.level)[q.1]? = some p.2.level := by
    rw [List.getElem?_map, hq1, hl]; rfl
  have hpb : p.1 < (ts.map Task.level).length := (List.getElem?_eq_some_iff.1 hpl).1
  have hqb : q.1 < (ts.map Task.level).length := (List.getElem?_eq_some_iff.1 hql).1
  have hidx : p.1 = q.1 := by
    rcases Nat.lt_trichotomy p.1 q.1 with hlt | heq | hgt
    · exact absurd (hpl.trans hql.symm)
        (List.nodup_iff_getElem?_ne_getElem?.1 hnd p.1 q.1 hlt hqb)
    · exact heq
    · exact absurd (hql.trans hpl.symm)
        (List.nodup_iff_getElem?_ne_getElem?.1 hnd q.1 p.1 hgt hpb)
  have hsnd : p.2 = q.2 := by
    rw [hidx, hq1] at hp1
    exact (Option.some.inj hp1).symm
  exact Prod.ext hidx hsnd

/-! ## The priorities of the tasks -/

theorem syncTasks_priorityLevel {ctor : Task} (n : Nat) (msgs : List XMessage) :
    ∀ t ∈ syncTasks ctor n msgs, t.priorityLevel = ctor.priorityLevel := by
  induction msgs generalizing n with
  | nil => intro t ht; simp [syncTasks] at ht
  | cons M rest ih =>
    intro t ht
    simp only [syncTasks, List.mem_cons] at ht
    rcases ht with rfl | rfl | ht
    · rfl
    · rfl
    · exact ih _ t ht

theorem functionTasks_priorityLevel {ctor : Task} (agents : List XMachine) :
    ∀ t ∈ functionTasks ctor agents, t.priorityLevel = ctor.priorityLevel := by
  intro t ht
  simp only [functionTasks, List.mem_flatMap, List.mem_map] at ht
  obtain ⟨a, _, f, _, rfl⟩ := ht
  rfl

/-- The two catalogue phases leave every task with the priority of a new task. -/
theorem priorityLevel_dependencyGraph {ctor : Task} (m : XModel) (i : Nat) (t : Task)
    (h : (dependencyGraph ctor m).2[i]? = some t) : t.priorityLevel = ctor.priorityLevel := by
  rw [getElem?_dependencyGraph] at h
  split at h
  · simp only [Option.map_eq_some'] at h
    obtain ⟨t0, ht0, rfl⟩ := h
    exact functionTasks_priorityLevel m.agents t0 (List.getElem?_mem ht0)
  · simp only [Option.map_eq_some'] at h
    obtain ⟨t0, ht0, rfl⟩ := h
    exact syncTasks_priorityLevel _ _ t0 (List.getElem?_mem ht0)

/-- Every task of a returned task list has the priority of a new task: no call
sets a priority. -/
theorem generate_task_list_priorityLevel {sort : StdSort} {ctor : Task} (fuel : Nat)
    (m : XModel) (r : TaskList) (h : generate_task_list sort ctor fuel m = Except.ok r) :
    ∀ t ∈ r.objects, t.priorityLevel = ctor.priorityLevel := by
  obtain ⟨ts3, hun, _, _, hpre, _, hbw⟩ := generate_task_list_shape fuel m r h
  intro t ht
  obtain ⟨i, hi⟩ := List.mem_iff_getElem?.1 ht
  by_cases hlt : i < ts3.length
  · rw [hpre i hlt] at hi
    obtain ⟨t0, ht0, _, hu⟩ := getElem?_of_map_unlevel hun hi
    rw [← priorityLevel_dependencyGraph m i t0 ht0]
    have h1 : (unlevel t).priorityLevel = (unlevel t0).priorityLevel :=
      congrArg Task.priorityLevel hu
    exact h1
  · obtain ⟨_, _, _, _, _, _, _, _, _, hs, _⟩ := hbw i t (by omega) hi
    exact hs.2.2.2.1

/-! ## The order the specification asks for -/

theorem map_task_setTasks (fs : List XFunction) : ∀ n : Nat,
    (setTasks n fs).map XFunction.task = List.range' n fs.length := by
  induction fs with
  | nil => intro n; rfl
  | cons f fs ih =>
    intro n
    simp only [setTasks, List.map_cons, ih, List.length_cons, List.range'_succ]

theorem length_setTasks (fs : List XFunction) : ∀ n : Nat,
    (setTasks n fs).length = fs.length := by
  induction fs with
  | nil => intro n; rfl
  | cons f fs ih => intro n; simp only [setTasks, List.length_cons, ih]

theorem map_task_setAgentTasks {ctor : Task} (agents : List XMachine) : ∀ n : Nat,
    (setAgentTasks n agents).flatMap (fun a => a.functions.map XFunction.task)
      = List.range' n (functionTasks ctor agents).length := by
  induction agents with
  | nil => intro n; rfl
  | cons a rest ih =>
    intro n
    simp only [setAgentTasks, List.flatMap_cons, ih, map_task_setTasks,
      length_functionTasks_cons, List.length_append, List.length_map]
    rw [List.range'_append_1, Nat.add_comm]

theorem mem_functionPairs (agents : List XMachine) (a : XMachine) (f : XFunction) :
    (a, f) ∈ functionPairs agents ↔ a ∈ agents ∧ f ∈ a.functions := by
  unfold functionPairs
  simp only [List.mem_flatMap, List.mem_map, Prod.mk.injEq]
  constructor
  · rintro ⟨a', ha', f', hf', rfl, rfl⟩
    exact ⟨ha', hf'⟩
  · rintro ⟨ha, hf⟩
    exact ⟨a, ha, f, hf, rfl, rfl⟩

theorem map_task_functionPairs (agents : List XMachine) :
    (functionPairs agents).map (fun p => p.2.task)
      = agents.flatMap (fun a => a.functions.map XFunction.task) := by
  unfold functionPairs
  rw [List.map_flatMap]
  congr 1
  funext a
  rw [List.map_map]
  rfl

theorem flatMap_ite_none {α β γ : Type} [DecidableEq γ] (key : α → γ) (g : α → List β)
    (l : List α) (k : γ) (h : ∀ z ∈ l, key z ≠ k) :
    l.flatMap (fun z => if key z = k then g z else []) = [] := by
  induction l with
  | nil => rfl
  | cons y l ih =>
    rw [List.flatMap_cons, if_neg (h y (List.mem_cons_self _ _)),
      ih (fun z hz => h z (List.mem_cons_of_mem _ hz))]
    rfl

theorem flatMap_ite_unique {α β γ : Type} [DecidableEq γ] (key : α → γ) (g : α → List β)
    (l : List α) (hnd : (l.map key).Nodup) (x : α) (hx : x ∈ l) :
    l.flatMap (fun y => if key y = key x then g y else []) = g x := by
  induction l with
  | nil => cases hx
  | cons y l ih =>
    rw [List.map_cons, List.nodup_cons] at hnd
    rw [List.flatMap_cons]
    rcases List.mem_cons.1 hx with rfl | hx
    · rw [if_pos rfl, flatMap_ite_none key g l (key x), List.append_nil]
      intro z hz hzx
      exact hnd.1 (hzx ▸ List.mem_map_of_mem key hz)
    · rw [if_neg, ih hnd.2 hx, List.nil_append]
      intro hyx
      exact hnd.1 (hyx ▸ List.mem_map_of_mem key hx)

theorem opsAt_flatMap {α : Type} (l : List α) (g : α → List (Nat × Dependency)) (i : Nat) :
    opsAt (l.flatMap g) i = l.flatMap (fun x => opsAt (g x) i) := by
  unfold opsAt
  rw [List.filter_flatMap, List.map_flatMap]

theorem opsAt_stateOps (fs : List XFunction) (f : XFunction) (i : Nat) :
    opsAt (stateOps fs f) i = if f.task = i then
      (fs.filter (fun g => f.currentState = g.nextState)).map
        (fun g => Dependency.mk f.currentState DependencyType.state g.task)
      else [] := by
  unfold opsAt stateOps
  rw [List.filter_map, List.map_map]
  by_cases h : f.task = i
  · rw [if_pos h]
    have : (fun o : Nat × Dependency => decide (o.1 = i)) ∘
        (fun g : XFunction => (f.task, Dependency.mk f.currentState DependencyType.state g.task))
        = fun _ => true := by
      funext g
      simp [h]
    rw [this, List.filter_true]
    rfl
  · rw [if_neg h]
    have : (fun o : Nat × Dependency => decide (o.1 = i)) ∘
        (fun g : XFunction => (f.task, Dependency.mk f.currentState DependencyType.state g.task))
        = fun _ => false := by
      funext g
      simp [h]
    rw [this, List.filter_false]
    rfl

theorem modelStateOps_eq_pairs (agents : List XMachine) :
    modelStateOps agents
      = (functionPairs agents).flatMap (fun p => stateOps p.1.functions p.2) := by
  unfold modelStateOps functionPairs
  rw [List.flatMap_assoc]
  congr 1
  funext a
  rw [List.flatMap_map]

/-- The state dependencies added to the task of a function are those of the
function itself. -/
theorem opsAt_modelStateOps (agents : List XMachine)
    (hnd : (agents.flatMap (fun a => a.functions.map XFunction.task)).Nodup)
    (a : XMachine) (ha : a ∈ agents) (f : XFunction) (hf : f ∈ a.functions) :
    opsAt (modelStateOps agents) f.task =
      (a.functions.filter (fun g => f.currentState = g.nextState)).map
        (fun g => Dependency.mk f.currentState DependencyType.state g.task) := by
  rw [modelStateOps_eq_pairs, opsAt_flatMap]
  simp only [opsAt_stateOps]
  rw [← map_task_functionPairs] at hnd
  exact flatMap_ite_unique (fun p : XMachine × XFunction => p.2.task)
    (fun p => (p.1.functions.filter (fun g => p.2.currentState = g.nextState)).map
        (fun g => Dependency.mk p.2.currentState DependencyType.state g.task))
    (functionPairs agents) hnd (a, f) ((mem_functionPairs agents a f).2 ⟨ha, hf⟩)

/-! ## State dependencies -/

/-- C4: after `catalog_state_dependencies` (on the empty vector `tasks_`) the model
is unchanged but for the task pointers, the pointers of the functions are
pairwise distinct, and the task of a function `F` of agent `A` is an `xfunction`
task named after `A` and `F` whose dependencies are exactly one State dependency,
labelled with the current state of `F`, per function `G` of the same agent `A`
with `G.nextState = F.currentState` (`G = F` included), in declaration order. -/
theorem catalog_state_dependencies_edges (ctor : Task) (m : XModel) :
    (catalog_state_dependencies ctor m []).1.untask = m.untask ∧
    ((catalog_state_dependencies ctor m []).1.agents.flatMap
      (fun a => a.functions.map XFunction.task)).Nodup ∧
    ∀ A ∈ (catalog_state_dependencies ctor m []).1.agents, ∀ F ∈ A.functions,
      ∃ t, (catalog_state_dependencies ctor m []).2[F.task]? = some t ∧
        t.taskType = TaskType.xfunction ∧ t.parentName = A.name ∧ t.name = F.name ∧
        t.parents = (A.functions.filter (fun G => F.currentState = G.nextState)).map
          (fun G => Dependency.mk F.currentState DependencyType.state G.task) := by
  rw [catalog_state_dependencies_eq]
  simp only [List.length_nil, List.nil_append]
  have hnd : ((setAgentTasks 0 m.agents).flatMap
      (fun a => a.functions.map XFunction.task)).Nodup := by
    rw [@map_task_setAgentTasks ctor]
    exact List.nodup_range' _ _
  refine ⟨?_, hnd, ?_⟩
  · simp only [XModel.untask, map_untask_setAgentTasks]
  · intro A hA F hF
    have hv := @setAgentTasks_valid ctor m.agents [] [] A hA F hF
    simp only [List.length_nil, Nat.zero_add, List.nil_append, List.append_nil] at hv
    refine ⟨withParents (opsAt (modelStateOps (setAgentTasks 0 m.agents)) F.task)
      (functionTask ctor A.name F), ?_, rfl, rfl, rfl, ?_⟩
    · rw [getElem?_applyOps, hv.2.2]
      rfl
    · show (functionTask ctor A.name F).parents ++ opsAt (modelStateOps (setAgentTasks 0 m.agents))
        F.task = _
      rw [opsAt_modelStateOps _ hnd A hA F hF]
      rfl

/-! ## Data dependencies -/

theorem dataParent_eq_some (var : Nat) (fs : List XFunction) (f : XFunction)
    (h : dataParent var fs = some f) :
    (fs.filter (fun g => var ∈ g.readWriteVariables)).getLast? = some f ∨
    ((fs.filter (fun g => var ∈ g.readWriteVariables)) = [] ∧ fs.head? = some f) := by
  unfold dataParent at h
  cases hl : (fs.filter (fun g => var ∈ g.readWriteVariables)).getLast? with
  | some g =>
    rw [hl] at h
    exact Or.inl h
  | none =>
    rw [hl] at h
    exact Or.inr ⟨List.getLast?_eq_none_iff.1 hl, h⟩

/-- C5 (as amended): whenever `catalog_data_dependencies` returns, for every agent
`A` and every variable `V` of `A` (at position `k` of its variable list) the task
objects it appended hold an `io_pop_write` task named after `A` and `V` whose only
dependency is a Data dependency labelled `V` on the task of a function `F` of `A`:
the last function of `A`, in declaration order, with `V` in its read-write list,
and the first function of `A` when no function has `V` in its read-write list. -/
theorem catalog_data_dependencies_parent (ctor : Task) (model : XModel) (tasks tasks' : List Task)
    (h : catalog_data_dependencies ctor model tasks = Except.ok tasks') :
    ∀ A ∈ model.agents, ∀ (k : Nat) (V : XVariable), A.variables_[k]? = some V →
      ∃ (i : Nat) (F : XFunction) (t : Task), tasks.length ≤ i ∧ tasks'[i]? = some t ∧
        t.taskType = TaskType.io_pop_write ∧ t.parentName = A.name ∧ t.name = V.name ∧
        t.parents = [Dependency.mk V.name DependencyType.data F.task] ∧ F ∈ A.functions ∧
        ((A.functions.filter (fun G => k ∈ G.readWriteVariables)).getLast? = some F ∨
         ((A.functions.filter (fun G => k ∈ G.readWriteVariables)) = [] ∧
           A.functions.head? = some F)) := by
  intro A hA k V hk
  obtain ⟨_, _, hfw, _⟩ := addAgentDataTasks_spec model.agents tasks tasks' h
  obtain ⟨i, F, t, hi, hF, ht, hs, _⟩ := hfw A hA k V hk
  rw [findLastFunction_eq] at hF
  exact ⟨i, F, t, hi, ht, hs.1, hs.2.1, hs.2.2.1, hs.2.2.2.2, dataParent_mem _ _ _ hF,
    dataParent_eq_some _ _ _ hF⟩

/-- Witness of C5 on scenario S1, for the variable `x` of agent `A`, which both
functions write. -/
theorem catalog_data_dependencies_parent_witness :
    ∃ tasks', catalog_data_dependencies ctorA (dependencyGraph ctorA scenarioS1).1
        (dependencyGraph ctorA scenarioS1).2 = Except.ok tasks' ∧
      agentS1 ∈ (dependencyGraph ctorA scenarioS1).1.agents ∧
      agentS1.variables_[0]? = some (XVariable.mk "x") ∧
      ∃ (i : Nat) (F : XFunction) (t : Task), (dependencyGraph ctorA scenarioS1).2.length ≤ i ∧
        tasks'[i]? = some t ∧
        t.taskType = TaskType.io_pop_write ∧ t.parentName = agentS1.name ∧
        t.name = (XVariable.mk "x").name ∧
        t.parents = [Dependency.mk (XVariable.mk "x").name DependencyType.data F.task] ∧
        F ∈ agentS1.functions ∧
        ((agentS1.functions.filter (fun G => 0 ∈ G.readWriteVariables)).getLast? = some F ∨
         ((agentS1.functions.filter (fun G => 0 ∈ G.readWriteVariables)) = [] ∧
           agentS1.functions.head? = some F)) :=
  ⟨_, rfl, by decide, rfl,
    catalog_data_dependencies_parent ctorA (dependencyGraph ctorA scenarioS1).1
      (dependencyGraph ctorA scenarioS1).2 _ rfl agentS1 (by decide) 0 (XVariable.mk "x") rfl⟩

/-- Counterexample to C5 as stated: no function of `fallbackModel` writes `x`, and
the Data dependency of the `io_pop_write` task of `x` points to task 0, the task of
the first function `F1`, not to task 1, the task of the last function `F2`. -/
theorem catalog_data_dependencies_falls_back_to_first :
    ∃ r, generate_task_list std.sort ctorA 3 fallbackModel = Except.ok r ∧
      r.model.agents.map (fun a => a.functions.map (fun f => (f.name, f.readWriteVariables, f.task)))
        = [[("F1", [], 0), ("F2", [], 1)]] ∧
      r.objects.map (fun t => (t.taskType, t.parentName, t.name, t.parents)) =
        [(TaskType.xfunction, "A", "F1", []),
         (TaskType.xfunction, "A", "F2", [Dependency.mk "t" DependencyType.state 0]),
         (TaskType.io_pop_write, "A", "x", [Dependency.mk "x" DependencyType.data 0])] :=
  ⟨_, rfl, rfl, rfl⟩

/-- The task a function points to in the dependency graph is the `xfunction` task
named after its agent and itself. -/
theorem dependencyGraph_function_task {ctor : Task} (m : XModel) :
    ∀ a ∈ (dependencyGraph ctor m).1.agents, ∀ f ∈ a.functions,
      ∃ t, (dependencyGraph ctor m).2[f.task]? = some t ∧ t.taskType = TaskType.xfunction ∧
        t.parentName = a.name ∧ t.name = f.name := by
  intro a ha f hf
  obtain ⟨hlt, hget⟩ := function_task_lt m a ha f hf
  rw [getElem?_dependencyGraph, if_pos hlt, hget]
  exact ⟨_, rfl, rfl, rfl, rfl⟩

/-- The task objects of the dependency graph are found, with their levels set, at
the same positions of a returned task list. -/
theorem objects_of_dependencyGraph {sort : StdSort} {ctor : Task} (fuel : Nat) (m : XModel)
    (r : TaskList)
    (h : generate_task_list sort ctor fuel m = Except.ok r) (i : Nat) (t2 : Task)
    (h2 : (dependencyGraph ctor m).2[i]? = some t2) :
    ∃ t, r.objects[i]? = some t ∧ unlevel t = unlevel t2 := by
  obtain ⟨ts3, hun, _, _, hpre, _, _⟩ := generate_task_list_shape fuel m r h
  obtain ⟨t, ht, _, hu⟩ := getElem?_of_map_unlevel hun.symm h2
  have hlt : i < ts3.length := by
    by_contra hcon
    rw [List.getElem?_eq_none (Nat.le_of_not_lt hcon)] at ht
    cases ht
  exact ⟨t, by rw [hpre i hlt, ht], hu.symm⟩

/-- In a returned task list the task a function points to is the `xfunction` task
named after its agent and itself. -/
theorem objects_function_task {sort : StdSort} {ctor : Task} (fuel : Nat) (m : XModel)
    (r : TaskList)
    (h : generate_task_list sort ctor fuel m = Except.ok r) :
    ∀ a ∈ r.model.agents, ∀ f ∈ a.functions,
      ∃ p, r.objects[f.task]? = some p ∧ p.taskType = TaskType.xfunction ∧
        p.parentName = a.name ∧ p.name = f.name := by
  intro a ha f hf
  obtain ⟨_, _, _, hm, _⟩ := generate_task_list_ok fuel m r h
  rw [hm] at ha
  obtain ⟨t2, ht2, h1, h2, h3⟩ := dependencyGraph_function_task m a ha f hf
  obtain ⟨p, hp, hu⟩ := objects_of_dependencyGraph fuel m r h _ t2 ht2
  refine ⟨p, hp, ?_, ?_, ?_⟩
  · rw [← h1]
    exact (show (unlevel p).taskType = (unlevel t2).taskType from congrArg Task.taskType hu)
  · rw [← h2]
    exact (show (unlevel p).parentName = (unlevel t2).parentName from
      congrArg Task.parentName hu)
  · rw [← h3]
    exact (show (unlevel p).name = (unlevel t2).name from congrArg Task.name hu)

theorem countP_key_eq {α β : Type} [DecidableEq β] (f : α → β) (k : β) (l : List α) :
    l.countP (fun t => decide (f t = k)) = (l.map f).count k := by
  rw [List.count, List.countP_map]
  congr 1

theorem count_append_eq_one {β : Type} [DecidableEq β] (k : β) (l1 l2 : List β)
    (h1 : k ∉ l1) (h2 : l2.Nodup) (h3 : k ∈ l2) : (l1 ++ l2).count k = 1 := by
  rw [List.count_append, List.count_eq_zero.2 h1, Nat.zero_add]
  exact List.count_eq_one_of_mem h2 h3

theorem taskKey_unlevel (t : Task) : taskKey (unlevel t) = taskKey t := rfl

theorem map_taskKey_of_map_unlevel {ts ts' : List Task}
    (h : ts'.map unlevel = ts.map unlevel) : ts'.map taskKey = ts.map taskKey := by
  have := congrArg (List.map taskKey) h
  simpa [List.map_map, Function.comp, taskKey_unlevel] using this

theorem map_name_of_untask {m m' : XModel} (h : m'.untask = m.untask) :
    m'.agents.map XMachine.name = m.agents.map XMachine.name := by
  have h1 : m'.agents.map XMachine.untask = m.agents.map XMachine.untask :=
    congrArg XModel.agents h
  have := congrArg (List.map XMachine.name) h1
  simpa [List.map_map, Function.comp, XMachine.untask] using this

/-- The keys of the data tasks are pairwise distinct when the agents have distinct
names and the variables of each agent have distinct names. -/
theorem nodup_dataKeys (agents : List XMachine)
    (hagents : (agents.map XMachine.name).Nodup)
    (hvars : ∀ a ∈ agents, (a.variables_.map XVariable.name).Nodup) :
    (agents.flatMap (fun a =>
      a.variables_.map (fun v => (TaskType.io_pop_write, a.name, v.name)))).Nodup := by
  rw [List.nodup_flatMap]
  constructor
  · intro a ha
    have : a.variables_.map (fun v => (TaskType.io_pop_write, a.name, v.name))
        = (a.variables_.map XVariable.name).map
            (fun n => (TaskType.io_pop_write, a.name, n)) := by
      rw [List.map_map]; rfl
    rw [this]
    exact (hvars a ha).map (fun x y hxy => by simpa using hxy)
  · have hp : List.Pairwise (fun a b : XMachine => a.name ≠ b.name) agents :=
      List.pairwise_map.1 hagents
    refine hp.imp ?_
    intro a b hab
    simp only [Function.onFun]
    rw [List.disjoint_left]
    intro k hka hkb
    simp only [List.mem_map] at hka hkb
    obtain ⟨v, _, rfl⟩ := hka
    obtain ⟨w, _, hw⟩ := hkb
    simp only [Prod.mk.injEq, true_and] at hw
    exact hab hw.1.symm

/-! ## One data task per variable -/

/-- C6 (as amended): for every model whose agents have pairwise distinct names and
whose variables have pairwise distinct names within each agent, every task list
`generate_task_list` returns holds, for every agent `A` and every variable `V` of
`A`, exactly one `io_pop_write` task with parent name `A` and name `V`, and that
task has exactly one dependency, a Data dependency labelled `V` whose parent is the
`xfunction` task of a function of `A`. A list is returned when the dependency graph
is acyclic and every agent that declares a variable has at least one function. -/
theorem generate_task_list_one_data_task (sort : StdSort) (ctor : Task) (m : XModel)
    (hagents : (m.agents.map XMachine.name).Nodup)
    (hvars : ∀ a ∈ m.agents, (a.variables_.map XVariable.name).Nodup) :
    (Acyclic (dependencyGraph ctor m).2 →
      (∀ a ∈ m.agents, a.variables_ ≠ [] → a.functions ≠ []) →
      ∃ fuel r, generate_task_list sort ctor fuel m = Except.ok r) ∧
    ∀ (fuel : Nat) (r : TaskList), generate_task_list sort ctor fuel m = Except.ok r →
      r.model.untask = m.untask ∧
      ∀ A ∈ r.model.agents, ∀ V ∈ A.variables_,
        r.objects.countP
          (fun t => decide (taskKey t = (TaskType.io_pop_write, A.name, V.name))) = 1 ∧
        ∀ t ∈ r.objects, taskKey t = (TaskType.io_pop_write, A.name, V.name) →
          ∃ (F : XFunction) (p : Task),
            t.parents = [Dependency.mk V.name DependencyType.data F.task] ∧
            F ∈ A.functions ∧ r.objects[F.task]? = some p ∧
            p.taskType = TaskType.xfunction ∧ p.parentName = A.name ∧ p.name = F.name := by
  refine ⟨fun hac hfun => ⟨_, generate_task_list_returns m hac hfun⟩, ?_⟩
  intro fuel r h
  obtain ⟨ts3, h3, h4, hm, _⟩ := generate_task_list_ok fuel m r h
  obtain ⟨_, hun⟩ := calculate_dependencies_ok fuel _ ts3 h3
  have huntask : r.model.untask = m.untask := by rw [hm]; exact untask_dependencyGraph m
  have hnames : (r.model.agents.map XMachine.name).Nodup := by
    rw [map_name_of_untask huntask]; exact hagents
  have hvars' : ∀ a ∈ r.model.agents, (a.variables_.map XVariable.name).Nodup := by
    intro a' ha'
    obtain ⟨a, ha, _, hv, _⟩ := agent_of_untask huntask a' ha'
    rw [hv]
    exact hvars a ha
  have hold : ∀ t ∈ ts3, t.taskType ≠ TaskType.io_pop_write := by
    intro t ht
    obtain ⟨i, hi⟩ := List.mem_iff_getElem?.1 ht
    obtain ⟨t2, ht2, _, hu⟩ := getElem?_of_map_unlevel hun hi
    have := taskType_dependencyGraph m i t2 ht2
    have hsame : t.taskType = t2.taskType :=
      show (unlevel t).taskType = (unlevel t2).taskType from congrArg Task.taskType hu
    rw [hsame]
    exact this
  refine ⟨huntask, ?_⟩
  intro A hA V hV
  constructor
  · unfold catalog_data_dependencies at h4
    rw [countP_key_eq, addAgentDataTasks_keys _ _ _ h4, ← hm]
    apply count_append_eq_one
    · intro hmem
      obtain ⟨t, ht, hk⟩ := List.mem_map.1 hmem
      exact hold t ht (congrArg Prod.fst hk)
    · exact nodup_dataKeys _ hnames hvars'
    · exact List.mem_flatMap.2 ⟨A, hA, List.mem_map.2 ⟨V, hV, rfl⟩⟩
  · intro t ht hkey
    obtain ⟨ts3', hun', _, _, hpre, _, hbw⟩ := generate_task_list_shape fuel m r h
    obtain ⟨i, hi⟩ := List.mem_iff_getElem?.1 ht
    have hty : t.taskType = TaskType.io_pop_write := congrArg Prod.fst hkey
    have hge : ts3'.length ≤ i := by
      by_contra hcon
      have hlt : i < ts3'.length := by omega
      rw [hpre i hlt] at hi
      obtain ⟨t2, ht2, _, hu⟩ := getElem?_of_map_unlevel hun' hi
      have := taskType_dependencyGraph m i t2 ht2
      have hsame : t.taskType = t2.taskType :=
        show (unlevel t).taskType = (unlevel t2).taskType from congrArg Task.taskType hu
      exact this (hsame ▸ hty)
    obtain ⟨a, ha, k, v, f, _, hf, _, _, hs, _⟩ := hbw i t hge hi
    obtain ⟨_, hpn, hn, _, hp⟩ := hs
    have hAname : a.name = A.name := by
      rw [← hpn]; exact congrArg (fun k => k.2.1) hkey
    have hVname : v.name = V.name := by
      rw [← hn]; exact congrArg (fun k => k.2.2) hkey
    have haA : a = A := List.inj_on_of_nodup_map hnames ha hA hAname
    subst haA
    obtain ⟨p, hp1, hp2, hp3, hp4⟩ := objects_function_task fuel m r h a ha f hf
    exact ⟨f, p, by rw [hp, hVname], hf, hp1, hp2, hp3, hp4⟩

/-- Witness of C6 on scenario S1. -/
theorem generate_task_list_one_data_task_witness :
    (scenarioS1.agents.map XMachine.name).Nodup ∧
    (∀ a ∈ scenarioS1.agents, (a.variables_.map XVariable.name).Nodup) ∧
    ∃ r, generate_task_list std.sort ctorA 5 scenarioS1 = Except.ok r ∧
      r.model.untask = scenarioS1.untask ∧
      ∀ A ∈ r.model.agents, ∀ V ∈ A.variables_,
        r.objects.countP
          (fun t => decide (taskKey t = (TaskType.io_pop_write, A.name, V.name))) = 1 ∧
        ∀ t ∈ r.objects, taskKey t = (TaskType.io_pop_write, A.name, V.name) →
          ∃ (F : XFunction) (p : Task),
            t.parents = [Dependency.mk V.name DependencyType.data F.task] ∧
            F ∈ A.functions ∧ r.objects[F.task]? = some p ∧
            p.taskType = TaskType.xfunction ∧ p.parentName = A.name ∧ p.name = F.name :=
  ⟨by decide, by decide, _, rfl,
    (generate_task_list_one_data_task std.sort ctorA scenarioS1 (by decide) (by decide)).2 5 _ rfl⟩

/-- Counterexample to C6 as stated: agent `A` of `orphanModel` declares the variable
`x` and has no function; `catalog_data_dependencies` dereferences the null pointer
`lastFunction`, and `generate_task_list` returns no task list, whatever the fuel.
And in `twinModel`, whose agent `A` declares two variables named `x`, the returned
list holds two `io_pop_write` tasks with parent name `A` and name `x`. -/
theorem generate_task_list_orphan_variable :
    generate_task_list std.sort ctorA 1 orphanModel = Except.error Fault.nullDereference ∧
    (∀ (fuel : Nat) (r : TaskList), generate_task_list std.sort ctorA fuel orphanModel ≠ Except.ok r) ∧
    ∃ r, generate_task_list std.sort ctorA 2 twinModel = Except.ok r ∧
      r.objects.countP
        (fun t => decide (taskKey t = (TaskType.io_pop_write, "A", "x"))) = 2 := by
  refine ⟨rfl, ?_, ⟨_, rfl, by decide⟩⟩
  intro fuel r h
  obtain ⟨ts3, _, h4, _, _⟩ := generate_task_list_ok fuel orphanModel r h
  have hm : (dependencyGraph ctorA orphanModel).1 = orphanModel := rfl
  rw [hm] at h4
  simp [catalog_data_dependencies, orphanModel, addAgentDataTasks, addDataTasks,
    findLastFunction] at h4

/-! ## A cyclic model -/

theorem cycleTasks_eq {ctor : Task} :
    (dependencyGraph ctor cycleModel).2.map unlevel = cycleTasks ctor := rfl

theorem cycle_pass {ctor : Task} (c : Nat) (hc : 0 < c) : levelPass c (cycleTasks ctor) =
    (cycleTasks ctor, false) := by
  have hlev : ∀ t ∈ cycleTasks ctor, t.level < c := by
    intro t ht
    simp only [cycleTasks, List.mem_cons, List.mem_singleton, List.not_mem_nil, or_false] at ht
    rcases ht with rfl | rfl <;> exact hc
  obtain ⟨h1, h2⟩ := levelPass_spec c (cycleTasks ctor) hlev
  apply Prod.ext
  · rw [h1]
    simp [passSpec, passLevel, cycleTasks, getLevel]
  · cases hb : (levelPass c (cycleTasks ctor)).2 with
    | false => rfl
    | true =>
      have := h2.1 hb _ (List.mem_cons_self _ _) rfl _ (List.mem_singleton_self _)
      exact absurd rfl this

theorem cycle_loop {ctor : Task} (fuel : Nat) : ∀ c : Nat, 0 < c →
    levelLoop fuel c (cycleTasks ctor) = Except.error Fault.outOfFuel := by
  induction fuel with
  | zero => intro c _; rfl
  | succ fuel ih =>
    intro c hc
    simp only [levelLoop, cycle_pass c hc]
    exact ih (c + 1) (by omega)

theorem generate_task_list_error {sort : StdSort} {ctor : Task} (fuel : Nat) (m : XModel)
    (e : Fault)
    (h : calculate_dependencies fuel (dependencyGraph ctor m).2 = Except.error e) :
    generate_task_list sort ctor fuel m = Except.error e := by
  unfold generate_task_list
  simp only
  change (match calculate_dependencies fuel (dependencyGraph ctor m).2 with
    | Except.error e => Except.error e
    | Except.ok tasks3 =>
      match catalog_data_dependencies ctor (dependencyGraph ctor m).1 tasks3 with
      | Except.error e => Except.error e
      | Except.ok tasks4 =>
        Except.ok (TaskList.mk (dependencyGraph ctor m).1 tasks4 (calculate_task_list sort tasks4))) = _
  rw [h]

/-- C7 (the code at the failing input): on the model with the functions `F1` (s to t)
and `F2` (t to s), `check_dependency_loops` returns 0 and the levelling loop of
`calculate_dependencies` never finishes: whatever the number of passes allowed, both
tasks are still unlevelled, and `generate_task_list` neither returns a task list nor
raises an error. -/
theorem generate_task_list_cycle_diverges (sort : StdSort) (ctor : Task) :
    check_dependency_loops cycleModel = 0 ∧
    ∀ fuel : Nat, generate_task_list sort ctor fuel cycleModel = Except.error Fault.outOfFuel := by
  refine ⟨rfl, ?_⟩
  intro fuel
  apply generate_task_list_error
  unfold calculate_dependencies
  have h : (dependencyGraph ctor cycleModel).2.map (fun t => { t with level := 0 })
      = cycleTasks ctor := cycleTasks_eq
  rw [h]
  exact cycle_loop fuel 1 (by omega)

/-! ## Levels and the agent memory -/

/-- C8 (as amended): in every task list `generate_task_list` returns, for every agent
`A` and every variable `V` of `A` (at position `k`), there is an `io_pop_write` task
named after `A` and `V` whose level is exactly one above the level of the task of
the function `F` of `A` its Data dependency points to (the last function of `A`, in
declaration order, with `V` in its read-write list, or the first function of `A`
when there is none): the two never share a level. -/
theorem generate_task_list_data_task_level (sort : StdSort) (ctor : Task) (fuel : Nat)
    (m : XModel) (r : TaskList)
    (h : generate_task_list sort ctor fuel m = Except.ok r) :
    ∀ A ∈ r.model.agents, ∀ (k : Nat) (V : XVariable), A.variables_[k]? = some V →
      ∃ (i : Nat) (t : Task) (F : XFunction) (p : Task),
        r.objects[i]? = some t ∧ taskKey t = (TaskType.io_pop_write, A.name, V.name) ∧
        t.parents = [Dependency.mk V.name DependencyType.data F.task] ∧
        F ∈ A.functions ∧
        ((A.functions.filter (fun G => k ∈ G.readWriteVariables)).getLast? = some F ∨
         ((A.functions.filter (fun G => k ∈ G.readWriteVariables)) = [] ∧
           A.functions.head? = some F)) ∧
        r.objects[F.task]? = some p ∧ taskKey p = (TaskType.xfunction, A.name, F.name) ∧
        t.level = p.level + 1 := by
  intro A hA k V hk
  obtain ⟨ts3, _, _, _, _, hfw, _⟩ := generate_task_list_shape fuel m r h
  obtain ⟨i, F, t, _, hF, _, hdp, ht, hs, hl⟩ := hfw A hA k V hk
  obtain ⟨p, hp, hp1, hp2, hp3⟩ := objects_function_task fuel m r h A hA F hF
  obtain ⟨h1, h2, h3, _, h5⟩ := hs
  refine ⟨i, t, F, p, ht, ?_, h5, hF, dataParent_eq_some _ _ _ hdp, hp, ?_, ?_⟩
  · simp only [taskKey, h1, h2, h3]
  · simp only [taskKey, hp1, hp2, hp3]
  · rw [hl, getLevel_eq_of_getElem? hp]

/-- Witness of C8 (as amended) on scenario S1, for the variable `x` of agent `A`. -/
theorem generate_task_list_data_task_level_witness :
    ∃ r, generate_task_list std.sort ctorA 5 scenarioS1 = Except.ok r ∧
      agentS1 ∈ r.model.agents ∧ agentS1.variables_[0]? = some (XVariable.mk "x") ∧
      ∃ (i : Nat) (t : Task) (F : XFunction) (p : Task),
        r.objects[i]? = some t ∧
        taskKey t = (TaskType.io_pop_write, agentS1.name, (XVariable.mk "x").name) ∧
        t.parents = [Dependency.mk (XVariable.mk "x").name DependencyType.data F.task] ∧
        F ∈ agentS1.functions ∧
        ((agentS1.functions.filter (fun G => 0 ∈ G.readWriteVariables)).getLast? = some F ∨
         ((agentS1.functions.filter (fun G => 0 ∈ G.readWriteVariables)) = [] ∧
           agentS1.functions.head? = some F)) ∧
        r.objects[F.task]? = some p ∧
        taskKey p = (TaskType.xfunction, agentS1.name, F.name) ∧
        t.level = p.level + 1 :=
  ⟨_, rfl, by decide, rfl,
    generate_task_list_data_task_level std.sort ctorA 5 scenarioS1 _ rfl agentS1 (by decide) 0
      (XVariable.mk "x") rfl⟩

/-- Counterexample to C8 as stated: in `branchModel` the functions `F1` and `F2` of
agent `A` both have `x` in their read-write list and both get level 1; in
`reversedModel` the function `F1`, which writes `x`, gets level 2, the level of the
`io_pop_write` task of `x`. -/
theorem generate_task_list_writers_share_level :
    (∃ r, generate_task_list std.sort ctorA 3 branchModel = Except.ok r ∧
      r.model.agents.map (fun a => a.functions.map
        (fun f => (f.name, f.readWriteVariables, f.task)))
        = [[("F1", [0], 0), ("F2", [0], 1)]] ∧
      r.objects.map (fun t => (t.taskType, t.parentName, t.name, t.level)) =
        [(TaskType.xfunction, "A", "F1", 1), (TaskType.xfunction, "A", "F2", 1),
         (TaskType.io_pop_write, "A", "x", 2)]) ∧
    (∃ r, generate_task_list std.sort ctorA 3 reversedModel = Except.ok r ∧
      r.model.agents.map (fun a => a.functions.map
        (fun f => (f.name, f.readWriteVariables, f.task)))
        = [[("F1", [0], 0), ("F2", [0], 1)]] ∧
      r.objects.map (fun t => (t.taskType, t.parentName, t.name, t.level)) =
        [(TaskType.xfunction, "A", "F1", 2), (TaskType.xfunction, "A", "F2", 1),
         (TaskType.io_pop_write, "A", "x", 2)]) :=
  ⟨⟨_, rfl, rfl, rfl⟩, ⟨_, rfl, rfl, rfl⟩⟩

/-! ## Sync tasks -/

theorem map_taskKind_applyOps (ts : List Task) (ops : List (Nat × Dependency)) :
    (applyOps ts ops).map taskKind = ts.map taskKind := by
  apply List.ext_getElem?
  intro i
  rw [List.getElem?_map, List.getElem?_map, getElem?_applyOps]
  cases ts[i]? <;> rfl

theorem map_taskKind_syncTasks {ctor : Task} (msgs : List XMessage) : ∀ n : Nat,
    (syncTasks ctor n msgs).map taskKind = msgs.flatMap (fun M =>
      [(TaskType.sync_start, M.name), (TaskType.sync_finish, M.name)]) := by
  induction msgs with
  | nil => intro n; rfl
  | cons M rest ih =>
    intro n
    simp only [syncTasks, List.map_cons, List.flatMap_cons, ih]
    rfl

theorem map_taskKind_dependencyGraph {ctor : Task} (m : XModel) :
    (dependencyGraph ctor m).2.map taskKind =
      (functionTasks ctor m.agents).map taskKind ++ m.messages.flatMap (fun M =>
        [(TaskType.sync_start, M.name), (TaskType.sync_finish, M.name)]) := by
  rw [dependencyGraph_eq]
  simp only [map_taskKind_applyOps, List.map_append, map_taskKind_syncTasks]

theorem nodup_syncKinds (msgs : List XMessage) (h : (msgs.map XMessage.name).Nodup) :
    (msgs.flatMap (fun M =>
      [(TaskType.sync_start, M.name), (TaskType.sync_finish, M.name)])).Nodup := by
  rw [List.nodup_flatMap]
  constructor
  · intro M _
    simp
  · have hp : List.Pairwise (fun a b : XMessage => a.name ≠ b.name) msgs :=
      List.pairwise_map.1 h
    refine hp.imp ?_
    intro a b hab
    simp only [Function.onFun]
    rw [List.disjoint_left]
    intro k hka hkb
    simp only [List.mem_cons, List.mem_singleton, List.not_mem_nil, or_false] at hka hkb
    rcases hka with rfl | rfl <;> rcases hkb with hkb | hkb <;>
      simp only [Prod.mk.injEq] at hkb <;> exact hab hkb.2

theorem map_name_setSync (msgs : List XMessage) : ∀ n : Nat,
    (setSync n msgs).map XMessage.name = msgs.map XMessage.name := by
  induction msgs with
  | nil => intro n; rfl
  | cons M rest ih => intro n; simp only [setSync, List.map_cons, ih]

/-- The sync tasks of a message in the dependency graph, with the dependencies
added to them. -/
theorem dependencyGraph_sync_tasks {ctor : Task} (m : XModel) :
    ∀ M ∈ (dependencyGraph ctor m).1.messages,
      (dependencyGraph ctor m).2[M.syncStartTask]? = some (withParents
        (opsAt (modelCommOps (dependencyGraph ctor m).1.messages (dependencyGraph ctor m).1.agents)
          M.syncStartTask) (syncStart ctor M)) ∧
      (dependencyGraph ctor m).2[M.syncFinishTask]? = some (withParents
        (opsAt (modelCommOps (dependencyGraph ctor m).1.messages (dependencyGraph ctor m).1.agents)
          M.syncFinishTask) (syncFinish ctor M.syncStartTask M)) := by
  intro M hM
  obtain ⟨h1, h2, _, h4, h5⟩ := message_task_valid m M hM
  constructor
  · rw [getElem?_dependencyGraph, if_neg (by omega), h4]
    rfl
  · rw [getElem?_dependencyGraph, if_neg (by omega), h5]
    rfl

/-- C9: for every model whose messages have pairwise distinct names, after
`catalog_state_dependencies` and `catalog_communication_dependencies` (run on the
empty vector `tasks_`, as `generate_task_list` runs them) the model is unchanged
but for the task pointers, and for every message `M` there is exactly one
`sync_start` task and exactly one `sync_finish` task with parent name `M`; they are
the tasks the message points to, and the `sync_finish` task has a Communication
dependency labelled `M` on the `sync_start` task. -/
theorem catalog_communication_dependencies_sync_pair (ctor : Task) (m : XModel)
    (hmsgs : (m.messages.map XMessage.name).Nodup) :
    (dependencyGraph ctor m).1.untask = m.untask ∧
    ∀ M ∈ (dependencyGraph ctor m).1.messages,
      (dependencyGraph ctor m).2.countP
        (fun t => decide (taskKind t = (TaskType.sync_start, M.name))) = 1 ∧
      (dependencyGraph ctor m).2.countP
        (fun t => decide (taskKind t = (TaskType.sync_finish, M.name))) = 1 ∧
      ∃ s f : Task, (dependencyGraph ctor m).2[M.syncStartTask]? = some s ∧
        taskKind s = (TaskType.sync_start, M.name) ∧
        (dependencyGraph ctor m).2[M.syncFinishTask]? = some f ∧
        taskKind f = (TaskType.sync_finish, M.name) ∧
        Dependency.mk M.name DependencyType.communication M.syncStartTask ∈ f.parents := by
  refine ⟨untask_dependencyGraph m, ?_⟩
  intro M hM
  have hname : M.name ∈ m.messages.map XMessage.name := by
    rw [← map_name_setSync m.messages (functionTasks ctor m.agents).length,
      ← dependencyGraph_messages]
    exact List.mem_map_of_mem _ hM
  obtain ⟨M0, hM0, hM0n⟩ := List.mem_map.1 hname
  have hfn : ∀ (ty : TaskType), ty ≠ TaskType.xfunction →
      (ty, M.name) ∉ (functionTasks ctor m.agents).map taskKind := by
    intro ty hty hmem
    obtain ⟨t, ht, hk⟩ := List.mem_map.1 hmem
    have := functionTasks_taskType m.agents t ht
    exact hty ((congrArg Prod.fst hk).symm.trans this)
  refine ⟨?_, ?_, ?_⟩
  · rw [countP_key_eq, map_taskKind_dependencyGraph]
    apply count_append_eq_one _ _ _ (hfn _ (by decide)) (nodup_syncKinds _ hmsgs)
    exact List.mem_flatMap.2 ⟨M0, hM0, by simp [hM0n]⟩
  · rw [countP_key_eq, map_taskKind_dependencyGraph]
    apply count_append_eq_one _ _ _ (hfn _ (by decide)) (nodup_syncKinds _ hmsgs)
    exact List.mem_flatMap.2 ⟨M0, hM0, by simp [hM0n]⟩
  · obtain ⟨hs, hf⟩ := dependencyGraph_sync_tasks m M hM
    refine ⟨_, _, hs, rfl, hf, rfl, ?_⟩
    simp [withParents, syncFinish]

/-- Witness of C9 on scenario S2. -/
theorem catalog_communication_dependencies_sync_pair_witness :
    (scenarioS2.messages.map XMessage.name).Nodup ∧
    ((dependencyGraph ctorA scenarioS2).1.untask = scenarioS2.untask ∧
    ∀ M ∈ (dependencyGraph ctorA scenarioS2).1.messages,
      (dependencyGraph ctorA scenarioS2).2.countP
        (fun t => decide (taskKind t = (TaskType.sync_start, M.name))) = 1 ∧
      (dependencyGraph ctorA scenarioS2).2.countP
        (fun t => decide (taskKind t = (TaskType.sync_finish, M.name))) = 1 ∧
      ∃ s f : Task, (dependencyGraph ctorA scenarioS2).2[M.syncStartTask]? = some s ∧
        taskKind s = (TaskType.sync_start, M.name) ∧
        (dependencyGraph ctorA scenarioS2).2[M.syncFinishTask]? = some f ∧
        taskKind f = (TaskType.sync_finish, M.name) ∧
        Dependency.mk M.name DependencyType.communication M.syncStartTask ∈ f.parents) :=
  ⟨by decide, catalog_communication_dependencies_sync_pair ctorA scenarioS2 (by decide)⟩

/-- C10: after `catalog_state_dependencies` and `catalog_communication_dependencies`
(run on the empty vector `tasks_`), for every function `F` of an agent `A`, every
output of `F` and every message `M` of the model the output names, the `sync_start`
task of `M` has a Communication dependency labelled `M` whose parent is the task of
`F`, the `xfunction` task named after `A` and `F`. -/
theorem catalog_communication_dependencies_outputs (ctor : Task) (m : XModel) :
    ∀ A ∈ (dependencyGraph ctor m).1.agents, ∀ F ∈ A.functions, ∀ io ∈ F.outputs,
      ∀ M ∈ (dependencyGraph ctor m).1.messages, M.name = io.messageName →
        ∃ s p : Task, (dependencyGraph ctor m).2[M.syncStartTask]? = some s ∧
          taskKind s = (TaskType.sync_start, M.name) ∧
          (dependencyGraph ctor m).2[F.task]? = some p ∧
          taskKey p = (TaskType.xfunction, A.name, F.name) ∧
          Dependency.mk M.name DependencyType.communication F.task ∈ s.parents := by
  intro A hA F hF io hio M hM hname
  obtain ⟨hs, _⟩ := dependencyGraph_sync_tasks m M hM
  obtain ⟨p, hp, hp1, hp2, hp3⟩ := dependencyGraph_function_task m A hA F hF
  refine ⟨_, p, hs, rfl, hp, ?_, ?_⟩
  · simp only [taskKey, hp1, hp2, hp3]
  · simp only [withParents, List.mem_append]
    right
    rw [mem_opsAt, mem_modelCommOps]
    exact ⟨A, hA, F, hF, Or.inl ⟨io, hio, M, hM, hname, by rw [hname]⟩⟩

/-- Witness of C10 on scenario S2: `F_post` posts `M`, and the `sync_start` task of
`M` depends on the task of `F_post`. -/
theorem catalog_communication_dependencies_outputs_witness :
    agentS2 ∈ (dependencyGraph ctorA scenarioS2).1.agents ∧ postS2 ∈ agentS2.functions ∧
    XIOput.mk "M" ∈ postS2.outputs ∧ messageS2 ∈ (dependencyGraph ctorA scenarioS2).1.messages ∧
    messageS2.name = (XIOput.mk "M").messageName ∧
    ∃ s p : Task, (dependencyGraph ctorA scenarioS2).2[messageS2.syncStartTask]? = some s ∧
      taskKind s = (TaskType.sync_start, messageS2.name) ∧
      (dependencyGraph ctorA scenarioS2).2[postS2.task]? = some p ∧
      taskKey p = (TaskType.xfunction, agentS2.name, postS2.name) ∧
      Dependency.mk messageS2.name DependencyType.communication postS2.task ∈ s.parents :=
  ⟨by decide, by decide, by decide, by decide, rfl,
    catalog_communication_dependencies_outputs ctorA scenarioS2 agentS2 (by decide) postS2
      (by decide) (XIOput.mk "M") (by decide) messageS2 (by decide) rfl⟩

/-! ## Readers and posters of a message -/

/-- The task of a function in the dependency graph, with the dependencies added
to it. -/
theorem dependencyGraph_function_object {ctor : Task} (m : XModel) :
    ∀ a ∈ (dependencyGraph ctor m).1.agents, ∀ f ∈ a.functions,
      (dependencyGraph ctor m).2[f.task]? = some (withParents
        (opsAt (modelStateOps (dependencyGraph ctor m).1.agents) f.task
          ++ opsAt (modelCommOps (dependencyGraph ctor m).1.messages
              (dependencyGraph ctor m).1.agents) f.task)
        (functionTask ctor a.name f)) := by
  intro a ha f hf
  obtain ⟨hlt, hget⟩ := function_task_lt m a ha f hf
  rw [getElem?_dependencyGraph, if_pos hlt, hget]
  rfl

/-- A communication dependency added to a position is among the parents of the
task at this position. -/
theorem dependencyGraph_comm_parents {ctor : Task} (m : XModel) (i : Nat) (t : Task)
    (h : (dependencyGraph ctor m).2[i]? = some t) (d : Dependency)
    (hd : (i, d) ∈ modelCommOps (dependencyGraph ctor m).1.messages
      (dependencyGraph ctor m).1.agents) : d ∈ t.parents := by
  rw [← mem_opsAt] at hd
  rw [getElem?_dependencyGraph] at h
  split at h
  · simp only [Option.map_eq_some'] at h
    obtain ⟨t0, _, rfl⟩ := h
    simp only [withParents, List.mem_append]
    exact Or.inr (Or.inr hd)
  · simp only [Option.map_eq_some'] at h
    obtain ⟨t0, _, rfl⟩ := h
    simp only [withParents, List.mem_append]
    exact Or.inr hd

/-- C11: after `catalog_state_dependencies` and `catalog_communication_dependencies`
(run on the empty vector `tasks_`), for every function `F` of an agent `A`, every
input of `F` and every message `M` of the model the input names, the task of `F`,
the `xfunction` task named after `A` and `F`, has a Communication dependency
labelled `M` whose parent is the `sync_finish` task of `M`. -/
theorem catalog_communication_dependencies_inputs (ctor : Task) (m : XModel) :
    ∀ A ∈ (dependencyGraph ctor m).1.agents, ∀ F ∈ A.functions, ∀ io ∈ F.inputs,
      ∀ M ∈ (dependencyGraph ctor m).1.messages, M.name = io.messageName →
        ∃ p f : Task, (dependencyGraph ctor m).2[F.task]? = some p ∧
          taskKey p = (TaskType.xfunction, A.name, F.name) ∧
          (dependencyGraph ctor m).2[M.syncFinishTask]? = some f ∧
          taskKind f = (TaskType.sync_finish, M.name) ∧
          Dependency.mk M.name DependencyType.communication M.syncFinishTask ∈ p.parents := by
  intro A hA F hF io hio M hM hname
  obtain ⟨_, hf⟩ := dependencyGraph_sync_tasks m M hM
  have hp := dependencyGraph_function_object m A hA F hF
  refine ⟨_, _, hp, rfl, hf, rfl, ?_⟩
  apply dependencyGraph_comm_parents m F.task _ hp
  rw [mem_modelCommOps]
  exact ⟨A, hA, F, hF, Or.inr ⟨io, hio, M, hM, hname, by rw [hname]⟩⟩

/-- Witness of C11 on scenario S2: `F_read` reads `M`, and its task depends on the
`sync_finish` task of `M`. -/
theorem catalog_communication_dependencies_inputs_witness :
    agentS2 ∈ (dependencyGraph ctorA scenarioS2).1.agents ∧ readS2 ∈ agentS2.functions ∧
    XIOput.mk "M" ∈ readS2.inputs ∧ messageS2 ∈ (dependencyGraph ctorA scenarioS2).1.messages ∧
    messageS2.name = (XIOput.mk "M").messageName ∧
    ∃ p f : Task, (dependencyGraph ctorA scenarioS2).2[readS2.task]? = some p ∧
      taskKey p = (TaskType.xfunction, agentS2.name, readS2.name) ∧
      (dependencyGraph ctorA scenarioS2).2[messageS2.syncFinishTask]? = some f ∧
      taskKind f = (TaskType.sync_finish, messageS2.name) ∧
      Dependency.mk messageS2.name DependencyType.communication messageS2.syncFinishTask
        ∈ p.parents :=
  ⟨by decide, by decide, by decide, by decide, rfl,
    catalog_communication_dependencies_inputs ctorA scenarioS2 agentS2 (by decide) readS2
      (by decide) (XIOput.mk "M") (by decide) messageS2 (by decide) rfl⟩

/-- In a returned task list the level of a task of the dependency graph is above
the level of each of its parents. -/
theorem objects_edge_level {sort : StdSort} {ctor : Task} (fuel : Nat) (m : XModel) (r : TaskList)
    (h : generate_task_list sort ctor fuel m = Except.ok r) (i : Nat) (t2 : Task)
    (h2 : (dependencyGraph ctor m).2[i]? = some t2) (d : Dependency) (hd : d ∈ t2.parents) :
    getLevel r.objects d.task < getLevel r.objects i := by
  obtain ⟨t, ht, hu⟩ := objects_of_dependencyGraph fuel m r h i t2 h2
  obtain ⟨_, hlev⟩ := generate_task_list_levelled fuel m r h
  have hp : t.parents = t2.parents :=
    show (unlevel t).parents = (unlevel t2).parents from congrArg Task.parents hu
  have h1 := (hlev i t ht).2
  have h3 : getLevel r.objects d.task ≤ maxParentLevel r.objects t :=
    le_foldr_max _ _ (List.mem_map.2 ⟨d, hp ▸ hd, rfl⟩)
  rw [getLevel_eq_of_getElem? ht]
  omega

/-- C12: for every model whose dependency graph is acyclic, `generate_task_list`
returns (given that every agent with a variable has a function), and in every task
list it returns, for every message `M`, every function `F` with an output naming
`M` and every function `G` with an input naming `M`:
level(F) < level(sync_start(M)) < level(sync_finish(M)) < level(G), so the task of
`F` is at least three levels below the task of `G`. -/
theorem generate_task_list_posters_below_readers (sort : StdSort) (ctor : Task) (m : XModel)
    (hac : Acyclic (dependencyGraph ctor m).2) :
    ((∀ a ∈ m.agents, a.variables_ ≠ [] → a.functions ≠ []) →
      ∃ fuel r, generate_task_list sort ctor fuel m = Except.ok r) ∧
    ∀ (fuel : Nat) (r : TaskList), generate_task_list sort ctor fuel m = Except.ok r →
      ∀ M ∈ r.model.messages, ∀ A ∈ r.model.agents, ∀ F ∈ A.functions,
      ∀ B ∈ r.model.agents, ∀ G ∈ B.functions,
        (∃ io ∈ F.outputs, io.messageName = M.name) →
        (∃ io ∈ G.inputs, io.messageName = M.name) →
          getLevel r.objects F.task < getLevel r.objects M.syncStartTask ∧
          getLevel r.objects M.syncStartTask < getLevel r.objects M.syncFinishTask ∧
          getLevel r.objects M.syncFinishTask < getLevel r.objects G.task ∧
          getLevel r.objects F.task + 3 ≤ getLevel r.objects G.task := by
  refine ⟨fun hfun => ⟨_, generate_task_list_returns m hac hfun⟩, ?_⟩
  intro fuel r h M hM A hA F hF B hB G hG hpost hread
  obtain ⟨_, _, _, hm, _⟩ := generate_task_list_ok fuel m r h
  rw [hm] at hM hA hB
  obtain ⟨io, hio, hion⟩ := hpost
  obtain ⟨io', hio', hion'⟩ := hread
  obtain ⟨hs, hf⟩ := dependencyGraph_sync_tasks m M hM
  have hg := dependencyGraph_function_object m B hB G hG
  have e1 := objects_edge_level fuel m r h _ _ hs
    (Dependency.mk io.messageName DependencyType.communication F.task)
    (dependencyGraph_comm_parents m _ _ hs _ (by
      rw [mem_modelCommOps]
      exact ⟨A, hA, F, hF, Or.inl ⟨io, hio, M, hM, hion.symm, rfl⟩⟩))
  have e2 := objects_edge_level fuel m r h _ _ hf
    (Dependency.mk M.name DependencyType.communication M.syncStartTask)
    (by simp [withParents, syncFinish])
  have e3 := objects_edge_level fuel m r h _ _ hg
    (Dependency.mk io'.messageName DependencyType.communication M.syncFinishTask)
    (dependencyGraph_comm_parents m _ _ hg _ (by
      rw [mem_modelCommOps]
      exact ⟨B, hB, G, hG, Or.inr ⟨io', hio', M, hM, hion'.symm, rfl⟩⟩))
  simp only at e1 e2 e3
  exact ⟨e1, e2, e3, by omega⟩

/-- Witness of C12 on scenario S2: its graph is acyclic, `generate_task_list`
returns, and `F_post`, the sync tasks of `M` and `F_read` are on rising levels. -/
theorem generate_task_list_posters_below_readers_witness :
    Acyclic (dependencyGraph ctorA scenarioS2).2 ∧
    ∃ r, generate_task_list std.sort ctorA 5 scenarioS2 = Except.ok r ∧
      messageS2 ∈ r.model.messages ∧ agentS2 ∈ r.model.agents ∧
      postS2 ∈ agentS2.functions ∧ readS2 ∈ agentS2.functions ∧
      (∃ io ∈ postS2.outputs, io.messageName = messageS2.name) ∧
      (∃ io ∈ readS2.inputs, io.messageName = messageS2.name) ∧
      (getLevel r.objects postS2.task < getLevel r.objects messageS2.syncStartTask ∧
        getLevel r.objects messageS2.syncStartTask
          < getLevel r.objects messageS2.syncFinishTask ∧
        getLevel r.objects messageS2.syncFinishTask < getLevel r.objects readS2.task ∧
        getLevel r.objects postS2.task + 3 ≤ getLevel r.objects readS2.task) :=
  ⟨acyclic_of_rank _ rankS2 (by decide), _, rfl, by decide, by decide, by decide, by decide,
    by decide, by decide,
    (generate_task_list_posters_below_readers std.sort ctorA scenarioS2
      (acyclic_of_rank _ rankS2 (by decide))).2 5 _ rfl messageS2 (by decide) agentS2
      (by decide) postS2 (by decide) agentS2 (by decide) readS2 (by decide) (by decide)
      (by decide)⟩

/-! ## Functions without messages -/

/-- Two functions of the dependency graph with the same task pointer are the same
function. -/
theorem function_eq_of_task_eq {ctor : Task} (m : XModel) :
    ∀ a ∈ (dependencyGraph ctor m).1.agents, ∀ f ∈ a.functions,
    ∀ b ∈ (dependencyGraph ctor m).1.agents, ∀ g ∈ b.functions, f.task = g.task → f = g := by
  intro a ha f hf b hb g hg htask
  rw [@dependencyGraph_agents ctor] at ha hb
  have hnd : ((functionPairs (setAgentTasks 0 m.agents)).map (fun p => p.2.task)).Nodup := by
    rw [map_task_functionPairs, @map_task_setAgentTasks ctor]
    exact List.nodup_range' _ _
  have := List.inj_on_of_nodup_map hnd
    ((mem_functionPairs _ a f).2 ⟨ha, hf⟩) ((mem_functionPairs _ b g).2 ⟨hb, hg⟩) htask
  exact congrArg Prod.snd this

theorem syncTasks_parents_ge {ctor : Task} (n : Nat) (msgs : List XMessage) :
    ∀ t ∈ syncTasks ctor n msgs, ∀ d ∈ t.parents, n ≤ d.task := by
  induction msgs generalizing n with
  | nil => intro t ht; simp [syncTasks] at ht
  | cons M rest ih =>
    intro t ht d hd
    simp only [syncTasks, List.mem_cons] at ht
    rcases ht with rfl | rfl | ht
    · simp [syncStart, Task.new, Task.setParentName, Task.setName, Task.setTaskType] at hd
    · simp only [syncFinish, List.mem_singleton] at hd
      subst hd
      exact Nat.le_refl _
    · have := ih (n + 2) t ht d hd
      omega

theorem opsAt_modelStateOps_type (agents : List XMachine) (i : Nat) (d : Dependency)
    (hd : d ∈ opsAt (modelStateOps agents) i) : d.dependencyType = DependencyType.state := by
  rw [mem_opsAt, mem_modelStateOps] at hd
  obtain ⟨_, _, _, _, _, _, _, ho⟩ := hd
  simp only [Prod.mk.injEq] at ho
  rw [ho.2]

/-- C13: after `catalog_state_dependencies` and `catalog_communication_dependencies`
(run on the empty vector `tasks_`), the task of a function `F` whose input and
output lists are empty has no Communication dependency among its parents, and no
Communication dependency of any task has the task of `F` as its parent, whatever
the other functions and the messages of the model are. -/
theorem catalog_communication_dependencies_no_io (ctor : Task) (m : XModel) :
    ∀ A ∈ (dependencyGraph ctor m).1.agents, ∀ F ∈ A.functions, F.inputs = [] → F.outputs = [] →
      (∃ t, (dependencyGraph ctor m).2[F.task]? = some t ∧
        ∀ d ∈ t.parents, d.dependencyType ≠ DependencyType.communication) ∧
      ∀ (i : Nat) (t : Task), (dependencyGraph ctor m).2[i]? = some t →
        ∀ d ∈ t.parents, d.dependencyType = DependencyType.communication →
          d.task ≠ F.task := by
  intro A hA F hF hin hout
  have hFlt := (function_task_lt m A hA F hF).1
  have hcomm : ∀ (i : Nat) (d : Dependency),
      d ∈ opsAt (modelCommOps (dependencyGraph ctor m).1.messages
        (dependencyGraph ctor m).1.agents) i → d.task ≠ F.task ∧ i ≠ F.task := by
    intro i d hd
    rw [mem_opsAt, mem_modelCommOps] at hd
    obtain ⟨a, ha, f, hf, h⟩ := hd
    rcases h with ⟨io, hio, M, hM, _, ho⟩ | ⟨io, hio, M, hM, _, ho⟩
    · simp only [Prod.mk.injEq] at ho
      obtain ⟨_, h2, _, _, _⟩ := message_task_valid m M hM
      refine ⟨fun hdt => ?_, by omega⟩
      rw [ho.2] at hdt
      have hfF := function_eq_of_task_eq m a ha f hf A hA F hF hdt
      rw [hfF, hout] at hio
      cases hio
    · simp only [Prod.mk.injEq] at ho
      obtain ⟨h1, h2, _, _, _⟩ := message_task_valid m M hM
      refine ⟨by rw [ho.2]; simp only; omega, fun hi => ?_⟩
      have hfF := function_eq_of_task_eq m a ha f hf A hA F hF (ho.1.symm.trans hi)
      rw [hfF, hin] at hio
      cases hio
  constructor
  · refine ⟨_, dependencyGraph_function_object m A hA F hF, ?_⟩
    intro d hd
    simp only [withParents, functionTask, Task.new, Task.setParentName, Task.setName, Task.setTaskType, List.nil_append, List.mem_append] at hd
    rcases hd with hd | hd
    · rw [opsAt_modelStateOps_type _ _ _ hd]
      decide
    · exact absurd rfl (hcomm _ _ hd).2
  · intro i t ht d hd hty
    rw [getElem?_dependencyGraph] at ht
    split at ht
    · simp only [Option.map_eq_some'] at ht
      obtain ⟨t0, ht0, rfl⟩ := ht
      have hp := functionTasks_parents m.agents t0 (List.getElem?_mem ht0)
      simp only [withParents, hp, List.nil_append, List.mem_append] at hd
      rcases hd with hd | hd
      · rw [opsAt_modelStateOps_type _ _ _ hd] at hty
        cases hty
      · exact (hcomm _ _ hd).1
    · simp only [Option.map_eq_some'] at ht
      obtain ⟨t0, ht0, rfl⟩ := ht
      simp only [withParents, List.mem_append] at hd
      rcases hd with hd | hd
      · have := syncTasks_parents_ge _ _ t0 (List.getElem?_mem ht0) d hd
        omega
      · exact (hcomm _ _ hd).1

/-- Witness of C13 on scenario S1, none of whose functions reads or posts a message. -/
theorem catalog_communication_dependencies_no_io_witness :
    agentS1 ∈ (dependencyGraph ctorA scenarioS1).1.agents ∧ firstS1 ∈ agentS1.functions ∧
    firstS1.inputs = [] ∧ firstS1.outputs = [] ∧
    ((∃ t, (dependencyGraph ctorA scenarioS1).2[firstS1.task]? = some t ∧
        ∀ d ∈ t.parents, d.dependencyType ≠ DependencyType.communication) ∧
      ∀ (i : Nat) (t : Task), (dependencyGraph ctorA scenarioS1).2[i]? = some t →
        ∀ d ∈ t.parents, d.dependencyType = DependencyType.communication →
          d.task ≠ firstS1.task) :=
  ⟨by decide, by decide, rfl, rfl,
    catalog_communication_dependencies_no_io ctorA scenarioS1 agentS1 (by decide) firstS1
      (by decide) rfl rfl⟩

/-! ## The function tasks -/

theorem length_functionTasks {ctor : Task} (agents : List XMachine) :
    (functionTasks ctor agents).length = (agents.map (fun a => a.functions.length)).sum := by
  induction agents with
  | nil => rfl
  | cons a rest ih =>
    rw [length_functionTasks_cons, List.length_append, List.length_map, ih]
    simp

/-- C14: after `catalog_state_dependencies` (on the empty vector `tasks_`) the number
of tasks of type `xfunction` is the sum over the agents of their numbers of
functions, the model is unchanged but for the task pointers, the task pointers of
the functions are pairwise distinct, and the task of each function is an
`xfunction` task with the name of its agent as parent name and its own name. -/
theorem catalog_state_dependencies_tasks (ctor : Task) (m : XModel) :
    (catalog_state_dependencies ctor m []).2.countP
        (fun t => decide (t.taskType = TaskType.xfunction))
      = (m.agents.map (fun a => a.functions.length)).sum ∧
    (catalog_state_dependencies ctor m []).1.untask = m.untask ∧
    ((catalog_state_dependencies ctor m []).1.agents.flatMap
      (fun a => a.functions.map XFunction.task)).Nodup ∧
    ∀ A ∈ (catalog_state_dependencies ctor m []).1.agents, ∀ F ∈ A.functions,
      ∃ t, (catalog_state_dependencies ctor m []).2[F.task]? = some t ∧
        taskKey t = (TaskType.xfunction, A.name, F.name) := by
  rw [catalog_state_dependencies_eq]
  simp only [List.length_nil, List.nil_append]
  refine ⟨?_, ?_, ?_, ?_⟩
  · rw [← @length_functionTasks ctor, ← length_applyOps (functionTasks ctor m.agents)
      (modelStateOps (setAgentTasks 0 m.agents)), List.countP_eq_length]
    intro t ht
    obtain ⟨i, hi⟩ := List.mem_iff_getElem?.1 ht
    rw [getElem?_applyOps] at hi
    simp only [Option.map_eq_some'] at hi
    obtain ⟨t0, ht0, rfl⟩ := hi
    have := functionTasks_taskType m.agents t0 (List.getElem?_mem ht0)
    simp [this]
  · simp only [XModel.untask, map_untask_setAgentTasks]
  · rw [@map_task_setAgentTasks ctor]
    exact List.nodup_range' _ _
  · intro A hA F hF
    have hv := @setAgentTasks_valid ctor m.agents [] [] A hA F hF
    simp only [List.length_nil, Nat.zero_add, List.nil_append, List.append_nil] at hv
    refine ⟨withParents (opsAt (modelStateOps (setAgentTasks 0 m.agents)) F.task)
      (functionTask ctor A.name F), ?_, rfl⟩
    rw [getElem?_applyOps, hv.2.2]
    rfl

/-! ## The constructor of `Task` -/

/-- C15: a `Task` constructed with a type has level 0, whatever the type, and the
default priority of its type: 10 for `sync_start`, 5 for `xfunction`, 1 for
`sync_finish`, 0 for `io_pop_write`, and 10 for the other types. -/
theorem Task_Task_defaults (parentName name : String) (type : TaskType) :
    (Task.Task parentName name type).level = 0 ∧
    (Task.Task parentName name type).parentName = parentName ∧
    (Task.Task parentName name type).name = name ∧
    (Task.Task parentName name type).taskType = type ∧
    (Task.Task parentName name TaskType.sync_start).priorityLevel = 10 ∧
    (Task.Task parentName name TaskType.xfunction).priorityLevel = 5 ∧
    (Task.Task parentName name TaskType.sync_finish).priorityLevel = 1 ∧
    (Task.Task parentName name TaskType.io_pop_write).priorityLevel = 0 ∧
    (Task.Task parentName name TaskType.xcondition).priorityLevel = 10 ∧
    (Task.Task parentName name TaskType.start_model).priorityLevel = 10 ∧
    (Task.Task parentName name TaskType.finish_model).priorityLevel = 10 ∧
    (Task.Task parentName name TaskType.xmessage).priorityLevel = 10 :=
  ⟨rfl, rfl, rfl, rfl, rfl, rfl, rfl, rfl, rfl, rfl, rfl, rfl⟩

/-! ## The scenarios of the specification -/

theorem levelLoop_mono (fuel : Nat) : ∀ (c : Nat) (ts r : List Task),
    levelLoop fuel c ts = Except.ok r → ∀ k : Nat, levelLoop (fuel + k) c ts = Except.ok r := by
  induction fuel with
  | zero => intro c ts r h; simp [levelLoop] at h
  | succ fuel ih =>
    intro c ts r h k
    rw [show fuel + 1 + k = (fuel + k) + 1 by omega]
    simp only [levelLoop] at h ⊢
    by_cases hfin : (levelPass c ts).2 = true
    · rw [if_pos hfin] at h ⊢
      exact h
    · rw [if_neg hfin] at h ⊢
      exact ih _ _ _ h k

/-- More passes allowed do not change what `generate_task_list` returns. -/
theorem generate_task_list_mono {sort : StdSort} {ctor : Task} (fuel : Nat) (m : XModel)
    (r : TaskList)
    (h : generate_task_list sort ctor fuel m = Except.ok r) (k : Nat) :
    generate_task_list sort ctor (fuel + k) m = Except.ok r := by
  obtain ⟨ts3, h3, h4, hm, ht⟩ := generate_task_list_ok fuel m r h
  have h3' : calculate_dependencies (fuel + k) (dependencyGraph ctor m).2 = Except.ok ts3 :=
    levelLoop_mono fuel 1 _ ts3 h3 k
  rw [generate_task_list_of_ok (fuel + k) m ts3 r.objects h3' h4, ← hm, ← ht]

/-- The task list of a model is the same under every sort but for the sorted vector. -/
theorem generate_task_list_sort {sort1 sort2 : StdSort} {ctor : Task} (fuel : Nat)
    (m : XModel) (r : TaskList) (h : generate_task_list sort1 ctor fuel m = Except.ok r) :
    generate_task_list sort2 ctor fuel m
      = Except.ok (TaskList.mk r.model r.objects (calculate_task_list sort2 r.objects)) := by
  obtain ⟨ts3, h3, h4, hm, _⟩ := generate_task_list_ok fuel m r h
  rw [generate_task_list_of_ok fuel m ts3 r.objects h3 h4, ← hm]

theorem generate_task_list_objectsS1 {ctor : Task} :
    ∃ r, generate_task_list stable_sort ctor 2 scenarioS1 = Except.ok r ∧
      r.objects = objectsS1 ctor := by
  have hg : (dependencyGraph ctor scenarioS1).2 =
      [Task.mk "A" "F1" TaskType.xfunction ctor.level ctor.priorityLevel [],
       Task.mk "A" "F2" TaskType.xfunction ctor.level ctor.priorityLevel
         [Dependency.mk "t" DependencyType.state 0]] := rfl
  have h3 : calculate_dependencies 2 (dependencyGraph ctor scenarioS1).2 = Except.ok
      [Task.mk "A" "F1" TaskType.xfunction 1 ctor.priorityLevel [],
       Task.mk "A" "F2" TaskType.xfunction 2 ctor.priorityLevel
         [Dependency.mk "t" DependencyType.state 0]] := by
    rw [hg]
    simp [calculate_dependencies, levelLoop, levelPass, levelTask, getLevel, List.range,
      List.range.loop, unleveled_dependency, setLevel]
  have h4 : catalog_data_dependencies ctor (dependencyGraph ctor scenarioS1).1
      [Task.mk "A" "F1" TaskType.xfunction 1 ctor.priorityLevel [],
       Task.mk "A" "F2" TaskType.xfunction 2 ctor.priorityLevel
         [Dependency.mk "t" DependencyType.state 0]] = Except.ok (objectsS1 ctor) := rfl
  exact ⟨_, generate_task_list_of_ok 2 scenarioS1 _ _ h3 h4, rfl⟩

theorem levelLoop_succ_true (fuel c : Nat) (ts : List Task) (h : (levelPass c ts).2 = true) :
    levelLoop (fuel + 1) c ts = Except.ok (levelPass c ts).1 := by
  simp [levelLoop, h]

theorem levelLoop_succ_false (fuel c : Nat) (ts : List Task)
    (h : (levelPass c ts).2 = false) :
    levelLoop (fuel + 1) c ts = levelLoop fuel (c + 1) (levelPass c ts).1 := by
  simp [levelLoop, h]

theorem levelPass_one_tasksS2 (ctor : Task) :
    levelPass 1 (tasksS2 ctor 0 0 0 0) = (tasksS2 ctor 1 0 0 0, false) := by
  simp [tasksS2, levelPass, levelTask, getLevel, List.range, List.range.loop,
    unleveled_dependency, setLevel]

theorem levelPass_two_tasksS2 (ctor : Task) :
    levelPass 2 (tasksS2 ctor 1 0 0 0) = (tasksS2 ctor 1 0 2 0, false) := by
  simp [tasksS2, levelPass, levelTask, getLevel, List.range, List.range.loop,
    unleveled_dependency, setLevel]

theorem levelPass_three_tasksS2 (ctor : Task) :
    levelPass 3 (tasksS2 ctor 1 0 2 0) = (tasksS2 ctor 1 0 2 3, false) := by
  simp [tasksS2, levelPass, levelTask, getLevel, List.range, List.range.loop,
    unleveled_dependency, setLevel]

theorem levelPass_four_tasksS2 (ctor : Task) :
    levelPass 4 (tasksS2 ctor 1 0 2 3) = (tasksS2 ctor 1 4 2 3, true) := by
  simp [tasksS2, levelPass, levelTask, getLevel, List.range, List.range.loop,
    unleveled_dependency, setLevel]

theorem calculate_dependencies_tasksS2 (ctor : Task) :
    calculate_dependencies 4 (dependencyGraph ctor scenarioS2).2
      = Except.ok (objectsS2 ctor) := by
  have hg : (dependencyGraph ctor scenarioS2).2 = tasksS2 ctor ctor.level ctor.level
      ctor.level ctor.level := rfl
  have h0 : (tasksS2 ctor ctor.level ctor.level ctor.level ctor.level).map
      (fun t => { t with level := 0 }) = tasksS2 ctor 0 0 0 0 := rfl
  rw [hg, calculate_dependencies, h0]
  rw [levelLoop_succ_false 3 1 _ (by rw [levelPass_one_tasksS2]), levelPass_one_tasksS2,
    levelLoop_succ_false 2 2 _ (by rw [levelPass_two_tasksS2]), levelPass_two_tasksS2,
    levelLoop_succ_false 1 3 _ (by rw [levelPass_three_tasksS2]), levelPass_three_tasksS2,
    levelLoop_succ_true 0 4 _ (by rw [levelPass_four_tasksS2]), levelPass_four_tasksS2]
  rfl

theorem generate_task_list_objectsS2 {ctor : Task} :
    ∃ r, generate_task_list stable_sort ctor 4 scenarioS2 = Except.ok r ∧
      r.objects = objectsS2 ctor :=
  ⟨_, generate_task_list_of_ok 4 scenarioS2 _ _ (calculate_dependencies_tasksS2 ctor) rfl, rfl⟩

/-- C16 (as amended): on scenario S1, as soon as two passes of the levelling loop
are allowed, `generate_task_list` returns exactly three tasks: `A/F1` at level 1
with no dependency, `A/F2` at level 2 with a State dependency labelled `t` on
`A/F1`, and `A/x` at level 3 with a Data dependency labelled `x` on `A/F2`, each
with the priority of a new task, whatever its type; every `std::sort` that does
what the standard promises lists them in this order. -/
theorem generate_task_list_scenarioS1 (sort : StdSort) (hsort : sort.Conforming)
    (ctor : Task) (fuel : Nat) :
    ∃ r, generate_task_list sort ctor (2 + fuel) scenarioS1 = Except.ok r ∧
      r.objects =
        [Task.mk "A" "F1" TaskType.xfunction 1 ctor.priorityLevel [],
         Task.mk "A" "F2" TaskType.xfunction 2 ctor.priorityLevel
           [Dependency.mk "t" DependencyType.state 0],
         Task.mk "A" "x" TaskType.io_pop_write 3 ctor.priorityLevel
           [Dependency.mk "x" DependencyType.data 1]] ∧
      r.tasks = [0, 1, 2] := by
  obtain ⟨r, hr, hobj⟩ := @generate_task_list_objectsS1 ctor
  refine ⟨_, generate_task_list_sort (2 + fuel) scenarioS1 r
    (generate_task_list_mono 2 scenarioS1 r hr fuel), hobj, ?_⟩
  show calculate_task_list sort r.objects = [0, 1, 2]
  rw [hobj, calculate_task_list_unique hsort stable_sort_conforming (objectsS1 ctor)
    (show ([1, 2, 3] : List Nat).Nodup by decide)]
  rfl

/-- Witness of C16 (as amended) for the insertion sort. -/
theorem generate_task_list_scenarioS1_witness :
    stable_sort.Conforming ∧
    ∃ r, generate_task_list stable_sort ctorA (2 + 0) scenarioS1 = Except.ok r ∧
      r.objects =
        [Task.mk "A" "F1" TaskType.xfunction 1 ctorA.priorityLevel [],
         Task.mk "A" "F2" TaskType.xfunction 2 ctorA.priorityLevel
           [Dependency.mk "t" DependencyType.state 0],
         Task.mk "A" "x" TaskType.io_pop_write 3 ctorA.priorityLevel
           [Dependency.mk "x" DependencyType.data 1]] ∧
      r.tasks = [0, 1, 2] :=
  ⟨stable_sort_conforming,
    generate_task_list_scenarioS1 stable_sort stable_sort_conforming ctorA 0⟩

/-- Counterexample to C16 as stated: on scenario S1 the three tasks returned have
one and the same priority, that of a new task (0 for `ctorA`), and under no sort,
no value of a new task and no number of passes do they have the priorities 5, 5
and 0. -/
theorem generate_task_list_scenarioS1_priorities :
    (∃ r, generate_task_list std.sort ctorA 2 scenarioS1 = Except.ok r ∧
      r.objects.map (fun t => (t.parentName, t.name, t.taskType, t.priorityLevel))
        = [("A", "F1", TaskType.xfunction, 0), ("A", "F2", TaskType.xfunction, 0),
           ("A", "x", TaskType.io_pop_write, 0)]) ∧
    ∀ (sort : StdSort) (ctor : Task) (fuel : Nat) (r : TaskList),
      generate_task_list sort ctor fuel scenarioS1 = Except.ok r →
      r.objects.map Task.priorityLevel ≠ [5, 5, 0] := by
  refine ⟨⟨_, rfl, rfl⟩, ?_⟩
  intro sort ctor fuel r h hmap
  have hp := generate_task_list_priorityLevel fuel scenarioS1 r h
  rcases hobj : r.objects with _ | ⟨a, _ | ⟨b, _ | ⟨c, tl⟩⟩⟩
  · rw [hobj] at hmap; simp at hmap
  · rw [hobj] at hmap; simp at hmap
  · rw [hobj] at hmap; simp at hmap
  · rw [hobj] at hmap hp
    simp only [List.map_cons, List.cons.injEq] at hmap
    have ha := hp a (by simp)
    have hc := hp c (by simp)
    omega

/-- C17: on scenario S2, as soon as four passes of the levelling loop are allowed,
`generate_task_list` returns `A/F_post` at level 1, `M/sync_start` at level 2,
`M/sync_finish` at level 3 and `A/F_read` at level 4, with the Communication
dependencies of `sync_start` on `F_post`, of `sync_finish` on `sync_start` and of
`F_read` on `sync_finish`, all labelled `M` (and the State dependency of `F_read`
on `F_post`); every `std::sort` that does what the standard promises lists the
tasks by level. -/
theorem generate_task_list_scenarioS2 (sort : StdSort) (hsort : sort.Conforming)
    (ctor : Task) (fuel : Nat) :
    ∃ r, generate_task_list sort ctor (4 + fuel) scenarioS2 = Except.ok r ∧
      r.objects =
        [Task.mk "A" "F_post" TaskType.xfunction 1 ctor.priorityLevel [],
         Task.mk "A" "F_read" TaskType.xfunction 4 ctor.priorityLevel
           [Dependency.mk "t" DependencyType.state 0,
            Dependency.mk "M" DependencyType.communication 3],
         Task.mk "M" "sync_start" TaskType.sync_start 2 ctor.priorityLevel
           [Dependency.mk "M" DependencyType.communication 0],
         Task.mk "M" "sync_finish" TaskType.sync_finish 3 ctor.priorityLevel
           [Dependency.mk "M" DependencyType.communication 2]] ∧
      r.tasks = [0, 2, 3, 1] := by
  obtain ⟨r, hr, hobj⟩ := @generate_task_list_objectsS2 ctor
  refine ⟨_, generate_task_list_sort (4 + fuel) scenarioS2 r
    (generate_task_list_mono 4 scenarioS2 r hr fuel), hobj, ?_⟩
  show calculate_task_list sort r.objects = [0, 2, 3, 1]
  rw [hobj, calculate_task_list_unique hsort stable_sort_conforming (objectsS2 ctor)
    (show ([1, 4, 2, 3] : List Nat).Nodup by decide)]
  rfl

/-- Witness of C17 for the insertion sort. -/
theorem generate_task_list_scenarioS2_witness :
    stable_sort.Conforming ∧
    ∃ r, generate_task_list stable_sort ctorA (4 + 0) scenarioS2 = Except.ok r ∧
      r.objects =
        [Task.mk "A" "F_post" TaskType.xfunction 1 ctorA.priorityLevel [],
         Task.mk "A" "F_read" TaskType.xfunction 4 ctorA.priorityLevel
           [Dependency.mk "t" DependencyType.state 0,
            Dependency.mk "M" DependencyType.communication 3],
         Task.mk "M" "sync_start" TaskType.sync_start 2 ctorA.priorityLevel
           [Dependency.mk "M" DependencyType.communication 0],
         Task.mk "M" "sync_finish" TaskType.sync_finish 3 ctorA.priorityLevel
           [Dependency.mk "M" DependencyType.communication 2]] ∧
      r.tasks = [0, 2, 3, 1] :=
  ⟨stable_sort_conforming,
    generate_task_list_scenarioS2 stable_sort stable_sort_conforming ctorA 0⟩

/-! ## `Model`: the agent functions the user registers -/

theorem registerAgentFunctions_concat (m : Model) (calls : List (String × TaskFunction))
    (c : String × TaskFunction) :
    registerAgentFunctions m (calls ++ [c])
      = registerAgentFunction (registerAgentFunctions m calls) c.1 c.2 := by
  simp [registerAgentFunctions, List.foldl_append]

theorem lookup_append_some (l1 l2 : List (String × TaskFunction)) (name : String)
    (f : TaskFunction) (h : List.lookup name l1 = some f) :
    List.lookup name (l1 ++ l2) = some f := by
  induction l1 with
  | nil => cases h
  | cons e l1 ih =>
    obtain ⟨a, b⟩ := e
    simp only [List.cons_append, List.lookup] at h ⊢
    cases hab : name == a with
    | true => rw [hab] at h; exact h
    | false => rw [hab] at h; exact ih h

theorem lookup_append_none (l1 l2 : List (String × TaskFunction)) (name : String)
    (h : List.lookup name l1 = none) :
    List.lookup name (l1 ++ l2) = List.lookup name l2 := by
  induction l1 with
  | nil => rfl
  | cons e l1 ih =>
    obtain ⟨a, b⟩ := e
    simp only [List.cons_append, List.lookup] at h ⊢
    cases hab : name == a with
    | true => rw [hab] at h; cases h
    | false => rw [hab] at h; exact ih h

/-- The entry `find` returns after a call of `registerAgentFunction`. -/
theorem find_registerAgentFunction (m : Model) (name : String) (f_ptr : TaskFunction)
    (n : String) :
    Model.find (registerAgentFunction m name f_ptr).funcMap_ n
      = match Model.find m.funcMap_ n with
        | some f => some f
        | none => if n = name then some f_ptr else none := by
  unfold registerAgentFunction Model.insert
  simp only
  cases hname : Model.find m.funcMap_ name with
  | some g =>
    simp only
    cases hn : Model.find m.funcMap_ n with
    | some f => rfl
    | none =>
      simp only
      by_cases h : n = name
      · subst h; rw [hname] at hn; cases hn
      · rw [if_neg h]
  | none =>
    simp only [Model.find] at hname ⊢
    cases hn : List.lookup n m.funcMap_ with
    | some f => simp only; exact lookup_append_some _ _ _ _ hn
    | none =>
      simp only
      rw [lookup_append_none _ _ _ hn]
      by_cases h : n = name
      · subst h; simp [List.lookup]
      · have hb : (n == name) = false := by simpa using h
        simp [List.lookup, hb, h]

/-- The entry `find` returns after a sequence of calls of `registerAgentFunction` on
the model `Model()` builds: the function of the first call with the name. -/
theorem find_registerAgentFunctions (calls : List (String × TaskFunction)) (n : String) :
    Model.find (registerAgentFunctions Model.Model calls).funcMap_ n
      = List.lookup n calls := by
  induction calls using List.reverseRecOn with
  | nil => rfl
  | append_singleton calls c ih =>
    rw [registerAgentFunctions_concat, find_registerAgentFunction, ih]
    cases hn : List.lookup n calls with
    | some f => simp only; exact (lookup_append_some _ _ _ _ hn).symm
    | none =>
      simp only
      rw [lookup_append_none _ _ _ hn]
      obtain ⟨a, b⟩ := c
      by_cases h : n = a
      · subst h; simp [List.lookup]
      · have hb : (n == a) = false := by simpa using h
        simp [List.lookup, hb, h]

theorem lookup_eq_none_iff_not_mem (calls : List (String × TaskFunction)) (n : String) :
    List.lookup n calls = none ↔ n ∉ calls.map Prod.fst := by
  induction calls with
  | nil => simp [List.lookup]
  | cons e calls ih =>
    obtain ⟨a, b⟩ := e
    simp only [List.lookup, List.map_cons, List.mem_cons, not_or]
    by_cases h : n = a
    · subst h; simp
    · have hb : (n == a) = false := by simpa using h
      rw [hb]; simp only [h, not_false_eq_true, true_and]; exact ih

/-- Counterexample of C26: a function registered under a name that is already
registered does not replace the function registered first. -/
theorem registerAgentFunction_keeps_first :
    getAgentFunctionPointer
      (registerAgentFunction (registerAgentFunction Model.Model "move" 1) "move" 2) "move"
      = Except.ok 1 ∧
    ¬ ∀ (m : Model) (name : String) (fn : TaskFunction),
      getAgentFunctionPointer (registerAgentFunction m name fn) name = Except.ok fn := by
  have h1 : getAgentFunctionPointer
      (registerAgentFunction (registerAgentFunction Model.Model "move" 1) "move" 2) "move"
      = Except.ok 1 := rfl
  refine ⟨h1, fun h => ?_⟩
  have h2 := h (registerAgentFunction Model.Model "move" 1) "move" 2
  rw [h1] at h2
  exact absurd (Except.ok.inj h2) (by decide)

/-- C26 as amended: on a model built by `Model()` and any sequence of calls of
`registerAgentFunction`, after `registerAgentFunction(name, fn)` the lookup
`getAgentFunctionPointer(name)` returns `fn` when `name` was not registered before
and the function registered first under `name` otherwise; and the lookup of a
name raises the model exception exactly when no call registered the name. -/
theorem registerAgentFunction_lookup (calls : List (String × TaskFunction)) (name : String)
    (fn : TaskFunction) :
    getAgentFunctionPointer
        (registerAgentFunction (registerAgentFunctions Model.Model calls) name fn) name
      = Except.ok ((List.lookup name calls).getD fn) ∧
    ∀ n : String,
      (getAgentFunctionPointer (registerAgentFunctions Model.Model calls) n
          = Except.error ⟨"Agent function has not be registered: ".append n⟩
        ↔ n ∉ calls.map Prod.fst) ∧
      (n ∈ calls.map Prod.fst →
        ∃ f, getAgentFunctionPointer (registerAgentFunctions Model.Model calls) n
          = Except.ok f) := by
  constructor
  · unfold getAgentFunctionPointer
    rw [find_registerAgentFunction, find_registerAgentFunctions]
    cases List.lookup name calls with
    | some f => rfl
    | none => simp
  · intro n
    unfold getAgentFunctionPointer
    rw [find_registerAgentFunctions]
    constructor
    · rw [← lookup_eq_none_iff_not_mem]
      cases List.lookup n calls with
      | some f => simp
      | none => simp
    · intro hmem
      cases hl : List.lookup n calls with
      | some f => exact ⟨f, rfl⟩
      | none => exact absurd hmem ((lookup_eq_none_iff_not_mem calls n).1 hl)

/-! ## `Model`: the flag `validated_` -/

theorem addAgentVariable_raised (m m1 : Model) (agent_name type name : String)
    (e : flame_model_exception)
    (h : addAgentVariable m agent_name type name = (m1, some e)) :
    m1 = m ∧ flame2.model.getAgent m.model_ agent_name = none := by
  unfold addAgentVariable getAgent at h
  cases hg : flame2.model.getAgent m.model_ agent_name with
  | none =>
    rw [hg] at h
    simp only [Prod.mk.injEq] at h
    exact ⟨h.1.symm, rfl⟩
  | some agent =>
    rw [hg] at h
    simp at h

theorem addAgentVariable_returned (m m1 : Model) (agent_name type name : String)
    (h : addAgentVariable m agent_name type name = (m1, none)) :
    m1.validated_ = false := by
  unfold addAgentVariable getAgent at h
  cases hg : flame2.model.getAgent m.model_ agent_name with
  | none => rw [hg] at h; simp at h
  | some agent =>
    rw [hg] at h
    simp only [Prod.mk.injEq, and_true] at h
    rw [← h]

theorem addAgentFunction_raised (m m1 : Model) (agent_name : String)
    (agentFunction : AgentFunction) (e : flame_model_exception)
    (h : addAgentFunction m agent_name agentFunction = (m1, some e)) :
    m1 = m ∧ flame2.model.getAgent m.model_ agent_name = none := by
  unfold addAgentFunction getAgent at h
  cases hg : flame2.model.getAgent m.model_ agent_name with
  | none =>
    rw [hg] at h
    simp only [Prod.mk.injEq] at h
    exact ⟨h.1.symm, rfl⟩
  | some agent =>
    rw [hg] at h
    simp at h

theorem addAgentFunction_returned (m m1 : Model) (agent_name : String)
    (agentFunction : AgentFunction)
    (h : addAgentFunction m agent_name agentFunction = (m1, none)) :
    m1.validated_ = false := by
  unfold addAgentFunction getAgent at h
  cases hg : flame2.model.getAgent m.model_ agent_name with
  | none => rw [hg] at h; simp at h
  | some agent =>
    rw [hg] at h
    simp only [Prod.mk.injEq, and_true] at h
    rw [← h]

theorem addMessageVariable_returned (m m1 : Model) (message_name type name : String)
    (h : addMessageVariable m message_name type name = Except.ok m1) :
    m1.validated_ = false := by
  unfold addMessageVariable at h
  cases hg : flame2.model.getMessage m.model_ message_name with
  | none => rw [hg] at h; cases h
  | some message =>
    rw [hg] at h
    have := Except.ok.inj h
    rw [← this]

theorem validate_returned (v : flame2.model.XModel → Int) (m m1 : Model)
    (h : validate v m = (m1, none)) :
    m1.validated_ = true ∧ flame2.model.validate v m.model_ = 0 := by
  unfold validate at h
  by_cases hrc : flame2.model.validate v m.model_ ≠ 0
  · rw [if_pos hrc] at h; simp at h
  · rw [if_neg hrc] at h
    simp only [Prod.mk.injEq, and_true] at h
    rw [← h]
    exact ⟨rfl, not_not.1 hrc⟩

theorem validate_raised (v : flame2.model.XModel → Int) (m m1 : Model)
    (e : flame_model_exception) (h : validate v m = (m1, some e)) :
    m1 = m ∧ flame2.model.validate v m.model_ ≠ 0 := by
  unfold validate at h
  by_cases hrc : flame2.model.validate v m.model_ ≠ 0
  · rw [if_pos hrc] at h
    simp only [Prod.mk.injEq] at h
    exact ⟨h.1.symm, hrc⟩
  · rw [if_neg hrc] at h; simp at h

/-- A call that raises leaves the model as it is; after a call that returns the
flag is true exactly when the call is `validate`. -/
theorem perform_flag (v : flame2.model.XModel → Int) (m m1 : Model) (op : Operation)
    (e : Option flame_model_exception) (h : perform v m op = Except.ok (m1, e)) :
    (e ≠ none → m1 = m) ∧ (e = none → (m1.validated_ = true ↔ op = Operation.validate)) := by
  cases op with
  | addAgent name =>
    simp only [perform, Except.ok.injEq, Prod.mk.injEq] at h
    obtain ⟨h1, h2⟩ := h
    subst h1; subst h2
    exact ⟨fun hc => absurd rfl hc, fun _ => by simp [addAgent]⟩
  | addAgentVariable agent_name type name =>
    simp only [perform, Except.ok.injEq] at h
    cases e with
    | none =>
      refine ⟨fun hc => absurd rfl hc, fun _ => ?_⟩
      rw [addAgentVariable_returned m m1 _ _ _ h]
      simp
    | some e =>
      exact ⟨fun _ => (addAgentVariable_raised m m1 _ _ _ e h).1, fun hc => by cases hc⟩
  | addAgentFunction agent_name agentFunction =>
    simp only [perform, Except.ok.injEq] at h
    cases e with
    | none =>
      refine ⟨fun hc => absurd rfl hc, fun _ => ?_⟩
      rw [addAgentFunction_returned m m1 _ _ h]
      simp
    | some e =>
      exact ⟨fun _ => (addAgentFunction_raised m m1 _ _ e h).1, fun hc => by cases hc⟩
  | addMessage name =>
    simp only [perform, Except.ok.injEq, Prod.mk.injEq] at h
    obtain ⟨h1, h2⟩ := h
    subst h1; subst h2
    exact ⟨fun hc => absurd rfl hc, fun _ => by simp [addMessage]⟩
  | addMessageVariable message_name type name =>
    simp only [perform] at h
    cases hm : addMessageVariable m message_name type name with
    | error f => rw [hm] at h; cases h
    | ok m2 =>
      rw [hm] at h
      simp only [Except.ok.injEq, Prod.mk.injEq] at h
      obtain ⟨h1, h2⟩ := h
      subst h1; subst h2
      refine ⟨fun hc => absurd rfl hc, fun _ => ?_⟩
      rw [addMessageVariable_returned m m2 _ _ _ hm]
      simp
  | validate =>
    simp only [perform, Except.ok.injEq] at h
    cases e with
    | none =>
      refine ⟨fun hc => absurd rfl hc, fun _ => ?_⟩
      simp [(validate_returned v m m1 h).1]
    | some e =>
      exact ⟨fun _ => (validate_raised v m m1 e h).1, fun hc => by cases hc⟩

theorem ValidatedLast_cons (op : Operation) (e : Option flame_model_exception)
    (trace : List (Operation × Option flame_model_exception)) :
    ValidatedLast ((op, e) :: trace) ↔
      ValidatedLast trace ∨ (op = Operation.validate ∧ e = none ∧ ∀ x ∈ trace, x.2 ≠ none) := by
  constructor
  · rintro ⟨pre, post, heq, hpost⟩
    cases pre with
    | nil =>
      simp only [List.nil_append, List.cons.injEq, Prod.mk.injEq] at heq
      obtain ⟨⟨h1, h2⟩, h3⟩ := heq
      subst h3
      exact Or.inr ⟨h1, h2, hpost⟩
    | cons x pre =>
      simp only [List.cons_append, List.cons.injEq] at heq
      exact Or.inl ⟨pre, post, heq.2, hpost⟩
  · rintro (⟨pre, post, heq, hpost⟩ | ⟨h1, h2, h3⟩)
    · exact ⟨(op, e) :: pre, post, by rw [heq]; rfl, hpost⟩
    · subst h1; subst h2
      exact ⟨[], trace, rfl, h3⟩

/-- After a sequence of calls the flag is true exactly when the last call that
returned is `validate`, or no call returned and the flag was true before. -/
theorem performAll_flag (v : flame2.model.XModel → Int) :
    ∀ (ops : List Operation) (m0 m : Model)
      (trace : List (Operation × Option flame_model_exception)),
    performAll v ops m0 = Except.ok (m, trace) →
    (m.validated_ = true ↔
      ValidatedLast trace ∨ ((∀ x ∈ trace, x.2 ≠ none) ∧ m0.validated_ = true))
  | [], m0, m, trace, h => by
    simp only [performAll, Except.ok.injEq, Prod.mk.injEq] at h
    obtain ⟨h1, h2⟩ := h
    subst h1; subst h2
    constructor
    · intro hf
      exact Or.inr ⟨fun x hx => absurd hx (List.not_mem_nil x), hf⟩
    · rintro (⟨pre, post, heq, _⟩ | ⟨_, hf⟩)
      · cases pre <;> simp at heq
      · exact hf
  | op :: ops, m0, m, trace, h => by
    simp only [performAll] at h
    cases hp : perform v m0 op with
    | error f => rw [hp] at h; cases h
    | ok r =>
      obtain ⟨m1, e⟩ := r
      rw [hp] at h
      simp only at h
      cases hr : performAll v ops m1 with
      | error f => rw [hr] at h; cases h
      | ok r2 =>
        obtain ⟨m2, tr⟩ := r2
        rw [hr] at h
        simp only [Except.ok.injEq, Prod.mk.injEq] at h
        obtain ⟨h1, h2⟩ := h
        subst h1; subst h2
        have ih := performAll_flag v ops m1 m2 tr hr
        obtain ⟨hraise, hret⟩ := perform_flag v m0 m1 op e hp
        rw [ih, ValidatedLast_cons]
        cases e with
        | none =>
          have hflag := hret rfl
          constructor
          · rintro (h1 | ⟨h1, h2⟩)
            · exact Or.inl (Or.inl h1)
            · exact Or.inl (Or.inr ⟨hflag.1 h2, rfl, h1⟩)
          · rintro ((h1 | ⟨h1, _, h3⟩) | ⟨h1, _⟩)
            · exact Or.inl h1
            · exact Or.inr ⟨h3, hflag.2 h1⟩
            · exact absurd rfl (h1 (op, none) (List.mem_cons_self _ _))
        | some e =>
          have hm := hraise (by simp)
          subst hm
          constructor
          · rintro (h1 | ⟨h1, h2⟩)
            · exact Or.inl (Or.inl h1)
            · refine Or.inr ⟨fun x hx => ?_, h2⟩
              rcases List.mem_cons.1 hx with rfl | hx
              · simp
              · exact h1 x hx
          · rintro ((h1 | ⟨_, h2, _⟩) | ⟨h1, h2⟩)
            · exact Or.inl h1
            · cases h2
            · exact Or.inr ⟨fun x hx => h1 x (List.mem_cons_of_mem _ hx), h2⟩

/-- C37: a default-constructed `Model` is not validated; a call of `addAgent`,
`addAgentVariable`, `addAgentFunction`, `addMessage` or `addMessageVariable` that
returns leaves the flag false; a call of `addAgentVariable` or `addAgentFunction`
that raises does so because no agent has the name, and leaves the model as it is;
`validate` sets the flag when `XModel::validate` returns 0, and otherwise raises
the model exception and leaves the model as it is. Hence after every sequence of
calls on a default-constructed `Model` the flag is true exactly when the last call
that returned without an exception is a call of `validate`. -/
theorem isValidated_after_validate (XModelValidate : flame2.model.XModel → Int) :
    isValidated Model.Model = false ∧
    (∀ (m : Model) (name : String), isValidated (addAgent m name) = false) ∧
    (∀ (m m1 : Model) (agent_name type name : String),
      (addAgentVariable m agent_name type name = (m1, none) → isValidated m1 = false) ∧
      ∀ e, addAgentVariable m agent_name type name = (m1, some e) →
        m1 = m ∧ flame2.model.getAgent m.model_ agent_name = none) ∧
    (∀ (m m1 : Model) (agent_name : String) (agentFunction : AgentFunction),
      (addAgentFunction m agent_name agentFunction = (m1, none) → isValidated m1 = false) ∧
      ∀ e, addAgentFunction m agent_name agentFunction = (m1, some e) →
        m1 = m ∧ flame2.model.getAgent m.model_ agent_name = none) ∧
    (∀ (m : Model) (name : String), isValidated (addMessage m name) = false) ∧
    (∀ (m m1 : Model) (message_name type name : String),
      addMessageVariable m message_name type name = Except.ok m1 →
        isValidated m1 = false) ∧
    (∀ m : Model,
      (flame2.model.validate XModelValidate m.model_ = 0 →
        validate XModelValidate m = ({ m with validated_ := true }, none)) ∧
      (flame2.model.validate XModelValidate m.model_ ≠ 0 →
        validate XModelValidate m = (m, some ⟨"Model could not be validated"⟩))) ∧
    ∀ (ops : List Operation) (m : Model)
      (trace : List (Operation × Option flame_model_exception)),
      performAll XModelValidate ops Model.Model = Except.ok (m, trace) →
      (isValidated m = true ↔ ValidatedLast trace) := by
  refine ⟨rfl, fun _ _ => rfl, ?_, ?_, fun _ _ => rfl, ?_, ?_, ?_⟩
  · intro m m1 agent_name type name
    exact ⟨addAgentVariable_returned m m1 _ _ _, addAgentVariable_raised m m1 _ _ _⟩
  · intro m m1 agent_name agentFunction
    exact ⟨addAgentFunction_returned m m1 _ _, addAgentFunction_raised m m1 _ _⟩
  · intro m m1 message_name type name
    exact addMessageVariable_returned m m1 _ _ _
  · intro m
    constructor
    · intro h; simp [validate, h]
    · intro h; simp [validate, h]
  · intro ops m trace h
    have := performAll_flag XModelValidate ops Model.Model m trace h
    simp only [isValidated]
    rw [this]
    constructor
    · rintro (h1 | ⟨_, h2⟩)
      · exact h1
      · cases h2
    · exact Or.inl

/-! ## The passes of the levelling loop -/

theorem levelLoop_zero (c : Nat) (ts : List Task) :
    levelLoop 0 c ts = Except.error Fault.outOfFuel := rfl

theorem passSpec_level_le (c : Nat) (ts : List Task) (hlev : ∀ t ∈ ts, t.level < c) :
    ∀ t ∈ passSpec c ts, t.level < c + 1 := by
  intro t ht
  simp only [passSpec, List.mem_map] at ht
  obtain ⟨t0, ht0, rfl⟩ := ht
  rw [passLevel_level]
  split
  · omega
  · have := hlev t0 ht0; omega

theorem unlevelled_pos_iff (ts : List Task) :
    0 < unlevelled ts ↔ ∃ t ∈ ts, t.level = 0 := by
  unfold unlevelled
  rw [List.countP_pos_iff]
  simp

/-- The passes of the levelling loop on an acyclic graph with an unlevelled task:
the loop returns after `p` passes, `p` being at most the number of unlevelled
tasks; every pass levels a task, and the levels of the tasks levelled before stay
as they are. -/
theorem levelLoop_passes : ∀ (u c : Nat) (ts : List Task), 0 < c →
    (∀ t ∈ ts, t.level < c) → Acyclic ts → InRange ts → unlevelled ts = u → 0 < u →
    ∃ (p : Nat) (r : List Task), 1 ≤ p ∧ p ≤ u ∧
      (∀ fuel, p ≤ fuel → levelLoop fuel c ts = Except.ok r) ∧
      (∀ fuel, fuel < p → levelLoop fuel c ts = Except.error Fault.outOfFuel) ∧
      (∀ k, k < p → ∃ t ∈ r, t.level = c + k) ∧
      (∀ t ∈ r, t.level < c + p) ∧
      ∀ (i : Nat) (t : Task), ts[i]? = some t → t.level ≠ 0 →
        ∃ t1, r[i]? = some t1 ∧ t1.level = t.level := by
  intro u
  induction u using Nat.strong_induction_on with
  | _ u ih =>
    intro c ts hc hlev hac hin hu hpos
    obtain ⟨hpass, hflag⟩ := levelPass_spec c ts hlev
    obtain ⟨t0, ht0, hl0⟩ := (unlevelled_pos_iff ts).1 (hu ▸ hpos)
    obtain ⟨i0, hi0⟩ := List.mem_iff_getElem?.1 ht0
    obtain ⟨i, t, hi, h0, hr⟩ := exists_ready ts hac hin i0 t0 hi0 hl0
    have hlt := unlevelled_pass_lt c ts hc i t hi h0 hr
    have hkeep : ∀ (j : Nat) (s : Task), ts[j]? = some s → s.level ≠ 0 →
        ∃ s1, (passSpec c ts)[j]? = some s1 ∧ s1.level = s.level := by
      intro j s hj hs
      refine ⟨passLevel c ts s, by rw [getElem?_passSpec, hj]; rfl, ?_⟩
      rw [passLevel_level, if_neg (fun hc => hs hc.1)]
    have hnew : ∃ s ∈ passSpec c ts, s.level = c := by
      refine ⟨passLevel c ts t, ?_, ?_⟩
      · exact List.getElem?_mem (by rw [getElem?_passSpec, hi]; rfl)
      · rw [passLevel_level, if_pos ⟨h0, hr⟩]
    cases hf : (levelPass c ts).2 with
    | true =>
      refine ⟨1, passSpec c ts, Nat.le_refl 1, by omega, ?_, ?_, ?_, ?_, hkeep⟩
      · intro fuel hfuel
        obtain ⟨f, rfl⟩ : ∃ f, fuel = f + 1 := ⟨fuel - 1, by omega⟩
        rw [levelLoop_succ_true f c ts hf, hpass]
      · intro fuel hfuel
        have : fuel = 0 := by omega
        subst this
        rfl
      · intro k hk
        have : k = 0 := by omega
        subst this
        exact hnew
      · exact passSpec_level_le c ts hlev
    | false =>
      have hnot : ¬ ∀ t ∈ ts, t.level = 0 → ∀ d ∈ t.parents, getLevel ts d.task ≠ 0 := by
        intro hall
        have := hflag.2 hall
        rw [hf] at this
        cases this
      have hun1 : ts.map unlevel = (passSpec c ts).map unlevel :=
        (map_unlevel_passSpec c ts).symm
      have hac1 : Acyclic (passSpec c ts) := acyclic_congr (map_unlevel_passSpec c ts) hac
      have hin1 : InRange (passSpec c ts) := inRange_congr (map_unlevel_passSpec c ts) hin
      have hpos1 : 0 < unlevelled (passSpec c ts) := by
        rw [unlevelled_pos_iff]
        push_neg at hnot
        obtain ⟨s, hs, hs0, d, hd, hz⟩ := hnot
        refine ⟨passLevel c ts s, ?_, ?_⟩
        · simp only [passSpec, List.mem_map]
          exact ⟨s, hs, rfl⟩
        · rw [passLevel_level, if_neg (fun hc2 => hc2.2 d hd hz)]
          exact hs0
      obtain ⟨p1, r, hp1, hp1u, hok, herr, hlevels, hbound, hkeep1⟩ :=
        ih (unlevelled (passSpec c ts)) (by omega) (c + 1) (passSpec c ts) (by omega)
          (passSpec_level_le c ts hlev) hac1 hin1 rfl hpos1
      refine ⟨p1 + 1, r, by omega, by omega, ?_, ?_, ?_, ?_, ?_⟩
      · intro fuel hfuel
        obtain ⟨f, rfl⟩ : ∃ f, fuel = f + 1 := ⟨fuel - 1, by omega⟩
        rw [levelLoop_succ_false f c ts hf, hpass]
        exact hok f (by omega)
      · intro fuel hfuel
        cases fuel with
        | zero => rfl
        | succ f =>
          rw [levelLoop_succ_false f c ts hf, hpass]
          exact herr f (by omega)
      · intro k hk
        cases k with
        | zero =>
          obtain ⟨s, hs, hsl⟩ := hnew
          obtain ⟨j, hj⟩ := List.mem_iff_getElem?.1 hs
          obtain ⟨s1, hs1, hs1l⟩ := hkeep1 j s hj (by omega)
          exact ⟨s1, List.getElem?_mem hs1, by rw [hs1l, hsl]; rfl⟩
        | succ k =>
          obtain ⟨s, hs, hsl⟩ := hlevels k (by omega)
          exact ⟨s, hs, by rw [hsl]; omega⟩
      · intro s hs
        have := hbound s hs
        omega
      · intro j s hj hs
        obtain ⟨s1, hs1, hs1l⟩ := hkeep j s hj hs
        obtain ⟨s2, hs2, hs2l⟩ := hkeep1 j s1 hs1 (by omega)
        exact ⟨s2, hs2, by rw [hs2l, hs1l]⟩

theorem unlevelled_levelPass_lt (c : Nat) (st : List Task) (hc : 0 < c)
    (hlev : ∀ t ∈ st, t.level < c) (hac : Acyclic st) (hin : InRange st)
    (hpos : 0 < unlevelled st) : unlevelled (levelPass c st).1 < unlevelled st := by
  obtain ⟨t0, ht0, hl0⟩ := (unlevelled_pos_iff st).1 hpos
  obtain ⟨i0, hi0⟩ := List.mem_iff_getElem?.1 ht0
  obtain ⟨i, t, hi, h0, hr⟩ := exists_ready st hac hin i0 t0 hi0 hl0
  rw [(levelPass_spec c st hlev).1]
  exact unlevelled_pass_lt c st hc i t hi h0 hr

theorem unlevelled_map_unlevel (ts : List Task) :
    unlevelled (ts.map unlevel) = ts.length := by
  unfold unlevelled
  rw [List.countP_map, List.countP_eq_length]
  intro t _
  simp [unlevel]

theorem calculate_dependencies_nil_zero :
    calculate_dependencies 0 [] = Except.error Fault.outOfFuel := rfl

theorem calculate_dependencies_nil_succ (fuel : Nat) :
    calculate_dependencies (fuel + 1) [] = Except.ok [] := rfl

/-- Counterexample to C35 as stated: on the empty task list `calculate_dependencies`
makes one pass (it fails with no pass allowed and returns with one), and this pass
levels no task: the number of unlevelled tasks is the same after it, and no level
is assigned. -/
theorem calculate_dependencies_empty_list :
    Acyclic [] ∧ InRange [] ∧
    calculate_dependencies 0 [] = Except.error Fault.outOfFuel ∧
    calculate_dependencies 1 [] = Except.ok [] ∧
    unlevelled (levelPass 1 []).1 = unlevelled [] ∧
    ¬ ∃ t ∈ ([] : List Task), t.level = 1 :=
  ⟨acyclic_of_rank [] id rfl, fun i t h => by simp at h, rfl, rfl, rfl, by simp⟩

/-- C35 (as amended): a pass of the while loop over task objects with an unlevelled
task (acyclic, parents in the list, levels below the current one) levels at least
one of them; on an acyclic task list whose parents all belong to the list
`calculate_dependencies` returns after exactly `p` passes, with `1 ≤ p` and
`p ≤ max 1 n` for `n` tasks; the empty list gets one pass; on a list that is not
empty every pass `c` of the `p` passes leaves a task with level `c`, and no level
is above `p`, so that `p` is the largest level assigned. -/
theorem calculate_dependencies_passes (ts : List Task) (hac : Acyclic ts)
    (hin : InRange ts) :
    (∀ (c : Nat) (st : List Task), 0 < c → (∀ t ∈ st, t.level < c) → Acyclic st →
      InRange st → 0 < unlevelled st →
      unlevelled (levelPass c st).1 < unlevelled st) ∧
    ∃ (p : Nat) (r : List Task),
      (∀ fuel, p ≤ fuel → calculate_dependencies fuel ts = Except.ok r) ∧
      (∀ fuel, fuel < p → calculate_dependencies fuel ts = Except.error Fault.outOfFuel) ∧
      1 ≤ p ∧ p ≤ max 1 ts.length ∧
      (ts = [] → p = 1) ∧
      (ts ≠ [] → (∀ c, 1 ≤ c → c ≤ p → ∃ t ∈ r, t.level = c) ∧ ∀ t ∈ r, t.level ≤ p) := by
  refine ⟨unlevelled_levelPass_lt, ?_⟩
  by_cases hnil : ts = []
  · subst hnil
    refine ⟨1, [], ?_, ?_, Nat.le_refl 1, by simp, fun _ => rfl, fun h => absurd rfl h⟩
    · intro fuel hfuel
      obtain ⟨f, rfl⟩ : ∃ f, fuel = f + 1 := ⟨fuel - 1, by omega⟩
      rfl
    · intro fuel hfuel
      have : fuel = 0 := by omega
      subst this
      rfl
  · have hlen : 0 < ts.length := List.length_pos.2 hnil
    have hlev : ∀ t ∈ ts.map unlevel, t.level < 1 := by
      intro t ht
      simp only [List.mem_map] at ht
      obtain ⟨u, _, rfl⟩ := ht
      simp [unlevel]
    obtain ⟨p, r, hp1, hpu, hok, herr, hlevels, hbound, _⟩ :=
      levelLoop_passes ts.length 1 (ts.map unlevel) (by omega) hlev
        (acyclic_congr (map_unlevel_map_unlevel ts) hac)
        (inRange_congr (map_unlevel_map_unlevel ts) hin)
        (unlevelled_map_unlevel ts) hlen
    refine ⟨p, r, hok, herr, hp1, le_trans hpu (le_max_right _ _), fun h => absurd h hnil,
      fun _ => ⟨?_, ?_⟩⟩
    · intro c hc1 hcp
      obtain ⟨t, ht, hl⟩ := hlevels (c - 1) (by omega)
      exact ⟨t, ht, by rw [hl]; omega⟩
    · intro t ht
      have := hbound t ht
      omega

/-- Witness of C35 on the graph of scenario S2 (four tasks). -/
theorem calculate_dependencies_passes_witness :
    Acyclic (dependencyGraph ctorA scenarioS2).2 ∧ InRange (dependencyGraph ctorA scenarioS2).2 ∧
    ((∀ (c : Nat) (st : List Task), 0 < c → (∀ t ∈ st, t.level < c) → Acyclic st →
      InRange st → 0 < unlevelled st →
      unlevelled (levelPass c st).1 < unlevelled st) ∧
    ∃ (p : Nat) (r : List Task),
      (∀ fuel, p ≤ fuel →
        calculate_dependencies fuel (dependencyGraph ctorA scenarioS2).2 = Except.ok r) ∧
      (∀ fuel, fuel < p →
        calculate_dependencies fuel (dependencyGraph ctorA scenarioS2).2
          = Except.error Fault.outOfFuel) ∧
      1 ≤ p ∧ p ≤ max 1 (dependencyGraph ctorA scenarioS2).2.length ∧
      ((dependencyGraph ctorA scenarioS2).2 = [] → p = 1) ∧
      ((dependencyGraph ctorA scenarioS2).2 ≠ [] →
        (∀ c, 1 ≤ c → c ≤ p → ∃ t ∈ r, t.level = c) ∧ ∀ t ∈ r, t.level ≤ p)) :=
  ⟨acyclic_of_rank _ rankS2 (by decide), inRange_dependencyGraph scenarioS2,
    calculate_dependencies_passes _ (acyclic_of_rank _ rankS2 (by decide))
      (inRange_dependencyGraph scenarioS2)⟩

/-! ## The task list as a topological order -/

/-- In the sorted list of levelled task objects every parent stands before its
child. -/
theorem calculate_task_list_parent_first {sort : StdSort} (hsort : sort.Conforming)
    (ts : List Task) (hin : InRange ts) (hlev : Levelled ts) (c : Nat) (t : Task) (hc : ts[c]? = some t)
    (d : Dependency) (hd : d ∈ t.parents) :
    c ∈ calculate_task_list sort ts ∧ d.task ∈ calculate_task_list sort ts ∧
    (calculate_task_list sort ts).indexOf d.task < (calculate_task_list sort ts).indexOf c := by
  have hperm := calculate_task_list_perm hsort ts
  have hclt : c < ts.length := by
    rcases Nat.lt_or_ge c ts.length with h | h
    · exact h
    · rw [List.getElem?_eq_none h] at hc
      cases hc
  have hdlt : d.task < ts.length := hin c t hc d hd
  have hcm : c ∈ calculate_task_list sort ts := hperm.mem_iff.2 (List.mem_range.2 hclt)
  have hdm : d.task ∈ calculate_task_list sort ts := hperm.mem_iff.2 (List.mem_range.2 hdlt)
  have hlevel : getLevel ts d.task < getLevel ts c := by
    rw [getLevel_eq_of_getElem? hc, (hlev c t hc).2]
    have : getLevel ts d.task ≤ maxParentLevel ts t :=
      le_foldr_max _ _ (List.mem_map.2 ⟨d, hd, rfl⟩)
    omega
  refine ⟨hcm, hdm, ?_⟩
  have hci := List.indexOf_lt_length.2 hcm
  have hdi := List.indexOf_lt_length.2 hdm
  by_contra hnot
  have hle : (calculate_task_list sort ts).indexOf c ≤ (calculate_task_list sort ts).indexOf d.task := by
    omega
  rcases Nat.lt_or_ge ((calculate_task_list sort ts).indexOf c)
      ((calculate_task_list sort ts).indexOf d.task) with hlt | hge
  · have := List.pairwise_iff_getElem.1 (calculate_task_list_pairwise hsort ts) _ _ hci hdi hlt
    rw [List.getElem_indexOf hci, List.getElem_indexOf hdi] at this
    omega
  · have heq : (calculate_task_list sort ts).indexOf c = (calculate_task_list sort ts).indexOf d.task := by
      omega
    have := (List.indexOf_inj hcm hdm).1 heq
    rw [this] at hlevel
    omega

/-- C36: for every `std::sort` that does what the standard promises, the list
`calculate_task_list` produces is a permutation of the tasks it
was given, in non-decreasing level order; and for a model with an acyclic
dependency graph the list `generate_task_list` leaves is the one
`calculate_task_list` produces from the levelled task objects, with every task at
a later position than each of its parents; `generate_task_list` returns on such a
model when every agent with a variable has a function. -/
theorem calculate_task_list_topological (sort : StdSort) (hsort : sort.Conforming)
    (ctor : Task) (m : XModel) (hac : Acyclic (dependencyGraph ctor m).2) :
    (∀ ts : List Task, (calculate_task_list sort ts).Perm (List.range ts.length) ∧
      List.Pairwise (fun i j => getLevel ts i ≤ getLevel ts j) (calculate_task_list sort ts)) ∧
    (∀ (fuel : Nat) (r : TaskList), generate_task_list sort ctor fuel m = Except.ok r →
      r.tasks = calculate_task_list sort r.objects ∧
      ∀ (c : Nat) (t : Task), r.objects[c]? = some t → ∀ d ∈ t.parents,
        c ∈ r.tasks ∧ d.task ∈ r.tasks ∧ r.tasks.indexOf d.task < r.tasks.indexOf c) ∧
    ((∀ a ∈ m.agents, a.variables_ ≠ [] → a.functions ≠ []) →
      ∃ r, generate_task_list sort ctor ((dependencyGraph ctor m).2.length + 1) m = Except.ok r) := by
  refine ⟨fun ts => ⟨calculate_task_list_perm hsort ts, calculate_task_list_pairwise hsort ts⟩,
    ?_, generate_task_list_returns m hac⟩
  intro fuel r h
  obtain ⟨_, _, _, _, htasks⟩ := generate_task_list_ok fuel m r h
  obtain ⟨hin, hlev⟩ := generate_task_list_levelled fuel m r h
  refine ⟨htasks, ?_⟩
  intro c t hc d hd
  rw [htasks]
  exact calculate_task_list_parent_first hsort r.objects hin hlev c t hc d hd

/-- Witness of C36 on scenario S2, whose graph is acyclic, with the insertion sort. -/
theorem calculate_task_list_topological_witness :
    stable_sort.Conforming ∧ Acyclic (dependencyGraph ctorA scenarioS2).2 ∧
    ((∀ ts : List Task, (calculate_task_list stable_sort ts).Perm (List.range ts.length) ∧
      List.Pairwise (fun i j => getLevel ts i ≤ getLevel ts j)
        (calculate_task_list stable_sort ts)) ∧
    (∀ (fuel : Nat) (r : TaskList),
      generate_task_list stable_sort ctorA fuel scenarioS2 = Except.ok r →
      r.tasks = calculate_task_list stable_sort r.objects ∧
      ∀ (c : Nat) (t : Task), r.objects[c]? = some t → ∀ d ∈ t.parents,
        c ∈ r.tasks ∧ d.task ∈ r.tasks ∧ r.tasks.indexOf d.task < r.tasks.indexOf c) ∧
    ((∀ a ∈ scenarioS2.agents, a.variables_ ≠ [] → a.functions ≠ []) →
      ∃ r, generate_task_list stable_sort ctorA ((dependencyGraph ctorA scenarioS2).2.length + 1)
        scenarioS2 = Except.ok r)) :=
  ⟨stable_sort_conforming, acyclic_of_rank _ rankS2 (by decide),
    calculate_task_list_topological stable_sort stable_sort_conforming ctorA scenarioS2
      (acyclic_of_rank _ rankS2 (by decide))⟩

end flame.model

namespace flame.exe

/-! # Theorems: the task queue -/

/-! ## Arguments of the queue -/

/-- C18: constructing the queue with `slots < 1` raises `invalid_argument`, and
with `slots >= 1` yields a queue with that number of slots; `SetMaxSplits` and
`SetMinVectorSize` called with a value `< 1` raise `invalid_argument` and leave the
queue, hence the value the getter returns, unchanged; called with a value `>= 1`
they raise nothing, the matching getter returns the value afterwards, and nothing
else in the queue has changed. -/
theorem queue_argument_checks (DEFAULT_MIN_VECTOR_SIZE slots : Nat)
    (q : SplittingFIFOTaskQueue) (v : Nat) :
    (slots < 1 → SplittingFIFOTaskQueue.SplittingFIFOTaskQueue DEFAULT_MIN_VECTOR_SIZE slots
      = Except.error (Exception.invalid_argument "slots must be > 0")) ∧
    (1 ≤ slots → ∃ q0, SplittingFIFOTaskQueue.SplittingFIFOTaskQueue
        DEFAULT_MIN_VECTOR_SIZE slots = Except.ok q0 ∧
      q0.slots_ = slots ∧ GetMaxSplits q0 = slots ∧
      GetMinVectorSize q0 = DEFAULT_MIN_VECTOR_SIZE) ∧
    (v < 1 → SetMaxSplits q v
        = (q, some (Exception.invalid_argument "max_splits must be > 0")) ∧
      GetMaxSplits (SetMaxSplits q v).1 = GetMaxSplits q) ∧
    (1 ≤ v → (SetMaxSplits q v).2 = none ∧ GetMaxSplits (SetMaxSplits q v).1 = v ∧
      (SetMaxSplits q v).1 = { q with max_splits_ := v }) ∧
    (v < 1 → SetMinVectorSize q v
        = (q, some (Exception.invalid_argument "min_vector_size must be > 0")) ∧
      GetMinVectorSize (SetMinVectorSize q v).1 = GetMinVectorSize q) ∧
    (1 ≤ v → (SetMinVectorSize q v).2 = none ∧
      GetMinVectorSize (SetMinVectorSize q v).1 = v ∧
      (SetMinVectorSize q v).1 = { q with min_vector_size_ := v }) := by
  refine ⟨?_, ?_, ?_, ?_, ?_, ?_⟩
  · intro h
    simp [SplittingFIFOTaskQueue.SplittingFIFOTaskQueue, h]
  · intro h
    have : ¬ slots < 1 := by omega
    exact ⟨SplittingFIFOTaskQueue.mk slots slots DEFAULT_MIN_VECTOR_SIZE [] [] [],
      by simp only [SplittingFIFOTaskQueue.SplittingFIFOTaskQueue, if_neg this],
      rfl, rfl, rfl⟩
  · intro h
    simp [SetMaxSplits, h]
  · intro h
    have : ¬ v < 1 := by omega
    simp [SetMaxSplits, this, GetMaxSplits]
  · intro h
    simp [SetMinVectorSize, h]
  · intro h
    have : ¬ v < 1 := by omega
    simp [SetMinVectorSize, this, GetMinVectorSize]

/-! ## The order in which the queue serves the tasks -/

theorem find_store_self (m : List (Nat × TaskSplitter)) (k : Nat) (v ts : TaskSplitter)
    (h : find m k = some ts) : find (store m k v) k = some v := by
  unfold find store at *
  induction m with
  | nil => simp at h
  | cons e m ih =>
    obtain ⟨a, b⟩ := e
    by_cases hak : a = k
    · subst hak
      simp [List.lookup_cons]
    · have hka : (k == a) = false := by simpa using fun h' => hak h'.symm
      simp only [List.lookup_cons, hka] at h
      simp only [List.map_cons, if_neg hak, List.lookup_cons, hka]
      exact ih h

theorem find_store_other (m : List (Nat × TaskSplitter)) (k k' : Nat) (v : TaskSplitter)
    (h : k' ≠ k) : find (store m k v) k' = find m k' := by
  unfold find store
  induction m with
  | nil => rfl
  | cons e m ih =>
    obtain ⟨a, b⟩ := e
    by_cases hak : a = k
    · subst hak
      have hka : (k' == a) = false := by simpa using h
      simp only [List.map_cons, if_true, List.lookup_cons, hka]
      exact ih
    · simp only [List.map_cons, if_neg hak, List.lookup_cons]
      rw [ih]

theorem find_append (m : List (Nat × TaskSplitter)) (k k' : Nat) (v : TaskSplitter) :
    find (m ++ [(k, v)]) k' = (find m k').or (if k' = k then some v else none) := by
  unfold find
  rw [List.lookup_append]
  congr 1
  by_cases h : k' = k
  · subst h
    simp [List.lookup_cons]
  · have : (k' == k) = false := by simpa using h
    simp [List.lookup_cons, this, h]

theorem GetNextTasks_add (a b : Nat) : ∀ (q q1 q2 : SplittingFIFOTaskQueue) (l1 l2 : List Nat),
    GetNextTasks a q = some (q1, l1) → GetNextTasks b q1 = some (q2, l2) →
    GetNextTasks (a + b) q = some (q2, l1 ++ l2) := by
  induction a with
  | zero =>
    intro q q1 q2 l1 l2 h1 h2
    simp only [GetNextTasks, Option.some.injEq, Prod.mk.injEq] at h1
    obtain ⟨rfl, rfl⟩ := h1
    simpa using h2
  | succ a ih =>
    intro q q1 q2 l1 l2 h1 h2
    rw [show a + 1 + b = (a + b) + 1 by omega]
    simp only [GetNextTasks] at h1 ⊢
    cases hg : GetNextTask q with
    | none => rw [hg] at h1; cases h1
    | some r =>
      obtain ⟨q', id⟩ := r
      rw [hg] at h1
      simp only at h1 ⊢
      cases hn : GetNextTasks a q' with
      | none => rw [hn] at h1; cases h1
      | some r' =>
        obtain ⟨q'', ids⟩ := r'
        rw [hn] at h1
        simp only [Option.some.injEq, Prod.mk.injEq] at h1
        obtain ⟨rfl, rfl⟩ := h1
        rw [ih q' q'' q2 ids l2 hn h2]
        rfl

theorem GetNextTasks_succ (n : Nat) (q q1 q2 : SplittingFIFOTaskQueue) (id : Nat)
    (ids : List Nat) (h1 : GetNextTask q = some (q1, id))
    (h2 : GetNextTasks n q1 = some (q2, ids)) :
    GetNextTasks (n + 1) q = some (q2, id :: ids) := by
  rw [GetNextTasks, h1]
  simp only
  rw [h2]

/-- An id at the head of `queue_` that is not in `split_map_` is served once. -/
theorem serve_unsplit (q : SplittingFIFOTaskQueue) (task_id : Nat) (rest : List Nat)
    (hq : q.queue_ = task_id :: rest) (hf : find q.split_map_ task_id = none) :
    GetNextTasks 1 q = some ({ q with queue_ := rest }, [task_id]) := by
  simp [GetNextTasks, GetNextTask, hq, hf]

/-- An id at the head of `queue_` with `p + 1` pending sub-tasks is served `p + 1`
times in a row and then leaves `queue_`; the other entries of `split_map_` are
untouched. -/
theorem serve_split (p : Nat) : ∀ (q : SplittingFIFOTaskQueue) (task_id : Nat)
    (rest : List Nat) (ts : TaskSplitter), q.queue_ = task_id :: rest →
    find q.split_map_ task_id = some ts → ts.pending_ = p + 1 →
    ∃ q', GetNextTasks (p + 1) q = some (q', List.replicate (p + 1) task_id) ∧
      q'.queue_ = rest ∧
      (∀ k, k ≠ task_id → find q'.split_map_ k = find q.split_map_ k) ∧
      (∃ ts', find q'.split_map_ task_id = some ts' ∧ ts'.pending_ = 0 ∧
        (ts.running_ + (p + 1) ≤ SIZE_MAX → ts'.running_ = ts.running_ + (p + 1))) := by
  induction p with
  | zero =>
    intro q task_id rest ts hq hf hp
    have hnp : (OneTaskAssigned ts).2 = true := by
      simp [OneTaskAssigned, NonePending, decrement, hp]
    refine ⟨{ q with split_map_ := store q.split_map_ task_id (OneTaskAssigned ts).1,
                     queue_ := rest }, ?_, rfl, ?_, ?_⟩
    · simp [GetNextTasks, GetNextTask, hq, hf, hnp]
    · intro k hk
      exact find_store_other _ _ _ _ hk
    · refine ⟨_, find_store_self _ _ _ ts hf, ?_, ?_⟩
      · simp [OneTaskAssigned, decrement, hp]
      · intro hle
        have : ts.running_ ≠ SIZE_MAX := by omega
        simp [OneTaskAssigned, increment, this]
  | succ p ih =>
    intro q task_id rest ts hq hf hp
    have hnp : (OneTaskAssigned ts).2 = false := by
      simp [OneTaskAssigned, NonePending, decrement, hp]
    have hp1 : (OneTaskAssigned ts).1.pending_ = p + 1 := by
      simp [OneTaskAssigned, decrement, hp]
    obtain ⟨q', h1, h2, h3, h4⟩ := ih
      { q with split_map_ := store q.split_map_ task_id (OneTaskAssigned ts).1 }
      task_id rest (OneTaskAssigned ts).1 hq (find_store_self _ _ _ ts hf) hp1
    have hrun : (OneTaskAssigned ts).1.running_ = increment ts.running_ := rfl
    refine ⟨q', ?_, h2, ?_, ?_⟩
    · have hstep : GetNextTask q = some
          ({ q with split_map_ := store q.split_map_ task_id (OneTaskAssigned ts).1 },
            task_id) := by
        simp [GetNextTask, hq, hf, hnp]
      exact GetNextTasks_succ (p + 1) q _ q' task_id _ hstep h1
    · intro k hk
      rw [h3 k hk]
      exact find_store_other _ _ _ _ hk
    · obtain ⟨ts', hts', hp', hr'⟩ := h4
      refine ⟨ts', hts', hp', ?_⟩
      intro hle
      have hne : ts.running_ ≠ SIZE_MAX := by omega
      have hinc : increment ts.running_ = ts.running_ + 1 := by simp [increment, hne]
      rw [hrun, hinc] at hr'
      rw [hr' (by omega)]
      omega

/-- Successive calls of `GetNextTask` empty `queue_`, serving its ids in order,
each as many times in a row as it has pending sub-tasks. -/
theorem drain : ∀ (ids : List Nat) (q : SplittingFIFOTaskQueue), q.queue_ = ids →
    ids.Nodup →
    (∀ id ∈ ids, ∀ ts, find q.split_map_ id = some ts → 1 ≤ ts.pending_) →
    ∃ q', GetNextTasks ((ids.map (serves q)).sum) q
        = some (q', ids.flatMap (fun id => List.replicate (serves q id) id)) ∧
      q'.queue_ = [] := by
  intro ids
  induction ids with
  | nil =>
    intro q hq _ _
    exact ⟨q, rfl, hq⟩
  | cons id rest ih =>
    intro q hq hnd hpos
    rw [List.nodup_cons] at hnd
    have hhead : ∃ q1, GetNextTasks (serves q id) q
          = some (q1, List.replicate (serves q id) id) ∧ q1.queue_ = rest ∧
        ∀ k, k ≠ id → find q1.split_map_ k = find q.split_map_ k := by
      cases hf : find q.split_map_ id with
      | none =>
        refine ⟨{ q with queue_ := rest }, ?_, rfl, fun _ _ => rfl⟩
        simp only [serves, hf]
        exact serve_unsplit q id rest hq hf
      | some ts =>
        have h1 := hpos id (List.mem_cons_self _ _) ts hf
        obtain ⟨q1, h2, h3, h4, _⟩ := serve_split (ts.pending_ - 1) q id rest ts hq hf
          (by omega)
        refine ⟨q1, ?_, h3, h4⟩
        simp only [serves, hf]
        rw [show ts.pending_ = ts.pending_ - 1 + 1 by omega]
        exact h2
    obtain ⟨q1, hg1, hq1, hsame⟩ := hhead
    have hserves : ∀ k ∈ rest, serves q1 k = serves q k := by
      intro k hk
      have : k ≠ id := fun h => hnd.1 (h ▸ hk)
      simp only [serves, hsame k this]
    obtain ⟨q2, hg2, hq2⟩ := ih q1 hq1 hnd.2 (by
      intro k hk ts hts
      have : k ≠ id := fun h => hnd.1 (h ▸ hk)
      rw [hsame k this] at hts
      exact hpos k (List.mem_cons_of_mem _ hk) ts hts)
    refine ⟨q2, ?_, hq2⟩
    rw [List.map_cons, List.sum_cons, List.flatMap_cons]
    have hmap : rest.map (serves q1) = rest.map (serves q) := List.map_congr_left hserves
    have hflat : rest.flatMap (fun id => List.replicate (serves q1 id) id)
        = rest.flatMap (fun id => List.replicate (serves q id) id) := by
      simp only [List.flatMap, List.map_congr_left
        (fun k hk => show List.replicate (serves q1 k) k = List.replicate (serves q k) k by
          rw [hserves k hk])]
    rw [hmap, hflat] at hg2
    exact GetNextTasks_add _ _ q q1 q2 _ _ hg1 hg2

/-! ## The order in which the queue serves the tasks -/

theorem Enqueue_spec (tm : TaskManager) (q : SplittingFIFOTaskQueue) (task_id : Nat)
    (hf : find q.split_map_ task_id = none) :
    ∃ q1, Enqueue tm q task_id = (q1, none) ∧ q1.queue_ = q.queue_ ++ [task_id] ∧
      q1.max_splits_ = q.max_splits_ ∧ q1.min_vector_size_ = q.min_vector_size_ ∧
      q1.splittable_ = q.splittable_ ∧
      find q1.split_map_ task_id = splitOf tm q task_id ∧
      ∀ k, k ≠ task_id → find q1.split_map_ k = find q.split_map_ k := by
  unfold Enqueue splitOf
  by_cases hs : tm.get_task_type task_id ∈ q.splittable_
  · cases hsp : tm.SplitTask task_id q.max_splits_ q.min_vector_size_ with
    | none =>
      refine ⟨{ q with queue_ := q.queue_ ++ [task_id] }, ?_, rfl, rfl, rfl, rfl, ?_, ?_⟩
      · simp [hs, hsp]
      · simp [hs, hf]
      · intro k _; rfl
    | some ts =>
      refine ⟨{ q with queue_ := q.queue_ ++ [task_id],
                       split_map_ := q.split_map_ ++ [(task_id, ts)] },
        ?_, rfl, rfl, rfl, rfl, ?_, ?_⟩
      · simp [hs, hsp, hf]
      · simp [hs, find_append, hf]
      · intro k hk
        simp [find_append, hk]
  · refine ⟨{ q with queue_ := q.queue_ ++ [task_id] }, ?_, rfl, rfl, rfl, rfl, ?_, ?_⟩
    · simp [hs]
    · simp [hs, hf]
    · intro k _; rfl

theorem splitOf_congr (tm : TaskManager) (q q1 : SplittingFIFOTaskQueue)
    (h1 : q1.max_splits_ = q.max_splits_) (h2 : q1.min_vector_size_ = q.min_vector_size_)
    (h3 : q1.splittable_ = q.splittable_) (k : Nat) : splitOf tm q1 k = splitOf tm q k := by
  simp only [splitOf, h1, h2, h3]

/-- Enqueueing distinct ids that are not in `split_map_` raises nothing, appends
them to `queue_` in order and registers the splitter of each id that splits. -/
theorem EnqueueAll_spec (tm : TaskManager) : ∀ (ids : List Nat) (q : SplittingFIFOTaskQueue),
    ids.Nodup → (∀ id ∈ ids, find q.split_map_ id = none) →
    ∃ q1, EnqueueAll tm ids q = (q1, none) ∧ q1.queue_ = q.queue_ ++ ids ∧
      q1.max_splits_ = q.max_splits_ ∧ q1.min_vector_size_ = q.min_vector_size_ ∧
      q1.splittable_ = q.splittable_ ∧
      (∀ k ∈ ids, find q1.split_map_ k = splitOf tm q k) ∧
      (∀ k, k ∉ ids → find q1.split_map_ k = find q.split_map_ k) := by
  intro ids
  induction ids with
  | nil =>
    intro q _ _
    exact ⟨q, rfl, by simp, rfl, rfl, rfl, fun k hk => absurd hk (List.not_mem_nil k),
      fun _ _ => rfl⟩
  | cons id rest ih =>
    intro q hnd hnone
    rw [List.nodup_cons] at hnd
    obtain ⟨q1, he, hq1, hc1, hc2, hc3, hfid, hfo⟩ :=
      Enqueue_spec tm q id (hnone id (List.mem_cons_self _ _))
    have hnone1 : ∀ k ∈ rest, find q1.split_map_ k = none := by
      intro k hk
      have : k ≠ id := fun h => hnd.1 (h ▸ hk)
      rw [hfo k this]
      exact hnone k (List.mem_cons_of_mem _ hk)
    obtain ⟨q2, he2, hq2, hd1, hd2, hd3, hin, hout⟩ := ih q1 hnd.2 hnone1
    refine ⟨q2, ?_, ?_, hd1.trans hc1, hd2.trans hc2, hd3.trans hc3, ?_, ?_⟩
    · simp only [EnqueueAll, he]
      exact he2
    · rw [hq2, hq1]
      simp
    · intro k hk
      rcases List.mem_cons.1 hk with rfl | hk
      · rw [hout k hnd.1, hfid]
      · rw [hin k hk]
        exact splitOf_congr tm q q1 hc1 hc2 hc3 k
    · intro k hk
      rw [List.mem_cons, not_or] at hk
      rw [hout k hk.2, hfo k hk.1]

/-- C19: for every list of pairwise distinct task ids enqueued on an empty queue
(no id in `queue_`, no entry in `split_map_`), every splitter `SplitTask` returns
being a newly constructed one with at least one sub-task: no `Enqueue` raises,
`queue_` holds the ids in enqueue order, and as many successive calls of
`GetNextTask` as the ids have parts return the ids in enqueue order, an id that is
not split once and an id split into `k` sub-tasks `k` times in a row; after these
calls `queue_` is empty. -/
theorem GetNextTask_serves_in_order (tm : TaskManager) (q : SplittingFIFOTaskQueue)
    (ids : List Nat) (hq : q.queue_ = []) (hm : q.split_map_ = []) (hnd : ids.Nodup)
    (hfresh : ∀ id ∈ ids, ∀ ts ∈ splitOf tm q id,
      ts = TaskSplitter.TaskSplitter ts.id_ ts.tasks_ ∧ ts.tasks_ ≠ []) :
    ∃ q1, EnqueueAll tm ids q = (q1, none) ∧ q1.queue_ = ids ∧
      ∃ q2, GetNextTasks ((ids.map (parts tm q)).sum) q1
          = some (q2, ids.flatMap (fun id => List.replicate (parts tm q id) id)) ∧
        q2.queue_ = [] := by
  obtain ⟨q1, he, hq1, _, _, _, hin, _⟩ := EnqueueAll_spec tm ids q hnd
    (fun id _ => by rw [hm]; rfl)
  rw [hq, List.nil_append] at hq1
  have hpend : ∀ id ∈ ids, ∀ ts, splitOf tm q id = some ts →
      ts.pending_ = ts.tasks_.length ∧ 1 ≤ ts.tasks_.length := by
    intro id hid ts hts
    obtain ⟨h1, h2⟩ := hfresh id hid ts hts
    refine ⟨by rw [h1]; rfl, ?_⟩
    cases hl : ts.tasks_ with
    | nil => exact absurd hl h2
    | cons x xs => simp
  have hserves : ∀ id ∈ ids, serves q1 id = parts tm q id := by
    intro id hid
    simp only [serves, parts, hin id hid]
    cases hs : splitOf tm q id with
    | none => rfl
    | some ts => exact (hpend id hid ts hs).1
  obtain ⟨q2, hg, hq2⟩ := drain ids q1 hq1 hnd (by
    intro id hid ts hts
    rw [hin id hid] at hts
    have := hpend id hid ts hts
    omega)
  refine ⟨q1, he, hq1, q2, ?_, hq2⟩
  have hmap : ids.map (serves q1) = ids.map (parts tm q) := List.map_congr_left hserves
  have hflat : ids.flatMap (fun id => List.replicate (serves q1 id) id)
      = ids.flatMap (fun id => List.replicate (parts tm q id) id) := by
    simp only [List.flatMap, List.map_congr_left
      (fun k hk => show List.replicate (serves q1 k) k = List.replicate (parts tm q k) k by
        rw [hserves k hk])]
  rw [hmap, hflat] at hg
  exact hg

/-- Witness of C19: the ids 1, 2, 3 enqueued on `emptyQueue`, task 2 splitting into
three sub-tasks, are served as 1, 2, 2, 2, 3. -/
theorem GetNextTask_serves_in_order_witness :
    emptyQueue.queue_ = [] ∧ emptyQueue.split_map_ = [] ∧ [1, 2, 3].Nodup ∧
    (∀ id ∈ [1, 2, 3], ∀ ts ∈ splitOf threeTasks emptyQueue id,
      ts = TaskSplitter.TaskSplitter ts.id_ ts.tasks_ ∧ ts.tasks_ ≠ []) ∧
    ([1, 2, 3].flatMap (fun id => List.replicate (parts threeTasks emptyQueue id) id)
      = [1, 2, 2, 2, 3]) ∧
    ∃ q1, EnqueueAll threeTasks [1, 2, 3] emptyQueue = (q1, none) ∧ q1.queue_ = [1, 2, 3] ∧
      ∃ q2, GetNextTasks (([1, 2, 3].map (parts threeTasks emptyQueue)).sum) q1
          = some (q2, [1, 2, 3].flatMap
              (fun id => List.replicate (parts threeTasks emptyQueue id) id)) ∧
        q2.queue_ = [] :=
  ⟨rfl, rfl, by decide, by decide, by decide,
    GetNextTask_serves_in_order threeTasks emptyQueue [1, 2, 3] rfl rfl (by decide)
      (by decide)⟩

/-! ## Completion of the tasks -/

theorem TaskDone_unsplit (q : SplittingFIFOTaskQueue) (task_id : Nat)
    (hf : find q.split_map_ task_id = none) : TaskDone q task_id = (q, [task_id]) := by
  simp [TaskDone, hf]

/-- While more than one sub-task of a split task is running, `TaskDone` invokes no
callback. -/
theorem TaskDones_running (k : Nat) : ∀ (q : SplittingFIFOTaskQueue) (task_id : Nat)
    (ts : TaskSplitter) (n : Nat), find q.split_map_ task_id = some ts → ts.pending_ = 0 →
    ts.running_ = k + n + 1 →
    (TaskDones k q task_id).2 = [] ∧
    ∃ ts', find (TaskDones k q task_id).1.split_map_ task_id = some ts' ∧
      ts'.pending_ = 0 ∧ ts'.running_ = n + 1 := by
  induction k with
  | zero =>
    intro q task_id ts n hf hp hr
    exact ⟨rfl, ts, hf, hp, by omega⟩
  | succ k ih =>
    intro q task_id ts n hf hp hr
    have hdec : decrement ts.running_ = k + n + 1 := by
      simp only [decrement, hr]
      rw [if_neg (by omega)]
      omega
    have hstep : TaskDone q task_id
        = ({ q with split_map_ := store q.split_map_ task_id (OneTaskDone ts).1 }, []) := by
      simp [TaskDone, hf, OneTaskDone, IsComplete, hdec]
    have := ih { q with split_map_ := store q.split_map_ task_id (OneTaskDone ts).1 }
      task_id (OneTaskDone ts).1 n (find_store_self _ _ _ ts hf)
      (by simp [OneTaskDone, hp]) (by simp [OneTaskDone, hdec])
    simp only [TaskDones, hstep, List.nil_append]
    exact this

/-- C20: for a task at the head of `queue_` that is split into `k + 1` sub-tasks,
none handed out yet, `k + 1` calls of `GetNextTask` hand them all out; the first
`k` calls of `TaskDone` with the id of the task then invoke no callback, and the
next call invokes the callback exactly once, with that id. For an id that is not
in `split_map_`, a call of `TaskDone` invokes the callback once with the id and
leaves the queue as it is, so every further call does the same. -/
theorem TaskDone_callback (q : SplittingFIFOTaskQueue) (task_id : Nat) (rest : List Nat)
    (ts : TaskSplitter) (k : Nat) (hq : q.queue_ = task_id :: rest)
    (hf : find q.split_map_ task_id = some ts) (hp : ts.pending_ = k + 1)
    (hr : ts.running_ = 0) (hk : k + 1 ≤ SIZE_MAX) :
    (∃ q1, GetNextTasks (k + 1) q = some (q1, List.replicate (k + 1) task_id) ∧
      (TaskDones k q1 task_id).2 = [] ∧
      (TaskDone (TaskDones k q1 task_id).1 task_id).2 = [task_id]) ∧
    ∀ (q' : SplittingFIFOTaskQueue) (id : Nat), find q'.split_map_ id = none →
      TaskDone q' id = (q', [id]) := by
  refine ⟨?_, TaskDone_unsplit⟩
  obtain ⟨q1, hg, _, _, ts1, hf1, hp1, hr1⟩ := serve_split k q task_id rest ts hq hf hp
  have hrun : ts1.running_ = k + 0 + 1 := by rw [hr1 (by omega), hr]; omega
  obtain ⟨hnone, ts2, hf2, hp2, hr2⟩ := TaskDones_running k q1 task_id ts1 0 hf1 hp1 hrun
  refine ⟨q1, hg, hnone, ?_⟩
  simp [TaskDone, hf2, OneTaskDone, IsComplete, decrement, hp2, hr2]

/-- Witness of C20: task 7 of `splitQueue` is split into three sub-tasks; they are
handed out by three calls of `GetNextTask`, two calls of `TaskDone` invoke no
callback and the third invokes it with 7. -/
theorem TaskDone_callback_witness :
    splitQueue.queue_ = 7 :: [] ∧
    find splitQueue.split_map_ 7 = some (TaskSplitter.TaskSplitter 7 [70, 71, 72]) ∧
    (TaskSplitter.TaskSplitter 7 [70, 71, 72]).pending_ = 2 + 1 ∧
    (TaskSplitter.TaskSplitter 7 [70, 71, 72]).running_ = 0 ∧ 2 + 1 ≤ SIZE_MAX ∧
    ((∃ q1, GetNextTasks (2 + 1) splitQueue = some (q1, List.replicate (2 + 1) 7) ∧
      (TaskDones 2 q1 7).2 = [] ∧ (TaskDone (TaskDones 2 q1 7).1 7).2 = [7]) ∧
    ∀ (q' : SplittingFIFOTaskQueue) (id : Nat), find q'.split_map_ id = none →
      TaskDone q' id = (q', [id])) :=
  ⟨rfl, rfl, rfl, rfl, by decide,
    TaskDone_callback splitQueue 7 [] (TaskSplitter.TaskSplitter 7 [70, 71, 72]) 2 rfl rfl
      rfl rfl (by decide)⟩

/-! ## The entries of `split_map_` -/

theorem keys_store (m : List (Nat × TaskSplitter)) (k : Nat) (v : TaskSplitter) :
    keys (store m k v) = keys m := by
  induction m with
  | nil => rfl
  | cons e m ih =>
    simp only [keys, store, List.map_cons] at ih ⊢
    rw [ih]
    by_cases h : e.1 = k
    · simp [h]
    · simp [h]

theorem find_isSome_iff (m : List (Nat × TaskSplitter)) (k : Nat) :
    (find m k).isSome = true ↔ k ∈ keys m := by
  induction m with
  | nil => simp [find, keys]
  | cons e m ih =>
    obtain ⟨a, b⟩ := e
    simp only [find, keys, List.lookup, List.map_cons, List.mem_cons] at ih ⊢
    by_cases h : k = a
    · subst h; simp
    · have hb : (k == a) = false := by simpa using h
      rw [hb]
      simp only [h, false_or]
      exact ih

/-- A call of `TaskDone` leaves the keys of `split_map_` as they are: the method
holds no call that erases an entry. -/
theorem TaskDone_keys (q : SplittingFIFOTaskQueue) (task_id : Nat) :
    keys (TaskDone q task_id).1.split_map_ = keys q.split_map_ := by
  unfold TaskDone
  cases hf : find q.split_map_ task_id with
  | none => rfl
  | some ts =>
    simp only
    split <;> exact keys_store _ _ _

/-- C21: a call of `TaskDone` never removes an entry of `split_map_`. Task 2 of
`threeTasks` is enqueued on `emptyQueue` and split into three sub-tasks, which
are handed out by three calls of `GetNextTask`; the third call of `TaskDone`
invokes the callback with 2, and afterwards `queue_` is empty but `split_map_`
still holds the entry of 2, `empty` returns false and enqueueing 2 again raises
the task id conflict. -/
theorem TaskDone_keeps_entry :
    (∀ (q : SplittingFIFOTaskQueue) (task_id : Nat),
      keys (TaskDone q task_id).1.split_map_ = keys q.split_map_) ∧
    ∃ q0 q1 q2, Enqueue threeTasks emptyQueue 2 = (q0, none) ∧
      GetNextTasks 3 q0 = some (q1, [2, 2, 2]) ∧
      TaskDones 3 q1 2 = (q2, [2]) ∧
      q2.queue_ = [] ∧
      (find q2.split_map_ 2).isSome = true ∧
      empty q2 = false ∧
      (Enqueue threeTasks q2 2).2 = some (Exception.logic_error "task id conflict") :=
  ⟨TaskDone_keys, _, _, _, rfl, rfl, rfl, rfl, rfl, rfl, rfl⟩

/-! ## The task id conflict -/

/-- C22: when `Enqueue` obtains a splitter for an id that has no entry in
`split_map_`, it adds the entry and raises nothing, and a second `Enqueue` of the
id raises the logic error "task id conflict" and leaves `split_map_` as it is. In
every queue, an id for which `Enqueue` obtains a splitter and which has an entry
in `split_map_` raises that error and leaves `split_map_` as it is, and an id
for which `Enqueue` obtains no splitter raises nothing. -/
theorem Enqueue_task_id_conflict (tm : TaskManager) (q : SplittingFIFOTaskQueue)
    (task_id : Nat) (ts : TaskSplitter) (hs : splitOf tm q task_id = some ts)
    (hf : find q.split_map_ task_id = none) :
    (∃ q1, Enqueue tm q task_id = (q1, none) ∧
      q1.split_map_ = q.split_map_ ++ [(task_id, ts)] ∧
      (Enqueue tm q1 task_id).2 = some (Exception.logic_error "task id conflict") ∧
      (Enqueue tm q1 task_id).1.split_map_ = q1.split_map_) ∧
    (∀ (q' : SplittingFIFOTaskQueue) (id : Nat), (splitOf tm q' id).isSome = true →
      (find q'.split_map_ id).isSome = true →
      (Enqueue tm q' id).2 = some (Exception.logic_error "task id conflict") ∧
      (Enqueue tm q' id).1.split_map_ = q'.split_map_) ∧
    ∀ (q' : SplittingFIFOTaskQueue) (id : Nat), splitOf tm q' id = none →
      (Enqueue tm q' id).2 = none ∧ (Enqueue tm q' id).1.split_map_ = q'.split_map_ := by
  have hconf : ∀ (q' : SplittingFIFOTaskQueue) (id : Nat),
      (splitOf tm q' id).isSome = true → (find q'.split_map_ id).isSome = true →
      (Enqueue tm q' id).2 = some (Exception.logic_error "task id conflict") ∧
      (Enqueue tm q' id).1.split_map_ = q'.split_map_ := by
    intro q' id h1 h2
    unfold splitOf at h1
    unfold Enqueue
    by_cases hm : tm.get_task_type id ∈ q'.splittable_
    · rw [if_pos hm] at h1
      cases hsp : tm.SplitTask id q'.max_splits_ q'.min_vector_size_ with
      | none => rw [hsp] at h1; cases h1
      | some ts' => simp [hm, hsp, h2]
    · rw [if_neg hm] at h1; cases h1
  refine ⟨?_, hconf, ?_⟩
  · obtain ⟨q1, he, _, hms, hmv, hsp, hfind, _⟩ := Enqueue_spec tm q task_id hf
    have hmap : q1.split_map_ = q.split_map_ ++ [(task_id, ts)] := by
      have := congrArg (fun r => r.1.split_map_) he
      simp only at this
      rw [← this]
      unfold splitOf at hs
      unfold Enqueue
      by_cases hm : tm.get_task_type task_id ∈ q.splittable_
      · rw [if_pos hm] at hs
        simp [hm, hs, hf]
      · rw [if_neg hm] at hs; cases hs
    have hs1 : splitOf tm q1 task_id = some ts := by
      rw [← hs]; unfold splitOf; rw [hms, hmv, hsp]
    have := hconf q1 task_id (by rw [hs1]; rfl) (by rw [hfind, hs]; rfl)
    exact ⟨q1, he, hmap, this.1, this.2⟩
  · intro q' id h1
    unfold splitOf at h1
    unfold Enqueue
    by_cases hm : tm.get_task_type id ∈ q'.splittable_
    · rw [if_pos hm] at h1
      simp [hm, h1]
    · simp [hm]

/-- Witness of C22: task 2 of `threeTasks` has a splittable type and splits, and
`emptyQueue` holds no entry for it. -/
theorem Enqueue_task_id_conflict_witness :
    splitOf threeTasks emptyQueue 2 = some (TaskSplitter.TaskSplitter 2 [20, 21, 22]) ∧
    find emptyQueue.split_map_ 2 = none ∧
    ∃ q1, Enqueue threeTasks emptyQueue 2 = (q1, none) ∧
      q1.split_map_ = emptyQueue.split_map_ ++ [(2, TaskSplitter.TaskSplitter 2 [20, 21, 22])] ∧
      (Enqueue threeTasks q1 2).2 = some (Exception.logic_error "task id conflict") ∧
      (Enqueue threeTasks q1 2).1.split_map_ = q1.split_map_ :=
  ⟨rfl, rfl,
    (Enqueue_task_id_conflict threeTasks emptyQueue 2
      (TaskSplitter.TaskSplitter 2 [20, 21, 22]) rfl rfl).1⟩

/-! ## The counters of a splitter -/

theorem calls_concat : ∀ (cs : List Call) (c : Call) (r : Run),
    calls (cs ++ [c]) r = (calls cs r).bind (fun r1 => call r1 c)
  | [], c, r => by
    simp only [List.nil_append, calls, Option.some_bind]
    cases call r c <;> rfl
  | c0 :: cs, c, r => by
    simp only [List.cons_append, calls]
    cases call r c0 with
    | none => rfl
    | some r1 => exact calls_concat cs c r1

theorem range_map_snoc (n : Nat) (f : Nat → Bool) :
    (List.range (n + 1)).map f = (List.range n).map f ++ [f n] := by
  rw [List.range_succ, List.map_append]; rfl

/-- C23: a splitter is created with the `k` sub-tasks `tasks`, and a sequence of
calls of `next_subtask` and `one_done` is made on it in which, at every point,
there are no more calls of `one_done` than of `next_subtask`, and which hands out
no more than the `k` sub-tasks. Then every call returns, and after the sequence
`pending + running + completed = k`, where `completed` is the number of calls of
`one_done`, `next = k - pending` is the number of calls of `next_subtask`, the
handles returned are the first sub-tasks of `tasks` in their order, the `i`-th
call of `next_subtask` returned `none_pending` exactly for `i = k`, and the `j`-th
call of `one_done` returned true exactly for `j = k`. As every initial part of
such a sequence is such a sequence, this holds throughout. -/
theorem TaskSplitter_counters (id : Nat) (tasks : List Nat) (cs : List Call)
    (hk : tasks.length ≤ SIZE_MAX)
    (hd : ∀ p ∈ cs.inits, p.count Call.one_done ≤ p.count Call.next_subtask)
    (hn : cs.count Call.next_subtask ≤ tasks.length) :
    ∃ r, calls cs (Run.mk (TaskSplitter.TaskSplitter id tasks) [] [] []) = some r ∧
      r.ts.pending_ + r.ts.running_ + cs.count Call.one_done = tasks.length ∧
      r.ts.next_ = tasks.length - r.ts.pending_ ∧
      r.ts.next_ = cs.count Call.next_subtask ∧
      r.handles = tasks.take (cs.count Call.next_subtask) ∧
      r.none_pending = (List.range (cs.count Call.next_subtask)).map
        (fun i => decide (i + 1 = tasks.length)) ∧
      r.is_complete = (List.range (cs.count Call.one_done)).map
        (fun j => decide (j + 1 = tasks.length)) := by
  have hd' : ∀ p, p <+: cs → p.count Call.one_done ≤ p.count Call.next_subtask :=
    fun p hp => hd p ((List.mem_inits p cs).2 hp)
  clear hd
  suffices h : ∃ r, calls cs (Run.mk (TaskSplitter.TaskSplitter id tasks) [] [] []) = some r ∧
      r.ts.tasks_ = tasks ∧
      r.ts.pending_ = tasks.length - cs.count Call.next_subtask ∧
      r.ts.running_ = cs.count Call.next_subtask - cs.count Call.one_done ∧
      r.ts.next_ = cs.count Call.next_subtask ∧
      r.handles = tasks.take (cs.count Call.next_subtask) ∧
      r.none_pending = (List.range (cs.count Call.next_subtask)).map
        (fun i => decide (i + 1 = tasks.length)) ∧
      r.is_complete = (List.range (cs.count Call.one_done)).map
        (fun j => decide (j + 1 = tasks.length)) by
    obtain ⟨r, hr, _, hp, hrun, hnext, hh, hf, hc⟩ := h
    have := hd' cs (List.prefix_refl cs)
    exact ⟨r, hr, by omega, by omega, hnext, hh, hf, hc⟩
  induction cs using List.reverseRecOn with
  | nil =>
    exact ⟨_, rfl, rfl, rfl, rfl, rfl, rfl, rfl, rfl⟩
  | append_singleton cs c ih =>
    have hpre : ∀ p, p <+: cs → p.count Call.one_done ≤ p.count Call.next_subtask :=
      fun p hp => hd' p (hp.trans (List.prefix_append cs [c]))
    have hall := hd' (cs ++ [c]) (List.prefix_refl _)
    rw [List.count_append, List.count_append] at hall
    rw [List.count_append] at hn
    have hn0 : cs.count Call.next_subtask ≤ tasks.length := by omega
    obtain ⟨r, hr, ht, hp, hrun, hnext, hh, hf, hc⟩ := ih hn0 hpre
    have hcs := hpre cs (List.prefix_refl cs)
    rw [calls_concat, hr, Option.some_bind]
    cases c with
    | next_subtask =>
      have hc1 : List.count Call.next_subtask [Call.next_subtask] = 1 := rfl
      have hc0 : List.count Call.one_done [Call.next_subtask] = 0 := rfl
      rw [hc1] at hn
      have hlt : cs.count Call.next_subtask < tasks.length := by omega
      have hget : r.ts.tasks_[r.ts.next_]? = some (tasks.get ⟨cs.count Call.next_subtask, hlt⟩) := by
        rw [ht, hnext]; exact List.getElem?_eq_getElem hlt
      have hpd : decrement r.ts.pending_ = tasks.length - (cs.count Call.next_subtask + 1) := by
        simp only [decrement, hp]
        rw [if_neg (by omega)]; omega
      have hri : increment r.ts.running_
          = cs.count Call.next_subtask + 1 - cs.count Call.one_done := by
        simp only [increment, hrun]
        rw [if_neg (by omega)]; omega
      have hni : increment r.ts.next_ = cs.count Call.next_subtask + 1 := by
        simp only [increment, hnext]
        rw [if_neg (by omega)]
      have hcall : call r Call.next_subtask = some
          { ts := { r.ts with pending_ := decrement r.ts.pending_,
                              running_ := increment r.ts.running_,
                              next_ := increment r.ts.next_ },
            handles := r.handles ++ [tasks.get ⟨cs.count Call.next_subtask, hlt⟩],
            none_pending := r.none_pending ++
              [decide (decrement r.ts.pending_ = 0)],
            is_complete := r.is_complete } := by
        simp only [call, next_subtask, OneTaskAssigned, GetTask, NonePending, hget]
      refine ⟨_, hcall, ht, ?_, ?_, ?_, ?_, ?_, ?_⟩
      · simp only [List.count_append, hc1]; exact hpd
      · simp only [List.count_append, hc1, hc0, Nat.add_zero]; exact hri
      · simp only [List.count_append, hc1]; exact hni
      · simp only [List.count_append, hc1]
        rw [hh, List.take_succ, List.getElem?_eq_getElem hlt]; rfl
      · simp only [List.count_append, hc1]
        rw [range_map_snoc, hf, hpd]
        congr 2
        apply Bool.decide_congr
        omega
      · simp only [List.count_append, hc0, Nat.add_zero]; exact hc
    | one_done =>
      have hc1 : List.count Call.next_subtask [Call.one_done] = 0 := rfl
      have hc0 : List.count Call.one_done [Call.one_done] = 1 := rfl
      rw [hc1, hc0] at hall
      have hrd : decrement r.ts.running_
          = cs.count Call.next_subtask - (cs.count Call.one_done + 1) := by
        simp only [decrement, hrun]
        rw [if_neg (by omega)]; omega
      have hcall : call r Call.one_done = some
          { ts := { r.ts with running_ := decrement r.ts.running_ },
            handles := r.handles, none_pending := r.none_pending,
            is_complete := r.is_complete ++
              [decide (r.ts.pending_ = 0) && decide (decrement r.ts.running_ = 0)] } := by
        simp only [call, one_done, OneTaskDone, IsComplete]
      refine ⟨_, hcall, ht, ?_, ?_, ?_, ?_, ?_, ?_⟩
      · simp only [List.count_append, hc1, Nat.add_zero]; exact hp
      · simp only [List.count_append, hc1, hc0, Nat.add_zero]; exact hrd
      · simp only [List.count_append, hc1, Nat.add_zero]; exact hnext
      · simp only [List.count_append, hc1, Nat.add_zero]; exact hh
      · simp only [List.count_append, hc1, Nat.add_zero]; exact hf
      · simp only [List.count_append, hc0]
        rw [range_map_snoc, hc, hrd, hp]
        congr 2
        rw [← Bool.decide_and]
        apply Bool.decide_congr
        omega

/-- Witness of C23: on a splitter with three sub-tasks, two are handed out, one of
them completes, the third is handed out and the other two complete. -/
theorem TaskSplitter_counters_witness :
    ∃ r, calls [Call.next_subtask, Call.next_subtask, Call.one_done, Call.next_subtask,
        Call.one_done, Call.one_done]
        (Run.mk (TaskSplitter.TaskSplitter 7 [70, 71, 72]) [] [] []) = some r ∧
      r.ts.pending_ + r.ts.running_ + 3 = 3 ∧
      r.ts.next_ = 3 - r.ts.pending_ ∧
      r.ts.next_ = 3 ∧
      r.handles = [70, 71, 72] ∧
      r.none_pending = [false, false, true] ∧
      r.is_complete = [false, false, true] :=
  TaskSplitter_counters 7 [70, 71, 72]
    [Call.next_subtask, Call.next_subtask, Call.one_done, Call.next_subtask,
      Call.one_done, Call.one_done] (by decide) (by decide) (by decide)

/-! ## Splitting a task -/

theorem rows_append (a b : List (Nat × Nat)) : rows (a ++ b) = rows a ++ rows b := by
  simp [rows, List.flatMap_append]

theorem rows_chunks (q r : Nat) : ∀ j : Nat,
    rows ((List.range j).map (fun i => (i * q + min i r, q + if i < r then 1 else 0)))
      = List.range (j * q + min j r)
  | 0 => by simp [rows]
  | j + 1 => by
    rw [List.range_succ, List.map_append, rows_append, rows_chunks q r j]
    simp only [List.map_cons, List.map_nil, rows, List.flatMap_cons, List.flatMap_nil,
      List.append_nil]
    have happ := List.range'_append_1 0 (j * q + min j r) (q + if j < r then 1 else 0)
    rw [Nat.zero_add] at happ
    rw [List.range_eq_range', List.range_eq_range', happ]
    congr 1
    by_cases h : j < r
    · rw [if_pos h, Nat.min_eq_left (by omega), Nat.min_eq_left (by omega)]
      rw [Nat.add_mul]; omega
    · rw [if_neg h, Nat.min_eq_right (by omega), Nat.min_eq_right (by omega)]
      rw [Nat.add_mul]; omega

/-- C24: with `max_splits >= 1` and `min_vector_size >= 1`, a task over `N` rows is
not split when `N < min_vector_size`; otherwise it is split into
`k = min(max_splits, N / min_vector_size)` chunks whose rows, chunk after chunk,
are the rows `0, 1, ..., N - 1`, each chunk holding at least `min_vector_size`
rows and the sizes of two chunks differing by at most 1. 1000 rows with 4 and
100 give four chunks of 250 rows, 350 rows give chunks of 117, 117 and 116 rows,
and 50 rows are not split. -/
theorem SplitTask_chunks (N max_splits min_vector_size : Nat) (hs : 1 ≤ max_splits)
    (hv : 1 ≤ min_vector_size) :
    (N < min_vector_size → Task.SplitTask N max_splits min_vector_size = none) ∧
    (min_vector_size ≤ N → ∃ chunks,
      Task.SplitTask N max_splits min_vector_size = some chunks ∧
      chunks.length = min max_splits (N / min_vector_size) ∧
      1 ≤ chunks.length ∧
      rows chunks = List.range N ∧
      (∀ c ∈ chunks, min_vector_size ≤ c.2) ∧
      ∀ c ∈ chunks, ∀ d ∈ chunks, c.2 ≤ d.2 + 1) ∧
    Task.SplitTask 1000 4 100 = some [(0, 250), (250, 250), (500, 250), (750, 250)] ∧
    Task.SplitTask 350 4 100 = some [(0, 117), (117, 117), (234, 116)] ∧
    Task.SplitTask 50 4 100 = none := by
  refine ⟨fun h => by simp [Task.SplitTask, h], ?_, by decide, by decide, by decide⟩
  intro h
  have hq : 1 ≤ N / min_vector_size := (Nat.one_le_div_iff (by omega)).2 h
  have hk : 1 ≤ min max_splits (N / min_vector_size) := by
    rw [Nat.le_min]; exact ⟨hs, hq⟩
  have hkle : min max_splits (N / min_vector_size) * min_vector_size ≤ N :=
    Nat.le_trans (Nat.mul_le_mul_right _ (Nat.min_le_right _ _))
      (Nat.div_mul_le_self N min_vector_size)
  have hsize : min_vector_size ≤ N / min max_splits (N / min_vector_size) := by
    rw [Nat.le_div_iff_mul_le (by omega), Nat.mul_comm]; exact hkle
  have hdef : Task.SplitTask N max_splits min_vector_size
      = some ((List.range (min max_splits (N / min_vector_size))).map (fun i =>
          (i * (N / min max_splits (N / min_vector_size))
              + min i (N % min max_splits (N / min_vector_size)),
            N / min max_splits (N / min_vector_size)
              + if i < N % min max_splits (N / min_vector_size) then 1 else 0))) := by
    simp only [Task.SplitTask, if_neg (Nat.not_lt.2 h)]
  refine ⟨_, hdef, ?_, ?_, ?_, ?_, ?_⟩
  · simp
  · simpa using hk
  · rw [rows_chunks]
    congr 1
    rw [Nat.min_eq_right (Nat.le_of_lt (Nat.mod_lt _ (by omega)))]
    exact Nat.div_add_mod _ _
  · intro c hc
    simp only [List.mem_map, List.mem_range] at hc
    obtain ⟨i, _, rfl⟩ := hc
    exact Nat.le_trans hsize (Nat.le_add_right _ _)
  · intro c hc d hd
    simp only [List.mem_map, List.mem_range] at hc hd
    obtain ⟨i, _, rfl⟩ := hc
    obtain ⟨j, _, rfl⟩ := hd
    simp only
    split <;> split <;> omega

/-- Witness of C24: 350 rows with `max_splits = 4` and `min_vector_size = 100`. -/
theorem SplitTask_chunks_witness :
    1 ≤ 4 ∧ 1 ≤ 100 ∧ ∃ chunks, Task.SplitTask 350 4 100 = some chunks ∧
      chunks.length = min 4 (350 / 100) ∧ 1 ≤ chunks.length ∧
      rows chunks = List.range 350 ∧ (∀ c ∈ chunks, 100 ≤ c.2) ∧
      ∀ c ∈ chunks, ∀ d ∈ chunks, c.2 ≤ d.2 + 1 :=
  ⟨by decide, by decide,
    (SplitTask_chunks 350 4 100 (by decide) (by decide)).2.1 (by decide)⟩

/-! ## The mutex of the queue

The methods of the queue as the sequences of steps they perform on `mutex_` and
on the members the mutex protects, in the order of the statements of
`splitting_fifo_task_queue.cpp`. -/

/-- C25: `GetTaskById` reads `split_map_` before it takes the mutex, for a split
task (task 7 of `splitQueue`) as for any other (task 1 of `emptyQueue`, for which
it takes no lock at all), so in no call of it are the accesses guarded; in every
call of `empty`, `Enqueue`, `TaskDone` and `GetNextTask` they are. -/
theorem GetTaskById_reads_split_map_unlocked :
    Locking.GetTaskById splitQueue 7
      = [Step.split_map_, Step.lock, Step.splitter, Step.unlock] ∧
    guarded false (Locking.GetTaskById splitQueue 7) = false ∧
    Locking.GetTaskById emptyQueue 1 = [Step.split_map_] ∧
    guarded false (Locking.GetTaskById emptyQueue 1) = false ∧
    (∀ (q : SplittingFIFOTaskQueue) (task_id : Nat),
      guarded false (Locking.GetTaskById q task_id) = false) ∧
    (∀ q : SplittingFIFOTaskQueue, guarded false (Locking.empty q) = true) ∧
    (∀ (tm : TaskManager) (q : SplittingFIFOTaskQueue) (task_id : Nat),
      guarded false (Locking.Enqueue tm q task_id) = true) ∧
    (∀ (q : SplittingFIFOTaskQueue) (task_id : Nat),
      guarded false (Locking.TaskDone q task_id) = true) ∧
    ∀ q : SplittingFIFOTaskQueue, guarded false (Locking.GetNextTask q) = true := by
  refine ⟨rfl, rfl, rfl, rfl, fun _ _ => rfl, ?_, ?_, ?_, ?_⟩
  · intro q
    unfold Locking.empty
    cases q.queue_.isEmpty <;> rfl
  · intro tm q task_id
    unfold Locking.Enqueue
    by_cases hm : tm.get_task_type task_id ∈ q.splittable_
    · rw [if_pos hm]
      cases tm.SplitTask task_id q.max_splits_ q.min_vector_size_ with
      | none => rfl
      | some ts =>
        simp only
        cases (find q.split_map_ task_id).isSome <;> rfl
    · rw [if_neg hm]; rfl
  · intro q task_id
    unfold Locking.TaskDone
    cases find q.split_map_ task_id <;> rfl
  · intro q
    unfold Locking.GetNextTask
    cases q.queue_ with
    | nil => rfl
    | cons task_id rest =>
      simp only
      cases find q.split_map_ task_id with
      | none => rfl
      | some ts =>
        simp only
        cases (OneTaskAssigned ts).2 <;> rfl

end flame.exe

namespace flame.io.xml

/-! # Theorems: the population file -/

/-! ## The data schema -/

/-- C30: `createDataSchemaAgentVar` writes one element `xs:element` with the
attribute `name` holding the name of the variable and the attribute `type`
holding `xs:integer` for a variable of type `int`, `xs:double` for a variable of
type `double` and `xs:string` for a variable of any other type. -/
theorem createDataSchemaAgentVar_type (writer : List Write) (var : XVariable) :
    ∃ type, createDataSchemaAgentVar writer var
        = writer ++ [Write.StartElement "xs:element",
            Write.WriteAttribute "name" var.name,
            Write.WriteAttribute "type" type, Write.EndElement] ∧
      (var.type = "int" → type = "xs:integer") ∧
      (var.type = "double" → type = "xs:double") ∧
      (var.type ≠ "int" → var.type ≠ "double" → type = "xs:string") := by
  refine ⟨if var.type = "int" then "xs:integer"
    else if var.type = "double" then "xs:double" else "xs:string", ?_, ?_, ?_, ?_⟩
  · simp [createDataSchemaAgentVar, writeXMLTagAndAttribute, writeXMLTagAttribute,
      writeXMLTag, writeXMLEndTag]
  · intro h; rw [if_pos h]
  · intro h
    have h1 : var.type ≠ "int" := by rw [h]; decide
    rw [if_neg h1, if_pos h]
  · intro h1 h2; rw [if_neg h1, if_neg h2]

/-! ## Reading the value of a variable -/

/-- Counterexample of C28: the text `abc` read for the variable `speed` of `agentA`,
whose declared type is `float`, raises nothing and leaves the column as it is. -/
theorem processTextVariable_other_type :
    agentA.getVariable "speed" = some ⟨"float", "speed"⟩ ∧
    (processTextVariable casts "abc" ["states", "xagent", "speed"] agentA memoryA).2
      = Except.ok 0 ∧
    (processTextVariable casts "abc" ["states", "xagent", "speed"] agentA memoryA).1.vectors
      "A" "speed" = some (Column.floats []) := by
  refine ⟨by decide, rfl, by decide⟩

/-- C28 as amended: for a variable of a known agent whose declared type is `int` or
`double`, a text that cannot be cast to the type raises `invalid_pop_file` and
leaves the memory manager as it is, and a text that can be cast is appended
once to the column of the variable, the other columns staying as they are; for
a variable of any other declared type the text is neither cast nor appended and
nothing is raised. -/
theorem processTextVariable_cast (lc : lexical_cast) (value : String) (tags : List String)
    (agent : XMachine) (mm : MemoryManager) (var : XVariable)
    (hvar : agent.getVariable (back tags) = some var) :
    (var.type = "int" →
      (lc.int value = none →
        processTextVariable lc value tags agent mm
          = (mm, Except.error (Exception.invalid_pop_file
            ((("Variable could not be cast to correct type: ".append value).append " in ").append
              (back tags))))) ∧
      ∀ x vec, lc.int value = some x → GetVector_int mm agent.name (back tags) = some vec →
        ∃ mm1, processTextVariable lc value tags agent mm = (mm1, Except.ok 0) ∧
          mm1.vectors agent.name (back tags) = some (Column.ints (vec ++ [x])) ∧
          ∀ a v, ¬ (a = agent.name ∧ v = back tags) → mm1.vectors a v = mm.vectors a v) ∧
    (var.type = "double" →
      (lc.double value = none →
        processTextVariable lc value tags agent mm
          = (mm, Except.error (Exception.invalid_pop_file
            ((("Variable could not be cast to correct type: ".append value).append " in ").append
              (back tags))))) ∧
      ∀ x vec, lc.double value = some x →
        GetVector_double mm agent.name (back tags) = some vec →
        ∃ mm1, processTextVariable lc value tags agent mm = (mm1, Except.ok 0) ∧
          mm1.vectors agent.name (back tags) = some (Column.doubles (vec ++ [x])) ∧
          ∀ a v, ¬ (a = agent.name ∧ v = back tags) → mm1.vectors a v = mm.vectors a v) ∧
    (var.type ≠ "int" → var.type ≠ "double" →
      processTextVariable lc value tags agent mm = (mm, Except.ok 0)) := by
  refine ⟨fun ht => ⟨fun hc => ?_, fun x vec hc hv => ?_⟩,
    fun ht => ⟨fun hc => ?_, fun x vec hc hv => ?_⟩, fun h1 h2 => ?_⟩
  · simp [processTextVariable, hvar, ht, processTextVariableCast_int, hc]
  · refine ⟨mm.set agent.name (back tags) (Column.ints (vec ++ [x])), ?_, ?_, ?_⟩
    · simp [processTextVariable, hvar, ht, processTextVariableCast_int, hc, hv]
    · simp [MemoryManager.set]
    · intro a v hav
      simp only [MemoryManager.set]
      rw [if_neg hav]
  · have h1 : var.type ≠ "int" := by rw [ht]; decide
    simp [processTextVariable, hvar, ht, h1, processTextVariableCast_double, hc]
  · have h1 : var.type ≠ "int" := by rw [ht]; decide
    refine ⟨mm.set agent.name (back tags) (Column.doubles (vec ++ [x])), ?_, ?_, ?_⟩
    · simp [processTextVariable, hvar, ht, h1, processTextVariableCast_double, hc, hv]
    · simp [MemoryManager.set]
    · intro a v hav
      simp only [MemoryManager.set]
      rw [if_neg hav]
  · simp [processTextVariable, hvar, h1, h2]

/-- Witness of C28: the variable `x` of `agentA`, of type `int`; the text `1` is
appended to its column, the text `abc` raises `invalid_pop_file`. -/
theorem processTextVariable_cast_witness :
    agentA.getVariable (back ["states", "xagent", "x"]) = some ⟨"int", "x"⟩ ∧
    (∃ what, processTextVariable casts "abc" ["states", "xagent", "x"] agentA memoryA
        = (memoryA, Except.error (Exception.invalid_pop_file what))) ∧
    ∃ mm1, processTextVariable casts "1" ["states", "xagent", "x"] agentA memoryA
        = (mm1, Except.ok 0) ∧
      mm1.vectors "A" "x" = some (Column.ints [1]) :=
  have h := (processTextVariable_cast casts "abc" ["states", "xagent", "x"] agentA memoryA
    ⟨"int", "x"⟩ (by decide)).1 rfl
  have h1 := (processTextVariable_cast casts "1" ["states", "xagent", "x"] agentA memoryA
    ⟨"int", "x"⟩ (by decide)).1 rfl
  ⟨by decide, ⟨_, h.1 (by decide)⟩,
    (h1.2 1 [] (by decide) (by decide)).imp (fun _ hm => ⟨hm.1, hm.2.1⟩)⟩

/-! ## Reading a population: the nodes -/

theorem back_concat (tags : List String) (name : String) : back (tags ++ [name]) = name := by
  simp [back]

theorem dataMap_spec (mm : MemoryManager) (agent : String) (n : Nat) :
    ∀ (vars : List String) (acc : List VarVecData) (sd : Bool),
    (∀ var ∈ vars, ∃ c, mm.vectors agent var = some c ∧ c.size = n) →
    writeAgents.dataMap mm agent vars acc sd
      = Except.ok (acc ++ cursors mm agent vars (if n = 0 then none else some 0),
          if vars ≠ [] ∧ n = 0 then false else sd)
  | [], acc, sd, _ => by simp [writeAgents.dataMap, cursors]
  | var :: vars, acc, sd, h => by
    obtain ⟨c, hc, hsize⟩ := h var (List.mem_cons_self var vars)
    have hcol : columnOf mm agent var = c := by simp [columnOf, hc]
    have ih := dataMap_spec mm agent n vars
      (acc ++ [⟨var, GetRawPtr c, c⟩]) (if GetRawPtr c = none then false else sd)
      (fun v hv => h v (List.mem_cons_of_mem var hv))
    simp only [writeAgents.dataMap, GetVectorWrapper, hc]
    rw [ih]
    have hptr : GetRawPtr c = if n = 0 then none else some 0 := by
      simp [GetRawPtr, hsize]
    simp only [cursors, List.map_cons, hcol, hptr, List.append_assoc, List.singleton_append]
    by_cases hn : n = 0
    · simp [hn]
    · simp [hn]

theorem row_spec (mm : MemoryManager) (agent : String) (n i : Nat) (hi : i < n) :
    ∀ (vars : List String) (done : List VarVecData) (writer : List Write) (sd : Bool),
    (∀ var ∈ vars, ∃ c, mm.vectors agent var = some c ∧ c.size = n) →
    writeAgents.row (cursors mm agent vars (some i)) done writer sd
      = Except.ok (done ++ cursors mm agent vars (if i + 1 < n then some (i + 1) else none),
          writer ++ vars.filterMap (childElement mm agent i),
          if vars ≠ [] ∧ ¬ (i + 1 < n) then false else sd)
  | [], done, writer, sd, _ => by simp [writeAgents.row, cursors]
  | var :: vars, done, writer, sd, h => by
    obtain ⟨c, hc, hsize⟩ := h var (List.mem_cons_self var vars)
    have hcol : columnOf mm agent var = c := by simp [columnOf, hc]
    have hstep : StepRawPtr c i = if i + 1 < n then some (i + 1) else none := by
      simp [StepRawPtr, hsize]
    have hnil : cursors mm agent vars (some i) = [] ↔ vars = [] := by
      simp [cursors]
    have ih := fun done writer sd => row_spec mm agent n i hi vars done writer sd
      (fun v hv => h v (List.mem_cons_of_mem var hv))
    simp only [cursors, List.map_cons, hcol]
    simp only [cursors] at ih hnil
    cases c with
    | ints v =>
      have hlen : i < v.length := by
        have := hsize
        simp only [Column.size] at this
        omega
      have hv : v[i]? = some v[i] := List.getElem?_eq_getElem hlen
      simp only [writeAgents.row, GetDataType, readInt, hv, Option.map_some', if_true,
        show ("i" = "d") = False from by decide, if_false, writeXMLTag_int]
      rw [ih, hstep]
      simp only [childElement, hcol, hv, Option.map_some', List.filterMap_cons,
        List.append_assoc, List.singleton_append]
      by_cases hlast : i + 1 < n
      · simp [hlast]
      · by_cases hvars : vars = []
        · simp [hlast, hvars]
        · simp [hlast, hvars]
    | doubles v =>
      have hlen : i < v.length := by
        have := hsize
        simp only [Column.size] at this
        omega
      have hv : v[i]? = some v[i] := List.getElem?_eq_getElem hlen
      simp only [writeAgents.row, GetDataType, readDouble, hv, Option.map_some', if_true,
        show ("d" = "i") = False from by decide, if_false, writeXMLTag_double]
      rw [ih, hstep]
      simp only [childElement, hcol, hv, Option.map_some', List.filterMap_cons,
        List.append_assoc, List.singleton_append]
      by_cases hlast : i + 1 < n
      · simp [hlast]
      · by_cases hvars : vars = []
        · simp [hlast, hvars]
        · simp [hlast, hvars]
    | floats v =>
      simp only [writeAgents.row, GetDataType,
        show ("f" = "i") = False from by decide, show ("f" = "d") = False from by decide,
        if_false]
      rw [ih, hstep]
      simp only [childElement, hcol, List.filterMap_cons, List.append_assoc,
        List.singleton_append]
      by_cases hlast : i + 1 < n
      · simp [hlast]
      · by_cases hvars : vars = []
        · simp [hlast, hvars]
        · simp [hlast, hvars]
    | chars v =>
      simp only [writeAgents.row, GetDataType,
        show ("c" = "i") = False from by decide, show ("c" = "d") = False from by decide,
        if_false]
      rw [ih, hstep]
      simp only [childElement, hcol, List.filterMap_cons, List.append_assoc,
        List.singleton_append]
      by_cases hlast : i + 1 < n
      · simp [hlast]
      · by_cases hvars : vars = []
        · simp [hlast, hvars]
        · simp [hlast, hvars]

theorem rows_spec (mm : MemoryManager) (agent : String) (n : Nat) (vars : List String)
    (hvars : vars ≠ [])
    (hcols : ∀ var ∈ vars, ∃ c, mm.vectors agent var = some c ∧ c.size = n) :
    ∀ (k i fuel : Nat) (writer : List Write), i + (k + 1) = n → k + 1 ≤ fuel →
    writeAgents.rows agent fuel (cursors mm agent vars (some i)) writer
      = Except.ok (writer ++ (List.range' i (k + 1)).flatMap (xagentElement mm agent vars))
  | k, i, 0, writer, _, hf => absurd hf (by omega)
  | 0, i, fuel + 1, writer, hk, _ => by
    have hi : i < n := by omega
    have hlast : ¬ (i + 1 < n) := by omega
    simp only [writeAgents.rows, writeXMLTag, writeXMLTag_string, writeXMLEndTag]
    rw [row_spec mm agent n i hi vars [] _ true hcols]
    simp [hvars, hlast, xagentElement, List.range']
  | k + 1, i, fuel + 1, writer, hk, hf => by
    have hi : i < n := by omega
    have hlast : i + 1 < n := by omega
    simp only [writeAgents.rows, writeXMLTag, writeXMLTag_string, writeXMLEndTag]
    rw [row_spec mm agent n i hi vars [] _ true hcols]
    simp only [hlast, not_true_eq_false, and_false, if_false, if_true, List.nil_append]
    rw [rows_spec mm agent n vars hvars hcols k (i + 1) fuel _ (by omega) (by omega)]
    have hr : List.range' i (k + 1 + 1) = i :: List.range' (i + 1) (k + 1) := rfl
    rw [hr, List.flatMap_cons]
    simp [xagentElement]

/-- The body of the loop of `writeAgents` for an agent with at least one variable
whose columns all hold `n` rows: the loop returns when it is given `n` passes, and
it writes one `xagent` element per row. -/
theorem agent_spec (mm : MemoryManager) (it : String × List String) (n fuel : Nat)
    (writer : List Write) (hvars : it.2 ≠ [])
    (hcols : ∀ var ∈ it.2, ∃ c, mm.vectors it.1 var = some c ∧ c.size = n)
    (hfuel : n ≤ fuel) :
    writeAgents.agent fuel mm it writer
      = Except.ok (writer ++ (List.range n).flatMap (xagentElement mm it.1 it.2)) := by
  unfold writeAgents.agent
  rw [dataMap_spec mm it.1 n it.2 [] true hcols]
  cases n with
  | zero => simp [hvars]
  | succ k =>
    simp only [Nat.succ_ne_zero, and_false, if_false, if_true, List.nil_append]
    rw [rows_spec mm it.1 (k + 1) it.2 hvars hcols k 0 fuel writer (by omega) hfuel,
      List.range_eq_range']

theorem agents_spec (mm : MemoryManager) (rows : String → Nat) (fuel : Nat) :
    ∀ (its : List (String × List String)) (writer : List Write),
    (∀ it ∈ its, it.2 ≠ [] ∧ rows it.1 ≤ fuel ∧
      ∀ var ∈ it.2, ∃ c, mm.vectors it.1 var = some c ∧ c.size = rows it.1) →
    writeAgents.agents fuel mm its writer
      = Except.ok (writer ++ its.flatMap (fun it =>
          (List.range (rows it.1)).flatMap (xagentElement mm it.1 it.2)))
  | [], writer, _ => by simp [writeAgents.agents]
  | it :: its, writer, h => by
    obtain ⟨hv, hf, hc⟩ := h it (List.mem_cons_self it its)
    simp only [writeAgents.agents]
    rw [agent_spec mm it (rows it.1) fuel writer hv hc hf]
    simp only
    rw [agents_spec mm rows fuel its _ (fun it' h' => h it' (List.mem_cons_of_mem it h'))]
    simp

/-! ## The variables `saveAgentVariableData` stores -/

theorem insert_perm (m : agentVarMap) (name : String) (h : name ∉ m.map Prod.fst) :
    (agentVarMap.insert m name).Perm ((name, []) :: m) := by
  unfold agentVarMap.insert
  rw [if_neg h, List.append_assoc, List.singleton_append]
  refine List.perm_middle.trans (List.Perm.cons _ ?_)
  rw [List.takeWhile_append_dropWhile]

theorem push_back_perm (m M : agentVarMap) (name var : String) (vs : List String)
    (hm : m.Perm ((name, vs) :: M)) (hM : name ∉ M.map Prod.fst) :
    (agentVarMap.push_back m name var).Perm ((name, vs ++ [var]) :: M) := by
  unfold agentVarMap.push_back
  refine (hm.map _).trans ?_
  rw [List.map_cons]
  simp only [if_true]
  refine List.Perm.cons _ ?_
  have : M.map (fun e => if e.1 = name then (e.1, e.2 ++ [var]) else e) = M := by
    conv_rhs => rw [← List.map_id M]
    apply List.map_congr_left
    intro e he
    have hne : e.1 ≠ name := fun hc => hM (hc ▸ List.mem_map_of_mem Prod.fst he)
    simp [hne]
  rw [this]

theorem push_backs_perm (M : agentVarMap) (name : String) (hM : name ∉ M.map Prod.fst) :
    ∀ (vars : List XVariable) (m : agentVarMap) (vs : List String),
    m.Perm ((name, vs) :: M) →
    (vars.foldl (fun m var => agentVarMap.push_back m name var.name) m).Perm
      ((name, vs ++ vars.map XVariable.name) :: M)
  | [], m, vs, hm => by simpa using hm
  | var :: vars, m, vs, hm => by
    rw [List.foldl_cons, List.map_cons]
    have := push_backs_perm M name hM vars _ (vs ++ [var.name])
      (push_back_perm m M name var.name vs hm hM)
    simpa using this

theorem saveAgentVariableData_fold :
    ∀ (agents done : List XMachine) (m : agentVarMap),
    m.Perm (done.map entryOf) → ((done ++ agents).map XMachine.name).Nodup →
    (agents.foldl (fun m agent =>
        agent.variables_.foldl (fun m var => agentVarMap.push_back m agent.name var.name)
          (agentVarMap.insert m agent.name)) m).Perm ((done ++ agents).map entryOf)
  | [], done, m, hm, _ => by simpa using hm
  | a :: agents, done, m, hm, hnd => by
    rw [List.foldl_cons]
    have hkeys : (m.map Prod.fst).Perm (done.map XMachine.name) := by
      have := hm.map Prod.fst
      simpa [entryOf, Function.comp] using this
    have hnot : a.name ∉ m.map Prod.fst := by
      rw [hkeys.mem_iff]
      intro hc
      rw [List.map_append, List.map_cons, List.nodup_append] at hnd
      exact hnd.2.2 hc (List.mem_cons_self _ _)
    have h1 := insert_perm m a.name hnot
    have h2 := push_backs_perm m a.name hnot a.variables_ _ [] h1
    rw [List.nil_append] at h2
    have h3 : (a.variables_.foldl
        (fun m var => agentVarMap.push_back m a.name var.name)
        (agentVarMap.insert m a.name)).Perm ((done ++ [a]).map entryOf) := by
      refine h2.trans ?_
      rw [List.map_append, List.map_cons, List.map_nil]
      exact ((List.Perm.cons _ hm).trans (List.perm_append_singleton _ _).symm)
    have := saveAgentVariableData_fold agents (done ++ [a]) _ h3
      (by simpa [List.append_assoc] using hnd)
    simpa [List.append_assoc] using this

/-- For a model whose agents have pairwise distinct names, the entries of
`agentVarMap_` after `saveAgentVariableData` are, in the order of the names, one
entry per agent, holding the names of its variables in their order. -/
theorem saveAgentVariableData_perm (pop : IOXMLPop) (model : XModel)
    (hnames : (model.agents.map XMachine.name).Nodup) :
    (saveAgentVariableData pop model).agentVarMap_.Perm (model.agents.map entryOf) := by
  have := saveAgentVariableData_fold model.agents [] [] (List.Perm.refl _)
    (by simpa using hnames)
  simpa [saveAgentVariableData] using this

/-! ## The elements `writeAgents` writes for a model -/

theorem memoryB_rows : ∀ agent ∈ (XModel.mk [agentB]).agents, ∀ var ∈ agent.variables_,
    ∃ c, memoryB.vectors agent.name var.name = some c ∧ c.size = (fun _ => 2) agent.name := by
  intro agent hagent var hvar
  simp only [List.mem_singleton] at hagent
  subst hagent
  simp only [agentB, List.mem_cons, List.mem_singleton, List.not_mem_nil, or_false] at hvar
  rcases hvar with rfl | rfl
  · exact ⟨Column.ints [3, 4], rfl, rfl⟩
  · exact ⟨Column.doubles [0x3FE0000000000000, 0], rfl, rfl⟩

/-- An agent without variables: the `while` loop of `writeAgents` is entered and no
pass ends it. -/
theorem writeAgents_rows_no_variable (agent : String) :
    ∀ (fuel : Nat) (writer : List Write),
    writeAgents.rows agent fuel [] writer = Except.error Failure.outOfFuel
  | 0, _ => rfl
  | fuel + 1, writer => by
    simp only [writeAgents.rows, writeAgents.row, if_true]
    exact writeAgents_rows_no_variable agent fuel _

/-- Counterexample of C29: the three columns of `agentA` hold one row each, and
`writeAgents` writes one `xagent` element with the element `name` and the children
`x` and `y`: the variable `speed`, whose column holds `float`, has no child. -/
theorem writeAgents_skips_other_types :
    agentA.variables_.map XVariable.name = ["x", "y", "speed"] ∧
    memoryRow.vectors "A" "x" = some (Column.ints [3]) ∧
    memoryRow.vectors "A" "y" = some (Column.doubles [0x3FE0000000000000]) ∧
    memoryRow.vectors "A" "speed" = some (Column.floats [0x3F000000]) ∧
    writeAgents 1 (saveAgentVariableData IOXMLPop.IOXMLPop modelA) memoryRow []
      = Except.ok [Write.StartElement "xagent",
          Write.WriteFormatElement "name" "%s" (Value.string "A"),
          Write.WriteFormatElement "x" "%d" (Value.int 3),
          Write.WriteFormatElement "y" "%f" (Value.double 0x3FE0000000000000),
          Write.EndElement] :=
  ⟨rfl, rfl, rfl, rfl, rfl⟩

/-- C29 as amended: in a model whose agents have pairwise distinct names and at
least one variable each, and in which all columns of an agent hold `rows` rows,
`agentVarMap_` holds one entry per agent with the names of its variables in their
order, and `writeAgents`, given as many passes of each `while` loop as there are
rows, returns and has written, agent after agent in the order of `agentVarMap_`,
one `xagent` element per row: the element `name` holding the name of the agent,
followed, in the order of the variables, by one child element holding the value
of the row for every variable whose column holds `int` or `double`, and by no
element for a variable whose column holds another type. -/
theorem writeAgents_xagents (pop : IOXMLPop) (model : XModel) (mm : MemoryManager)
    (writer : List Write) (rows : String → Nat) (fuel : Nat)
    (hnames : (model.agents.map XMachine.name).Nodup)
    (hvars : ∀ agent ∈ model.agents, agent.variables_ ≠ [])
    (hrows : ∀ agent ∈ model.agents, ∀ var ∈ agent.variables_,
      ∃ c, mm.vectors agent.name var.name = some c ∧ c.size = rows agent.name)
    (hfuel : ∀ agent ∈ model.agents, rows agent.name ≤ fuel) :
    (saveAgentVariableData pop model).agentVarMap_.Perm (model.agents.map entryOf) ∧
    writeAgents fuel (saveAgentVariableData pop model) mm writer
      = Except.ok (writer ++ (saveAgentVariableData pop model).agentVarMap_.flatMap
          (fun it => (List.range (rows it.1)).flatMap (xagentElement mm it.1 it.2))) := by
  have hperm := saveAgentVariableData_perm pop model hnames
  refine ⟨hperm, ?_⟩
  unfold writeAgents
  apply agents_spec
  intro it hit
  rw [hperm.mem_iff, List.mem_map] at hit
  obtain ⟨agent, hagent, rfl⟩ := hit
  refine ⟨?_, hfuel agent hagent, ?_⟩
  · simp only [entryOf, ne_eq, List.map_eq_nil_iff]
    exact hvars agent hagent
  · intro var hvar
    simp only [entryOf, List.mem_map] at hvar
    obtain ⟨v, hv, rfl⟩ := hvar
    exact hrows agent hagent v hv

/-- Witness of C29: the two columns of `agentB` hold two rows, and `writeAgents`
writes two `xagent` elements. -/
theorem writeAgents_xagents_witness :
    writeAgents 2 (saveAgentVariableData IOXMLPop.IOXMLPop ⟨[agentB]⟩) memoryB []
      = Except.ok [Write.StartElement "xagent",
          Write.WriteFormatElement "name" "%s" (Value.string "B"),
          Write.WriteFormatElement "u" "%d" (Value.int 3),
          Write.WriteFormatElement "w" "%f" (Value.double 0x3FE0000000000000),
          Write.EndElement,
          Write.StartElement "xagent",
          Write.WriteFormatElement "name" "%s" (Value.string "B"),
          Write.WriteFormatElement "u" "%d" (Value.int 4),
          Write.WriteFormatElement "w" "%f" (Value.double 0),
          Write.EndElement] :=
  (writeAgents_xagents IOXMLPop.IOXMLPop ⟨[agentB]⟩ memoryB [] (fun _ => 2) 2 (by decide)
    (by decide) memoryB_rows (by decide)).2

/-! ## The stack of open tags -/

theorem processStartNode_length (tags : List String) (name : String)
    (h : tags.length ≤ 3) : (processStartNode tags name).1.length ≤ 3 := by
  unfold processStartNode
  split
  · rename_i hc
    simp only [List.length_append, List.length_singleton]
    omega
  · exact h

theorem processNode_length (lc : lexical_cast) (model : XModel) (node : Node) (st : Reader)
    (h : st.tags.length ≤ 3) : (processNode lc node model st).1.tags.length ≤ 3 := by
  unfold processNode
  simp only
  split
  · have := processStartNode_length st.tags (node.name.getD "--") h
    split <;> exact this
  · split
    · split
      · exact h
      · exact h
    · split
      · simp only [processEndNode]
        split
        · simp only [List.length_dropLast]
          omega
        · exact h
      · exact h

theorem readNodes_length (lc : lexical_cast) (model : XModel) :
    ∀ (nodes : List Node) (st : Reader), st.tags.length ≤ 3 →
      (readNodes lc model nodes st).1.tags.length ≤ 3
  | [], st, h => h
  | node :: rest, st, h => by
    have hp := processNode_length lc model node st h
    simp only [readNodes]
    rcases hr : processNode lc node model st with ⟨st1, r⟩
    rw [hr] at hp
    cases r with
    | ok rc => exact readNodes_length lc model rest st1 hp
    | error e => exact hp

/-- C39: `processStartNode` pushes the name of the element exactly when it is
`states` on an empty stack, one of `itno`, `environment`, `xagent` on a stack of
one tag, or any name on a stack of two tags, and otherwise raises
`unparseable_file` and leaves the stack as it is; `processEndNode` pops when the
name equals the top of the stack, resetting the current agent when the name is
`xagent`, and otherwise returns 9 and leaves the stack and the agent as they are;
and after every sequence of nodes read from the empty stack, the stack holds at
most three tags. -/
theorem tags_at_most_three (lc : lexical_cast) (model : XModel) :
    (∀ (tags : List String) (name : String),
      ((tags.length = 0 ∧ name = "states") ∨
        (tags.length = 1 ∧ (name = "itno" ∨ name = "environment" ∨ name = "xagent")) ∨
        tags.length = 2 →
        processStartNode tags name = (tags ++ [name], none)) ∧
      (¬ ((tags.length = 0 ∧ name = "states") ∨
        (tags.length = 1 ∧ (name = "itno" ∨ name = "environment" ∨ name = "xagent")) ∨
        tags.length = 2) →
        processStartNode tags name
          = (tags, some (Exception.unparseable_file ("Unknown xml tag: ".append name))))) ∧
    (∀ (tags : List String) (name top : String) (agent : Option XMachine),
      tags.getLast? = some top →
      (top = name →
        processEndNode tags name agent
          = ((tags.dropLast, if name = "xagent" then none else agent), 0)) ∧
      (top ≠ name → processEndNode tags name agent = ((tags, agent), 9))) ∧
    ∀ (nodes : List Node) (mm : MemoryManager),
      (readNodes lc model nodes { tags := [], agent := none, memory := mm }).1.tags.length
        ≤ 3 := by
  refine ⟨fun tags name => ⟨fun h => ?_, fun h => ?_⟩, ?_, ?_⟩
  · simp only [processStartNode]
    rw [if_pos h]
  · simp only [processStartNode]
    rw [if_neg h]
  · intro tags name top agent htop
    have hb : back tags = top := by simp [back, htop]
    constructor
    · intro h
      simp only [processEndNode, hb]
      rw [if_pos h]
    · intro h
      simp only [processEndNode, hb]
      rw [if_neg h]
  · intro nodes mm
    exact readNodes_length lc model nodes _ (by simp)

end flame.io.xml

namespace flame.io

/-! # Theorems: conditions -/

/-! ## The stages of `processSymbols` -/

theorem starts_with_erase (s : String) (a b : Char)
    (h : starts_with s (String.mk [a, b]) = true) :
    s = String.mk [a, b] ++ erase s 0 2 := by
  obtain ⟨d⟩ := s
  unfold starts_with at h
  simp only at h
  match d, h with
  | [], h => simp [List.isPrefixOf] at h
  | [_], h => simp [List.isPrefixOf] at h
  | c0 :: c1 :: rest, h =>
    simp only [List.isPrefixOf, Bool.and_eq_true, beq_iff_eq, Bool.and_true] at h
    obtain ⟨rfl, rfl⟩ := h
    rfl

theorem Run.error_counted (st : Run) (line : String) (h : st.Counted) :
    (st.error line).Counted := by
  unfold Run.Counted Run.error at *
  simp only [List.length_append, List.length_singleton, Nat.cast_add, Nat.cast_one]
  omega

theorem time_counted (lc : xml.lexical_cast) (st : Run) (h : st.Counted) :
    (processSymbols.time lc st).Counted := by
  have h1 : (processSymbols.timePhase lc st).Counted := by
    unfold processSymbols.timePhase
    split
    · exact h
    · split
      · exact h
      · exact Run.error_counted _ _ h
  unfold processSymbols.time processSymbols.timeDuration
  split
  · split
    · exact h1
    · exact Run.error_counted _ _ h1
  · exact h1

theorem lhs_frame (lc : xml.lexical_cast) (st : Run) :
    ∃ (a mv v : Bool) (t : String) (d : Nat), (processSymbols.lhs lc st).self =
      { st.self with lhsIsAgentVariable := a, lhsIsMessageVariable := mv, lhsIsValue := v,
                     lhs := t, lhsDouble := d } := by
  unfold processSymbols.lhs
  split
  · exact ⟨_, _, _, _, _, rfl⟩
  · split
    · exact ⟨_, _, _, _, _, rfl⟩
    · split
      · exact ⟨_, _, _, _, _, rfl⟩
      · exact ⟨_, _, _, _, _, rfl⟩

theorem rhs_frame (lc : xml.lexical_cast) (st : Run) :
    ∃ (a mv v : Bool) (t : String) (d : Nat), (processSymbols.rhs lc st).self =
      { st.self with rhsIsAgentVariable := a, rhsIsMessageVariable := mv, rhsIsValue := v,
                     rhs := t, rhsDouble := d } := by
  unfold processSymbols.rhs
  split
  · exact ⟨_, _, _, _, _, rfl⟩
  · split
    · exact ⟨_, _, _, _, _, rfl⟩
    · split
      · exact ⟨_, _, _, _, _, rfl⟩
      · exact ⟨_, _, _, _, _, rfl⟩

theorem valuesOp_frame (st : Run) :
    ∃ op : String, (processSymbols.valuesOp st).self = { st.self with op := op } := by
  unfold processSymbols.valuesOp
  repeat' split
  all_goals exact ⟨_, rfl⟩

theorem conditionsOp_frame (st : Run) :
    ∃ op : String, (processSymbols.conditionsOp st).self = { st.self with op := op } := by
  unfold processSymbols.conditionsOp
  repeat' split
  all_goals exact ⟨_, rfl⟩

/-- The left side of a condition on values: the flags and the text after the
stage, the errors counted and the lines written. -/
theorem lhs_spec (lc : xml.lexical_cast) (st : Run) :
    (starts_with st.self.lhs "a." = true →
      (processSymbols.lhs lc st).self.lhsIsAgentVariable = true ∧
      (processSymbols.lhs lc st).self.lhsIsMessageVariable = st.self.lhsIsMessageVariable ∧
      (processSymbols.lhs lc st).self.lhsIsValue = false ∧
      (processSymbols.lhs lc st).self.lhs = erase st.self.lhs 0 2) ∧
    (starts_with st.self.lhs "a." = false → starts_with st.self.lhs "m." = true →
      (processSymbols.lhs lc st).self.lhsIsAgentVariable = st.self.lhsIsAgentVariable ∧
      (processSymbols.lhs lc st).self.lhsIsMessageVariable = true ∧
      (processSymbols.lhs lc st).self.lhsIsValue = false ∧
      (processSymbols.lhs lc st).self.lhs = erase st.self.lhs 0 2) ∧
    (starts_with st.self.lhs "a." = false → starts_with st.self.lhs "m." = false →
      (processSymbols.lhs lc st).self.lhsIsAgentVariable = st.self.lhsIsAgentVariable ∧
      (processSymbols.lhs lc st).self.lhsIsMessageVariable = st.self.lhsIsMessageVariable ∧
      (processSymbols.lhs lc st).self.lhsIsValue = true ∧
      (processSymbols.lhs lc st).self.lhs = st.self.lhs) ∧
    (processSymbols.lhs lc st).errors = st.errors + valueError lc st.self.lhs ∧
    (st.Counted → (processSymbols.lhs lc st).Counted) := by
  unfold processSymbols.lhs valueError
  cases ha : starts_with st.self.lhs "a."
  · cases hm : starts_with st.self.lhs "m."
    · cases hd : lc.double st.self.lhs
      · simp [Run.error]
        intro h
        exact Run.error_counted _ _ h
      · simp
        exact fun h => h
    · simp
      exact fun h => h
  · simp
    exact fun h => h

/-- The right side of a condition on values. -/
theorem rhs_spec (lc : xml.lexical_cast) (st : Run) :
    (starts_with st.self.rhs "a." = true →
      (processSymbols.rhs lc st).self.rhsIsAgentVariable = true ∧
      (processSymbols.rhs lc st).self.rhsIsMessageVariable = st.self.rhsIsMessageVariable ∧
      (processSymbols.rhs lc st).self.rhsIsValue = false ∧
      (processSymbols.rhs lc st).self.rhs = erase st.self.rhs 0 2) ∧
    (starts_with st.self.rhs "a." = false → starts_with st.self.rhs "m." = true →
      (processSymbols.rhs lc st).self.rhsIsAgentVariable = st.self.rhsIsAgentVariable ∧
      (processSymbols.rhs lc st).self.rhsIsMessageVariable = true ∧
      (processSymbols.rhs lc st).self.rhsIsValue = false ∧
      (processSymbols.rhs lc st).self.rhs = erase st.self.rhs 0 2) ∧
    (starts_with st.self.rhs "a." = false → starts_with st.self.rhs "m." = false →
      (processSymbols.rhs lc st).self.rhsIsAgentVariable = st.self.rhsIsAgentVariable ∧
      (processSymbols.rhs lc st).self.rhsIsMessageVariable = st.self.rhsIsMessageVariable ∧
      (processSymbols.rhs lc st).self.rhsIsValue = true ∧
      (processSymbols.rhs lc st).self.rhs = st.self.rhs) ∧
    (processSymbols.rhs lc st).errors = st.errors + valueError lc st.self.rhs ∧
    (st.Counted → (processSymbols.rhs lc st).Counted) := by
  unfold processSymbols.rhs valueError
  cases ha : starts_with st.self.rhs "a."
  · cases hm : starts_with st.self.rhs "m."
    · cases hd : lc.double st.self.rhs
      · simp [Run.error]
        intro h
        exact Run.error_counted _ _ h
      · simp
        exact fun h => h
    · simp
      exact fun h => h
  · simp
    exact fun h => h

/-- The operator of a condition on values. -/
theorem valuesOp_spec (st : Run) :
    (st.self.op = "EQ" → (processSymbols.valuesOp st).self.op = "==" ∧
      (processSymbols.valuesOp st).errors = st.errors ∧
      (processSymbols.valuesOp st).stderr = st.stderr) ∧
    (st.self.op = "NEQ" → (processSymbols.valuesOp st).self.op = "!=" ∧
      (processSymbols.valuesOp st).errors = st.errors ∧
      (processSymbols.valuesOp st).stderr = st.stderr) ∧
    (st.self.op = "LEQ" → (processSymbols.valuesOp st).self.op = "<=" ∧
      (processSymbols.valuesOp st).errors = st.errors ∧
      (processSymbols.valuesOp st).stderr = st.stderr) ∧
    (st.self.op = "GEQ" → (processSymbols.valuesOp st).self.op = ">=" ∧
      (processSymbols.valuesOp st).errors = st.errors ∧
      (processSymbols.valuesOp st).stderr = st.stderr) ∧
    (st.self.op = "LT" → (processSymbols.valuesOp st).self.op = "<" ∧
      (processSymbols.valuesOp st).errors = st.errors ∧
      (processSymbols.valuesOp st).stderr = st.stderr) ∧
    (st.self.op = "GT" → (processSymbols.valuesOp st).self.op = ">" ∧
      (processSymbols.valuesOp st).errors = st.errors ∧
      (processSymbols.valuesOp st).stderr = st.stderr) ∧
    (st.self.op ∉ ["EQ", "NEQ", "LEQ", "GEQ", "LT", "GT"] →
      (processSymbols.valuesOp st).self.op = st.self.op ∧
      (processSymbols.valuesOp st).errors = st.errors + 1 ∧
      (processSymbols.valuesOp st).stderr = st.stderr ++
        ["Error: Condition/filter op value not recognised: " ++ st.self.op ++ "\n"]) := by
  unfold processSymbols.valuesOp
  refine ⟨?_, ?_, ?_, ?_, ?_, ?_, ?_⟩
  · intro h; simp [h]
  · intro h; simp [h]
  · intro h; simp [h]
  · intro h; simp [h]
  · intro h; simp [h]
  · intro h; simp [h]
  · intro h
    simp only [List.mem_cons, List.mem_singleton, List.not_mem_nil, or_false, not_or] at h
    obtain ⟨h1, h2, h3, h4, h5, h6⟩ := h
    simp [h1, h2, h3, h4, h5, h6, Run.error]

theorem valuesOp_counted (st : Run) (h : st.Counted) :
    (processSymbols.valuesOp st).Counted := by
  unfold processSymbols.valuesOp
  repeat' split
  all_goals first | exact h | exact Run.error_counted _ _ h

/-- The operator of a condition on nested conditions. -/
theorem conditionsOp_spec (st : Run) :
    (st.self.op = "AND" → (processSymbols.conditionsOp st).self.op = "&&" ∧
      (processSymbols.conditionsOp st).errors = st.errors ∧
      (processSymbols.conditionsOp st).stderr = st.stderr) ∧
    (st.self.op = "OR" → (processSymbols.conditionsOp st).self.op = "||" ∧
      (processSymbols.conditionsOp st).errors = st.errors ∧
      (processSymbols.conditionsOp st).stderr = st.stderr) ∧
    (st.self.op ∉ ["AND", "OR"] →
      (processSymbols.conditionsOp st).self.op = st.self.op ∧
      (processSymbols.conditionsOp st).errors = st.errors + 1 ∧
      (processSymbols.conditionsOp st).stderr = st.stderr ++
        ["Error: Condition/filter op value not recognised: " ++ st.self.op ++ "\n"]) := by
  unfold processSymbols.conditionsOp
  refine ⟨?_, ?_, ?_⟩
  · intro h; simp [h]
  · intro h; simp [h]
  · intro h
    simp only [List.mem_cons, List.mem_singleton, List.not_mem_nil, or_false, not_or] at h
    obtain ⟨h1, h2⟩ := h
    simp [h1, h2, Run.error]

theorem conditionsOp_counted (st : Run) (h : st.Counted) :
    (processSymbols.conditionsOp st).Counted := by
  unfold processSymbols.conditionsOp
  repeat' split
  all_goals first | exact h | exact Run.error_counted _ _ h

/-! ## The branches of `processSymbols` -/

theorem processSymbols_time (lc : xml.lexical_cast) (m : Members) (l r : XCondition)
    (ht : m.isTime = true) :
    processSymbols lc (XCondition.object m l r) =
      Except.ok (XCondition.object
        (processSymbols.time lc { self := m, stderr := [], errors := 0 }).self l r,
        (processSymbols.time lc { self := m, stderr := [], errors := 0 }).stderr,
        (processSymbols.time lc { self := m, stderr := [], errors := 0 }).errors) := by
  simp [processSymbols, ht]

theorem processSymbols_values (lc : xml.lexical_cast) (m : Members) (l r : XCondition)
    (ht : m.isTime = false) (hl : m.lhsIsValue = true) (hr : m.rhsIsValue = true) :
    processSymbols lc (XCondition.object m l r) =
      Except.ok (XCondition.object
        (processSymbols.valuesOp (processSymbols.rhs lc (processSymbols.lhs lc
          { self := { m with isValues := true }, stderr := [], errors := 0 }))).self l r,
        (processSymbols.valuesOp (processSymbols.rhs lc (processSymbols.lhs lc
          { self := { m with isValues := true }, stderr := [], errors := 0 }))).stderr,
        (processSymbols.valuesOp (processSymbols.rhs lc (processSymbols.lhs lc
          { self := { m with isValues := true }, stderr := [], errors := 0 }))).errors) := by
  simp [processSymbols, ht, hl, hr]

theorem processSymbols_conditions (lc : xml.lexical_cast) (m : Members)
    (l r l1 r1 : XCondition) (log1 log2 : List String) (rc1 rc2 : Int)
    (ht : m.isTime = false) (hv : (m.lhsIsValue && m.rhsIsValue) = false)
    (hlc : m.lhsIsCondition = true) (hrc : m.rhsIsCondition = true)
    (h1 : processSymbols lc l = Except.ok (l1, log1, rc1))
    (h2 : processSymbols lc r = Except.ok (r1, log2, rc2)) :
    processSymbols lc (XCondition.object m l r) =
      Except.ok (XCondition.object
        (processSymbols.conditionsOp (Run.mk { m with isConditions := true }
          (log1 ++ log2) (0 + rc1 + rc2))).self l1 r1,
        (processSymbols.conditionsOp (Run.mk { m with isConditions := true }
          (log1 ++ log2) (0 + rc1 + rc2))).stderr,
        (processSymbols.conditionsOp (Run.mk { m with isConditions := true }
          (log1 ++ log2) (0 + rc1 + rc2))).errors) := by
  rw [processSymbols]
  simp only [ht, hv, hlc, hrc, h1, h2, Bool.false_eq_true, if_false, Bool.and_self, if_true]

theorem processSymbols_mixed (lc : xml.lexical_cast) (m : Members) (l r : XCondition)
    (ht : m.isTime = false) (hv : (m.lhsIsValue && m.rhsIsValue) = false)
    (hc : (m.lhsIsCondition && m.rhsIsCondition) = false) :
    processSymbols lc (XCondition.object m l r) =
      Except.ok (XCondition.object m l r,
        ["Error: lhs and rhs are not both values or both nested conditions\n"], 1) := by
  rw [processSymbols]
  simp only [ht, hv, hc, Bool.false_eq_true, if_false]
  rfl

/-- The value `processSymbols` returns is the number of lines it wrote to `stderr`,
over the whole tree of conditions. -/
theorem processSymbols_counted (lc : xml.lexical_cast) : ∀ (c c1 : XCondition)
    (log : List String) (rc : Int),
    processSymbols lc c = Except.ok (c1, log, rc) → rc = log.length := by
  intro c
  induction c with
  | null => intro c1 log rc h; cases h
  | object m l r ihl ihr =>
    intro c1 log rc h
    cases ht : m.isTime
    · cases hv : (m.lhsIsValue && m.rhsIsValue)
      · cases hc : (m.lhsIsCondition && m.rhsIsCondition)
        · rw [processSymbols_mixed lc m l r ht hv hc] at h
          cases h
          rfl
        · rw [Bool.and_eq_true] at hc
          cases h1 : processSymbols lc l with
          | error e =>
            rw [processSymbols] at h
            simp [ht, hv, hc.1, hc.2, h1] at h
          | ok p1 =>
            obtain ⟨l1, log1, rc1⟩ := p1
            cases h2 : processSymbols lc r with
            | error e =>
              rw [processSymbols] at h
              simp [ht, hv, hc.1, hc.2, h1, h2] at h
            | ok p2 =>
              obtain ⟨r1, log2, rc2⟩ := p2
              rw [processSymbols_conditions lc m l r l1 r1 log1 log2 rc1 rc2 ht hv hc.1 hc.2
                h1 h2] at h
              have hcnt := conditionsOp_counted (Run.mk { m with isConditions := true }
                (log1 ++ log2) (0 + rc1 + rc2)) (by
                  have e1 := ihl l1 log1 rc1 h1
                  have e2 := ihr r1 log2 rc2 h2
                  simp only [Run.Counted, List.length_append, Nat.cast_add]
                  omega)
              cases h
              exact hcnt
      · rw [Bool.and_eq_true] at hv
        rw [processSymbols_values lc m l r ht hv.1 hv.2] at h
        have hcnt := valuesOp_counted _ ((rhs_spec lc _).2.2.2.2
          ((lhs_spec lc { self := { m with isValues := true }, stderr := [], errors := 0 }
            ).2.2.2.2 rfl))
        cases h
        exact hcnt
    · rw [processSymbols_time lc m l r ht] at h
      have hcnt := time_counted lc { self := m, stderr := [], errors := 0 } rfl
      cases h
      exact hcnt

theorem valuesOp_errors (st : Run) :
    (processSymbols.valuesOp st).errors = st.errors +
      (if st.self.op ∈ ["EQ", "NEQ", "LEQ", "GEQ", "LT", "GT"] then 0 else 1) := by
  by_cases h : st.self.op ∈ ["EQ", "NEQ", "LEQ", "GEQ", "LT", "GT"]
  · rw [if_pos h]
    simp only [List.mem_cons, List.mem_singleton, List.not_mem_nil, or_false] at h
    have hs := valuesOp_spec st
    rcases h with h | h | h | h | h | h
    · rw [(hs.1 h).2.1]; omega
    · rw [(hs.2.1 h).2.1]; omega
    · rw [(hs.2.2.1 h).2.1]; omega
    · rw [(hs.2.2.2.1 h).2.1]; omega
    · rw [(hs.2.2.2.2.1 h).2.1]; omega
    · rw [(hs.2.2.2.2.2.1 h).2.1]; omega
  · rw [if_neg h, ((valuesOp_spec st).2.2.2.2.2.2 h).2.1]

theorem conditionsOp_errors (st : Run) :
    (processSymbols.conditionsOp st).errors = st.errors +
      (if st.self.op = "AND" ∨ st.self.op = "OR" then 0 else 1) := by
  by_cases h : st.self.op = "AND" ∨ st.self.op = "OR"
  · rw [if_pos h]
    rcases h with h | h
    · rw [((conditionsOp_spec st).1 h).2.1]; omega
    · rw [((conditionsOp_spec st).2.1 h).2.1]; omega
  · rw [if_neg h]
    have h1 : st.self.op ∉ ["AND", "OR"] := by
      simpa only [List.mem_cons, List.mem_singleton, List.not_mem_nil, or_false] using h
    rw [((conditionsOp_spec st).2.2 h1).2.1]

/-! ## `validate` -/

theorem validate_error_counted (st : List String × Int) (line : String)
    (h : st.2 = st.1.length) : (validate.error st line).2 = (validate.error st line).1.length := by
  unfold validate.error
  simp only [List.length_append, List.length_singleton, Nat.cast_add, Nat.cast_one]
  omega

theorem validate_time_counted (agent : String → Bool) (timeUnits : List String)
    (m : Members) :
    (validate.time agent timeUnits m).2 = (validate.time agent timeUnits m).1.length := by
  have h0 : (([] : List String), (0 : Int)).2 = ((([] : List String), (0 : Int)).1.length : Int) :=
    rfl
  have h1 : (validate.timePeriod timeUnits m).2 = (validate.timePeriod timeUnits m).1.length := by
    unfold validate.timePeriod
    simp only
    split
    · exact validate_error_counted _ _ h0
    · exact h0
  unfold validate.time validate.timePhase
  repeat' split
  all_goals first | exact h1 | exact validate_error_counted _ _ h1

theorem validate_side_counted (agent : String → Bool) (xmessage : Option (String → Bool))
    (side : String) (a mv : Bool) (text : String) (st : List String × Int)
    (h : st.2 = st.1.length) :
    (validate.side agent xmessage side a mv text st).2
      = (validate.side agent xmessage side a mv text st).1.length := by
  unfold validate.side
  repeat' split
  all_goals first | exact h | exact validate_error_counted _ _ h

theorem validate_conditions (agent : String → Bool) (xmessage : Option (String → Bool))
    (timeUnits : List String) (m : Members) (l r : XCondition)
    (log1 log2 : List String) (rc1 rc2 : Int)
    (ht : m.isTime = false) (hv : m.isValues = false) (hc : m.isConditions = true)
    (h1 : validate agent xmessage timeUnits l = Except.ok (log1, rc1))
    (h2 : validate agent xmessage timeUnits r = Except.ok (log2, rc2)) :
    validate agent xmessage timeUnits (XCondition.object m l r)
      = Except.ok (log1 ++ log2, rc1 + rc2) := by
  rw [validate]
  simp only [ht, hv, hc, h1, h2, Bool.false_eq_true, if_false, if_true, Int.zero_add]

theorem validate_time (agent : String → Bool) (xmessage : Option (String → Bool))
    (timeUnits : List String) (m : Members) (l r : XCondition) (ht : m.isTime = true) :
    validate agent xmessage timeUnits (XCondition.object m l r)
      = Except.ok (validate.time agent timeUnits m) := by
  rw [validate]
  simp only [ht, if_true]

theorem validate_values (agent : String → Bool) (xmessage : Option (String → Bool))
    (timeUnits : List String) (m : Members) (l r : XCondition) (ht : m.isTime = false)
    (hv : m.isValues = true) :
    validate agent xmessage timeUnits (XCondition.object m l r)
      = Except.ok (validate.side agent xmessage "rhs" m.rhsIsAgentVariable
        m.rhsIsMessageVariable m.rhs
        (validate.side agent xmessage "lhs" m.lhsIsAgentVariable
          m.lhsIsMessageVariable m.lhs ([], 0))) := by
  rw [validate]
  simp only [ht, hv, Bool.false_eq_true, if_false, if_true]

theorem validate_none (agent : String → Bool) (xmessage : Option (String → Bool))
    (timeUnits : List String) (m : Members) (l r : XCondition) (ht : m.isTime = false)
    (hv : m.isValues = false) (hc : m.isConditions = false) :
    validate agent xmessage timeUnits (XCondition.object m l r) = Except.ok ([], 0) := by
  rw [validate]
  simp only [ht, hv, hc, Bool.false_eq_true, if_false]

/-- The value `validate` returns is the number of lines it wrote to `stderr`, over
the whole tree of conditions. -/
theorem validate_counted (agent : String → Bool) (xmessage : Option (String → Bool))
    (timeUnits : List String) : ∀ (c : XCondition) (log : List String) (rc : Int),
    validate agent xmessage timeUnits c = Except.ok (log, rc) → rc = log.length := by
  have h0 : (([] : List String), (0 : Int)).2 = ((([] : List String), (0 : Int)).1.length : Int) :=
    rfl
  intro c
  induction c with
  | null => intro log rc h; cases h
  | object m l r ihl ihr =>
    intro log rc h
    cases ht : m.isTime
    · cases hv : m.isValues
      · cases hc : m.isConditions
        · rw [validate_none agent xmessage timeUnits m l r ht hv hc] at h
          cases h
          rfl
        · cases h1 : validate agent xmessage timeUnits l with
          | error e =>
            rw [validate] at h
            simp [ht, hv, hc, h1] at h
          | ok p1 =>
            obtain ⟨log1, rc1⟩ := p1
            cases h2 : validate agent xmessage timeUnits r with
            | error e =>
              rw [validate] at h
              simp [ht, hv, hc, h1, h2] at h
            | ok p2 =>
              obtain ⟨log2, rc2⟩ := p2
              rw [validate_conditions agent xmessage timeUnits m l r log1 log2 rc1 rc2 ht hv hc
                h1 h2] at h
              have e1 := ihl log1 rc1 h1
              have e2 := ihr log2 rc2 h2
              cases h
              simp only [List.length_append, Nat.cast_add]
              omega
      · rw [validate_values agent xmessage timeUnits m l r ht hv] at h
        have e := Except.ok.inj h
        have hcnt := validate_side_counted agent xmessage "rhs" m.rhsIsAgentVariable
          m.rhsIsMessageVariable m.rhs _
          (validate_side_counted agent xmessage "lhs" m.lhsIsAgentVariable
            m.lhsIsMessageVariable m.lhs _ h0)
        rw [e] at hcnt
        exact hcnt
    · rw [validate_time agent xmessage timeUnits m l r ht] at h
      have e := Except.ok.inj h
      have hcnt := validate_time_counted agent timeUnits m
      rw [e] at hcnt
      exact hcnt

/-! ## The claims on `processSymbols` -/

/-- The state of `processSymbols` on a condition on values after both sides were
handled: what the stages keep and what they count. -/
theorem sides_spec (lc : xml.lexical_cast) (m : Members) :
    (processSymbols.rhs lc (processSymbols.lhs lc
      (Run.mk { m with isValues := true } [] 0))).self.op = m.op ∧
    (processSymbols.rhs lc (processSymbols.lhs lc
      (Run.mk { m with isValues := true } [] 0))).errors
        = valueError lc m.lhs + valueError lc m.rhs ∧
    (processSymbols.rhs lc (processSymbols.lhs lc
      (Run.mk { m with isValues := true } [] 0))).Counted := by
  obtain ⟨a, mv, v, t, d, hl⟩ := lhs_frame lc (Run.mk { m with isValues := true } [] 0)
  obtain ⟨a2, mv2, v2, t2, d2, hr⟩ :=
    rhs_frame lc (processSymbols.lhs lc (Run.mk { m with isValues := true } [] 0))
  have hls := lhs_spec lc (Run.mk { m with isValues := true } [] 0)
  have hrs := rhs_spec lc (processSymbols.lhs lc (Run.mk { m with isValues := true } [] 0))
  have hrhs : (processSymbols.lhs lc (Run.mk { m with isValues := true } [] 0)).self.rhs
      = m.rhs := by rw [hl]
  refine ⟨by rw [hr, hl], ?_, hrs.2.2.2.2 (hls.2.2.2.2 rfl)⟩
  rw [hrs.2.2.2.1, hls.2.2.2.1, hrhs]
  simp

/-- Counterexample to C31 as stated: on a condition flagged as a time condition
(phase `1`) whose two sides are values, with the operator `EQ`, `processSymbols`
takes the branch of time conditions: it returns 0, writes nothing and leaves `op`
as `EQ`. -/
theorem processSymbols_time_keeps_operator :
    ∃ m1 : Members,
      processSymbols xml.casts
          (XCondition.object (timeMembers (valuesMembers "0.5" "EQ" "0.5") "1")
            XCondition.null XCondition.null)
        = Except.ok (XCondition.object m1 XCondition.null XCondition.null, [], 0) ∧
      m1.lhsIsValue = true ∧ m1.rhsIsValue = true ∧ m1.isValues = false ∧
      m1.op = "EQ" ∧ m1.op ≠ "==" :=
  ⟨_, rfl, rfl, rfl, rfl, rfl, by decide⟩

/-- C31 (as amended): on a condition that is not a time condition and whose two sides are
values, `processSymbols` rewrites the operators `EQ`, `NEQ`, `LEQ`, `GEQ`, `LT`,
`GT` to `==`, `!=`, `<=`, `>=`, `<`, `>` and counts the errors of the two sides
only; for any other operator it leaves `op` as it is, writes one more line and
counts one more error. On a condition that is not a time condition, whose sides
are not both values and whose two sides are nested conditions, it rewrites `AND` to `&&` and `OR` to `||` and counts the errors of the two nested
conditions only; for any other operator it writes one more line and counts one
more error. -/
theorem processSymbols_operator (lc : xml.lexical_cast) :
    (∀ (m : Members) (l r : XCondition), m.isTime = false → m.lhsIsValue = true →
      m.rhsIsValue = true →
      ∃ (m1 : Members) (sides : List String),
        (sides.length : Int) = valueError lc m.lhs + valueError lc m.rhs ∧
        (m.op = "EQ" → m1.op = "==") ∧ (m.op = "NEQ" → m1.op = "!=") ∧
        (m.op = "LEQ" → m1.op = "<=") ∧ (m.op = "GEQ" → m1.op = ">=") ∧
        (m.op = "LT" → m1.op = "<") ∧ (m.op = "GT" → m1.op = ">") ∧
        (m.op ∈ ["EQ", "NEQ", "LEQ", "GEQ", "LT", "GT"] →
          processSymbols lc (XCondition.object m l r)
            = Except.ok (XCondition.object m1 l r, sides,
                valueError lc m.lhs + valueError lc m.rhs)) ∧
        (m.op ∉ ["EQ", "NEQ", "LEQ", "GEQ", "LT", "GT"] → m1.op = m.op ∧
          processSymbols lc (XCondition.object m l r)
            = Except.ok (XCondition.object m1 l r,
                sides ++ ["Error: Condition/filter op value not recognised: " ++ m.op ++ "\n"],
                valueError lc m.lhs + valueError lc m.rhs + 1))) ∧
    (∀ (m : Members) (l r l1 r1 : XCondition) (log1 log2 : List String) (rc1 rc2 : Int),
      m.isTime = false → (m.lhsIsValue && m.rhsIsValue) = false →
      m.lhsIsCondition = true → m.rhsIsCondition = true →
      processSymbols lc l = Except.ok (l1, log1, rc1) →
      processSymbols lc r = Except.ok (r1, log2, rc2) →
      ∃ m1 : Members,
        (m.op = "AND" → m1.op = "&&" ∧
          processSymbols lc (XCondition.object m l r)
            = Except.ok (XCondition.object m1 l1 r1, log1 ++ log2, rc1 + rc2)) ∧
        (m.op = "OR" → m1.op = "||" ∧
          processSymbols lc (XCondition.object m l r)
            = Except.ok (XCondition.object m1 l1 r1, log1 ++ log2, rc1 + rc2)) ∧
        (m.op ∉ ["AND", "OR"] → m1.op = m.op ∧
          processSymbols lc (XCondition.object m l r)
            = Except.ok (XCondition.object m1 l1 r1,
                log1 ++ log2 ++
                  ["Error: Condition/filter op value not recognised: " ++ m.op ++ "\n"],
                rc1 + rc2 + 1))) := by
  constructor
  · intro m l r ht hl hr
    obtain ⟨hop, herr, hcnt⟩ := sides_spec lc m
    have hs := valuesOp_spec (processSymbols.rhs lc (processSymbols.lhs lc
      (Run.mk { m with isValues := true } [] 0)))
    rw [hop] at hs
    have hlen : ((processSymbols.rhs lc (processSymbols.lhs lc
        (Run.mk { m with isValues := true } [] 0))).stderr.length : Int)
        = valueError lc m.lhs + valueError lc m.rhs := by
      rw [← herr]
      exact hcnt.symm
    refine ⟨_, _, hlen, fun h => (hs.1 h).1, fun h => (hs.2.1 h).1, fun h => (hs.2.2.1 h).1,
      fun h => (hs.2.2.2.1 h).1, fun h => (hs.2.2.2.2.1 h).1, fun h => (hs.2.2.2.2.2.1 h).1,
      ?_, ?_⟩
    · intro h
      rw [processSymbols_values lc m l r ht hl hr]
      have key : (processSymbols.valuesOp (processSymbols.rhs lc (processSymbols.lhs lc
            (Run.mk { m with isValues := true } [] 0)))).errors
            = (processSymbols.rhs lc (processSymbols.lhs lc
              (Run.mk { m with isValues := true } [] 0))).errors ∧
          (processSymbols.valuesOp (processSymbols.rhs lc (processSymbols.lhs lc
            (Run.mk { m with isValues := true } [] 0)))).stderr
            = (processSymbols.rhs lc (processSymbols.lhs lc
              (Run.mk { m with isValues := true } [] 0))).stderr := by
        simp only [List.mem_cons, List.mem_singleton, List.not_mem_nil, or_false] at h
        rcases h with h | h | h | h | h | h
        · exact (hs.1 h).2
        · exact (hs.2.1 h).2
        · exact (hs.2.2.1 h).2
        · exact (hs.2.2.2.1 h).2
        · exact (hs.2.2.2.2.1 h).2
        · exact (hs.2.2.2.2.2.1 h).2
      rw [key.1, key.2, herr]
    · intro h
      obtain ⟨h1, h2, h3⟩ := hs.2.2.2.2.2.2 h
      refine ⟨h1, ?_⟩
      rw [processSymbols_values lc m l r ht hl hr, h2, h3, herr]
  · intro m l r l1 r1 log1 log2 rc1 rc2 ht hv hlc hrc h1 h2
    have hs := conditionsOp_spec (Run.mk { m with isConditions := true }
      (log1 ++ log2) (0 + rc1 + rc2))
    have hop : (Run.mk { m with isConditions := true } (log1 ++ log2) (0 + rc1 + rc2)).self.op
        = m.op := rfl
    rw [hop] at hs
    have hrun := processSymbols_conditions lc m l r l1 r1 log1 log2 rc1 rc2 ht hv hlc hrc h1 h2
    refine ⟨(processSymbols.conditionsOp (Run.mk { m with isConditions := true }
      (log1 ++ log2) (0 + rc1 + rc2))).self, ?_, ?_, ?_⟩
    · intro h
      obtain ⟨e1, e2, e3⟩ := hs.1 h
      refine ⟨e1, ?_⟩
      rw [hrun, e2, e3]
      simp
    · intro h
      obtain ⟨e1, e2, e3⟩ := hs.2.1 h
      refine ⟨e1, ?_⟩
      rw [hrun, e2, e3]
      simp
    · intro h
      obtain ⟨e1, e2, e3⟩ := hs.2.2 h
      refine ⟨e1, ?_⟩
      rw [hrun, e2, e3]
      simp

/-- Witness of C31: the condition `a.x EQ 0.5` is rewritten to `==` without an
error. -/
theorem processSymbols_operator_witness :
    ∃ (m1 : Members) (sides : List String),
      (sides.length : Int) = valueError xml.casts "a.x" + valueError xml.casts "0.5" ∧
      m1.op = "==" ∧
      processSymbols xml.casts
          (XCondition.object (valuesMembers "a.x" "EQ" "0.5") XCondition.null XCondition.null)
        = Except.ok (XCondition.object m1 XCondition.null XCondition.null, sides,
            valueError xml.casts "a.x" + valueError xml.casts "0.5") := by
  obtain ⟨m1, sides, h1, h2, _, _, _, _, _, h3, _⟩ :=
    (processSymbols_operator xml.casts).1 (valuesMembers "a.x" "EQ" "0.5") XCondition.null
      XCondition.null rfl rfl rfl
  exact ⟨m1, sides, h1, h2 rfl, h3 (by decide)⟩

/-- Counterexample to C32 as stated: on a condition flagged as a time condition
(phase `1`) with a value on the left and a nested condition on the right,
`processSymbols` takes the branch of time conditions and returns 0, not 1; the
nested condition `zz BUT zz`, which alone returns 3, is not processed. -/
theorem processSymbols_time_mixed_returns_zero :
    processSymbols xml.casts
        (XCondition.object (timeMembers (mixedMembers "0.5" "AND") "1") XCondition.null
          (XCondition.object (valuesMembers "zz" "BUT" "zz") XCondition.null XCondition.null))
      = Except.ok (XCondition.object
          { timeMembers (mixedMembers "0.5" "AND") "1" with timePhaseValue := 1 }
          XCondition.null
          (XCondition.object (valuesMembers "zz" "BUT" "zz") XCondition.null XCondition.null),
          [], 0) ∧
    (timeMembers (mixedMembers "0.5" "AND") "1").lhsIsValue = true ∧
    (timeMembers (mixedMembers "0.5" "AND") "1").lhsIsCondition = false ∧
    (timeMembers (mixedMembers "0.5" "AND") "1").rhsIsValue = false ∧
    (timeMembers (mixedMembers "0.5" "AND") "1").rhsIsCondition = true ∧
    ∃ (c1 : XCondition) (log : List String),
      processSymbols xml.casts
          (XCondition.object (valuesMembers "zz" "BUT" "zz") XCondition.null XCondition.null)
        = Except.ok (c1, log, 3) :=
  ⟨rfl, rfl, rfl, rfl, rfl, _, _, rfl⟩

/-- C32 (as amended): the value `processSymbols` returns is the number of error
lines written for the tree of conditions it processed, so it is 0 exactly when no
error was reported; for a condition that is not a time condition, whose sides are
not both values and whose two sides are nested conditions, it is the value
returned for the left one plus the value returned for the right one plus 1 if the
operator is neither `AND` nor `OR`; for a condition that is not a time condition,
with a value on one side and a nested condition on the other, it is 1. `validate`
returns the number of error lines it wrote, and for a condition that is neither a
time condition nor one on values and that `processSymbols` flagged as one on
nested conditions, the sum of the values returned for the two. -/
theorem processSymbols_return_value (lc : xml.lexical_cast) :
    (∀ (c c1 : XCondition) (log : List String) (rc : Int),
      processSymbols lc c = Except.ok (c1, log, rc) →
      rc = log.length ∧ (rc = 0 ↔ log = [])) ∧
    (∀ (m : Members) (l r l1 r1 : XCondition) (log1 log2 : List String) (rc1 rc2 : Int),
      m.isTime = false → (m.lhsIsValue && m.rhsIsValue) = false →
      m.lhsIsCondition = true → m.rhsIsCondition = true →
      processSymbols lc l = Except.ok (l1, log1, rc1) →
      processSymbols lc r = Except.ok (r1, log2, rc2) →
      ∃ (m1 : Members) (log : List String),
        processSymbols lc (XCondition.object m l r)
          = Except.ok (XCondition.object m1 l1 r1, log,
              rc1 + rc2 + (if m.op = "AND" ∨ m.op = "OR" then 0 else 1)) ∧
        m1.isTime = false ∧ m1.isValues = m.isValues ∧ m1.isConditions = true) ∧
    (∀ (m : Members) (l r : XCondition), m.isTime = false →
      (m.lhsIsValue = true ∧ m.lhsIsCondition = false ∧
        m.rhsIsValue = false ∧ m.rhsIsCondition = true) ∨
      (m.lhsIsValue = false ∧ m.lhsIsCondition = true ∧
        m.rhsIsValue = true ∧ m.rhsIsCondition = false) →
      processSymbols lc (XCondition.object m l r)
        = Except.ok (XCondition.object m l r,
            ["Error: lhs and rhs are not both values or both nested conditions\n"], 1)) ∧
    (∀ (agent : String → Bool) (xmessage : Option (String → Bool)) (timeUnits : List String),
      (∀ (c : XCondition) (log : List String) (rc : Int),
        validate agent xmessage timeUnits c = Except.ok (log, rc) →
        rc = log.length ∧ (rc = 0 ↔ log = [])) ∧
      ∀ (m : Members) (l r : XCondition) (log1 log2 : List String) (rc1 rc2 : Int),
        m.isTime = false → m.isValues = false → m.isConditions = true →
        validate agent xmessage timeUnits l = Except.ok (log1, rc1) →
        validate agent xmessage timeUnits r = Except.ok (log2, rc2) →
        validate agent xmessage timeUnits (XCondition.object m l r)
          = Except.ok (log1 ++ log2, rc1 + rc2)) := by
  have hzero : ∀ (log : List String) (rc : Int), rc = log.length → (rc = 0 ↔ log = []) := by
    intro log rc h
    rw [h]
    constructor
    · intro h0
      exact List.length_eq_zero.1 (by exact_mod_cast h0)
    · intro h0
      rw [h0]
      rfl
  refine ⟨?_, ?_, ?_, ?_⟩
  · intro c c1 log rc h
    have := processSymbols_counted lc c c1 log rc h
    exact ⟨this, hzero log rc this⟩
  · intro m l r l1 r1 log1 log2 rc1 rc2 ht hv hlc hrc h1 h2
    obtain ⟨op, hframe⟩ := conditionsOp_frame (Run.mk { m with isConditions := true }
      (log1 ++ log2) (0 + rc1 + rc2))
    refine ⟨(processSymbols.conditionsOp (Run.mk { m with isConditions := true }
        (log1 ++ log2) (0 + rc1 + rc2))).self,
      (processSymbols.conditionsOp (Run.mk { m with isConditions := true }
        (log1 ++ log2) (0 + rc1 + rc2))).stderr, ?_, ?_, ?_, ?_⟩
    · rw [processSymbols_conditions lc m l r l1 r1 log1 log2 rc1 rc2 ht hv hlc hrc h1 h2,
        conditionsOp_errors]
      simp
    · rw [hframe]
      exact ht
    · rw [hframe]
    · rw [hframe]
  · intro m l r ht h
    apply processSymbols_mixed lc m l r ht
    · rcases h with h | h
      · rw [h.2.2.1, Bool.and_false]
      · rw [h.1, Bool.false_and]
    · rcases h with h | h
      · rw [h.2.1, Bool.false_and]
      · rw [h.2.2.2, Bool.and_false]
  · intro agent xmessage timeUnits
    refine ⟨?_, ?_⟩
    · intro c log rc h
      have := validate_counted agent xmessage timeUnits c log rc h
      exact ⟨this, hzero log rc this⟩
    · intro m l r log1 log2 rc1 rc2 ht hv hc h1 h2
      exact validate_conditions agent xmessage timeUnits m l r log1 log2 rc1 rc2 ht hv hc h1 h2

/-- Witness of C32: on the condition `(0.5 EQ 0.5) XOR (0.5 BUT x)` the left
condition returns 0, the right one 2, and the whole 3. -/
theorem processSymbols_return_value_witness :
    processSymbols xml.casts (XCondition.object (valuesMembers "0.5" "EQ" "0.5")
      XCondition.null XCondition.null)
      = Except.ok (XCondition.object { valuesMembers "0.5" "==" "0.5" with
          isValues := true, lhsDouble := 0x3FE0000000000000,
          rhsDouble := 0x3FE0000000000000 } XCondition.null XCondition.null, [], 0) ∧
    processSymbols xml.casts (XCondition.object (valuesMembers "0.5" "BUT" "x")
      XCondition.null XCondition.null)
      = Except.ok (XCondition.object { valuesMembers "0.5" "BUT" "x" with
          isValues := true, lhsDouble := 0x3FE0000000000000 }
          XCondition.null XCondition.null,
          ["Error: Condition/filter value not variable or number: x\n",
           "Error: Condition/filter op value not recognised: BUT\n"], 2) ∧
    ∃ (m1 : Members) (log : List String),
      processSymbols xml.casts (XCondition.object (conditionsMembers "XOR")
        (XCondition.object (valuesMembers "0.5" "EQ" "0.5") XCondition.null XCondition.null)
        (XCondition.object (valuesMembers "0.5" "BUT" "x") XCondition.null XCondition.null))
        = Except.ok (XCondition.object m1
            (XCondition.object { valuesMembers "0.5" "==" "0.5" with
              isValues := true, lhsDouble := 0x3FE0000000000000,
              rhsDouble := 0x3FE0000000000000 } XCondition.null XCondition.null)
            (XCondition.object { valuesMembers "0.5" "BUT" "x" with
              isValues := true, lhsDouble := 0x3FE0000000000000 }
              XCondition.null XCondition.null), log, 0 + 2 + 1) ∧
      m1.isTime = false ∧ m1.isValues = false ∧ m1.isConditions = true :=
  ⟨rfl, rfl,
    (processSymbols_return_value xml.casts).2.1 (conditionsMembers "XOR") _ _ _ _ _ _ 0 2
      rfl rfl rfl rfl rfl rfl⟩

/-- C40: `processSymbols` on a condition that is not a time condition and whose two
sides were both read as values (the variable flags as the constructor leaves them)
returns, and after it each side has exactly one of the flags agent variable,
message variable and value: a side that begins with `a.` is an agent variable and
one that begins with `m.` a message variable, each with these two characters
removed; any other side is a value with its text as it was, and it brings one
error exactly when `lexical_cast<double>` fails on the text. The value returned
is the sum of what the two sides and the operator bring. -/
theorem processSymbols_value_sides (lc : xml.lexical_cast) (m : Members)
    (l r : XCondition) (ht : m.isTime = false)
    (hl : m.lhsIsValue = true) (hr : m.rhsIsValue = true)
    (hla : m.lhsIsAgentVariable = false) (hlm : m.lhsIsMessageVariable = false)
    (hra : m.rhsIsAgentVariable = false) (hrm : m.rhsIsMessageVariable = false) :
    ∃ (m1 : Members) (log : List String) (el er eo : Int),
      processSymbols lc (XCondition.object m l r)
        = Except.ok (XCondition.object m1 l r, log, el + er + eo) ∧
      [m1.lhsIsAgentVariable, m1.lhsIsMessageVariable, m1.lhsIsValue].count true = 1 ∧
      [m1.rhsIsAgentVariable, m1.rhsIsMessageVariable, m1.rhsIsValue].count true = 1 ∧
      (starts_with m.lhs "a." = true →
        m1.lhsIsAgentVariable = true ∧ m.lhs = "a." ++ m1.lhs ∧ el = 0) ∧
      (starts_with m.lhs "a." = false → starts_with m.lhs "m." = true →
        m1.lhsIsMessageVariable = true ∧ m.lhs = "m." ++ m1.lhs ∧ el = 0) ∧
      (starts_with m.lhs "a." = false → starts_with m.lhs "m." = false →
        m1.lhsIsValue = true ∧ m1.lhs = m.lhs ∧
        (lc.double m.lhs = none → el = 1) ∧ (lc.double m.lhs ≠ none → el = 0)) ∧
      (starts_with m.rhs "a." = true →
        m1.rhsIsAgentVariable = true ∧ m.rhs = "a." ++ m1.rhs ∧ er = 0) ∧
      (starts_with m.rhs "a." = false → starts_with m.rhs "m." = true →
        m1.rhsIsMessageVariable = true ∧ m.rhs = "m." ++ m1.rhs ∧ er = 0) ∧
      (starts_with m.rhs "a." = false → starts_with m.rhs "m." = false →
        m1.rhsIsValue = true ∧ m1.rhs = m.rhs ∧
        (lc.double m.rhs = none → er = 1) ∧ (lc.double m.rhs ≠ none → er = 0)) ∧
      eo = (if m.op ∈ ["EQ", "NEQ", "LEQ", "GEQ", "LT", "GT"] then 0 else 1) := by
  obtain ⟨hop, herr, _⟩ := sides_spec lc m
  obtain ⟨a, mv, v, t, d, hlf⟩ := lhs_frame lc (Run.mk { m with isValues := true } [] 0)
  obtain ⟨a2, mv2, v2, t2, d2, hrf⟩ :=
    rhs_frame lc (processSymbols.lhs lc (Run.mk { m with isValues := true } [] 0))
  obtain ⟨op, hof⟩ := valuesOp_frame (processSymbols.rhs lc (processSymbols.lhs lc
    (Run.mk { m with isValues := true } [] 0)))
  obtain ⟨hl1, hl2, hl3, _, _⟩ := lhs_spec lc (Run.mk { m with isValues := true } [] 0)
  obtain ⟨hr1, hr2, hr3, _, _⟩ :=
    rhs_spec lc (processSymbols.lhs lc (Run.mk { m with isValues := true } [] 0))
  -- the members of the left side after the three stages
  have eLA : (processSymbols.valuesOp (processSymbols.rhs lc (processSymbols.lhs lc
      (Run.mk { m with isValues := true } [] 0)))).self.lhsIsAgentVariable
      = (processSymbols.lhs lc (Run.mk { m with isValues := true } [] 0)).self.lhsIsAgentVariable := by
    rw [hof, hrf]
  have eLM : (processSymbols.valuesOp (processSymbols.rhs lc (processSymbols.lhs lc
      (Run.mk { m with isValues := true } [] 0)))).self.lhsIsMessageVariable
      = (processSymbols.lhs lc (Run.mk { m with isValues := true } [] 0)).self.lhsIsMessageVariable := by
    rw [hof, hrf]
  have eLV : (processSymbols.valuesOp (processSymbols.rhs lc (processSymbols.lhs lc
      (Run.mk { m with isValues := true } [] 0)))).self.lhsIsValue
      = (processSymbols.lhs lc (Run.mk { m with isValues := true } [] 0)).self.lhsIsValue := by
    rw [hof, hrf]
  have eLT : (processSymbols.valuesOp (processSymbols.rhs lc (processSymbols.lhs lc
      (Run.mk { m with isValues := true } [] 0)))).self.lhs
      = (processSymbols.lhs lc (Run.mk { m with isValues := true } [] 0)).self.lhs := by
    rw [hof, hrf]
  -- the members of the right side after the three stages
  have eRA : (processSymbols.valuesOp (processSymbols.rhs lc (processSymbols.lhs lc
      (Run.mk { m with isValues := true } [] 0)))).self.rhsIsAgentVariable
      = (processSymbols.rhs lc (processSymbols.lhs lc
        (Run.mk { m with isValues := true } [] 0))).self.rhsIsAgentVariable := by
    rw [hof]
  have eRM : (processSymbols.valuesOp (processSymbols.rhs lc (processSymbols.lhs lc
      (Run.mk { m with isValues := true } [] 0)))).self.rhsIsMessageVariable
      = (processSymbols.rhs lc (processSymbols.lhs lc
        (Run.mk { m with isValues := true } [] 0))).self.rhsIsMessageVariable := by
    rw [hof]
  have eRV : (processSymbols.valuesOp (processSymbols.rhs lc (processSymbols.lhs lc
      (Run.mk { m with isValues := true } [] 0)))).self.rhsIsValue
      = (processSymbols.rhs lc (processSymbols.lhs lc
        (Run.mk { m with isValues := true } [] 0))).self.rhsIsValue := by
    rw [hof]
  have eRT : (processSymbols.valuesOp (processSymbols.rhs lc (processSymbols.lhs lc
      (Run.mk { m with isValues := true } [] 0)))).self.rhs
      = (processSymbols.rhs lc (processSymbols.lhs lc
        (Run.mk { m with isValues := true } [] 0))).self.rhs := by
    rw [hof]
  -- what the left stage hands to the right stage
  have mRA : (processSymbols.lhs lc (Run.mk { m with isValues := true } [] 0)).self.rhsIsAgentVariable
      = false := by rw [hlf]; exact hra
  have mRM : (processSymbols.lhs lc (Run.mk { m with isValues := true } [] 0)).self.rhsIsMessageVariable
      = false := by rw [hlf]; exact hrm
  have mRT : (processSymbols.lhs lc (Run.mk { m with isValues := true } [] 0)).self.rhs
      = m.rhs := by rw [hlf]
  rw [mRT] at hr1 hr2 hr3
  rw [mRM] at hr1 hr3
  rw [mRA] at hr2 hr3
  have hl1' : starts_with m.lhs "a." = true →
      (processSymbols.lhs lc (Run.mk { m with isValues := true } [] 0)).self.lhsIsAgentVariable = true ∧
      (processSymbols.lhs lc (Run.mk { m with isValues := true } [] 0)).self.lhsIsMessageVariable = false ∧
      (processSymbols.lhs lc (Run.mk { m with isValues := true } [] 0)).self.lhsIsValue = false ∧
      (processSymbols.lhs lc (Run.mk { m with isValues := true } [] 0)).self.lhs = erase m.lhs 0 2 :=
    fun ha => ⟨(hl1 ha).1, (hl1 ha).2.1.trans hlm, (hl1 ha).2.2.1, (hl1 ha).2.2.2⟩
  have hl2' : starts_with m.lhs "a." = false → starts_with m.lhs "m." = true →
      (processSymbols.lhs lc (Run.mk { m with isValues := true } [] 0)).self.lhsIsAgentVariable = false ∧
      (processSymbols.lhs lc (Run.mk { m with isValues := true } [] 0)).self.lhsIsMessageVariable = true ∧
      (processSymbols.lhs lc (Run.mk { m with isValues := true } [] 0)).self.lhsIsValue = false ∧
      (processSymbols.lhs lc (Run.mk { m with isValues := true } [] 0)).self.lhs = erase m.lhs 0 2 :=
    fun ha hm => ⟨(hl2 ha hm).1.trans hla, (hl2 ha hm).2.1, (hl2 ha hm).2.2.1,
      (hl2 ha hm).2.2.2⟩
  have hl3' : starts_with m.lhs "a." = false → starts_with m.lhs "m." = false →
      (processSymbols.lhs lc (Run.mk { m with isValues := true } [] 0)).self.lhsIsAgentVariable = false ∧
      (processSymbols.lhs lc (Run.mk { m with isValues := true } [] 0)).self.lhsIsMessageVariable = false ∧
      (processSymbols.lhs lc (Run.mk { m with isValues := true } [] 0)).self.lhsIsValue = true ∧
      (processSymbols.lhs lc (Run.mk { m with isValues := true } [] 0)).self.lhs = m.lhs :=
    fun ha hm => ⟨(hl3 ha hm).1.trans hla, (hl3 ha hm).2.1.trans hlm, (hl3 ha hm).2.2.1,
      (hl3 ha hm).2.2.2⟩
  refine ⟨(processSymbols.valuesOp (processSymbols.rhs lc (processSymbols.lhs lc
      (Run.mk { m with isValues := true } [] 0)))).self,
    (processSymbols.valuesOp (processSymbols.rhs lc (processSymbols.lhs lc
      (Run.mk { m with isValues := true } [] 0)))).stderr,
    valueError lc m.lhs, valueError lc m.rhs,
    (if m.op ∈ ["EQ", "NEQ", "LEQ", "GEQ", "LT", "GT"] then 0 else 1), ?_, ?_, ?_, ?_, ?_, ?_,
    ?_, ?_, ?_, rfl⟩
  · rw [processSymbols_values lc m l r ht hl hr, valuesOp_errors, herr, hop]
  · rw [eLA, eLM, eLV]
    cases ha : starts_with m.lhs "a."
    · cases hm : starts_with m.lhs "m."
      · obtain ⟨e1, e2, e3, _⟩ := hl3' ha hm
        rw [e1, e2, e3]
        rfl
      · obtain ⟨e1, e2, e3, _⟩ := hl2' ha hm
        rw [e1, e2, e3]
        rfl
    · obtain ⟨e1, e2, e3, _⟩ := hl1' ha
      rw [e1, e2, e3]
      rfl
  · rw [eRA, eRM, eRV]
    cases ha : starts_with m.rhs "a."
    · cases hm : starts_with m.rhs "m."
      · obtain ⟨e1, e2, e3, _⟩ := hr3 ha hm
        rw [e1, e2, e3]
        rfl
      · obtain ⟨e1, e2, e3, _⟩ := hr2 ha hm
        rw [e1, e2, e3]
        rfl
    · obtain ⟨e1, e2, e3, _⟩ := hr1 ha
      rw [e1, e2, e3]
      rfl
  · intro ha
    obtain ⟨e1, _, _, e4⟩ := hl1' ha
    refine ⟨by rw [eLA, e1], ?_, by simp [valueError, ha]⟩
    rw [eLT, e4]
    exact starts_with_erase m.lhs _ _ ha
  · intro ha hm
    obtain ⟨_, e2, _, e4⟩ := hl2' ha hm
    refine ⟨by rw [eLM, e2], ?_, by simp [valueError, ha, hm]⟩
    rw [eLT, e4]
    exact starts_with_erase m.lhs _ _ hm
  · intro ha hm
    obtain ⟨_, _, e3, e4⟩ := hl3' ha hm
    refine ⟨by rw [eLV, e3], by rw [eLT, e4], ?_, ?_⟩
    · intro hd
      simp [valueError, ha, hm, hd]
    · intro hd
      have : (lc.double m.lhs).isSome = true := Option.isSome_iff_ne_none.2 hd
      simp [valueError, ha, hm, this]
  · intro ha
    obtain ⟨e1, _, _, e4⟩ := hr1 ha
    refine ⟨by rw [eRA, e1], ?_, by simp [valueError, ha]⟩
    rw [eRT, e4]
    exact starts_with_erase m.rhs _ _ ha
  · intro ha hm
    obtain ⟨_, e2, _, e4⟩ := hr2 ha hm
    refine ⟨by rw [eRM, e2], ?_, by simp [valueError, ha, hm]⟩
    rw [eRT, e4]
    exact starts_with_erase m.rhs _ _ hm
  · intro ha hm
    obtain ⟨_, _, e3, e4⟩ := hr3 ha hm
    refine ⟨by rw [eRV, e3], by rw [eRT, e4], ?_, ?_⟩
    · intro hd
      simp [valueError, ha, hm, hd]
    · intro hd
      have : (lc.double m.rhs).isSome = true := Option.isSome_iff_ne_none.2 hd
      simp [valueError, ha, hm, this]

/-- Witness of C40 on the condition `a.x EQ zz`: the left side becomes the agent
variable `x`, the right side stays the value `zz` and brings one error. -/
theorem processSymbols_value_sides_witness :
    ∃ (m1 : Members) (log : List String) (el er eo : Int),
      processSymbols xml.casts
          (XCondition.object (valuesMembers "a.x" "EQ" "zz") XCondition.null XCondition.null)
        = Except.ok (XCondition.object m1 XCondition.null XCondition.null, log, el + er + eo) ∧
      [m1.lhsIsAgentVariable, m1.lhsIsMessageVariable, m1.lhsIsValue].count true = 1 ∧
      [m1.rhsIsAgentVariable, m1.rhsIsMessageVariable, m1.rhsIsValue].count true = 1 ∧
      (m1.lhsIsAgentVariable = true ∧ "a.x" = "a." ++ m1.lhs ∧ el = 0) ∧
      (m1.rhsIsValue = true ∧ m1.rhs = "zz" ∧ er = 1) ∧ eo = 0 := by
  obtain ⟨m1, log, el, er, eo, h1, h2, h3, h4, _, _, _, _, h5, h6⟩ :=
    processSymbols_value_sides xml.casts (valuesMembers "a.x" "EQ" "zz") XCondition.null
      XCondition.null rfl rfl rfl rfl rfl rfl rfl
  exact ⟨m1, log, el, er, eo, h1, h2, h3, h4 (by decide),
    ⟨(h5 (by decide) (by decide)).1, (h5 (by decide) (by decide)).2.1,
      (h5 (by decide) (by decide)).2.2.1 rfl⟩, h6⟩

end flame.io

namespace flame2.model

/-! # Theorems: the model of `flame2/model/xmodel.cpp` -/

/-! ## Included models -/

theorem addIncludedModels_concat (m : XModel) (paths : List String) (path : String) :
    addIncludedModels m (paths ++ [path])
      = (addIncludedModel (addIncludedModels m paths) path).1 := by
  simp [addIncludedModels, List.foldl_append]

theorem addIncludedModel_nodup (m : XModel) (path : String)
    (h : m.includedModels_.Nodup) : (addIncludedModel m path).1.includedModels_.Nodup := by
  unfold addIncludedModel
  by_cases hp : path ∈ m.includedModels_
  · have : m.includedModels_.any (fun p => decide (p = path)) = true := by
      simpa using hp
    rw [if_pos this]; exact h
  · have : ¬ (m.includedModels_.any (fun p => decide (p = path)) = true) := by
      simpa using hp
    rw [if_neg this]
    simp only
    rw [List.nodup_append]
    refine ⟨h, List.nodup_singleton _, ?_⟩
    intro a ha hb
    rw [List.mem_singleton] at hb
    subst hb
    exact hp ha

/-- C33: `addIncludedModel(path)` returns true and appends `path` to
`includedModels_` when the list does not hold `path`, and returns false and leaves
the model as it is when the list holds it; a list without a path twice stays so,
and the list of a model built by calls of `addIncludedModel` on `XModel()` holds no
path twice. -/
theorem addIncludedModel_unique (m : XModel) (path : String) :
    (path ∉ m.includedModels_ →
      addIncludedModel m path
        = ({ m with includedModels_ := m.includedModels_ ++ [path] }, true)) ∧
    (path ∈ m.includedModels_ → addIncludedModel m path = (m, false)) ∧
    (m.includedModels_.Nodup → (addIncludedModel m path).1.includedModels_.Nodup) ∧
    ∀ paths : List String, (addIncludedModels XModel.XModel paths).includedModels_.Nodup := by
  refine ⟨?_, ?_, addIncludedModel_nodup m path, ?_⟩
  · intro hp
    have : ¬ (m.includedModels_.any (fun p => decide (p = path)) = true) := by
      simpa using hp
    simp only [addIncludedModel]
    rw [if_neg this]
  · intro hp
    have : m.includedModels_.any (fun p => decide (p = path)) = true := by
      simpa using hp
    simp only [addIncludedModel]
    rw [if_pos this]
  · intro paths
    induction paths using List.reverseRecOn with
    | nil => exact List.nodup_nil
    | append_singleton paths path ih =>
      rw [addIncludedModels_concat]
      exact addIncludedModel_nodup _ path ih

/-! ## Abstract data types -/

/-- C34: `getADT(name)` returns the pointer to the first ADT whose name is `name`
when there is one; when no ADT has the name it does not return the null pointer
but raises the model exception "ADT does not exist", as for the name `size` in
`adtModel` and for every name in the model `XModel()` builds. -/
theorem getADT_raises :
    (∀ (m : XModel) (name : String) (it : Nat), getADT m name = Except.ok it →
      (m.adts_[it]?).map XADT.name = some name ∧
      ∀ j a, j < it → m.adts_[j]? = some a → a.name ≠ name) ∧
    (∀ (m : XModel) (name : String), (∀ a ∈ m.adts_, a.name ≠ name) →
      getADT m name = Except.error ⟨"ADT does not exist"⟩) ∧
    getADT adtModel "point" = Except.ok 0 ∧
    getADT adtModel "size" = Except.error ⟨"ADT does not exist"⟩ ∧
    ∀ name : String, getADT XModel.XModel name = Except.error ⟨"ADT does not exist"⟩ := by
  refine ⟨?_, ?_, rfl, rfl, fun _ => rfl⟩
  · intro m name it h
    unfold getADT at h
    cases hf : m.adts_.findIdx? (fun a => decide (name = a.name)) with
    | none => rw [hf] at h; cases h
    | some k =>
      rw [hf] at h
      have hk : k = it := Except.ok.inj h
      subst hk
      obtain ⟨hlt, hp, hbefore⟩ := List.findIdx?_eq_some_iff_getElem.1 hf
      constructor
      · rw [List.getElem?_eq_getElem hlt]
        simp only [decide_eq_true_eq] at hp
        simp [hp]
      · intro j a hj ha
        have hjl : j < m.adts_.length := Nat.lt_trans hj hlt
        have := hbefore j hj
        rw [List.getElem?_eq_getElem hjl] at ha
        have ha' := Option.some.inj ha
        rw [ha'] at this
        simp only [decide_eq_true_eq] at this
        exact fun hc => this hc.symm
  · intro m name h
    unfold getADT
    have : m.adts_.findIdx? (fun a => decide (name = a.name)) = none := by
      rw [List.findIdx?_eq_none_iff]
      intro a ha
      simp only [decide_eq_false_iff_not]
      exact fun hc => h a ha hc.symm
    rw [this]

/-! ## Agents -/

theorem addAgents_concat (m : XModel) (names : List String) (name : String) :
    addAgents m (names ++ [name]) = (addAgent (addAgents m names) name).1 := by
  simp [addAgents, List.foldl_append]

theorem getAgent_eq_none_iff (m : XModel) (name : String) :
    getAgent m name = none ↔ name ∉ m.agents_.map XMachine.name := by
  unfold getAgent
  rw [List.findIdx?_eq_none_iff]
  simp only [decide_eq_false_iff_not, List.mem_map, not_exists, not_and]
  constructor
  · intro h a ha hc; exact h a ha hc.symm
  · intro h a ha hc; exact h a ha hc.symm

theorem getAgent_position (m : XModel) (name : String) (i : Nat) (h : getAgent m name = some i) :
    ∃ a, m.agents_[i]? = some a ∧ a.name = name := by
  unfold getAgent at h
  obtain ⟨hlt, hp, _⟩ := List.findIdx?_eq_some_iff_getElem.1 h
  simp only [decide_eq_true_eq] at hp
  exact ⟨m.agents_[i], List.getElem?_eq_getElem hlt, hp.symm⟩

theorem addAgent_of_some (m : XModel) (name : String) (i : Nat)
    (h : getAgent m name = some i) : addAgent m name = (m, i) := by
  simp [addAgent, h]

theorem addAgent_of_none (m : XModel) (name : String) (h : getAgent m name = none) :
    addAgent m name
      = ({ m with agents_ := m.agents_ ++ [⟨name, m.agents_.length, [], []⟩] },
          m.agents_.length) := by
  simp [addAgent, h, XMachine.XMachine]

theorem Dense_addAgent (m : XModel) (names : List String) (name : String)
    (h : Dense m names) : Dense (addAgent m name).1 (names ++ [name]) := by
  obtain ⟨hnd, hid, hmem⟩ := h
  cases hg : getAgent m name with
  | some i =>
    rw [addAgent_of_some m name i hg]
    obtain ⟨a, ha, hname⟩ := getAgent_position m name i hg
    have hin : name ∈ m.agents_.map XMachine.name :=
      List.mem_map.2 ⟨a, List.getElem?_mem ha, hname⟩
    refine ⟨hnd, hid, fun n => ?_⟩
    rw [List.mem_append, List.mem_singleton, hmem n]
    constructor
    · exact Or.inl
    · rintro (h1 | h1)
      · exact h1
      · rw [h1]; exact (hmem name).1 hin
  | none =>
    rw [addAgent_of_none m name hg]
    have hnot := (getAgent_eq_none_iff m name).1 hg
    refine ⟨?_, ?_, fun n => ?_⟩
    · simp only [List.map_append, List.map_cons, List.map_nil]
      rw [List.nodup_append]
      refine ⟨hnd, List.nodup_singleton _, ?_⟩
      intro a ha hb
      rw [List.mem_singleton] at hb
      subst hb
      exact hnot ha
    · intro i a ha
      simp only at ha
      by_cases hi : i < m.agents_.length
      · rw [List.getElem?_append_left hi] at ha
        exact hid i a ha
      · rw [List.getElem?_append_right (by omega)] at ha
        cases hk : i - m.agents_.length with
        | zero =>
          rw [hk] at ha
          simp only [List.getElem?_cons_zero, Option.some.injEq] at ha
          subst ha
          simp only
          omega
        | succ k =>
          rw [hk] at ha
          simp at ha
    · simp only [List.map_append, List.map_cons, List.map_nil, List.mem_append,
        List.mem_singleton]
      rw [hmem n]

theorem Dense_addAgents (names : List String) : Dense (addAgents XModel.XModel names) names := by
  induction names using List.reverseRecOn with
  | nil =>
    refine ⟨List.nodup_nil, fun i a ha => ?_, fun n => ?_⟩
    · simp [addAgents, XModel.XModel] at ha
    · simp [addAgents, XModel.XModel]
  | append_singleton names name ih =>
    rw [addAgents_concat]
    exact Dense_addAgent _ names name ih

/-- C38: `addAgent(name)` returns the pointer to the agent with the name and leaves
the model as it is when there is such an agent, and otherwise appends a new agent
with the name, whose id is the number of agents before the call, and returns the
pointer to it. In a model built by calls of `addAgent` on `XModel()` the names of
the agents are pairwise distinct, the agent at position `i` has the id `i`, and
`getAgent(name)` returns the agent with the name for the names added and the null
pointer for every other name. -/
theorem addAgent_dense (m : XModel) (name : String) :
    ((getAgent m name).isSome = true ↔ name ∈ m.agents_.map XMachine.name) ∧
    (∀ i, getAgent m name = some i →
      addAgent m name = (m, i) ∧ (m.agents_[i]?).map XMachine.name = some name) ∧
    (getAgent m name = none →
      addAgent m name
        = ({ m with agents_ := m.agents_ ++ [⟨name, m.agents_.length, [], []⟩] },
            m.agents_.length)) ∧
    ∀ names : List String,
      ((addAgents XModel.XModel names).agents_.map XMachine.name).Nodup ∧
      (∀ (i : Nat) (a : XMachine), (addAgents XModel.XModel names).agents_[i]? = some a →
        a.id = i) ∧
      ∀ n : String,
        (n ∈ names → ∃ i a, getAgent (addAgents XModel.XModel names) n = some i ∧
          (addAgents XModel.XModel names).agents_[i]? = some a ∧ a.name = n) ∧
        (n ∉ names → getAgent (addAgents XModel.XModel names) n = none) := by
  refine ⟨?_, ?_, addAgent_of_none m name, ?_⟩
  · cases hg : getAgent m name with
    | none =>
      have := (getAgent_eq_none_iff m name).1 hg
      simp [this]
    | some i =>
      obtain ⟨a, ha, hname⟩ := getAgent_position m name i hg
      have hin : name ∈ m.agents_.map XMachine.name :=
        List.mem_map.2 ⟨a, List.getElem?_mem ha, hname⟩
      simp [hin]
  · intro i hg
    obtain ⟨a, ha, hname⟩ := getAgent_position m name i hg
    exact ⟨addAgent_of_some m name i hg, by rw [ha]; simp [hname]⟩
  · intro names
    obtain ⟨hnd, hid, hmem⟩ := Dense_addAgents names
    refine ⟨hnd, hid, fun n => ⟨fun hn => ?_, fun hn => ?_⟩⟩
    · cases hg : getAgent (addAgents XModel.XModel names) n with
      | none =>
        exact absurd ((hmem n).2 hn) ((getAgent_eq_none_iff _ n).1 hg)
      | some i =>
        obtain ⟨a, ha, hname⟩ := getAgent_position _ n i hg
        exact ⟨i, a, rfl, ha, hname⟩
    · rw [getAgent_eq_none_iff]
      exact fun hc => hn ((hmem n).1 hc)

end flame2.model
